import Mathlib

/-! # o3: out-of-order core — rename, decode, commit and flush

A shallow embedding of the backend of the o3 simulator (`src/core/core.cc`,
`src/core/core.hh`, `src/core/uops.hh`, `src/core/uops.cc`, `src/core/cconf.hh`).

Conventions.
* Machine integers are `Nat`; the width is made explicit where the source relies on it.
* The nine `u8` arrays of `struct RenameTable` are kept as one byte memory in declaration
  order (`gp fp vr gc fc vc pg pf rv`), because `Core::flush` copies across array ends.
* `deque::front()` / `back()` on an empty deque is undefined behaviour in C++; the slot
  functions report it as `Outcome.undefined` instead of inventing a value.
-/

namespace O3

/-! ## Configuration (`core/cconf.hh`) -/

def DECODE_WIDTH : Nat := 6
def DECODE_LATENCY : Nat := 1
def ID_RA_SIZE : Nat := 6
def ALLOC_WIDTH : Nat := 6
def ALLOC_LATENCY : Nat := 1
def ROB_SIZE : Nat := 224
def COMMIT_WIDTH : Nat := 6
def LQUEUE_SIZE : Nat := ROB_SIZE

def REGCLS_0_CNT : Nat := 36
def REGCLS_0_RNREG : Nat := 180
def REGCLS_1_CNT : Nat := 16
def REGCLS_1_RNREG : Nat := 64
def REGCLS_2_CNT : Nat := 32
def REGCLS_2_RNREG : Nat := 128
def CCREG_CNT : Nat := 32

def UINT64_MAX : Nat := 2 ^ 64 - 1

/-! ## Micro-ops (`types.hh`, `core/uops.hh`) -/

/-- The record `struct uop`: `regs[4]` is spelled out as `ra rb rc rd`. -/
structure uop where
  opcode : Nat
  control : Nat
  ra : Nat
  rb : Nat
  rc : Nat
  rd : Nat
  imm : Nat
deriving DecidableEq, Repr

def zero_op : uop := ⟨0, 0, 0, 0, 0, 0, 0⟩

/-- Read of `op.regs[i]`. -/
def uop.reg (op : uop) (i : Nat) : Nat :=
  match i with
  | 0 => op.ra
  | 1 => op.rb
  | 2 => op.rc
  | _ => op.rd

/-- Write of `op.regs[i] = v`. -/
def uop.setReg (op : uop) (i : Nat) (v : Nat) : uop :=
  match i with
  | 0 => { op with ra := v }
  | 1 => { op with rb := v }
  | 2 => { op with rc := v }
  | _ => { op with rd := v }

-- enum uop_ctrl
def use_ra : Nat := 0x0001
def use_rb : Nat := 0x0002
def use_rc : Nat := 0x0004
def use_imm : Nat := 0x0008
def op_size : Nat := 0x0070
def mop_first : Nat := 0x0080
def mop_last : Nat := 0x0100
def imm_delay : Nat := 0x0200
def rc_dest : Nat := 0x0400
def data_type : Nat := 0x0800
def use_cond : Nat := 0x1000
def set_cond : Nat := 0x2000
def rd_extend : Nat := 0x4000
def rd_resize : Nat := 0x8000

-- enum uop_regs
def r_ra : Nat := 0
def r_rb : Nat := 1
def r_rc : Nat := 2
def r_rd : Nat := 3

-- enum core_exceptions
def ex_NONE : Nat := 0x00
def ex_UD : Nat := 0x01
def ex_GP : Nat := 0x02
def ex_PF : Nat := 0x03
def ex_REG : Nat := 0x04

-- enum rs_port / fu_ports
def port_ctrl : Nat := 0x01 ||| 0x08
def port_alu : Nat := 0x01 ||| 0x02 ||| 0x04 ||| 0x08
def port_agu : Nat := 0x04 ||| 0x10 ||| 0x20 ||| 0x80
def port_ld : Nat := 0x10 ||| 0x20
def port_st : Nat := 0x40
def port_brch : Nat := 0x01 ||| 0x08
def port_any : Nat := 0xff

-- enum fu_type
def fu_any : Nat := 0
def fu_ctrl : Nat := 1
def fu_alu : Nat := 2
def fu_fpu : Nat := 3
def fu_vec : Nat := 4
def fu_ld : Nat := 5
def fu_st : Nat := 6
def fu_ldf : Nat := 7
def fu_stf : Nat := 8
def fu_ldv : Nat := 9
def fu_stv : Nat := 10
def fu_agu : Nat := 11
def fu_brch : Nat := 12
def fu_div : Nat := 13
def fu_mul : Nat := 14

-- enum uop_mnemo (the opcodes used below by name)
def uop_nop : Nat := 0x0000
def uop_int : Nat := 0x0010
def uop_ld64 : Nat := 0x0020
def uop_st : Nat := 0x0030
def uop_copy2 : Nat := 0x0041
def uop_xchg : Nat := 0x0045
def uop_add : Nat := 0x1010

/-- The function `setExcept(u16 e, u16 c)`: error code in the high half of a `u32`. -/
def setExcept (e c : Nat) : Nat := ((c <<< 16) ||| e) % 2 ^ 32

/-- The `u8` result of `getOpPrefix`: the high nibble of the 16-bit opcode. -/
def getOpPrefix (op : uop) : Nat := (op.opcode >>> 12) % 256

/-- The predicate `is_load`: prefix 0, 2 or 3 and low opcode byte in `[0x20, 0x28)`. -/
def is_load (op : uop) : Bool :=
  let p := getOpPrefix op
  (p == 0 || p == 2 || p == 3) && (0x20 ≤ op.opcode % 256 && op.opcode % 256 < 0x28)

/-- The predicate `is_store`: prefix 0, 2 or 3 and low opcode byte in `[0x30, 0x40)`. -/
def is_store (op : uop) : Bool :=
  let p := getOpPrefix op
  (p == 0 || p == 2 || p == 3) && (0x30 ≤ op.opcode % 256 && op.opcode % 256 < 0x40)

/-- The function `is_branch`, as a truth value (non-zero `branch_type`). -/
def is_branch (op : uop) : Bool :=
  (0x60 ≤ op.opcode && op.opcode < 0x70) || (0x70 ≤ op.opcode && op.opcode < 0x80)

/-- The byte `getImmDelay`: byte 6 of the immediate. -/
def getImmDelay (op : uop) : Nat := (op.imm >>> 48) &&& 0xff

/-- Metadata record `struct uopinfo` (the description string is left out). -/
structure uopinfo where
  mnemonic : String
  ports : Nat
  fu_type : Nat
  ctrl_mask : Nat
  latency : Nat
deriving DecidableEq, Repr

/-- Part of `uopmap`: control instructions, nop to set. -/
def uopmap_ctrl_mem : List (Nat × uopinfo) :=
  [ (0x0000, ⟨"nop", port_any, fu_any, 0x0181, 1⟩),
    (0x0010, ⟨"int", port_ctrl, fu_ctrl, 0xffff, 1⟩),
    (0x0011, ⟨"rdtsc", port_ctrl, fu_ctrl, 0xffff, 1⟩),
    (0x0020, ⟨"ld", port_ld, fu_ld, 0xffff, 1⟩),
    (0x0021, ⟨"ld", port_ld, fu_ld, 0xffff, 1⟩),
    (0x0022, ⟨"pop", port_ld, fu_ld, 0xffff, 1⟩),
    (0x0023, ⟨"popx", port_ld, fu_ld, 0xffff, 1⟩),
    (0x0024, ⟨"lda", port_ld, fu_ld, 0xffff, 1⟩),
    (0x0028, ⟨"lea", port_agu, fu_agu, 0xffff, 1⟩),
    (0x0030, ⟨"st", port_st, fu_st, 0xffff, 1⟩),
    (0x0033, ⟨"push", port_st, fu_st, 0xffff, 1⟩),
    (0x0034, ⟨"pushx", port_st, fu_st, 0xffff, 1⟩),
    (0x0040, ⟨"move", port_alu, fu_alu, 0xffff, 1⟩),
    (0x0041, ⟨"copy2", port_alu, fu_alu, 0xffff, 1⟩),
    (0x0045, ⟨"xchg", port_alu, fu_alu, 0xffff, 1⟩),
    (0x0048, ⟨"set", port_alu, fu_alu, 0xffff, 1⟩) ]

/-- Part of `uopmap`: control instructions, conditional moves. -/
def uopmap_ctrl_mov : List (Nat × uopinfo) :=
  [ (0x0050, ⟨"movo", port_brch, fu_brch, 0xffff, 1⟩),
    (0x0051, ⟨"movno", port_brch, fu_brch, 0xffff, 1⟩),
    (0x0052, ⟨"movb", port_brch, fu_brch, 0xffff, 1⟩),
    (0x0053, ⟨"movnb", port_brch, fu_brch, 0xffff, 1⟩),
    (0x0054, ⟨"movz", port_brch, fu_brch, 0xffff, 1⟩),
    (0x0055, ⟨"movnz", port_brch, fu_brch, 0xffff, 1⟩),
    (0x0056, ⟨"movbe", port_brch, fu_brch, 0xffff, 1⟩),
    (0x0057, ⟨"movnbe", port_brch, fu_brch, 0xffff, 1⟩),
    (0x0058, ⟨"movs", port_brch, fu_brch, 0xffff, 1⟩),
    (0x0059, ⟨"movns", port_brch, fu_brch, 0xffff, 1⟩),
    (0x005a, ⟨"movp", port_brch, fu_brch, 0xffff, 1⟩),
    (0x005b, ⟨"movnp", port_brch, fu_brch, 0xffff, 1⟩),
    (0x005c, ⟨"movl", port_brch, fu_brch, 0xffff, 1⟩),
    (0x005d, ⟨"movnl", port_brch, fu_brch, 0xffff, 1⟩),
    (0x005e, ⟨"movle", port_brch, fu_brch, 0xffff, 1⟩),
    (0x005f, ⟨"movnle", port_brch, fu_brch, 0xffff, 1⟩) ]

/-- Part of `uopmap`: control instructions, branches and flag operations. -/
def uopmap_ctrl_brch : List (Nat × uopinfo) :=
  [ (0x0060, ⟨"branch", port_brch, fu_brch, 0xffff, 1⟩),
    (0x0061, ⟨"branchr", port_brch, fu_brch, 0xffff, 1⟩),
    (0x0062, ⟨"branchrz", port_brch, fu_brch, 0xffff, 1⟩),
    (0x0070, ⟨"brancho", port_brch, fu_brch, 0xffff, 1⟩),
    (0x0071, ⟨"branchno", port_brch, fu_brch, 0xffff, 1⟩),
    (0x0072, ⟨"branchb", port_brch, fu_brch, 0xffff, 1⟩),
    (0x0073, ⟨"branchnb", port_brch, fu_brch, 0xffff, 1⟩),
    (0x0074, ⟨"branchz", port_brch, fu_brch, 0xffff, 1⟩),
    (0x0075, ⟨"branchnz", port_brch, fu_brch, 0xffff, 1⟩),
    (0x0076, ⟨"branchbe", port_brch, fu_brch, 0xffff, 1⟩),
    (0x0077, ⟨"branchnbe", port_brch, fu_brch, 0xffff, 1⟩),
    (0x0078, ⟨"branchs", port_brch, fu_brch, 0xffff, 1⟩),
    (0x0079, ⟨"branchns", port_brch, fu_brch, 0xffff, 1⟩),
    (0x007a, ⟨"branchp", port_brch, fu_brch, 0xffff, 1⟩),
    (0x007b, ⟨"branchnp", port_brch, fu_brch, 0xffff, 1⟩),
    (0x007c, ⟨"branchl", port_brch, fu_brch, 0xffff, 1⟩),
    (0x007d, ⟨"branchnl", port_brch, fu_brch, 0xffff, 1⟩),
    (0x007e, ⟨"branchle", port_brch, fu_brch, 0xffff, 1⟩),
    (0x007f, ⟨"branchnle", port_brch, fu_brch, 0xffff, 1⟩),
    (0x0080, ⟨"setcond", port_ctrl, fu_ctrl, 0xffff, 1⟩),
    (0x0081, ⟨"cmc", port_ctrl, fu_ctrl, 0xffff, 1⟩),
    (0x0082, ⟨"clc", port_ctrl, fu_ctrl, 0xffff, 1⟩),
    (0x0083, ⟨"stc", port_ctrl, fu_ctrl, 0xffff, 1⟩),
    (0x0086, ⟨"cld", port_ctrl, fu_ctrl, 0xffff, 1⟩),
    (0x0087, ⟨"std", port_ctrl, fu_ctrl, 0xffff, 1⟩) ]

/-- Part of `uopmap`: ALU instructions. -/
def uopmap_alu : List (Nat × uopinfo) :=
  [ (0x1000, ⟨"nop.a", port_alu, fu_alu, 0xffff, 1⟩),
    (0x1010, ⟨"add", port_alu, fu_alu, 0xffff, 1⟩),
    (0x1011, ⟨"adc", port_alu, fu_alu, 0xffff, 1⟩),
    (0x1012, ⟨"sub", port_alu, fu_alu, 0xffff, 1⟩),
    (0x1013, ⟨"sbb", port_alu, fu_alu, 0xffff, 1⟩),
    (0x1018, ⟨"neg", port_alu, fu_alu, 0xffff, 1⟩),
    (0x1020, ⟨"mul", port_alu, fu_mul, 0xffff, 1⟩),
    (0x1024, ⟨"imul", port_alu, fu_mul, 0xffff, 3⟩),
    (0x1028, ⟨"div8", port_alu, fu_div, 0xffff, 1⟩),
    (0x1029, ⟨"divq", port_alu, fu_div, 0xffff, 1⟩),
    (0x102a, ⟨"divr", port_alu, fu_div, 0xffff, 1⟩),
    (0x102b, ⟨"idiv8", port_alu, fu_div, 0xffff, 1⟩),
    (0x102c, ⟨"idivq", port_alu, fu_div, 0xffff, 1⟩),
    (0x102d, ⟨"idivr", port_alu, fu_div, 0xffff, 1⟩),
    (0x1030, ⟨"lsl", port_alu, fu_alu, 0xffff, 1⟩),
    (0x1031, ⟨"rsl", port_alu, fu_alu, 0xffff, 1⟩),
    (0x1033, ⟨"rsa", port_alu, fu_alu, 0xffff, 1⟩),
    (0x1034, ⟨"rol", port_alu, fu_alu, 0xffff, 1⟩),
    (0x1035, ⟨"ror", port_alu, fu_alu, 0xffff, 1⟩),
    (0x1036, ⟨"rcl", port_alu, fu_alu, 0xffff, 1⟩),
    (0x1037, ⟨"rcr", port_alu, fu_alu, 0xffff, 1⟩),
    (0x1040, ⟨"not", port_alu, fu_alu, 0xffff, 1⟩),
    (0x1041, ⟨"and", port_alu, fu_alu, 0xffff, 1⟩),
    (0x1042, ⟨"or", port_alu, fu_alu, 0xffff, 1⟩),
    (0x1043, ⟨"xor", port_alu, fu_alu, 0xffff, 1⟩) ]

/-- Part of `uopmap`: FPU, vector and reserved instructions. -/
def uopmap_fpu_vec : List (Nat × uopinfo) :=
  [ (0x2000, ⟨"nop.f", port_any, fu_fpu, 0xffff, 1⟩),
    (0x2020, ⟨"ld.f", port_ctrl, fu_ldf, 0xffff, 1⟩),
    (0x2030, ⟨"st.f", port_ctrl, fu_stf, 0xffff, 1⟩),
    (0x2050, ⟨"set.f", port_ctrl, fu_ctrl, 0xffff, 1⟩),
    (0x3000, ⟨"nop.v", port_any, fu_vec, 0xffff, 1⟩),
    (0x3020, ⟨"ld.v", port_ctrl, fu_ldv, 0xffff, 1⟩),
    (0x3021, ⟨"ldu.v", port_ctrl, fu_ldv, 0xffff, 1⟩),
    (0x3030, ⟨"st.v", port_ctrl, fu_stv, 0xffff, 1⟩),
    (0x3031, ⟨"stu.v", port_ctrl, fu_stv, 0xffff, 1⟩),
    (0x4000, ⟨"nop.vecf", port_any, fu_vec, 0xffff, 1⟩),
    (0xf000, ⟨"reserved", port_ctrl, fu_ctrl, 0xffff, 1⟩) ]

/-- The table `uopmap` of `core/uops.hh`, in source order. -/
def uopmap : List (Nat × uopinfo) :=
  uopmap_ctrl_mem ++ uopmap_ctrl_mov ++ uopmap_ctrl_brch ++ uopmap_alu ++ uopmap_fpu_vec

/-- The lookup `uopmap.at(opcode)`; `none` stands for `std::out_of_range`. -/
def uopmap_at (opcode : Nat) : Option uopinfo := uopmap.lookup opcode

/-- Register classes (`enum reg_class`). -/
inductive RegClass where
  | gp
  | fp
  | vr
deriving DecidableEq, Repr

/-- The `switch(getOpPrefix(op))` shared by `getOpClassId`, `getARFSize`, `Core::alloc`,
`Core::commit` and `Core::flush`: 2 is fp, 3 and 4 are vector, everything else gp. -/
def classOfPrefix (p : Nat) : RegClass :=
  if p = 2 then .fp else if p = 3 ∨ p = 4 then .vr else .gp

def getOpClass (op : uop) : RegClass := classOfPrefix (getOpPrefix op)

/-- Number of architectural registers of a class. -/
def RegClass.cnt : RegClass → Nat
  | .gp => REGCLS_0_CNT
  | .fp => REGCLS_1_CNT
  | .vr => REGCLS_2_CNT

/-- Number of physical registers of a class. -/
def RegClass.rnreg : RegClass → Nat
  | .gp => REGCLS_0_RNREG
  | .fp => REGCLS_1_RNREG
  | .vr => REGCLS_2_RNREG

/-- The function `getARFSize` of `core/uops.cc`. -/
def getARFSize (op : uop) : Nat := (getOpClass op).cnt

/-! ## Decode (`Core::decode`, body of one slot) -/

/-- The `u16` operation `c & ~m` (the complement is taken in 16 bits). -/
def clear16 (c m : Nat) : Nat := c &&& (0xffff ^^^ m)

/-- One round of the normalising loop of `Core::decode` (lines 214-218) for slot `i`:
an unused source slot loses its register, a slot naming register 0 loses its use-bit. -/
def decode_norm_step (i : Nat) (op : uop) : uop :=
  let op1 := if op.control &&& (use_ra <<< i) = 0 then op.setReg i 0 else op
  if op1.reg i = 0 then { op1 with control := clear16 op1.control (use_ra <<< i) } else op1

/-- One round of the bounds loop of `Core::decode` (lines 225-233). -/
def decode_bounds_step (arf_sz : Nat) (i : Nat) (op : uop) : uop :=
  if arf_sz ≤ op.reg i then
    { op with opcode := uop_int, ra := 0, rb := 0, rc := 0, rd := 0, imm := ex_REG }
  else op

/-- Lines 202-207: invalid control bits are merged with the allowed mask. -/
def decode_mask (cur_info : uopinfo) (op : uop) : uop :=
  if (op.control ||| cur_info.ctrl_mask) ≠ cur_info.ctrl_mask
  then { op with control := op.control &&& cur_info.ctrl_mask } else op

/-- Line 210: rc is either source or destination. -/
def decode_rc (op : uop) : uop :=
  if op.control &&& rc_dest ≠ 0 then { op with control := clear16 op.control use_rc } else op

/-- Lines 214-218: `for(i = 0; i < ((ctrl & rc_dest) ? 2 : 3); i++)`, the bound being
re-read before each round. -/
def decode_norm (op : uop) : uop :=
  let op0 := decode_norm_step 0 op
  let op1 := decode_norm_step 1 op0
  if op1.control &&& rc_dest ≠ 0 then op1 else decode_norm_step 2 op1

/-- Line 220: an unused immediate is cleared. -/
def decode_imm (op : uop) : uop :=
  if op.control &&& use_imm = 0 then { op with imm := 0 } else op

/-- Lines 222-233: register bounds; `arf_sz` is read once, before the loop. -/
def decode_bounds (op : uop) : uop :=
  (List.range 4).foldl (fun o i => decode_bounds_step (getARFSize op) i o) op

/-- The `try` block of `Core::decode` with its `std::out_of_range` handler: what is pushed
to ID/RA for the uop `cur_op` taken from the uQueue. -/
def decode_uop (cur_op : uop) : uop :=
  match uopmap_at cur_op.opcode with
  | none =>
    { opcode := uop_int, control := use_imm, ra := 0, rb := 0, rc := 0, rd := 0, imm := ex_UD }
  | some cur_info =>
    decode_bounds (decode_imm (decode_norm (decode_rc (decode_mask cur_info cur_op))))

/-! ## Latch queues (`types.hh`) -/

/-- The three latch signals (`LatchEmptyException`, `LatchFullException`,
`LatchStallException`). -/
inductive LatchError where
  | empty
  | full
  | stall
deriving DecidableEq, Repr

/-- The record `LatchQueue<T>::LatchQElem`. -/
structure LatchQElem (T : Type) where
  cycle : Nat
  elem : T
deriving DecidableEq, Repr

/-- The class `LatchQueue<T>`: capacity and the deque of entries, oldest first. -/
structure LatchQueue (T : Type) where
  max_size : Nat
  queue : List (LatchQElem T)
deriving DecidableEq, Repr

namespace LatchQueue

variable {T : Type}

def size (q : LatchQueue T) : Nat := q.queue.length

def empty (q : LatchQueue T) : Bool := q.queue.isEmpty

/-- Modelled from the spec: `LatchQueue::clear` (member bodies live in `types.tt`, which
is not among the sources); "`clear` empties". -/
def clear (q : LatchQueue T) : LatchQueue T := { q with queue := [] }

/-- Modelled from the spec: `LatchQueue::push_back`; "`push_back(cycle, elem)` appends",
failure mode *full* on a queue that already holds `max_size` entries. -/
def push_back (q : LatchQueue T) (cycle : Nat) (e : T) : Except LatchError (LatchQueue T) :=
  if q.max_size ≤ q.queue.length then .error .full
  else .ok { q with queue := q.queue ++ [⟨cycle, e⟩] }

/-- Modelled from the spec: `LatchQueue::push_front`; the push-front variant used for
exception injection. -/
def push_front (q : LatchQueue T) (cycle : Nat) (e : T) : Except LatchError (LatchQueue T) :=
  if q.max_size ≤ q.queue.length then .error .full
  else .ok { q with queue := ⟨cycle, e⟩ :: q.queue }

/-- Modelled from the spec: `LatchQueue::front`; "`front(now)` returns the head only if its
ready-cycle ≤ now, otherwise signals stall", *empty* on an empty queue. -/
def front (q : LatchQueue T) (now : Nat) : Except LatchError T :=
  match q.queue with
  | [] => .error .empty
  | h :: _ => if h.cycle ≤ now then .ok h.elem else .error .stall

/-- Modelled from the spec: `LatchQueue::pop_front`; "`pop_front` removes", *empty* on an
empty queue. -/
def pop_front (q : LatchQueue T) : Except LatchError (LatchQueue T) :=
  match q.queue with
  | [] => .error .empty
  | _ :: t => .ok { q with queue := t }

/-- Modelled from the spec: `LatchQueue::get_front`; `front(now)` followed by `pop_front`,
returning the element by value. -/
def get_front (q : LatchQueue T) (now : Nat) : Except LatchError (T × LatchQueue T) :=
  match q.queue with
  | [] => .error .empty
  | h :: t => if h.cycle ≤ now then .ok (h.elem, { q with queue := t }) else .error .stall

/-- Modelled from the spec: `LatchQueue::at` (`at` is reserved in Lean); "`at(now, i)` indexes the visible prefix
(entries with ready ≤ now)": entry `i` is returned when it and every entry before it is
ready, *stall* when it lies behind the visible prefix, *empty* past the end. -/
def at_ (q : LatchQueue T) (now : Nat) (i : Nat) : Except LatchError T :=
  match (q.queue.takeWhile (fun e => decide (e.cycle ≤ now)))[i]? with
  | some e => .ok e.elem
  | none => if i < q.queue.length then .error .stall else .error .empty

end LatchQueue

/-- Result of one loop slot of a pipeline stage. -/
inductive Outcome (σ : Type) where
  /-- the slot is done and the loop proceeds to the next slot -/
  | next (s : σ)
  /-- `break` or `return`: the stage is over for this cycle -/
  | stop (s : σ)
  /-- an exception leaves the stage uncaught -/
  | raise
  /-- undefined behaviour in the source (`front()` / `back()` of an empty deque) -/
  | undefined

/-! ## Register files and the rename table (`core/core.hh`) -/

/-- The struct `ArchRegFile`; a register's bytes are kept as one number. -/
structure ArchRegFile where
  gp : Nat → Nat
  fp : Nat → Nat
  vr : Nat → Nat
  cc : Nat
  ip : Nat

/-- The struct `PhysRegFile`. -/
structure PhysRegFile where
  gp : Nat → Nat
  fp : Nat → Nat
  vr : Nat → Nat
  cc : Nat → Nat

def ArchRegFile.get (f : ArchRegFile) : RegClass → Nat → Nat
  | .gp => f.gp
  | .fp => f.fp
  | .vr => f.vr

def ArchRegFile.set (f : ArchRegFile) (cls : RegClass) (i v : Nat) : ArchRegFile :=
  match cls with
  | .gp => { f with gp := Function.update f.gp i v }
  | .fp => { f with fp := Function.update f.fp i v }
  | .vr => { f with vr := Function.update f.vr i v }

def PhysRegFile.get (f : PhysRegFile) : RegClass → Nat → Nat
  | .gp => f.gp
  | .fp => f.fp
  | .vr => f.vr

def PhysRegFile.set (f : PhysRegFile) (cls : RegClass) (i v : Nat) : PhysRegFile :=
  match cls with
  | .gp => { f with gp := Function.update f.gp i v }
  | .fp => { f with fp := Function.update f.fp i v }
  | .vr => { f with vr := Function.update f.vr i v }

-- Byte offsets of the `u8` arrays of `struct RenameTable`, in declaration order
-- (`u8` members have alignment 1, so the x86-64 ABI inserts no padding).
def off_gp : Nat := 0
def off_fp : Nat := off_gp + REGCLS_0_CNT
def off_vr : Nat := off_fp + REGCLS_1_CNT
def off_gc : Nat := off_vr + REGCLS_2_CNT
def off_fc : Nat := off_gc + REGCLS_0_CNT
def off_vc : Nat := off_fc + REGCLS_1_CNT
def off_pg : Nat := off_vc + REGCLS_2_CNT
def off_pf : Nat := off_pg + REGCLS_0_RNREG
def off_rv : Nat := off_pf + REGCLS_1_RNREG
def RRT_BYTES : Nat := off_rv + REGCLS_2_RNREG

/-- The struct `RenameTable`. `mem` holds the bytes of the nine arrays
`gp fp vr` (archreg to last allocated preg), `gc fc vc` (archreg to last committed preg),
`pg pf rv` (preg to archreg) at the offsets above; the five deques follow. -/
structure RenameTable where
  mem : Nat → Nat
  gp_freelist : List Nat
  fp_freelist : List Nat
  vr_freelist : List Nat
  cc_freelist : List Nat
  cc_lastused : List Nat

/-- Offset of `cur_rrt` (forward allocated table) for a class. -/
def RegClass.rrt : RegClass → Nat
  | .gp => off_gp
  | .fp => off_fp
  | .vr => off_vr

/-- Offset of `cur_rct` (forward committed table) for a class. -/
def RegClass.rct : RegClass → Nat
  | .gp => off_gc
  | .fp => off_fc
  | .vr => off_vc

/-- Offset of `cur_trr` (reverse table) for a class. -/
def RegClass.trr : RegClass → Nat
  | .gp => off_pg
  | .fp => off_pf
  | .vr => off_rv

namespace RenameTable

/-- Forward allocated mapping `A[a]`, the read `cur_rrt[a]`. -/
def A (t : RenameTable) (cls : RegClass) (a : Nat) : Nat := t.mem (cls.rrt + a)

/-- Forward committed mapping `C[a]`, the read `cur_rct[a]`. -/
def C (t : RenameTable) (cls : RegClass) (a : Nat) : Nat := t.mem (cls.rct + a)

/-- Reverse mapping `R[p]`, the read `cur_trr[p]`. -/
def R (t : RenameTable) (cls : RegClass) (p : Nat) : Nat := t.mem (cls.trr + p)

/-- The byte store `base[i] = v`. -/
def store (t : RenameTable) (addr v : Nat) : RenameTable :=
  { t with mem := Function.update t.mem addr v }

/-- The deque `*cur_freelist` of a class. -/
def freelist (t : RenameTable) : RegClass → List Nat
  | .gp => t.gp_freelist
  | .fp => t.fp_freelist
  | .vr => t.vr_freelist

def setFreelist (t : RenameTable) (cls : RegClass) (l : List Nat) : RenameTable :=
  match cls with
  | .gp => { t with gp_freelist := l }
  | .fp => { t with fp_freelist := l }
  | .vr => { t with vr_freelist := l }

/-- The call `cur_freelist->push_back(p)`. -/
def pushFree (t : RenameTable) (cls : RegClass) (p : Nat) : RenameTable :=
  t.setFreelist cls (t.freelist cls ++ [p])

end RenameTable

/-- The call `std::memcpy(base + dst, base + src, n)` on a byte memory (the two ranges do
not overlap at any call site). -/
def memcpy (m : Nat → Nat) (dst src n : Nat) : Nat → Nat :=
  fun a => if dst ≤ a ∧ a < dst + n then m (src + (a - dst)) else m a

/-! ## Reorder buffer, reservation station and core state -/

-- enum memref_mode / memreq_status (`mem.hh`)
def mr_invalid : Nat := 0
def mr_read : Nat := 1
def mr_write : Nat := 2
def mr_branch : Nat := 3
def mr_rel : Nat := 4
def mr_unavail : Nat := 0
def mr_exready : Nat := 1
def mr_inexec : Nat := 2
def mr_valready : Nat := 3

/-- The struct `MM::MemoryRef` without its host data pointer. -/
structure MemoryRef where
  size : Nat
  vaddr : Nat
  mode : Nat
  ready : Nat
deriving DecidableEq, Repr

def zero_mref : MemoryRef := ⟨0, 0, 0, 0⟩

/-- The struct `ROBEntry`. -/
structure ROBEntry where
  mref : MemoryRef
  op : uop
  c_ready : Nat
  except : Nat
  in_exec : Nat
  cc_use : Nat
  cc_set : Nat
deriving DecidableEq, Repr

-- enum commit_status / exec_status
def commit_unavail : Nat := 0
def commit_ready : Nat := 1
def exec_waiting : Nat := 0
def exec_running : Nat := 1

/-- The struct `FUInfo`; `re` names the bound ROB entry, if any. -/
structure FUInfo where
  re : Option Nat
  type : Nat
  busy : Nat
  id : Nat
  cycle : Nat
deriving DecidableEq, Repr

/-- The struct `RSPort`. -/
structure RSPort where
  id : Nat
  busy : Nat
  fus : List FUInfo
deriving DecidableEq, Repr

/-- The constructor `RSPort::RSPort(id, types)`. -/
def RSPort.mk_types (id : Nat) (types : List Nat) : RSPort :=
  ⟨id, 0, types.enum.map (fun it => ⟨none, it.2, 0, it.1, 0⟩)⟩

/-- The default member initialiser of `ReservationStation::ports`. -/
def ReservationStation.ports : List RSPort :=
  [ RSPort.mk_types 0 [fu_alu, fu_div, fu_brch, fu_ctrl],
    RSPort.mk_types 1 [fu_alu, fu_mul],
    RSPort.mk_types 2 [fu_alu, fu_agu],
    RSPort.mk_types 3 [fu_alu, fu_brch, fu_ctrl],
    RSPort.mk_types 4 [fu_agu, fu_ld],
    RSPort.mk_types 5 [fu_agu, fu_ld],
    RSPort.mk_types 6 [fu_st],
    RSPort.mk_types 7 [fu_agu] ]

-- enum pipeline_status (`sim.hh`)
def id_active : Nat := 0x0100
def ra_active : Nat := 0x0200
def is_active : Nat := 0x0400
def ex_active : Nat := 0x0800
def co_active : Nat := 0x1000
def fe_active : Nat := 0x0007
def core_active : Nat := 0x1f00
def pl_user : Nat := 3
def MM_USER_START : Nat := 0x8000
def STACK_START : Nat := 0x100000
def STACK_SIZE : Nat := 16384
def UQUEUE_SIZE : Nat := 128
def FETCH_WIDTH : Nat := 4

/-- The struct `Simulator::SimulatorState`. -/
structure SimulatorState where
  cycle : Nat
  active : Nat
  ring : Nat
  in_flight : List Nat
  seq_addrs : List Nat
  refetch_at : Nat
  refetch_active : Nat
  exception : Nat
  commited_micro : Nat
  commited_macro : Nat
  flushes : Nat
  arf : ArchRegFile

/-- The data members of `class Core` together with the simulator state and uQueue it
refers to. The memory manager and the frontend are external; the load queue keeps, for
each entry, the allocation cycle-stamp only (`LoadQueueEntry` pointers are not followed). -/
structure Core where
  uqueue : LatchQueue uop
  state : SimulatorState
  prf : PhysRegFile
  rrt : RenameTable
  rs : List RSPort
  id_ra : LatchQueue uop
  rob : LatchQueue ROBEntry
  ldq : LatchQueue Unit
  seq_at_alloc : Nat
  rip_at_alloc : Nat
  next_inactive : Nat

/-! ## Construction (`Simulator::Simulator`, `Core::Core`) -/

-- enum frontends (`sim.hh`)
def risc : Nat := 0
def x64 : Nat := 1

def ArchRegFile.zero : ArchRegFile := ⟨fun _ => 0, fun _ => 0, fun _ => 0, 0, 0⟩

def PhysRegFile.zero : PhysRegFile := ⟨fun _ => 0, fun _ => 0, fun _ => 0, fun _ => 0⟩

/-- The simulator state after `Simulator::Simulator`: the x64 frontend presets the stack
pointer `gp[to_ureg(reg64_sp)] = gp[5]`, the instruction pointer starts at the user area. -/
def SimulatorState.init (frontend : Nat) : SimulatorState :=
  { cycle := 0
    active := fe_active ||| core_active
    ring := pl_user
    in_flight := [MM_USER_START]
    seq_addrs := []
    refetch_at := 0
    refetch_active := 0
    exception := ex_NONE
    commited_micro := 0
    commited_macro := 0
    flushes := 0
    arf :=
      let arf := if frontend = x64
        then ArchRegFile.zero.set .gp 5 (STACK_START + STACK_SIZE) else ArchRegFile.zero
      { arf with cc := 0, ip := MM_USER_START } }

/-- The rename table built by `Core::Core`: all maps zero, every physical register except
number 0 on its free list, in increasing order. -/
def RenameTable.init : RenameTable :=
  { mem := fun _ => 0
    gp_freelist := List.range' 1 (REGCLS_0_RNREG - 1)
    fp_freelist := List.range' 1 (REGCLS_1_RNREG - 1)
    vr_freelist := List.range' 1 (REGCLS_2_RNREG - 1)
    cc_freelist := List.range' 1 (CCREG_CNT - 1)
    cc_lastused := [] }

/-- The core after `Core::Core`. -/
def Core.init (frontend : Nat) : Core :=
  { uqueue := ⟨UQUEUE_SIZE + FETCH_WIDTH, []⟩
    state := SimulatorState.init frontend
    prf := PhysRegFile.zero
    rrt := RenameTable.init
    rs := ReservationStation.ports
    id_ra := ⟨ID_RA_SIZE + DECODE_WIDTH, []⟩
    rob := ⟨ROB_SIZE + ALLOC_WIDTH, []⟩
    ldq := ⟨LQUEUE_SIZE + ALLOC_WIDTH, []⟩
    seq_at_alloc := 0
    rip_at_alloc := 0
    next_inactive := 0 }

/-! ## Flush (`Core::flush`) -/

/-- The first loop of `Core::flush` (lines 95-115): for every ROB index `i < rob->size()`
the entry `rob->at(UINT64_MAX, i)` is read and its `regs[r_rd]`, when non-zero, is pushed
onto the free list selected by the opcode prefix. -/
def flush_free (rob : LatchQueue ROBEntry) (rrt : RenameTable) : Except LatchError RenameTable :=
  (List.range rob.size).foldlM
    (fun t i => do
      let e ← rob.at_ UINT64_MAX i
      pure (if e.op.rd ≠ 0 then t.pushFree (getOpClass e.op) e.op.rd else t))
    rrt

/-- The three `std::memcpy` calls of `Core::flush` (lines 119-121); each copies
`REGCLS_0_CNT` bytes. -/
def flush_tables (m : Nat → Nat) : Nat → Nat :=
  let m1 := memcpy m off_gp off_gc REGCLS_0_CNT
  let m2 := memcpy m1 off_fp off_fc REGCLS_0_CNT
  memcpy m2 off_vr off_vc REGCLS_0_CNT

/-- The function `Core::flush`. The frontend's own `flush()` is external. The erase of
`in_flight` past its first element is `take 1`. -/
def flush (c : Core) : Except LatchError Core := do
  -- free all allocated physical registers
  let t1 ← flush_free c.rob c.rrt
  -- reset rename tables to commited state
  let t2 := { t1 with mem := flush_tables t1.mem }
  let t3 := { t2 with cc_freelist := List.range' 1 (CCREG_CNT - 1) }
  pure
    { c with
      rrt := t3
      -- clear latches
      uqueue := c.uqueue.clear
      id_ra := c.id_ra.clear
      rob := c.rob.clear
      ldq := c.ldq.clear
      -- reset instruction trace
      state := { c.state with
        in_flight := c.state.in_flight.take 1
        seq_addrs := []
        refetch_at := 0
        flushes := c.state.flushes + 1 }
      seq_at_alloc := 0
      next_inactive := 0
      -- clear rs
      rs := c.rs.map (fun rsp =>
        { rsp with busy := 0, fus := rsp.fus.map (fun fu => { fu with busy := 0, cycle := 0, re := none }) }) }

/-! ## Rename / allocate (`Core::alloc`, body of one slot) -/

/-- The counter `loadcount` (lines 346-350): used non-zero sources without a forward
mapping. -/
def alloc_loadcount (t : RenameTable) (cls : RegClass) (op : uop) : Nat :=
  ((List.range 3).filter (fun sreg =>
    decide (op.reg sreg ≠ 0 ∧ op.control &&& (use_ra <<< sreg) ≠ 0 ∧
      t.A cls (op.reg sreg) = 0))).length

/-- The right-hand side of the free-list test (line 352),
`(loadcount + (control & rc_dest) ? 2 : 1)`: in C the sum is the condition of `?:`. -/
def alloc_required (loadcount control : Nat) : Nat :=
  if loadcount + (control &&& rc_dest) ≠ 0 then 2 else 1

/-- The pair `cur_freelist->front()`, `cur_freelist->pop_front()`; `none` on an empty
deque, where `front()` is undefined. -/
def take_free (t : RenameTable) (cls : RegClass) : Option (Nat × RenameTable) :=
  match t.freelist cls with
  | [] => none
  | p :: rest => some (p, t.setFreelist cls rest)

/-- The state threaded through the renaming of one uop. -/
structure RenameSt where
  rrt : RenameTable
  prf : PhysRegFile
  op : uop

/-- One round of the source loop (lines 402-431) for slot `sreg`. -/
def alloc_src (arf : ArchRegFile) (cls : RegClass) (sreg : Nat) (st : RenameSt) :
    Option RenameSt :=
  if st.op.reg sreg ≠ 0 ∧ st.op.control &&& (use_ra <<< sreg) ≠ 0 then
    if st.rrt.A cls (st.op.reg sreg) ≠ 0 then
      -- found a match
      some { st with op := st.op.setReg sreg (st.rrt.A cls (st.op.reg sreg)) }
    else
      -- create a new mapping and copy the contents of the ARF register
      match st.rrt.freelist cls with
      | [] => none
      | loadreg :: rest =>
        let t1 := st.rrt.store (cls.rrt + st.op.reg sreg) loadreg
        let t2 := t1.store (cls.trr + loadreg) (st.op.reg sreg)
        some
          { rrt := t2.setFreelist cls rest
            prf := st.prf.set cls loadreg (arf.get cls (st.op.reg sreg))
            op := st.op.setReg sreg loadreg }
  else some st

/-- A destination tag, `phreg = (r ? cur_freelist->front() : 0); if(r) pop_front();`
(lines 396-399). -/
def alloc_take (t : RenameTable) (cls : RegClass) (r : Nat) : Option (Nat × RenameTable) :=
  if r ≠ 0 then take_free t cls else some (0, t)

/-- Entry of a renamed destination into the forward and reverse tables and into the uop
(lines 433-450); `slot` is `r_rc` or `r_rd`. -/
def alloc_dest (cls : RegClass) (slot r phreg : Nat) (st : RenameSt) : RenameSt :=
  if r ≠ 0 then
    { st with
      rrt := (st.rrt.store (cls.rrt + r) phreg).store (cls.trr + phreg) r
      op := st.op.setReg slot phreg }
  else st

/-- The renaming proper (lines 384-386 and 396-450): destination tags are taken from the
free list first (`rc`, then `rd`), then the sources are renamed, then the destinations
are entered into the forward and reverse tables. -/
def alloc_rename (arf : ArchRegFile) (cls : RegClass) (st0 : RenameSt) : Option RenameSt :=
  let rc := if st0.op.control &&& rc_dest ≠ 0 then st0.op.rc else 0
  let rd := st0.op.rd
  match alloc_take st0.rrt cls rc with
  | none => none
  | some (phregc, t1) =>
    match alloc_take t1 cls rd with
    | none => none
    | some (phregd, t2) =>
      match alloc_src arf cls 0 { st0 with rrt := t2 } with
      | none => none
      | some st1 =>
        match alloc_src arf cls 1 st1 with
        | none => none
        | some st2 =>
          match alloc_src arf cls 2 st2 with
          | none => none
          | some st3 => some (alloc_dest cls r_rd rd phregd (alloc_dest cls r_rc rc phregc st3))

/-- Replacement of the head element of a latch, for writes through `front()`. -/
def LatchQueue.setFront {T : Type} (q : LatchQueue T) (e : T) : LatchQueue T :=
  match q.queue with
  | [] => q
  | h :: t => { q with queue := { h with elem := e } :: t }

/-- Condition-register bookkeeping of a renamed uop (lines 389-395): a set condition
register leaves the cc free list and joins the last-used queue. -/
def alloc_cc (t : RenameTable) (ccs : Nat) : RenameTable :=
  if ccs ≠ 0 then
    { t with cc_lastused := t.cc_lastused ++ [ccs], cc_freelist := t.cc_freelist.tail }
  else t

/-- The end of an allocation slot (lines 452-480): the memref is prepared, the ROB entry
is pushed and a load gets its load-queue entry. -/
def alloc_emit (c1 : Core) (id_ra : LatchQueue uop) (ccu ccs : Nat) (st : RenameSt) :
    Outcome Core :=
  if ¬ c1.state.seq_addrs = [] ∧ c1.state.seq_addrs.length ≤ c1.seq_at_alloc then .raise
  else
    let mref : MemoryRef :=
      { zero_mref with
        mode := if is_branch st.op then mr_branch else zero_mref.mode
        vaddr := c1.state.seq_addrs.getD c1.seq_at_alloc 0 }
    let seq_at_alloc := if st.op.control &&& mop_last ≠ 0
      then c1.seq_at_alloc + 1 else c1.seq_at_alloc
    let re : ROBEntry := ⟨mref, st.op, commit_unavail, exec_waiting, ex_NONE, ccu, ccs⟩
    match c1.rob.push_back (c1.state.cycle + ALLOC_LATENCY) re with
    | .error _ => .raise
    | .ok rob =>
      let c2 := { c1 with
        id_ra := id_ra, rrt := st.rrt, prf := st.prf, rob := rob,
        seq_at_alloc := seq_at_alloc }
      if is_load st.op then
        let delay := if st.op.control &&& imm_delay ≠ 0 then getImmDelay st.op else 1
        match c2.ldq.push_back (c2.state.cycle + delay) () with
        | .error _ => .raise
        | .ok ldq => .next { c2 with ldq := ldq }
      else .next c2

/-- The middle of an allocation slot (lines 384-450), for the uop `cur_op` just taken from
the latch (`id_ra` is the latch without it). -/
def alloc_renamed (c1 : Core) (cls : RegClass) (cur_op : uop) (id_ra : LatchQueue uop) :
    Outcome Core :=
  if cur_op.control &&& use_cond ≠ 0 ∧ c1.rrt.cc_lastused = [] then .undefined
  else
    let ccu := if cur_op.control &&& use_cond ≠ 0 then c1.rrt.cc_lastused.getLastD 0 else 0
    let ccs := if cur_op.control &&& set_cond ≠ 0 then c1.rrt.cc_freelist.headD 0 else 0
    match alloc_rename c1.state.arf cls ⟨alloc_cc c1.rrt ccs, c1.prf, cur_op⟩ with
    | none => .undefined
    | some st => alloc_emit c1 id_ra ccu ccs st

/-- The discard of the condition dependence (lines 364-368), written through the
reference into the latch. -/
def alloc_peek (t : RenameTable) (peek0 : uop) : uop :=
  if peek0.control &&& use_cond ≠ 0 ∧ t.cc_freelist.length = CCREG_CNT - 1
  then { peek0 with control := clear16 peek0.control use_cond } else peek0

/-- The resource checks of an allocation slot (lines 341-377) for the uop `peek0` at the
head of ID/RA. -/
def alloc_checked (c : Core) (peek0 : uop) : Outcome Core :=
  let cls := getOpClass peek0
  let loadcount := alloc_loadcount c.rrt cls peek0
  if (c.rrt.freelist cls).length < alloc_required loadcount peek0.control then .stop c
  else if peek0.control &&& set_cond ≠ 0 ∧ c.rrt.cc_freelist = [] then .stop c
  else
    let c1 := { c with id_ra := c.id_ra.setFront (alloc_peek c.rrt peek0) }
    if is_load (alloc_peek c.rrt peek0) ∧ LQUEUE_SIZE + ALLOC_WIDTH ≤ c1.ldq.size then .stop c1
    else
      -- resources available, take uop from latch
      match c1.id_ra.get_front c1.state.cycle with
      | .error _ => .stop c1
      | .ok (cur_op, id_ra) => alloc_renamed c1 cls cur_op id_ra

/-- The body of one slot of `Core::alloc` (lines 285-492). The latch's `ready()` test in
front of the `try` block is not modelled (its body is not among the sources); a slot that
the source skips for that reason is a slot that does nothing. -/
def alloc_slot (c : Core) : Outcome Core :=
  if ROB_SIZE + ALLOC_WIDTH ≤ c.rob.size then .stop c
  else
    match c.id_ra.front c.state.cycle with
    | .error .empty =>
      .stop (if c.state.active &&& id_active = 0
        then { c with next_inactive := c.next_inactive ||| ra_active } else c)
    | .error _ => .stop c
    | .ok peek0 => alloc_checked c peek0

/-! ## Commit (`Core::commit`, body of one slot) -/

/-- What the memory manager and the load queue's pointers tell one commit slot. These
components are outside the core; a slot is a function of the core and of these answers. -/
structure CommitEnv where
  /-- `ldq->front(state.cycle)->mref.mode == MM::mr_invalid` -/
  ld_invalid : Bool
  /-- ROB positions of the loads whose memref the store loop marks `mr_invalid` -/
  st_hits : List Nat
  /-- the word `mmu.put` leaves in `cur_re.except` (0: the store was accepted) -/
  st_except : Nat
  /-- `mmu.put` throws a `MemoryManagerException` -/
  st_throws : Bool
  /-- the first index `i < seq_addrs.size()` whose in-flight instruction the store aliases -/
  smc : Option Nat
deriving DecidableEq, Repr

/-- ARF writeback (lines 886-894): the head's physical destinations are copied to the
architectural registers named by the reverse table, unless the uop is an invalidated
load. -/
def commit_writeback (arf : ArchRegFile) (prf : PhysRegFile) (t : RenameTable)
    (cls : RegClass) (re : ROBEntry) : ArchRegFile :=
  if is_load re.op ∧ re.mref.mode = mr_invalid then arf
  else
    let arf1 := if re.op.control &&& rc_dest ≠ 0
      then arf.set cls (t.R cls re.op.rc) (prf.get cls re.op.rc) else arf
    arf1.set cls (t.R cls re.op.rd) (prf.get cls re.op.rd)

/-- The block executed for one non-zero physical destination `p` (lines 905-914 for `rc`,
919-928 for `rd`), statement by statement. -/
def commit_unmap (t : RenameTable) (cls : RegClass) (p : Nat) : RenameTable :=
  -- update commit table
  let t1 := t.store (cls.rct + t.R cls p) p
  -- free physical (destination) register
  let t2 := t1.pushFree cls p
  let t3 := t2.store (cls.trr + p) 0
  -- unmap physical register from rename table if this is the last write
  if t3.A cls (t3.R cls p) = p then t3.store (cls.rrt + t3.R cls p) 0 else t3

/-- Rename bookkeeping of a retiring uop (lines 902-929). -/
def commit_rename (t : RenameTable) (cls : RegClass) (op : uop) : RenameTable :=
  let t1 := if op.control &&& rc_dest ≠ 0 ∧ op.rc ≠ 0 then commit_unmap t cls op.rc else t
  if op.rd ≠ 0 then commit_unmap t1 cls op.rd else t1

/-- The `LatchEmptyException` handler of `Core::commit` (lines 1084-1093). -/
def commit_on_empty (c : Core) : Outcome Core :=
  match c.rrt.cc_lastused with
  | [] => .undefined
  | cc :: _ =>
    let c1 := { c with state := { c.state with arf := { c.state.arf with cc := c.prf.cc cc } } }
    .stop (if c1.state.active &&& ex_active = 0
      then { c1 with next_inactive := c1.next_inactive ||| co_active } else c1)

/-- The synthetic entry pushed to the ROB head after a faulting store. -/
def commit_int_entry (c_ready except : Nat) : ROBEntry :=
  ⟨zero_mref, ⟨uop_int, 0, 0, 0, 0, 0, except⟩, c_ready, except, exec_running, 0, 0⟩

/-- The call `flush()` followed by `rob->push_front(cycle, entry)`. -/
def flush_inject (c : Core) (cycle : Nat) (e : ROBEntry) : Outcome Core :=
  match flush c with
  | .error _ => .raise
  | .ok c1 =>
    match c1.rob.push_front cycle e with
    | .error _ => .raise
    | .ok rob => .next { c1 with rob := rob }

/-- Branch handling of a commit slot (lines 1016-1055): a mispredicted branch flushes the
core and redirects the frontend. -/
def commit_branch (c : Core) (cur_re : ROBEntry) : Outcome Core :=
  if is_branch cur_re.op then
    if cur_re.mref.mode ≠ mr_branch then .raise
    else if cur_re.mref.size = UINT64_MAX ∧ c.state.seq_addrs = [] then .undefined
    else
      let nextrip := if cur_re.mref.size = UINT64_MAX
        then c.state.seq_addrs.headD 0 else cur_re.mref.vaddr
      match c.state.in_flight[1]? with
      | none => if c.state.in_flight = [] then .undefined else .raise
      | some pred =>
        if pred ≠ nextrip then
          match flush c with
          | .error _ => .raise
          | .ok c1 =>
            .next { c1 with state := { c1.state with
              in_flight := c1.state.in_flight ++ [nextrip]
              active := fe_active ||| core_active } }
        else .next c
  else .next c

/-- Macro bookkeeping of a commit slot (lines 1057-1071): instruction pointers are only
updated when the last uop of a bundle commits. -/
def commit_mop (c1 : Core) (cur_op : uop) : Outcome Core :=
  if cur_op.control &&& mop_last ≠ 0 then
    match c1.state.in_flight with
    | [] => .undefined
    | _ :: [] => .undefined
    | _ :: ip :: rest =>
      let popped := ¬ c1.state.seq_addrs = []
      .next { c1 with
        state := { c1.state with
          in_flight := ip :: rest
          seq_addrs := c1.state.seq_addrs.tail
          arf := { c1.state.arf with ip := ip } }
        seq_at_alloc := if popped then (c1.seq_at_alloc + UINT64_MAX) % 2 ^ 64
          else c1.seq_at_alloc }
  else .next c1

/-- The part of a commit slot after load and store handling: branches, macro bookkeeping
and the counters (lines 1075-1076). -/
def commit_tail (c : Core) (cur_re : ROBEntry) : Outcome Core :=
  match commit_branch c cur_re with
  | .next c1 =>
    match commit_mop c1 cur_re.op with
    | .next c2 =>
      .next { c2 with state := { c2.state with
        commited_micro := c2.state.commited_micro + 1
        commited_macro := if cur_re.op.control &&& mop_last ≠ 0
          then c2.state.commited_macro + 1 else c2.state.commited_macro } }
    | o => o
  | o => o

/-- Store handling of a commit slot (lines 967-1014) followed by `commit_tail`. -/
def commit_store (env : CommitEnv) (c : Core) (cur_re : ROBEntry) : Outcome Core :=
  if is_store cur_re.op then
    -- invalidate the loads that used the store address
    let c1 := { c with rob := { c.rob with queue := c.rob.queue.enum.map (fun ie =>
      if ie.1 ∈ env.st_hits
      then { ie.2 with elem := { ie.2.elem with mref := { ie.2.elem.mref with mode := mr_invalid } } }
      else ie.2) } }
    if env.st_throws then
      flush_inject c1 (c1.state.cycle + 1)
        (commit_int_entry (c1.state.cycle + 0) (setExcept ex_PF 0))
    else if env.st_except ≠ 0 then
      -- store raised an exception, this will commit next
      flush_inject c1 (c1.state.cycle + 0) (commit_int_entry c1.state.cycle env.st_except)
    else
      -- do we write to a in flight instruction?
      let scanned := match env.smc with
        | some i => i + 1
        | none => c1.state.seq_addrs.length
      if c1.state.in_flight.length < scanned then .raise
      else
        match env.smc with
        | some i =>
          commit_tail { c1 with state := { c1.state with
            refetch_at := c1.state.in_flight.getD i 0, refetch_active := 1 } } cur_re
        | none => commit_tail c1 cur_re
  else commit_tail c cur_re

/-- Load handling of a commit slot (lines 944-965) followed by `commit_store`. -/
def commit_load (env : CommitEnv) (c : Core) (cur_re : ROBEntry) : Outcome Core :=
  if is_load cur_re.op then
    match c.ldq.front c.state.cycle with
    | .error .empty => commit_on_empty c
    | .error _ => .next c
    | .ok _ =>
      if env.ld_invalid then
        -- load was misspeculated
        match flush c with
        | .error _ => .raise
        | .ok c1 =>
          .stop { c1 with
            state := { c1.state with active := fe_active ||| core_active }
            ldq := c1.ldq.clear }
      else
        match c.ldq.pop_front with
        | .error _ => commit_on_empty c
        | .ok ldq => commit_store env { c with ldq := ldq } cur_re
  else commit_store env c cur_re

/-- The body of one slot of `Core::commit` (lines 800-1106). Calls to the logger are left
out throughout. -/
def commit_slot (env : CommitEnv) (c : Core) : Outcome Core :=
  -- something requested a refetch starting from this instruction pointer
  if c.state.refetch_active ≠ 0 ∧ c.state.in_flight = [] then .undefined
  else if c.state.refetch_active ≠ 0 ∧ c.state.refetch_at = c.state.in_flight.headD 0 then
    match flush c with
    | .error _ => .raise
    | .ok c1 =>
      .stop { c1 with state := { c1.state with
        active := fe_active ||| core_active, refetch_active := 0 } }
  else
  -- check if this uop can be commited in the current cycle
  match c.rob.get_front c.state.cycle with
  | .error .empty => commit_on_empty c
  | .error _ => .next c
  | .ok (cur_re, rob) =>
    if ¬ (cur_re.c_ready ≠ 0 ∧ cur_re.c_ready ≤ c.state.cycle) then .stop c
    else
    let c0 := { c with rob := rob }
    -- exception occured at ROB head
    if cur_re.except ≠ 0 then
      .stop { c0 with state := { c0.state with
        active := 0
        commited_micro := c0.state.commited_micro + 1
        exception := cur_re.except } }
    else
    let cls := getOpClass cur_re.op
    -- actual commit to ARF
    let arf := commit_writeback c0.state.arf c0.prf c0.rrt cls cur_re
    -- remove preg mappings
    let t1 := commit_rename c0.rrt cls cur_re.op
    -- free condition register as soon as a different one is commited
    if cur_re.cc_set ≠ 0 ∧ t1.cc_lastused = [] then .undefined
    else if cur_re.cc_set ≠ 0 ∧ cur_re.cc_set ≠ t1.cc_lastused.headD 0 ∧
        t1.cc_lastused.tail = [] then .undefined
    else
    let retire := decide (cur_re.cc_set ≠ 0 ∧ cur_re.cc_set ≠ t1.cc_lastused.headD 0)
    let t2 := if retire then
        { t1 with
          cc_freelist := t1.cc_freelist ++ [t1.cc_lastused.headD 0]
          cc_lastused := t1.cc_lastused.tail }
      else t1
    let arf2 := if retire then { arf with cc := c0.prf.cc (t2.cc_lastused.headD 0) } else arf
    commit_load env { c0 with rrt := t2, state := { c0.state with arf := arf2 } } cur_re

/-! ## Decode slot and the stepping of the backend -/

/-- The body of one slot of `Core::decode` (lines 184-260). As in `alloc_slot`, the
latch's `ready()` test is not modelled. -/
def decode_slot (c : Core) : Outcome Core :=
  if ID_RA_SIZE + DECODE_WIDTH ≤ c.id_ra.size then .stop c
  else
    match c.uqueue.get_front c.state.cycle with
    | .error .empty =>
      .stop (if c.state.active &&& fe_active = 0
        then { c with next_inactive := c.next_inactive ||| id_active } else c)
    | .error _ => .stop c
    | .ok (cur_op, uqueue) =>
      match c.id_ra.push_back (c.state.cycle + DECODE_LATENCY) (decode_uop cur_op) with
      | .error _ => .raise
      | .ok id_ra => .next { c with uqueue := uqueue, id_ra := id_ra }

/-- What issue and execute leave behind for one ROB entry. -/
structure ExecResult where
  c_ready : Nat
  except : Nat
  mref : MemoryRef
  /-- value produced for `rd` -/
  val_d : Nat
  /-- value produced for `rc` when it is a destination -/
  val_c : Nat
  /-- value produced for the condition register set by the uop -/
  val_cc : Nat
deriving DecidableEq, Repr

/-- Modelled from the spec: the effect of `Core::issue` and `Core::execute` on the ROB
entry at position `i` (`run_uop` lives in `core.tt`, which is not among the sources).
"Actually execute the uop (mutate the referenced physical registers, set condition bits,
compute branch targets and store them in the ROB memref)": the physical register `rd` is
written, `rc` as well when the uop has `rc_dest`, and the condition register the uop was
given, whatever their numbers. The entry becomes `running`, and its commit-ready cycle,
exception word and memref are set. -/
def exec_entry (c : Core) (i : Nat) (r : ExecResult) : Option Core :=
  match c.rob.queue[i]? with
  | none => none
  | some qe =>
    let e := qe.elem
    let cls := getOpClass e.op
    let prf1 := if e.op.control &&& rc_dest ≠ 0
      then c.prf.set cls e.op.rc r.val_c else c.prf
    let prf2 := prf1.set cls e.op.rd r.val_d
    let prf3 := if e.cc_set ≠ 0
      then { prf2 with cc := Function.update prf2.cc e.cc_set r.val_cc } else prf2
    let e1 : ROBEntry :=
      { e with c_ready := r.c_ready, except := r.except, mref := r.mref, in_exec := exec_running }
    some { c with
      prf := prf3
      rob := { c.rob with queue := c.rob.queue.set i { qe with elem := e1 } } }

/-- One move of the backend or of its environment. -/
inductive Action where
  /-- the frontend pushes a uop into the uQueue -/
  | fetch (cycle : Nat) (u : uop)
  /-- the clock advances -/
  | tick
  /-- one slot of `Core::decode` -/
  | decode
  /-- one slot of `Core::alloc` -/
  | alloc
  /-- issue and execution of the ROB entry at a position -/
  | exec (i : Nat) (r : ExecResult)
  /-- one slot of `Core::commit` -/
  | commit (env : CommitEnv)
  /-- a call of `Core::flush` -/
  | flush
deriving DecidableEq, Repr

/-- The successor state of an outcome, if the slot ended normally. -/
def Outcome.state? {σ : Type} : Outcome σ → Option σ
  | .next s => some s
  | .stop s => some s
  | .raise => none
  | .undefined => none

/-- The state after one action; `none` when the action is not possible or the source
raises or is undefined there. -/
def step (a : Action) (c : Core) : Option Core :=
  match a with
  | .fetch cycle u =>
    match c.uqueue.push_back cycle u with
    | .ok q => some { c with uqueue := q }
    | .error _ => none
  | .tick => some { c with state := { c.state with cycle := c.state.cycle + 1 } }
  | .decode => (decode_slot c).state?
  | .alloc => (alloc_slot c).state?
  | .exec i r => exec_entry c i r
  | .commit env => (commit_slot env c).state?
  | .flush => (flush c).toOption

/-- The state after a sequence of actions. -/
def run : List Action → Core → Option Core
  | [], c => some c
  | a :: as, c => (step a c).bind (run as)

/-! ## Example states -/

/-- An `add` with sources r8, r9 and destination r7, as the frontend would emit it. -/
def ex_add : uop := ⟨uop_add, use_ra ||| use_rb, 8, 9, 0, 7, 0⟩

/-- A fresh core whose uQueue holds `ex_add`. -/
def ex_core_fetched : Core :=
  { Core.init risc with uqueue := ⟨UQUEUE_SIZE + FETCH_WIDTH, [⟨0, ex_add⟩]⟩ }

/-- A `nop` carrying every control bit and four register references. -/
def ex_nop : uop := ⟨uop_nop, 0xffff, 5, 6, 7, 9, 3⟩

/-- A fresh core whose uQueue holds `ex_nop`. -/
def ex_core_nop : Core :=
  { Core.init risc with uqueue := ⟨UQUEUE_SIZE + FETCH_WIDTH, [⟨0, ex_nop⟩]⟩ }

def uop_set : Nat := 0x0048

/-- The uop `set r5 <- 42`. -/
def ex_set5 : uop := ⟨uop_set, use_imm, 0, 0, 0, 5, 42⟩

/-- Fetch, decode and rename of `ex_set5` on a fresh core. -/
def ex_trace_set5 : List Action := [.fetch 0 ex_set5, .decode, .tick, .alloc]

/-- The uop `sub r0 <- r5, r6` that only sets a condition. -/
def ex_cmp : uop := ⟨0x1012, use_ra ||| use_rb ||| set_cond, 5, 6, 0, 0, 0⟩

/-- The uop `copy2 (r7, r8) <- (r1, r2)`, with rc as second destination. -/
def ex_copy2 : uop := ⟨uop_copy2, use_ra ||| use_rb ||| rc_dest, 1, 2, 7, 8, 0⟩

/-- Fetch, decode and rename of one uop on the current core. -/
def ex_rename (u : uop) : List Action := [.fetch 0 u, .decode, .tick, .alloc]

/-- The environment of a commit slot in which memory raises nothing. -/
def ex_quiet : CommitEnv := ⟨false, [], 0, false, none⟩

/-- Execution result: ready at cycle 1, no exception, value 42. -/
def ex_done : ExecResult := ⟨1, 0, zero_mref, 42, 0, 0⟩

/-- 177 destination-only uops are renamed and stay in flight, then `ex_add` reaches the
head of ID/RA: two registers are left on the gp free list. -/
def ex_trace_low : List Action :=
  (List.replicate 177 (ex_rename ex_set5)).flatten ++ [.fetch 0 ex_add, .decode, .tick]

/-- Recogniser of `Outcome.undefined`. -/
def Outcome.isUndefined {σ : Type} : Outcome σ → Bool
  | .undefined => true
  | _ => false

/-! ## In-flight destinations and the rename invariant -/

/-- The physical destinations a renamed uop holds: `rc` when it is a destination, and
`rd`, each when non-zero (the registers `Core::commit` returns to the free list). -/
def uop.dests (op : uop) : List Nat :=
  (if op.control &&& rc_dest ≠ 0 ∧ op.rc ≠ 0 then [op.rc] else []) ++
    (if op.rd ≠ 0 then [op.rd] else [])

/-- The physical destinations of the ROB entries of a class, oldest first. -/
def inflight (cls : RegClass) : List (LatchQElem ROBEntry) → List Nat
  | [] => []
  | e :: rest =>
    (if getOpClass e.elem.op = cls then e.elem.op.dests else []) ++ inflight cls rest

/-- Last-writer property of a list of in-flight destinations (oldest first): a register
that no younger one shares its architectural register with is the forward mapping of that
architectural register. -/
def LastWriters (A R : Nat → Nat) : List Nat → Prop
  | [] => True
  | p :: rest => ((∀ q ∈ rest, R q ≠ R p) → A (R p) = p) ∧ LastWriters A R rest

/-- The invariant of the rename state kept by every step of the backend. -/
structure Inv (c : Core) : Prop where
  fl_rng : ∀ cls, ∀ p ∈ c.rrt.freelist cls, 0 < p ∧ p < cls.rnreg
  if_rng : ∀ cls, ∀ p ∈ inflight cls c.rob.queue, 0 < p ∧ p < cls.rnreg
  nodup : ∀ cls, (c.rrt.freelist cls ++ inflight cls c.rob.queue).Nodup
  zeroA : ∀ cls, c.rrt.A cls 0 = 0
  zeroC : ∀ cls, c.rrt.C cls 0 = 0
  zeroR : ∀ cls, c.rrt.R cls 0 = 0
  rngR : ∀ cls p, p < cls.rnreg → c.rrt.R cls p < cls.cnt
  liveR : ∀ cls, ∀ p ∈ inflight cls c.rob.queue, c.rrt.R cls p ≠ 0
  last : ∀ cls, LastWriters (c.rrt.A cls) (c.rrt.R cls) (inflight cls c.rob.queue)
  idra : ∀ e ∈ c.id_ra.queue, ∀ i, i < 4 → e.elem.reg i < getARFSize e.elem
  cc0 : 0 ∉ c.rrt.cc_freelist ∧ 0 ∉ c.rrt.cc_lastused

/-- The registers the first loop of `Core::flush` pushes onto the free list of a class:
the non-zero `rd` of the ROB entries of that class, oldest first. -/
def flush_pushes (cls : RegClass) : List (LatchQElem ROBEntry) → List Nat
  | [] => []
  | e :: rest =>
    (if getOpClass e.elem.op = cls ∧ e.elem.op.rd ≠ 0 then [e.elem.op.rd] else []) ++
      flush_pushes cls rest

/-- What the source loop of `Core::alloc` has done to the rename state of class `cls`
after taking the registers `loads` from the free list for first-time sources. -/
structure SrcRel (cls : RegClass) (t : RenameTable) (prf : PhysRegFile) (loads : List Nat)
    (t' : RenameTable) (prf' : PhysRegFile) : Prop where
  fl : t.freelist cls = loads ++ t'.freelist cls
  fl_other : ∀ cls', cls' ≠ cls → t'.freelist cls' = t.freelist cls'
  ccf : t'.cc_freelist = t.cc_freelist
  ccl : t'.cc_lastused = t.cc_lastused
  C_same : ∀ cls' a, a < cls'.cnt → t'.C cls' a = t.C cls' a
  A_other : ∀ cls', cls' ≠ cls → ∀ a, a < cls'.cnt → t'.A cls' a = t.A cls' a
  R_other : ∀ cls', cls' ≠ cls → ∀ p, p < cls'.rnreg → t'.R cls' p = t.R cls' p
  R_same : ∀ p, p < cls.rnreg → p ∉ loads → t'.R cls p = t.R cls p
  R_load : ∀ p ∈ loads, 0 < t'.R cls p ∧ t'.R cls p < cls.cnt
  A_cases : ∀ a, a < cls.cnt →
    t'.A cls a = t.A cls a ∨ (t.A cls a = 0 ∧ a ≠ 0 ∧ t'.A cls a ∈ loads)
  prf0 : ∀ cls', prf'.get cls' 0 = prf.get cls' 0

/-- What `alloc_rename` has done to the rename state of class `cls` once it returns:
`taken` are the registers it took from the free list. -/
structure AllocRel (cls : RegClass) (t : RenameTable) (prf : PhysRegFile) (op : uop)
    (taken : List Nat) (st : RenameSt) : Prop where
  fl : t.freelist cls = taken ++ st.rrt.freelist cls
  dests : List.Sublist st.op.dests taken
  fl_other : ∀ cls', cls' ≠ cls → st.rrt.freelist cls' = t.freelist cls'
  ccf : st.rrt.cc_freelist = t.cc_freelist
  ccl : st.rrt.cc_lastused = t.cc_lastused
  C_same : ∀ cls' a, a < cls'.cnt → st.rrt.C cls' a = t.C cls' a
  A_other : ∀ cls', cls' ≠ cls → ∀ a, a < cls'.cnt → st.rrt.A cls' a = t.A cls' a
  R_other : ∀ cls', cls' ≠ cls → ∀ p, p < cls'.rnreg → st.rrt.R cls' p = t.R cls' p
  R_same : ∀ p, p < cls.rnreg → p ∉ taken → st.rrt.R cls p = t.R cls p
  R_taken : ∀ p ∈ taken, 0 < st.rrt.R cls p ∧ st.rrt.R cls p < cls.cnt
  A_zero : st.rrt.A cls 0 = t.A cls 0
  A_cases : ∀ a, a < cls.cnt →
    st.rrt.A cls a = t.A cls a ∨ t.A cls a = 0 ∨ ∃ p ∈ st.op.dests, st.rrt.R cls p = a
  A_taken : ∀ a, a < cls.cnt → st.rrt.A cls a = t.A cls a ∨ st.rrt.A cls a ∈ taken
  lastD : LastWriters (st.rrt.A cls) (st.rrt.R cls) st.op.dests
  prf0 : ∀ cls', st.prf.get cls' 0 = prf.get cls' 0
  opcode : st.op.opcode = op.opcode

/-- No register on a free list is the forward mapping of an architectural register of its
class. -/
def FreshA (c : Core) : Prop :=
  ∀ cls a, a < cls.cnt → c.rrt.A cls a ∉ c.rrt.freelist cls

/-- What retiring the in-flight destinations `ds` of class `cls` does to the rename
tables: the forward table is untouched, the reverse entries of `ds` are cleared and `ds`
is appended to the free list. -/
structure UnmapRel (cls : RegClass) (t : RenameTable) (ds : List Nat) (t' : RenameTable) :
    Prop where
  A_same : ∀ cls' a, a < cls'.cnt → t'.A cls' a = t.A cls' a
  C_zero : ∀ cls', t'.C cls' 0 = t.C cls' 0
  R_other : ∀ cls' q, q < cls'.rnreg → (cls' ≠ cls ∨ q ∉ ds) → t'.R cls' q = t.R cls' q
  R_ds : ∀ q ∈ ds, t'.R cls q = 0
  fl : ∀ cls', t'.freelist cls' = if cls' = cls then t.freelist cls' ++ ds else t.freelist cls'
  ccf : t'.cc_freelist = t.cc_freelist
  ccl : t'.cc_lastused = t.cc_lastused

/-- Actions that retire or squash uops: a commit slot or a flush. -/
def Action.retires : Action → Bool
  | .commit _ => true
  | .flush => true
  | _ => false

/-- The state a trace leads to from the fresh RISC core (the fresh core itself if the
trace cannot be run). -/
def ex_state (tr : List Action) : Core :=
  (run tr (Core.init risc)).getD (Core.init risc)

/-- The uop `set r5 <- 42` is renamed twice; both stay in flight. -/
def ex_trace_twice : List Action := ex_rename ex_set5 ++ ex_rename ex_set5

/-- The uop `set r5 <- 42` is renamed, executed and committed, then the core is flushed. -/
def ex_trace_retire_flush : List Action :=
  ex_rename ex_set5 ++ [.exec 0 ex_done, .tick, .commit ex_quiet, .flush]

/-- The uop `set r5 <- 42` is renamed and executed, and is ready to commit. -/
def ex_trace_ready : List Action := ex_rename ex_set5 ++ [.exec 0 ex_done, .tick]

/-- The uop `set r6 <- 42`. -/
def ex_set6 : uop := ⟨uop_set, use_imm, 0, 0, 0, 6, 42⟩

/-- The uops `set r5 <- 42` and `set r6 <- 42` are renamed; both stay in flight. -/
def ex_trace_pair : List Action := ex_rename ex_set5 ++ ex_rename ex_set6

/-! ## Opcode and exception-word helpers (`core/uops.hh`, `util.hh`) -/

/-- The `u16` result of `getOpCode`: the opcode without its prefix nibble. -/
def getOpCode (op : uop) : Nat := op.opcode &&& 0x0fff

/-- The function `getExceptNum(u32 e)`. -/
def getExceptNum (e : Nat) : Nat := e &&& 0xffff

/-- The function `getExceptEC(u32 e)`. -/
def getExceptEC (e : Nat) : Nat := e >>> 16

/-- The `u8` result of `getOpSize`. -/
def getOpSize (op : uop) : Nat := (1 <<< ((op.control &&& op_size) >>> 4)) % 256

/-- The map `util::ld` (`util.hh`), in source order. -/
def util_ld : List (Nat × Nat) :=
  [ (0x0000, 0x00),
    (0x0001, 0x00), (0x0002, 0x01), (0x0004, 0x02), (0x0008, 0x03),
    (0x0010, 0x04), (0x0020, 0x05), (0x0040, 0x06), (0x0080, 0x07),
    (0x0100, 0x08), (0x0200, 0x09), (0x0400, 0x0a), (0x0800, 0x0b),
    (0x1000, 0x0c), (0x2000, 0x0d), (0x4000, 0x0e), (0x8000, 0x0f) ]

/-- The `u16` result of `setOpSize(u16 opsz)`; `none` stands for the `std::out_of_range` of
`util::ld.at`. -/
def setOpSize (opsz : Nat) : Option Nat :=
  (util_ld.lookup opsz).map (fun l => (l <<< 4) % 2 ^ 16)

/-- A uop that carries only a control word. -/
def ex_ctrl (control : Nat) : uop := ⟨uop_nop, control, 0, 0, 0, 0, 0⟩

/-- A load-range low byte under a class above 0xff: prefix 0, class 0x120. -/
def ex_op_0120 : uop := ⟨0x0120, 0, 0, 0, 0, 0, 0⟩

/-- An `add` whose first source names register 40 of the 36 general-purpose registers. -/
def ex_add_bad : uop := ⟨uop_add, use_ra ||| use_rb, 40, 9, 0, 7, 0⟩

/-- A fresh core whose uQueue holds `ex_add_bad`. -/
def ex_core_bad : Core :=
  { Core.init risc with uqueue := ⟨UQUEUE_SIZE + FETCH_WIDTH, [⟨0, ex_add_bad⟩]⟩ }

/-- Execution result: ready at cycle 1 with a general-protection exception word. -/
def ex_fault : ExecResult := ⟨1, setExcept ex_GP 0, zero_mref, 0, 0, 0⟩

/-- The uop `set r5 <- 42` is renamed and executed with an exception, and is the ready ROB
head. -/
def ex_trace_fault : List Action := ex_rename ex_set5 ++ [.exec 0 ex_fault, .tick]

/-- The state after `ex_trace_fault` with a refetch pending at the oldest in-flight
instruction pointer (as a committed store to that instruction's bytes leaves it). -/
def ex_core_refetch : Core :=
  { ex_state ex_trace_fault with
    state := { (ex_state ex_trace_fault).state with
      refetch_at := MM_USER_START, refetch_active := 1 } }

/-! ## Issue (`Core::issue`) -/

def ISSUE_WIDTH : Nat := 8
def ISSUE_LATENCY : Nat := 0
def ISSUE_DEPTH : Nat := 97

/-- What the `try` block of an issue slot can throw: a latch signal of `rob->at`, or the
`std::out_of_range` of `uopmap.at`. -/
inductive IssueError where
  | latch (e : LatchError)
  | out_of_range
deriving DecidableEq, Repr

/-- The function `Core::get_rsports`: the ports whose bit is set in the `u8` mask, with
their positions in `rs.ports`; the probe bit is a `u8` shifted left once per port. -/
def get_rsports (rs : List RSPort) (portmask : Nat) : List (Nat × RSPort) :=
  rs.enum.filter (fun kp => decide (portmask &&& ((1 <<< kp.1) % 256) ≠ 0))

/-- The lambda `find_fu` of `Core::issue`: the first FU with `cycle == 0` and a matching
type on the first port of the mask that is not busy, as (port position, FU position);
`none` when the lambda returns without assigning `issue_port` and `issue_fu`. -/
def find_fu (rs : List RSPort) (cur_op_ports cur_op_fu : Nat) : Option (Nat × Nat) :=
  (get_rsports rs cur_op_ports).findSome? (fun kp =>
    if kp.2.busy = 0 then
      (kp.2.fus.enum.find? (fun jf =>
        decide (jf.2.cycle = 0 ∧ (cur_op_fu = fu_any ∨ jf.2.type = cur_op_fu)))).map
        (fun jf => (kp.1, jf.1))
    else none)

/-- The test of the lambda `unavail_dependences` for one older entry `re` of the same
register class: the loop over the three source slots, with its `else if` on the
condition register. -/
def unavail_entry (cur_re re : ROBEntry) : Bool :=
  (List.range 3).any (fun r =>
    decide (cur_re.op.reg r ≠ 0 ∧ cur_re.op.control &&& (use_ra <<< r) ≠ 0 ∧
      re.c_ready = commit_unavail ∧
      (re.op.rd = cur_re.op.reg r ∨ (re.op.control &&& rc_dest ≠ 0 ∧ re.op.rc = cur_re.op.reg r)))
    || decide (re.c_ready = commit_unavail ∧
      (cur_re.op.control &&& use_cond ≠ 0 ∧ cur_re.cc_use = re.cc_set)))

/-- The lambda `unavail_dependences(limit)` of `Core::issue` for the candidate `cur_re`:
ROB entries `0 .. limit-1` are scanned in order and the scan returns at the first hit;
entries of another register class are skipped. -/
def unavail_dependences (rob : LatchQueue ROBEntry) (now : Nat) (cur_re : ROBEntry)
    (limit : Nat) : Except LatchError Bool :=
  (List.range limit).foldlM
    (fun found re_i =>
      if found then pure true
      else do
        let re ← rob.at_ now re_i
        pure (if getOpClass cur_re.op ≠ getOpClass re.op then false
          else unavail_entry cur_re re))
    false

/-- The locals of an issue slot that outlive the scan loop: the loop counter `i`,
`check_next`, the position of `cur_re` in the ROB, and `issue_port` / `issue_fu` (set
together by `find_fu`). -/
structure IssueScan where
  i : Nat
  check_next : Nat
  cur_re : Option Nat
  sel : Option (Nat × Nat)
deriving DecidableEq, Repr

/-- The scan loop of an issue slot (lines 584-598),
`for(i = check_next; i <= rob->size() && i <= ISSUE_DEPTH; i++)`. The first argument bounds
the number of rounds; `ISSUE_DEPTH + 2` rounds are never used up. -/
def issue_scan (c : Core) : Nat → Nat → IssueScan → Except IssueError IssueScan
  | 0, i, s => .ok { s with i := i }
  | fuel + 1, i, s =>
    if i ≤ c.rob.size ∧ i ≤ ISSUE_DEPTH then
      -- don't check this uop again in another issue slot
      match c.rob.at_ c.state.cycle i with
      | .error e => .error (.latch e)
      | .ok cur_re =>
        let s1 := { s with i := i, check_next := i + 1, cur_re := some i }
        if cur_re.in_exec = exec_waiting ∧ cur_re.c_ready = commit_unavail then
          match uopmap_at cur_re.op.opcode with
          | none => .error .out_of_range
          | some info =>
            let s2 := { s1 with sel :=
              (match find_fu c.rs info.ports info.fu_type with
              | some pf => some pf
              | none => s1.sel) }
            match unavail_dependences c.rob c.state.cycle cur_re i with
            | .error e => .error (.latch e)
            -- not ready, find another uop
            | .ok true => issue_scan c fuel (i + 1) s2
            | .ok false => .ok s2
        else issue_scan c fuel (i + 1) s1
    else .ok { s with i := i }

/-- The four assignments that issue a uop (lines 629-632): the port is locked, the FU gets
its start cycle and the ROB entry, and the entry is marked running. -/
def issue_bind (c : Core) (k j idx : Nat) : Core :=
  { c with
    rs := c.rs.enum.map (fun kp =>
      if kp.1 = k then
        { kp.2 with
          busy := if ISSUE_LATENCY ≠ 0 then ISSUE_LATENCY else 1
          fus := kp.2.fus.enum.map (fun jf =>
            if jf.1 = j then { jf.2 with cycle := c.state.cycle + ISSUE_LATENCY, re := some idx }
            else jf.2) }
      else kp.2)
    rob := { c.rob with queue := c.rob.queue.enum.map (fun ie =>
      if ie.1 = idx then { ie.2 with elem := { ie.2.elem with in_exec := exec_running } }
      else ie.2) } }

/-- The body of one slot of `Core::issue` (lines 526-654), together with `check_next`,
which is declared outside the slot loop. Calls to the logger are left out. -/
def issue_slot (c : Core) (check_next : Nat) : Outcome (Core × Nat) :=
  match issue_scan c (ISSUE_DEPTH + 2) check_next ⟨check_next, check_next, none, none⟩ with
  -- all in execution or unmet dependences
  | .error .out_of_range => .stop (c, check_next)
  -- uops not available yet
  | .error (.latch .stall) => .stop (c, check_next)
  | .error (.latch .empty) =>
    .stop (if c.state.active &&& ra_active = 0
      then { c with next_inactive := c.next_inactive ||| is_active } else c, check_next)
  | .error (.latch .full) => .raise
  | .ok s =>
    -- we checked all issue slots
    if s.i = ISSUE_DEPTH then .stop (c, s.check_next)
    else
      match s.sel, s.cur_re with
      -- no matching FU at any port
      | none, _ => .next (c, s.check_next)
      | some _, none => .undefined
      -- FU and dependences are now checked, issue uops
      | some (k, j), some idx => .next (issue_bind c k j idx, s.check_next)

/-- The slot loop of `Core::issue`, `for(slot = 0; slot < ISSUE_WIDTH; slot++)`. -/
def issue_slots : Nat → Core → Nat → Option Core
  | 0, c, _ => some c
  | n + 1, c, check_next =>
    match issue_slot c check_next with
    | .next (c1, cn) => issue_slots n c1 cn
    | .stop (c1, _) => some c1
    | .raise => none
    | .undefined => none

/-- The function `Core::issue`. -/
def issue (c : Core) : Option Core :=
  -- shut down backend since the ROB is empty and not expecting more uops
  let c1 := if c.next_inactive &&& is_active ≠ 0
    then { c with state := { c.state with
      active := clear16 c.state.active (is_active ||| ex_active ||| co_active) } }
    else c
  if c1.state.active &&& is_active = 0 then some c1
  else
    -- decrease lock
    let c2 := { c1 with rs := c1.rs.map (fun rsp =>
      if rsp.busy ≠ 0 then { rsp with busy := rsp.busy - 1 } else rsp) }
    issue_slots ISSUE_WIDTH c2 0

/-- The uop `add r7 <- r5, r9`. -/
def ex_add5 : uop := ⟨uop_add, use_ra ||| use_rb, 5, 9, 0, 7, 0⟩

/-- The uop `ld.f f1` (ports 0 and 3, FU type `fu_ldf`). -/
def ex_ldf : uop := ⟨0x2020, 0, 0, 0, 0, 1, 0⟩

/-- The uop `set.f f1 <- 7` using the last set condition. -/
def ex_setf_cond : uop := ⟨0x2050, use_cond ||| use_imm, 0, 0, 0, 1, 7⟩

/-- The uops `set r5 <- 42`, `add r7 <- r5, r9` and `ld.f f1` are renamed and visible in the
ROB; none has been issued. -/
def ex_trace_stale : List Action :=
  ex_rename ex_set5 ++ ex_rename ex_add5 ++ ex_rename ex_ldf ++ [.tick]

/-- The uops `sub r0 <- r5, r6` (sets a condition) and `set.f f1 <- 7` (uses it) are renamed
and visible in the ROB; none has been issued. -/
def ex_trace_cond : List Action := ex_rename ex_cmp ++ ex_rename ex_setf_cond ++ [.tick]

/-- The uop `set r5 <- 42` and then 97 times `add r7 <- r5, r9` are renamed and visible in
the ROB (98 entries, one more than `ISSUE_DEPTH`); none has been issued. -/
def ex_trace_deep : List Action :=
  ex_rename ex_set5 ++ (List.replicate 97 (ex_rename ex_add5)).flatten ++ [.tick]

/-! ## The stage function `Core::commit` -/

/-- The slot loop of `Core::commit`, `for(slot = 0; slot < COMMIT_WIDTH; slot++)`; `env`
gives the answers of the memory manager for each slot. -/
def commit_slots (env : Nat → CommitEnv) : Nat → Nat → Core → Option Core
  | 0, _, c => some c
  | n + 1, slot, c =>
    match commit_slot (env slot) c with
    | .next c1 => commit_slots env n (slot + 1) c1
    | .stop c1 => some c1
    | .raise => none
    | .undefined => none

/-- The function `Core::commit` (lines 769-1114): the activity gate, the slot loop, and
the shutdown test after the loop. The `return 1` of the exception path leaves the function
with `state.active` = 0, on which the shutdown test has no effect, so it is not told apart
from `break`. -/
def commit (env : Nat → CommitEnv) (c : Core) : Option Core :=
  let c1 := if c.next_inactive &&& co_active ≠ 0
    then { c with state := { c.state with active := clear16 c.state.active co_active } }
    else c
  if c1.state.active &&& co_active = 0 then some c1
  else
    (commit_slots env COMMIT_WIDTH 0 c1).map (fun c2 =>
      if c2.rob.empty ∧ c2.next_inactive &&& is_active ≠ 0
      then { c2 with state := { c2.state with
        active := clear16 c2.state.active (is_active ||| ex_active ||| co_active) } }
      else c2)

/-- The state after one commit slot on the state reached by `ex_trace_ready`. -/
def ex_after_commit : Core :=
  ((commit_slot ex_quiet (ex_state ex_trace_ready)).state?).getD (Core.init risc)

/-! ## Memory manager (`mem.hh`, `mem.cc`, `conf.hh`) -/

def PAGE_SIZE : Nat := 4096
def PADDR_LIMIT : Nat := 0xffffffff00000000
def VADDR_LIMIT : Nat := PADDR_LIMIT
def MM_LD_LATENCY : Nat := 0

/-- The macro `PAGE_MASK`, `~(PAGE_SIZE - 1)`, as the 64-bit word it is in `x & PAGE_MASK`
for a `u64` operand. -/
def PAGE_MASK : Nat := 2 ^ 64 - PAGE_SIZE

/-- The macro `pageFloor(x)`: aligned page address bits. -/
def pageFloor (x : Nat) : Nat := x &&& PAGE_MASK

/-- The macro `pageOffs(x)`, `(x) & ~PAGE_MASK`: page offset bits. -/
def pageOffs (x : Nat) : Nat := x &&& (PAGE_SIZE - 1)

/-- Sum of two 64-bit words (`u64 + size_t`). -/
def add64 (a b : Nat) : Nat := (a + b) % 2 ^ 64

/-- Difference of two 64-bit words (`size_t - size_t`). -/
def sub64 (a b : Nat) : Nat := (a % 2 ^ 64 + (2 ^ 64 - b % 2 ^ 64)) % 2 ^ 64

/-- The struct `MM::PageFrame` without its name; `data j` is the byte at offset `j` from
the host pointer `data` (frames are taken to own disjoint host memory). -/
structure PageFrame where
  data : Nat → Nat
  bytes_used : Nat
  pl : Int
  rwx : Nat
  ext : Nat

/-- The struct `MM::PageTableEntry`. -/
structure PageTableEntry where
  frameno : Nat
  present : Nat
  pl : Int
  rwx : Nat
deriving DecidableEq, Repr

/-- The maps `pagetable` and `mem` of `class MemoryManager`, and the ring of the simulator
state it refers to (`i8 ring`). The load and store buffers play no part in `read` and
`write`. -/
structure MemoryManager where
  pagetable : Nat → Option PageTableEntry
  mem : Nat → Option PageFrame
  ring : Int

/-- The exceptions the memory manager can leave with: the `MemoryManagerException`s thrown
by the address lookups and the mapping functions, and the `std::out_of_range` of
`std::map::at`. -/
inductive MemError where
  | invalid_pageaddr
  | page_not_mapped
  | access_bit
  | protection
  | invalid_addr
  | out_of_range
  | page_already_mapped
  | allocation_failed
deriving DecidableEq, Repr

/-- The function `MemoryManager::get_paddr`. -/
def get_paddr (m : MemoryManager) (vaddr rwx : Nat) : Except MemError Nat :=
  match m.pagetable (pageFloor vaddr) with
  | none => .error .page_not_mapped
  | some pte =>
    if rwx &&& pte.rwx = 0 then .error .access_bit
    else if m.ring > pte.pl then .error .protection
    else .ok (add64 pte.frameno (pageOffs vaddr))

/-- The function `MemoryManager::get_eaddr`; the host pointer it returns is given as the
frame address and the offset into the frame's data. -/
def get_eaddr (m : MemoryManager) (vaddr rwx : Nat) : Except MemError (Nat × Nat) :=
  match m.pagetable (pageFloor vaddr) with
  | none => .error .page_not_mapped
  | some _ =>
    match get_paddr m vaddr rwx with
    | .error e => .error e
    | .ok paddr =>
      let frame := pageFloor paddr
      match m.mem frame with
      | none => .error .invalid_addr
      | some f =>
        if pageOffs vaddr > sub64 f.bytes_used 1 then .error .invalid_addr
        else if rwx &&& f.rwx = 0 then .error .access_bit
        else if m.ring > f.pl then .error .protection
        else .ok (frame, pageOffs vaddr)

/-- The byte at offset `j` of the host memory of frame `k`. -/
def hostByte (m : MemoryManager) (k j : Nat) : Nat :=
  match m.mem k with
  | some f => f.data j
  | none => 0

/-- The call `std::memcpy(data + offset, e, n)` with `e` a host pointer into frame `k` at
offset `o`: the caller's buffer afterwards. -/
def copy_out (m : MemoryManager) (k o : Nat) (data : Nat → Nat) (offset n : Nat) : Nat → Nat :=
  fun i => if offset ≤ i ∧ i < offset + n then hostByte m k (o + (i - offset)) else data i

/-- The call `std::memcpy(e, data + offset, n)` with `e` a host pointer into frame `k` at
offset `o`: the memory manager afterwards. -/
def copy_in (m : MemoryManager) (k o : Nat) (data : Nat → Nat) (offset n : Nat) :
    MemoryManager :=
  match m.mem k with
  | none => m
  | some f =>
    { m with mem := Function.update m.mem k (some { f with
        data := fun j => if o ≤ j ∧ j < o + n then data (offset + (j - o)) else f.data j }) }

/-- The frame record `mem.at(pageFloor(get_paddr(vaddr, rwx)))`. -/
def frame_at (m : MemoryManager) (vaddr rwx : Nat) : Except MemError PageFrame :=
  match get_paddr m vaddr rwx with
  | .error e => .error e
  | .ok paddr =>
    match m.mem (pageFloor paddr) with
    | none => .error .out_of_range
    | some f => .ok f

/-- The loop `for(;rem_bytes > 0;)` of `MemoryManager::read` (lines 411-426) on its locals
`pagebytes`, `rem_bytes`, `offset`, `bytes_read` and the caller's buffer. The first
argument bounds the number of rounds. -/
def read_loop (m : MemoryManager) (vaddr rx : Nat) :
    Nat → Nat → Nat → Nat → Nat → (Nat → Nat) → Except MemError (Nat × (Nat → Nat))
  | 0, _, _, _, bytes_read, data => .ok (bytes_read, data)
  | fuel + 1, pagebytes, rem_bytes, offset, bytes_read, data =>
    if rem_bytes > 0 then
      match get_eaddr m (add64 vaddr offset) rx with
      | .error e => .error e
      | .ok (k, o) =>
        let data1 := copy_out m k o data offset pagebytes
        let bytes_read1 := add64 bytes_read pagebytes
        -- we can't read any further if this is a partial page
        match frame_at m (add64 vaddr offset) rx with
        | .error e => .error e
        | .ok f =>
          if f.bytes_used < PAGE_SIZE then .ok (bytes_read1, data1)
          else
            let offset1 := add64 offset pagebytes
            let rem1 := sub64 rem_bytes pagebytes
            let pagebytes1 := if rem1 ≤ PAGE_SIZE then rem1 else PAGE_SIZE
            read_loop m vaddr rx fuel pagebytes1 rem1 offset1 bytes_read1 data1
    else .ok (bytes_read, data)

/-- Round bound of the loops of `read` and `write`: after the first round `rem_bytes` is a
64-bit word and every further round takes `min(rem_bytes, PAGE_SIZE)` > 0 bytes off it. -/
def MM_ROUNDS : Nat := 2 ^ 52 + 2

/-- The function `MemoryManager::read(vaddr, data, len, rx)`: latency, number of bytes
reported, and the caller's buffer afterwards. -/
def read (m : MemoryManager) (vaddr : Nat) (data : Nat → Nat) (len rx : Nat) :
    Except MemError (Nat × Nat × (Nat → Nat)) :=
  if vaddr > VADDR_LIMIT then .error .invalid_pageaddr
  else if (m.pagetable (pageFloor vaddr)).isNone then .error .page_not_mapped
  else
    match frame_at m vaddr rx with
    | .error e => .error e
    | .ok f =>
      if add64 (pageOffs vaddr) len > f.bytes_used then
        let pagebytes := sub64 f.bytes_used (pageOffs vaddr)
        match read_loop m vaddr rx MM_ROUNDS pagebytes len 0 0 data with
        | .error e => .error e
        | .ok (bytes_read, data1) =>
          .ok (MM_LD_LATENCY, if bytes_read ≠ 0 then bytes_read else len, data1)
      else
        match get_eaddr m vaddr rx with
        | .error e => .error e
        | .ok (k, o) => .ok (MM_LD_LATENCY, len, copy_out m k o data 0 len)

/-- The loop `for(;rem_bytes > 0;)` of `MemoryManager::write` (lines 461-475). -/
def write_loop (vaddr wx : Nat) (data : Nat → Nat) :
    Nat → Nat → Nat → Nat → MemoryManager → Except MemError MemoryManager
  | 0, _, _, _, m => .ok m
  | fuel + 1, pagebytes, rem_bytes, offset, m =>
    if rem_bytes > 0 then
      match get_eaddr m (add64 vaddr offset) wx with
      | .error e => .error e
      | .ok (k, o) =>
        let m1 := copy_in m k o data offset pagebytes
        -- we can't write any further if this is a partial page
        match frame_at m1 (add64 vaddr offset) wx with
        | .error e => .error e
        | .ok f =>
          if f.bytes_used < PAGE_SIZE then .ok m1
          else
            let offset1 := add64 offset pagebytes
            let rem1 := sub64 rem_bytes pagebytes
            let pagebytes1 := if rem1 ≤ PAGE_SIZE then rem1 else PAGE_SIZE
            write_loop vaddr wx data fuel pagebytes1 rem1 offset1 m1
    else .ok m

/-- The function `MemoryManager::write(vaddr, data, len)`; `wx` is the access bit `MM::p_w`
(its value is declared in `mem.tt`, which is not among the sources). -/
def write (m : MemoryManager) (wx : Nat) (vaddr : Nat) (data : Nat → Nat) (len : Nat) :
    Except MemError MemoryManager :=
  if vaddr > VADDR_LIMIT then .error .invalid_pageaddr
  else if (m.pagetable (pageFloor vaddr)).isNone then .error .page_not_mapped
  else
    match frame_at m vaddr wx with
    | .error e => .error e
    | .ok f =>
      if add64 (pageOffs vaddr) len > f.bytes_used then
        let pagebytes := sub64 f.bytes_used (pageOffs vaddr)
        write_loop vaddr wx data MM_ROUNDS pagebytes len 0 m
      else
        match get_eaddr m vaddr wx with
        | .error e => .error e
        | .ok (k, o) => .ok (copy_in m k o data 0 len)

/-- A full frame that every ring may access in every mode, holding the bytes `fill`. -/
def ex_frame (fill : Nat → Nat) (bytes_used : Nat) : PageFrame :=
  ⟨fill, bytes_used, 3, 0xff, 0⟩

/-- A page table entry for `frameno` that every ring may access in every mode. -/
def ex_pte (frameno : Nat) : PageTableEntry := ⟨frameno, 1, 3, 0xff⟩

/-- Two pages mapped one to one: page 0x8000 to a full frame, page 0x9000 to a frame of
which only the first 100 bytes are mapped (as `mmap_frames` leaves the last frame of a
region of 4196 bytes). The host bytes are 7 in the first frame, 8 in the mapped part of
the second and 9 behind it. -/
def ex_mem_partial : MemoryManager :=
  { pagetable := fun p =>
      if p = 0x8000 then some (ex_pte 0x8000)
      else if p = 0x9000 then some (ex_pte 0x9000) else none
    mem := fun k =>
      if k = 0x8000 then some (ex_frame (fun _ => 7) PAGE_SIZE)
      else if k = 0x9000 then some (ex_frame (fun j => if j < 100 then 8 else 9) 100) else none
    ring := 3 }

/-- Two pages, 0x8000 and 0x9000, both mapped to the one full frame 0x8000. -/
def ex_mem_alias : MemoryManager :=
  { pagetable := fun p =>
      if p = 0x8000 then some (ex_pte 0x8000)
      else if p = 0x9000 then some (ex_pte 0x8000) else none
    mem := fun k => if k = 0x8000 then some (ex_frame (fun _ => 0) PAGE_SIZE) else none
    ring := 3 }

/-- The page at `VADDR_LIMIT` mapped to a full frame. -/
def ex_mem_limit : MemoryManager :=
  { pagetable := fun p => if p = VADDR_LIMIT then some (ex_pte 0x8000) else none
    mem := fun k => if k = 0x8000 then some (ex_frame (fun _ => 0) PAGE_SIZE) else none
    ring := 3 }

/-- Two pages mapped one to one to two full frames. -/
def ex_mem_two : MemoryManager :=
  { pagetable := fun p =>
      if p = 0x8000 then some (ex_pte 0x8000)
      else if p = 0x9000 then some (ex_pte 0x9000) else none
    mem := fun k =>
      if k = 0x8000 then some (ex_frame (fun _ => 0) PAGE_SIZE)
      else if k = 0x9000 then some (ex_frame (fun _ => 0) PAGE_SIZE) else none
    ring := 3 }

/-- A buffer whose byte `i` is 1 in the first 4096 bytes and 2 after them. -/
def ex_buf (i : Nat) : Nat := i / PAGE_SIZE + 1

/-- The exception an operation leaves with, if any. -/
def Except.err? {ε α : Type} : Except ε α → Option ε
  | .ok _ => none
  | .error e => some e

/-- The frame address a page is mapped to. -/
def frameOf (m : MemoryManager) (p : Nat) : Option Nat :=
  (m.pagetable p).map (fun pte => pte.frameno)

/-- Page `p` is mapped, at a valid page address, to a full frame at a valid frame address,
and page and frame admit accesses with the bits `rx` and with the bits `wx` at the current
ring. -/
def PageRW (m : MemoryManager) (rx wx p : Nat) : Prop :=
  p ≤ VADDR_LIMIT ∧
  ∃ pte f, m.pagetable p = some pte ∧ pte.frameno % PAGE_SIZE = 0 ∧
    pte.frameno ≤ PADDR_LIMIT ∧ m.mem pte.frameno = some f ∧ f.bytes_used = PAGE_SIZE ∧
    rx &&& pte.rwx ≠ 0 ∧ wx &&& pte.rwx ≠ 0 ∧ m.ring ≤ pte.pl ∧
    rx &&& f.rwx ≠ 0 ∧ wx &&& f.rwx ≠ 0 ∧ m.ring ≤ f.pl

/-- Two memory managers agree on the page table, the ring and everything about their
frames but the bytes. -/
def SameMeta (m m' : MemoryManager) : Prop :=
  m'.pagetable = m.pagetable ∧ m'.ring = m.ring ∧
  ∀ k, (m'.mem k).map (fun f => (f.bytes_used, f.pl, f.rwx)) =
    (m.mem k).map (fun f => (f.bytes_used, f.pl, f.rwx))

/-! ## Branch target buffer (`frontend/bp.cc`) -/

def BTB_SIZE : Nat := 4096

/-- The class `BTBPredictor`: `std::unordered_map<u64, u64> btb` as the list of its
entries, newest first; `insert_or_assign` and `erase` keep at most one entry per key. -/
structure BTBPredictor where
  btb : List (Nat × Nat)
deriving DecidableEq, Repr

/-- The map `btb` of a new predictor. -/
def BTBPredictor.init : BTBPredictor := ⟨[]⟩

/-- The call `btb.count(rip)`. -/
def BTBPredictor.count (b : BTBPredictor) (rip : Nat) : Nat :=
  if (b.btb.lookup rip).isSome then 1 else 0

/-- The call `btb.size()`. -/
def BTBPredictor.size (b : BTBPredictor) : Nat := b.btb.length

/-- The call `btb.erase(rip)`. -/
def btb_erase (l : List (Nat × Nat)) (rip : Nat) : List (Nat × Nat) :=
  l.filter (fun e => e.1 ≠ rip)

/-- The call `btb.insert_or_assign(rip, target)`. -/
def btb_insert_or_assign (l : List (Nat × Nat)) (rip target : Nat) : List (Nat × Nat) :=
  (rip, target) :: btb_erase l rip

/-- The function `BTBPredictor::predict`. -/
def BTBPredictor.predict (b : BTBPredictor) (rip seq target : Nat) : Nat :=
  if b.count rip = 0 then
    (if rip < target then seq else target) -- backward taken, forward not taken
  else
    match b.btb.lookup rip with
    | some t => t
    | none => 0

/-- The function `BTBPredictor::update`. -/
def BTBPredictor.update (b : BTBPredictor) (rip target taken : Nat) : BTBPredictor :=
  if taken ≠ 0 ∧ b.size < BTB_SIZE then ⟨btb_insert_or_assign b.btb rip target⟩
  else if ¬ taken ≠ 0 ∧ b.count rip ≠ 0 then ⟨btb_erase b.btb rip⟩
  else b

/-- A predictor after a sequence of calls `update(rip, target, taken)`. -/
def BTBPredictor.updates (b : BTBPredictor) (us : List (Nat × Nat × Nat)) : BTBPredictor :=
  us.foldl (fun s u => s.update u.1 u.2.1 u.2.2) b

/-- Entries for the branches at 0, 1, .., 4095, each with target 7. -/
def ex_btb_entries : List (Nat × Nat) := (List.range BTB_SIZE).map (fun k => (k, 7))

/-- A full buffer. -/
def ex_btb_full : BTBPredictor := ⟨ex_btb_entries⟩

/-! ## Temporary registers of the x64 frontend (`frontend/x64.cc`) -/

def regs_gp : Nat := 0
def regs_fp : Nat := 1
def regs_vr : Nat := 2
def reg64_t0 : Nat := 18
def reg64_tmax : Nat := 33
def reg64_tmm0 : Nat := 16
def reg64_tmmmax : Nat := 31

/-- The members `cur_tmp_gp` and `cur_tmp_vr` (both `u8`) of `class x64Frontend`. -/
structure TmpRegs where
  cur_tmp_gp : Nat
  cur_tmp_vr : Nat
deriving DecidableEq, Repr

/-- The values the constructor of `x64Frontend` (and its flush) gives them. -/
def TmpRegs.init : TmpRegs := ⟨reg64_t0 - 1, reg64_tmm0 - 1⟩

/-- Conversion of an `int` to `u8`. -/
def toU8 (x : Int) : Nat := (x % 256).toNat

/-- The function `x64Frontend::get_tmpreg`: the register returned and the members
afterwards. The operands are promoted to `int`; `%` truncates towards zero and binds
tighter than `-`. -/
def get_tmpreg (s : TmpRegs) (regcls : Nat) : Nat × TmpRegs :=
  if regcls = regs_vr then
    let v := toU8 ((reg64_tmm0 : Int) +
      (Int.tmod ((s.cur_tmp_vr : Int) - reg64_tmm0 + 1) reg64_tmmmax - reg64_tmm0 + 1))
    (v, { s with cur_tmp_vr := v })
  else
    let v := toU8 ((reg64_t0 : Int) +
      Int.tmod ((s.cur_tmp_gp : Int) - reg64_t0 + 1) ((reg64_tmax : Int) - reg64_t0 + 1))
    (v, { s with cur_tmp_gp := v })

/-- The registers returned by `n` successive calls `get_tmpreg(regcls)`. -/
def tmpregs (regcls : Nat) : Nat → TmpRegs → List Nat
  | 0, _ => []
  | n + 1, s => (get_tmpreg s regcls).1 :: tmpregs regcls n (get_tmpreg s regcls).2

/-! ## Mapping frames and pages (`mem.cc`, lines 82-220) -/

/-- The call `map.insert({k, v})` of `std::map`: the map afterwards and the element its
iterator points to. A key that is present keeps its element. -/
def map_insert {α : Type} (mp : Nat → Option α) (k : Nat) (v : α) : (Nat → Option α) × α :=
  match mp k with
  | some w => (mp, w)
  | none => (Function.update mp k (some v), v)

/-- The function `MemoryManager::map_frame`: the memory manager after the call, and the
frame returned or the exception thrown. `alloc` tells whether `aligned_alloc` returned
memory. -/
def map_frame (m : MemoryManager) (alloc : Bool) (paddr : Nat) (pl : Int) (rwx : Nat) :
    MemoryManager × Except MemError PageFrame :=
  -- check if address is valid or already mapped
  if paddr > PADDR_LIMIT ∨ paddr % PAGE_SIZE ≠ 0 then (m, .error .invalid_pageaddr)
  else if (m.mem paddr).isSome then (m, .error .page_already_mapped)
  else if alloc = false then (m, .error .allocation_failed)
  else
    let frame : PageFrame := ⟨fun _ => 0, PAGE_SIZE, pl, rwx, 0⟩
    let ret := map_insert m.mem paddr frame
    ({ m with mem := ret.1 }, .ok ret.2)

/-- The function `MemoryManager::map_page`: the memory manager after the call, and the
entry returned or the exception thrown. -/
def map_page (m : MemoryManager) (vaddr paddr present : Nat) (pl : Int) (rwx : Nat) :
    MemoryManager × Except MemError PageTableEntry :=
  if vaddr > VADDR_LIMIT ∨ vaddr % PAGE_SIZE ≠ 0 then (m, .error .invalid_pageaddr)
  else if (m.pagetable vaddr).isSome then (m, .error .page_already_mapped)
  else
    let pte : PageTableEntry := ⟨paddr, present, pl, rwx⟩
    let ret := map_insert m.pagetable vaddr pte
    ({ m with pagetable := ret.1 }, .ok ret.2)

/-- The loop `for(;len >= PAGE_SIZE; (len -= PAGE_SIZE))` of `mmap_frames` on `len`,
`cur_paddr`, `cur_eaddr`, the frame map and `mapped`. `ext` holds the bytes of the
external memory, `cur_eaddr` counts from `extaddr`, and `mapped` lists each frame pointed
to with its address. The first argument bounds the number of rounds. -/
def mmap_loop (ext : Nat → Nat) (pl : Int) (rwx : Nat) :
    Nat → Nat → Nat → Nat → (Nat → Option PageFrame) → List (PageFrame × Nat) →
      Nat × Nat × Nat × (Nat → Option PageFrame) × List (PageFrame × Nat)
  | 0, len, cur_paddr, cur_eaddr, mem, mapped => (len, cur_paddr, cur_eaddr, mem, mapped)
  | fuel + 1, len, cur_paddr, cur_eaddr, mem, mapped =>
    if len ≥ PAGE_SIZE then
      let frame : PageFrame := ⟨fun j => ext (cur_eaddr + j), PAGE_SIZE, pl, rwx, 1⟩
      let ins := map_insert mem cur_paddr frame
      mmap_loop ext pl rwx fuel (sub64 len PAGE_SIZE) (add64 cur_paddr PAGE_SIZE)
        (cur_eaddr + PAGE_SIZE) ins.1 (mapped ++ [(ins.2, cur_paddr)])
    else (len, cur_paddr, cur_eaddr, mem, mapped)

/-- The function `MemoryManager::mmap_frames`: the memory manager afterwards and the
vector returned. Every round of the loop takes `PAGE_SIZE` off `len`, so `len` rounds
are enough. -/
def mmap_frames (m : MemoryManager) (paddr : Nat) (ext : Nat → Nat) (len : Nat) (pl : Int)
    (rwx : Nat) : Except MemError (MemoryManager × List (PageFrame × Nat)) :=
  if paddr > PADDR_LIMIT ∨ paddr % PAGE_SIZE ≠ 0 then .error .invalid_pageaddr
  else if (m.mem paddr).isSome then .error .page_already_mapped
  else
    match mmap_loop ext pl rwx len len paddr 0 m.mem [] with
    | (len1, cur_paddr, cur_eaddr, mem1, mapped) =>
      -- special case: last frame is smaller than frame size
      if len1 ≠ 0 ∧ len1 < PAGE_SIZE then
        let frame : PageFrame := ⟨fun j => ext (cur_eaddr + j), len1, pl, rwx, 1⟩
        let ins := map_insert mem1 cur_paddr frame
        .ok ({ m with mem := ins.1 }, mapped ++ [(ins.2, cur_paddr)])
      else .ok ({ m with mem := mem1 }, mapped)

/-- A memory manager without pages and frames, at ring 3. -/
def ex_mem_none : MemoryManager :=
  { pagetable := fun _ => none, mem := fun _ => none, ring := 3 }

/-- External memory whose byte `i` is `i mod 251`. -/
def ex_ext (i : Nat) : Nat := i % 251

/-- The address, `bytes_used` and `ext` of the frames a call of `mmap_frames` returns. -/
def frames_seen (r : Except MemError (MemoryManager × List (PageFrame × Nat))) :
    Option (List (List Nat)) :=
  r.toOption.map (fun x => x.2.map (fun fa => [fa.2, fa.1.bytes_used, fa.1.ext]))

/-- A frame onto the external memory `ext` from offset `ce` on, with `used` bytes in use,
as `mmap_frames` builds it. -/
def ext_frame (ext : Nat → Nat) (pl : Int) (rwx : Nat) (ce used : Nat) : PageFrame :=
  ⟨fun j => ext (ce + j), used, pl, rwx, 1⟩

/-! ## Requests and buffers of the memory manager (`mem.cc`, lines 29-67 and 222-384) -/

def MM_ST_LATENCY : Nat := 0
def expf_present : Nat := 0x01
def expf_write : Nat := 0x02
def expf_user : Nat := 0x04
def expf_ifetch : Nat := 0x10

/-- The struct `MM::MemoryRef`; `data` is the number of the host buffer it points to. -/
structure MM.MemoryRef where
  data : Nat
  size : Nat
  vaddr : Nat
  mode : Nat
  ready : Nat
deriving DecidableEq, Repr

/-- The struct `MM::MemoryRequest`; `mref` and `exception` are the numbers of the memory
reference and of the exception word they point to. -/
structure MM.MemoryRequest where
  mref : Nat
  exception : Nat
  cycle : Nat
deriving DecidableEq, Repr

/-- The struct `MM::StoreRequest`. -/
structure MM.StoreRequest where
  mref : MM.MemoryRef
  cycle : Nat
deriving DecidableEq, Repr

/-- The memory manager with its buffers `ldbuf` and `stbuf`, `state.cycle`, and the host
objects its requests point to: memory references, exception words (`u32`) and data
buffers, each addressed by a number. -/
structure MemSystem where
  mm : MemoryManager
  ldbuf : List MM.MemoryRequest
  stbuf : List MM.StoreRequest
  cycle : Nat
  mrefs : Nat → MM.MemoryRef
  words : Nat → Nat
  bufs : Nat → Nat → Nat

/-- The macro `pageCeil(x)`. -/
def pageCeil (x : Nat) : Nat := pageFloor (add64 x PAGE_SIZE)

/-- The macro `pageCnt(x)`: `pageCeil((x) - 1) / PAGE_SIZE`. -/
def pageCnt (x : Nat) : Nat := pageCeil (sub64 x 1) / PAGE_SIZE

/-- The loop `for(u64 i = 0; i < pageCnt(lenA); i += PAGE_SIZE)` of `is_alias` with its
handlers: a page missing from the page table ends the search with 0. The first argument
bounds the number of rounds. -/
def is_alias_loop (m : MemoryManager) (vaddrA lenA vaddrB lenB : Nat) : Nat → Nat → Nat
  | 0, _ => 0
  | fuel + 1, i =>
    if i < pageCnt lenA then
      match m.pagetable (pageFloor (add64 vaddrA i)) with
      | none => 0 -- not mapped -> no alias
      | some pa =>
        let paddr1 := add64 pa.frameno (pageOffs vaddrA)
        match m.pagetable (pageFloor (add64 vaddrB i)) with
        | none => 0 -- not mapped -> no alias
        | some pb =>
          let paddr2 := add64 pb.frameno (pageOffs vaddrB)
          let paddrA := if paddr1 ≤ paddr2 then paddr1 else paddr2 -- A is smaller phys address
          let paddrB := if paddr1 ≤ paddr2 then paddr2 else paddr1
          let len := if paddr1 ≤ paddr2 then lenA else lenB -- len associated with A
          -- not on same pageframe
          if pageFloor paddrA ≠ pageFloor paddrB then
            is_alias_loop m vaddrA lenA vaddrB lenB fuel (add64 i PAGE_SIZE)
          else if add64 paddrA len > paddrB then 1 else 0
    else 0

/-- The function `MemoryManager::is_alias`. Every round of its loop adds `PAGE_SIZE` to
`i`, so `pageCnt(lenA) + 1` rounds are enough. -/
def is_alias (m : MemoryManager) (vaddr1 len1 vaddr2 len2 : Nat) : Nat :=
  let vaddrA := if vaddr1 ≤ vaddr2 then vaddr1 else vaddr2 -- A is smaller address
  let vaddrB := if vaddr1 ≤ vaddr2 then vaddr2 else vaddr1
  let lenA := if vaddr1 ≤ vaddr2 then len1 else len2
  let lenB := if vaddr1 ≤ vaddr2 then len2 else len1
  -- on same page? check this first due to locality
  if pageFloor vaddrA = pageFloor vaddrB then
    (if add64 vaddrA lenA > vaddrB then 1 else 0)
  else is_alias_loop m vaddrA lenA vaddrB lenB (pageCnt lenA + 1) 0

/-- The function `MemoryManager::is_busy` on the store buffer `stbuf`. -/
def is_busy (m : MemoryManager) (stbuf : List MM.StoreRequest) (vaddr len : Nat) : Nat :=
  if stbuf.any (fun streq => is_alias m vaddr len streq.mref.vaddr streq.mref.size ≠ 0)
  then 1 else 0

/-- The call `pagetable.at(p)`. -/
def pte_at (m : MemoryManager) (p : Nat) : Except MemError PageTableEntry :=
  match m.pagetable p with
  | some e => .ok e
  | none => .error .out_of_range

/-- The function `MemoryManager::bad_rwx`. -/
def bad_rwx (m : MemoryManager) (vaddr len rwx : Nat) : Except MemError Nat :=
  match pte_at m (pageFloor vaddr) with
  | .error e => .error e
  | .ok a =>
    if rwx &&& a.rwx ≠ 0 then
      match pte_at m (pageFloor (sub64 (add64 vaddr len) 1)) with
      | .error e => .error e
      | .ok b => if rwx &&& b.rwx ≠ 0 then .ok 0 else .ok 1
    else .ok 1

/-- The function `MemoryManager::bad_pl`. -/
def bad_pl (m : MemoryManager) (vaddr len : Nat) : Except MemError Nat :=
  match pte_at m (pageFloor vaddr) with
  | .error e => .error e
  | .ok a =>
    if m.ring ≤ a.pl then
      match pte_at m (pageFloor (sub64 (add64 vaddr len) 1)) with
      | .error e => .error e
      | .ok b => if m.ring ≤ b.pl then .ok 0 else .ok 1
    else .ok 1

/-- The local `present` of `get` and `put`. -/
def pages_present (m : MemoryManager) (vaddr size : Nat) : Nat :=
  if (m.pagetable (pageFloor vaddr)).isSome ∧
      (m.pagetable (pageFloor (sub64 (add64 vaddr size) 1))).isSome then 1 else 0

/-- The condition `!present || bad_pl(..) || bad_rwx(.., rwx)` of `get` and `put`. -/
def request_faults (m : MemoryManager) (vaddr size rwx : Nat) : Except MemError Bool :=
  if pages_present m vaddr size = 0 then .ok true
  else
    match bad_pl m vaddr size with
    | .error e => .error e
    | .ok p =>
      if p ≠ 0 then .ok true
      else
        match bad_rwx m vaddr size rwx with
        | .error e => .error e
        | .ok r => .ok (decide (r ≠ 0))

/-- The function `MemoryManager::get(req, rx)`: the value returned, the request (it is
passed by reference) and the memory system afterwards. `p_x` is the access bit `MM::p_x`
(declared in `mem.tt`, which is not among the sources). -/
def get (p_x : Nat) (u : MemSystem) (req : MM.MemoryRequest) (rx : Nat) :
    Except MemError (Nat × MM.MemoryRequest × MemSystem) :=
  let r := u.mrefs req.mref
  let present := pages_present u.mm r.vaddr r.size
  match request_faults u.mm r.vaddr r.size rx with
  | .error e => .error e
  | .ok true =>
    let ex := setExcept ex_PF
      (present ||| (if rx = p_x then expf_ifetch else 0) |||
        (if u.mm.ring = (pl_user : Int) then expf_user else 0))
    .ok (1, req, { u with
      words := Function.update u.words req.exception ex
      mrefs := Function.update u.mrefs req.mref { r with ready := mr_valready } })
  | .ok false =>
    -- no dependency check needed! core load/store check will handle this
    let req1 := { req with cycle := add64 u.cycle MM_LD_LATENCY }
    .ok (0, req1, { u with
      mrefs := Function.update u.mrefs req.mref { r with ready := mr_inexec }
      ldbuf := u.ldbuf ++ [req1] })

/-- The function `MemoryManager::put(req)`. `p_w` is the access bit `MM::p_w`; `alloc` is
what `aligned_alloc` returns: the number of a buffer, or nothing. -/
def put (p_w : Nat) (alloc : Option Nat) (u : MemSystem) (req : MM.MemoryRequest) :
    Except MemError (Nat × MM.MemoryRequest × MemSystem) :=
  let r := u.mrefs req.mref
  let present := pages_present u.mm r.vaddr r.size
  match request_faults u.mm r.vaddr r.size p_w with
  | .error e => .error e
  | .ok true =>
    let ex := setExcept ex_PF
      (present ||| expf_write ||| (if u.mm.ring = (pl_user : Int) then expf_user else 0))
    .ok (1, req, { u with
      words := Function.update u.words req.exception ex
      mrefs := Function.update u.mrefs req.mref { r with ready := mr_valready } })
  | .ok false =>
    -- this request is not allowed to throw or fault in any way
    let req1 := { req with cycle := add64 u.cycle MM_ST_LATENCY }
    match alloc with
    | none => .error .allocation_failed
    | some localbuf =>
      let r1 := { r with data := localbuf }
      .ok (0, req1, { u with
        bufs := Function.update u.bufs localbuf
          (fun j => if j < r.size then u.bufs r.data j else u.bufs localbuf j)
        mrefs := Function.update u.mrefs req.mref r1
        stbuf := u.stbuf ++ [⟨r1, req1.cycle⟩] })

/-- The loop over `stbuf` of `refresh` (lines 39-46): the stores left in the buffer and
memory afterwards. The iterator of the range-for is taken to step to the new front after
`pop_front`, as the deque's increment does; `free` leaves the model's buffers alone. -/
def refresh_stores (p_w cycle : Nat) (bufs : Nat → Nat → Nat) :
    List MM.StoreRequest → MemoryManager → Except MemError (List MM.StoreRequest × MemoryManager)
  | [], m => .ok ([], m)
  | mr :: rest, m =>
    if cycle < mr.cycle then .ok (mr :: rest, m) -- stores always in order
    else
      match write m p_w mr.mref.vaddr (bufs mr.mref.data) mr.mref.size with
      | .error e => .error e
      | .ok m1 => refresh_stores p_w cycle bufs rest m1

/-- The loop over `ldbuf` of `refresh` (lines 49-64), with `MM_LOAD_REORDER` defined: the
loads left in the buffer, the memory references and the data buffers afterwards. -/
def refresh_loads (p_r : Nat) (m : MemoryManager) (stbuf : List MM.StoreRequest) (cycle : Nat) :
    List MM.MemoryRequest → (Nat → MM.MemoryRef) → (Nat → Nat → Nat) →
      Except MemError (List MM.MemoryRequest × (Nat → MM.MemoryRef) × (Nat → Nat → Nat))
  | [], mrefs, bufs => .ok ([], mrefs, bufs)
  | mr :: rest, mrefs, bufs =>
    let r := mrefs mr.mref
    if cycle < mr.cycle ∨ is_busy m stbuf r.vaddr r.size ≠ 0 then
      -- proceed with succeeding loads
      match refresh_loads p_r m stbuf cycle rest mrefs bufs with
      | .error e => .error e
      | .ok (kept, mrefs1, bufs1) => .ok (mr :: kept, mrefs1, bufs1)
    else
      match read m r.vaddr (bufs r.data) r.size p_r with
      | .error e => .error e
      | .ok (_, _, data1) =>
        refresh_loads p_r m stbuf cycle rest
          (Function.update mrefs mr.mref { r with ready := mr_valready })
          (Function.update bufs r.data data1)

/-- The function `MemoryManager::refresh`. `p_r` and `p_w` are the access bits `MM::p_r`
and `MM::p_w`. -/
def refresh (p_r p_w : Nat) (u : MemSystem) : Except MemError MemSystem :=
  match refresh_stores p_w u.cycle u.bufs u.stbuf u.mm with
  | .error e => .error e
  | .ok (stbuf1, mm1) =>
    match refresh_loads p_r mm1 stbuf1 u.cycle u.ldbuf u.mrefs u.bufs with
    | .error e => .error e
    | .ok (ldbuf1, mrefs1, bufs1) =>
      .ok { u with mm := mm1, stbuf := stbuf1, ldbuf := ldbuf1, mrefs := mrefs1, bufs := bufs1 }

/-- The byte ranges `[a, a + la)` and `[b, b + lb)` have a byte in common. -/
def ranges_intersect (a la b lb : Nat) : Bool := decide (max a b < min (a + la) (b + lb))

/-- A pending store of 8 bytes at 0x9000, due at cycle `c`, with its data in buffer 1. -/
def ex_store (c : Nat) : MM.StoreRequest := ⟨⟨1, 8, 0x9000, mr_write, mr_exready⟩, c⟩

/-- The first or the last page of a request is unmapped, or the ring is above the
protection level of one of them, or one of them admits no access with the bits `rwx`. -/
def page_fault (first last : Option PageTableEntry) (ring : Int) (rwx : Nat) : Bool :=
  match first, last with
  | some a, some b =>
    decide (ring > a.pl ∨ ring > b.pl ∨ rwx &&& a.rwx = 0 ∨ rwx &&& b.rwx = 0)
  | _, _ => true

/-- The address `vaddr + size - 1` of the last byte of a request (64-bit). -/
def last_byte (vaddr size : Nat) : Nat := sub64 (add64 vaddr size) 1

/-- A memory system on `ex_mem_two` at cycle 5 with empty buffers; every memory reference
asks for 16 bytes at 0x8ff8 from buffer 0, whose byte `j` is `j + 1`. -/
def ex_sys : MemSystem :=
  { mm := ex_mem_two, ldbuf := [], stbuf := [], cycle := 5
    mrefs := fun _ => ⟨0, 16, 0x8ff8, mr_read, mr_exready⟩
    words := fun _ => 0
    bufs := fun b j => if b = 0 then j + 1 else 0 }

/-- The request with memory reference 0 and exception word 0. -/
def ex_req : MM.MemoryRequest := ⟨0, 0, 0⟩

/-- The stores of a list written to memory one after the other, each from its data
buffer. -/
def write_stores (p_w : Nat) (bufs : Nat → Nat → Nat) :
    List MM.StoreRequest → MemoryManager → Except MemError MemoryManager
  | [], m => .ok m
  | s :: rest, m =>
    match write m p_w s.mref.vaddr (bufs s.mref.data) s.mref.size with
    | .error e => .error e
    | .ok m1 => write_stores p_w bufs rest m1

/-- A pending load is due: its cycle has come and `is_busy` reports no pending store for
its range. -/
def load_due (m : MemoryManager) (stbuf : List MM.StoreRequest) (cycle : Nat)
    (mrefs : Nat → MM.MemoryRef) (mr : MM.MemoryRequest) : Bool :=
  decide (mr.cycle ≤ cycle ∧ is_busy m stbuf (mrefs mr.mref).vaddr (mrefs mr.mref).size = 0)

/-- The loads of a list executed one after the other: each is read into its data buffer
and its memory reference is marked `mr_valready`. -/
def exec_loads (p_r : Nat) (m : MemoryManager) :
    List MM.MemoryRequest → (Nat → MM.MemoryRef) → (Nat → Nat → Nat) →
      Except MemError ((Nat → MM.MemoryRef) × (Nat → Nat → Nat))
  | [], mrefs, bufs => .ok (mrefs, bufs)
  | mr :: rest, mrefs, bufs =>
    match read m (mrefs mr.mref).vaddr (bufs (mrefs mr.mref).data) (mrefs mr.mref).size p_r with
    | .error e => .error e
    | .ok (_, _, data1) =>
      exec_loads p_r m rest
        (Function.update mrefs mr.mref { mrefs mr.mref with ready := mr_valready })
        (Function.update bufs (mrefs mr.mref).data data1)

/-- The memory system `ex_sys` with two stores pending, due at cycles 3 and 9, and three
loads pending, due at cycles 4, 7 and 5. -/
def ex_sys_pending : MemSystem :=
  { ex_sys with
    stbuf := [ex_store 3, ex_store 9]
    ldbuf := [⟨0, 0, 4⟩, ⟨1, 1, 7⟩, ⟨2, 2, 5⟩] }

/-- The memory system after `refresh` on `ex_sys_pending`. -/
def ex_sys_refreshed : MemSystem :=
  match refresh 1 2 ex_sys_pending with
  | .ok u => u
  | .error _ => ex_sys_pending

/-! ## ModR/M and SIB fields (`frontend/x64.hh`) -/

/-- The function `modrm::get_rm`. -/
def modrm_get_rm (byte : Nat) : Nat := (byte &&& 0x07) >>> 0

/-- The function `modrm::get_reg`. -/
def modrm_get_reg (byte : Nat) : Nat := (byte &&& 0x38) >>> 3

/-- The function `modrm::get_mod`. -/
def modrm_get_mod (byte : Nat) : Nat := (byte &&& 0xc0) >>> 6

/-- The function `sib::get_b`. -/
def sib_get_b (byte : Nat) : Nat := (byte &&& 0x07) >>> 0

/-- The function `sib::get_i`. -/
def sib_get_i (byte : Nat) : Nat := (byte &&& 0x38) >>> 3

/-- The function `sib::get_s`. -/
def sib_get_s (byte : Nat) : Nat := (byte &&& 0xc0) >>> 6

/-- The function `use_sib(modrm)`: sib is needed when mod =/= 11b and r/m = 100b. -/
def use_sib (modrm : Nat) : Nat :=
  if modrm_get_mod modrm ≠ 0b11 ∧ modrm_get_rm modrm = 0b100 then 1 else 0

/-- The function `get_displsz(modrm, sib)`: displacement size in bytes. -/
def get_displsz (modrm sib : Nat) : Nat :=
  if use_sib modrm ≠ 0 ∧ sib_get_b sib = 0b101 then
    (if modrm_get_mod modrm = 0b00 ∨ modrm_get_mod modrm = 0b10 then 4
     else if modrm_get_mod modrm = 0b01 then 1
     else 0)
  else
    (if modrm_get_mod modrm = 0b00 then (if modrm_get_rm modrm = 0b101 then 4 else 0)
     else if modrm_get_mod modrm = 0b01 then 1
     else if modrm_get_mod modrm = 0b10 then 4
     else 0)

/-! ## Canonical addresses (`mem.hh`) -/

def ADDR_SIZE : Nat := 64
def ADDR_BITS : Nat := 48

/-- The macro `bits_set(x)`, `__builtin_popcountll(x)`: the number of bits set in a
64-bit word. -/
def bits_set (x : Nat) : Nat := (List.range 64).countP (fun i => x.testBit i)

/-- The function `MM::is_canonical(vaddr)`. -/
def is_canonical (vaddr : Nat) : Nat :=
  if (vaddr >>> (ADDR_BITS - 1)) &&& 0b1 ≠ 0 then -- "negative address"
    (if bits_set (vaddr >>> ADDR_BITS) = ADDR_SIZE - ADDR_BITS then 1 else 0)
  else -- "positive address"
    (if bits_set (vaddr >>> ADDR_BITS) = 0 then 1 else 0)

/-! ## Condition codes (`core/uops.hh`) -/

def cc_CF : Nat := 0x0001
def cc_PF : Nat := 0x0004
def cc_AF : Nat := 0x0010
def cc_ZF : Nat := 0x0040
def cc_SF : Nat := 0x0080
def cc_OF : Nat := 0x0800

def scc_O : Nat := 0
def scc_NO : Nat := 1
def scc_B : Nat := 2
def scc_NB : Nat := 3
def scc_E : Nat := 4
def scc_NE : Nat := 5
def scc_BE : Nat := 6
def scc_NBE : Nat := 7
def scc_S : Nat := 8
def scc_NS : Nat := 9
def scc_P : Nat := 10
def scc_NP : Nat := 11
def scc_L : Nat := 12
def scc_NL : Nat := 13
def scc_LE : Nat := 14
def scc_NLE : Nat := 15

/-- The function `test_cc(subcode, ccreg)`. -/
def test_cc (subcode ccreg : Nat) : Bool :=
  if subcode = scc_O then decide (ccreg &&& cc_OF ≠ 0)
  else if subcode = scc_NO then decide (ccreg &&& cc_OF = 0)
  else if subcode = scc_B then decide (ccreg &&& cc_CF ≠ 0)
  else if subcode = scc_NB then decide (ccreg &&& cc_CF = 0)
  else if subcode = scc_E then decide (ccreg &&& cc_ZF ≠ 0)
  else if subcode = scc_NE then decide (ccreg &&& cc_ZF = 0)
  else if subcode = scc_BE then decide (ccreg &&& (cc_CF ||| cc_ZF) ≠ 0)
  else if subcode = scc_NBE then decide (ccreg &&& (cc_CF ||| cc_ZF) = 0)
  else if subcode = scc_S then decide (ccreg &&& cc_SF ≠ 0)
  else if subcode = scc_NS then decide (ccreg &&& cc_SF = 0)
  else if subcode = scc_P then decide (ccreg &&& cc_PF ≠ 0)
  else if subcode = scc_NP then decide (ccreg &&& cc_PF = 0)
  else if subcode = scc_L then decide (ccreg &&& (cc_SF ^^^ cc_OF) ≠ 0)
  else if subcode = scc_NL then decide (ccreg &&& (cc_SF ^^^ cc_OF) = 0)
  else if subcode = scc_LE then decide (ccreg &&& ((cc_SF ^^^ cc_OF) ||| cc_ZF) ≠ 0)
  else if subcode = scc_NLE then decide (ccreg &&& ((cc_SF ^^^ cc_OF) ||| cc_ZF) = 0)
  else false

/-- A flag of the flags word is set. -/
def flag_set (ccreg flag : Nat) : Bool := decide (ccreg &&& flag ≠ 0)

/-! ## Sign extension (`util.hh`) -/

/-- The macro `bitmask(n)`: `(~(((~0ull) << ((n)-1)) << 1))`. -/
def bitmask (n : Nat) : Nat :=
  (2 ^ 64 - 1) ^^^ (((((2 ^ 64 - 1) <<< (n - 1)) % 2 ^ 64) <<< 1) % 2 ^ 64)

/-- The cast `(i64)` of a 64-bit word. -/
def toI64 (x : Nat) : Int := if x < 2 ^ 63 then (x : Int) else (x : Int) - 2 ^ 64

/-- Conversion of an `i64` to `u64`. -/
def toU64 (x : Int) : Nat := (x % 2 ^ 64).toNat

/-- The macro `sx(x, f, t)`:
`(((i64)((x) << (8-f)*8) >> (8-f)*8) & bitmask(t*8))` on a 64-bit `x`; the right shift of
the signed value is arithmetic. -/
def sx (x f t : Nat) : Nat :=
  toU64 (toI64 ((x <<< ((8 - f) * 8)) % 2 ^ 64) / 2 ^ ((8 - f) * 8)) &&& bitmask (t * 8)

/-- The two's-complement value of the low `f` bytes of `x`. -/
def sign_extend (x f : Nat) : Int :=
  if x % 2 ^ (8 * f) < 2 ^ (8 * f - 1) then ((x % 2 ^ (8 * f) : Nat) : Int)
  else ((x % 2 ^ (8 * f) : Nat) : Int) - 2 ^ (8 * f)

/-- An integer truncated to `t` bytes: its value modulo `2^(8t)`. -/
def truncate_to (v : Int) (t : Nat) : Nat := (v % 2 ^ (8 * t)).toNat

/-! ## Issue ports of the uop table -/

/-- A port of the mask `ports` hosts a functional unit of type `fu_type`, or the type is
`fu_any`. -/
def issuable (rs : List RSPort) (ports fu_type : Nat) : Bool :=
  decide (fu_type = fu_any) ||
    (get_rsports rs ports).any (fun p => p.2.fus.any (fun f => decide (f.type = fu_type)))

/-- The FU types of the float and vector pipelines. -/
def float_vector_fus : List Nat := [fu_fpu, fu_vec, fu_ldf, fu_stf, fu_ldv, fu_stv]

/-! ## Filling and draining a latch queue -/

/-- A sequence of `push_back(cycle, e)` calls, stopping at the first failure. -/
def LatchQueue.push_all {T : Type} (q : LatchQueue T) :
    List (Nat × T) → Except LatchError (LatchQueue T)
  | [] => .ok q
  | p :: r =>
    match q.push_back p.1 p.2 with
    | .ok q1 => LatchQueue.push_all q1 r
    | .error x => .error x

/-- The consumer loop of a pipeline stage, `n` rounds of `front(now)` followed by
`pop_front()`: the elements read, in the order read, and the queue left behind. -/
def LatchQueue.drain {T : Type} (now : Nat) :
    Nat → LatchQueue T → Except LatchError (List T × LatchQueue T)
  | 0, q => .ok ([], q)
  | n + 1, q =>
    match q.front now with
    | .error x => .error x
    | .ok x =>
      match q.pop_front with
      | .error y => .error y
      | .ok q1 =>
        match LatchQueue.drain now n q1 with
        | .error z => .error z
        | .ok r => .ok (x :: r.1, r.2)

/-- A latch queue of capacity 4 holding one entry that is ready at cycle 3. -/
def ex_latch : LatchQueue Nat := ⟨4, [⟨3, 10⟩]⟩

/-! ## Hex strings (`util.cc`) -/

/-- The call `str.find(c, pos)` for a one-character pattern: the first position at or
after `pos` that holds `c`; `none` is `std::string::npos`. -/
def str_find (s : List Char) (c : Char) (pos : Nat) : Option Nat :=
  if (s.drop pos).indexOf c < (s.drop pos).length then some (pos + (s.drop pos).indexOf c)
  else none

/-- The call `str.erase(pos, n)`. -/
def str_erase (s : List Char) (pos n : Nat) : List Char := s.take pos ++ s.drop (pos + n)

/-- The comment loop of `util::str2vec`: while the string holds a `#` and a newline at
or after it, the text from the `#` to that newline is erased; one round per unit of
fuel. -/
def remove_comments : Nat → List Char → List Char
  | 0, s => s
  | fuel + 1, s =>
    match str_find s '#' 0 with
    | none => s
    | some a =>
      match str_find s '\n' a with
      | none => s
      | some b => remove_comments fuel (str_erase s a (b - a + 1))

/-- The string of `util::str2vec` after its comment loop and the two `std::remove`
calls, which drop the space and the newline characters. -/
def stripped (str : List Char) : List Char :=
  ((remove_comments (str.length + 1) str).filter (fun c => c != ' ')).filter
    (fun c => c != '\n')

/-- The character set of `find_first_not_of("0123456789abcdefABCDEF")`. -/
def hex_chars : List Char := "0123456789abcdefABCDEF".toList

/-- The value `strtoul` gives a digit of base 16. -/
def hex_val (c : Char) : Nat :=
  if 48 ≤ c.toNat ∧ c.toNat ≤ 57 then c.toNat - 48
  else if 97 ≤ c.toNat ∧ c.toNat ≤ 102 then c.toNat - 87
  else if 65 ≤ c.toNat ∧ c.toNat ≤ 70 then c.toNat - 55
  else 0

/-- The conversion loop of `util::str2vec`: `(u8) strtoul(str.substr(i, 2), NULL, 16)`
for `i = 0, 2, 4, ...` on a string of even length made of hex digits. -/
def parse_bytes : List Char → List Nat
  | c1 :: c2 :: r => ((hex_val c1 * 16 + hex_val c2) % 256) :: parse_bytes r
  | _ => []

/-- The function `util::str2vec`. -/
def str2vec (str : List Char) : List Nat :=
  if (stripped str).length % 2 ≠ 0 ∨ (stripped str).any (fun c => !hex_chars.contains c)
  then []
  else parse_bytes (stripped str)

/-- The pieces of a hex rendering: a byte written as two hex digits, each in upper or
lower case, a space, a newline, or a comment `#...` closed by a newline. -/
inductive HexItem where
  | byte (b : Nat) (upper_hi upper_lo : Bool)
  | space
  | newline
  | comment (body : List Char)
deriving DecidableEq, Repr

/-- The hex digit of `n < 16`, in upper or lower case. -/
def hex_digit (n : Nat) (upper : Bool) : Char :=
  if upper then "0123456789ABCDEF".toList.getD n '0'
  else "0123456789abcdef".toList.getD n '0'

/-- The text of one piece. -/
def HexItem.render : HexItem → List Char
  | .byte b u1 u2 => [hex_digit (b / 16) u1, hex_digit (b % 16) u2]
  | .space => [' ']
  | .newline => ['\n']
  | .comment body => '#' :: (body ++ ['\n'])

/-- The text of a rendering. -/
def render (items : List HexItem) : List Char := items.flatMap HexItem.render

/-- The bytes a rendering stands for. -/
def rendered_bytes : List HexItem → List Nat
  | [] => []
  | .byte b _ _ :: r => b :: rendered_bytes r
  | _ :: r => rendered_bytes r

/-- A rendering is well formed: every byte is below 256 and no comment body holds a
newline (the newline that follows the body closes the comment). -/
def HexItem.valid : HexItem → Bool
  | .byte b _ _ => decide (b < 256)
  | .comment body => !body.contains '\n'
  | _ => true

/-- The rendering `A8 # first` newline `ef`. -/
def ex_hex : List HexItem :=
  [.byte 0xa8 true false, .space, .comment [' ', 'f', 'i', 'r', 's', 't'], .byte 0xef false false,
   .newline]

def HexItem.is_comment : HexItem → Bool
  | .comment _ => true
  | _ => false

/-- The hex digits of a rendering, without spaces, newlines and comments. -/
def hex_digits : List HexItem → List Char
  | [] => []
  | .byte b u1 u2 :: r => hex_digit (b / 16) u1 :: hex_digit (b % 16) u2 :: hex_digits r
  | _ :: r => hex_digits r

/-! ## x64 opcode tables (`frontend/x64-tables.hh`) -/

namespace x64def

-- enum addr_modes
def A : Nat := 1
def B : Nat := 2
def C : Nat := 3
def D : Nat := 4
def E : Nat := 5
def F : Nat := 6
def G : Nat := 7
def H : Nat := 8
def I : Nat := 9
def J : Nat := 10
def L : Nat := 11
def M : Nat := 12
def N : Nat := 13
def O : Nat := 14
def P : Nat := 15
def Q : Nat := 16
def R : Nat := 17
def S : Nat := 18
def U : Nat := 19
def V : Nat := 20
def W : Nat := 21
def X : Nat := 22
def Y : Nat := 23
def Z : Nat := 24

-- enum op_types (those the tables use)
def b : Nat := 1
def c : Nat := 128
def d : Nat := 4
def q : Nat := 8
def v : Nat := 129
def w : Nat := 2
def z : Nat := 130
def e : Nat := 3
def f : Nat := 131
def g : Nat := 132

/-- The function `opgrp_1b`: one byte opcode group identifiers. -/
def opgrp_1b (byte : Nat) : Nat :=
  if byte = 0x80 ∨ byte = 0x81 ∨ byte = 0x82 ∨ byte = 0x83 then 1
  else if byte = 0x8f then 1
  else if byte = 0xc0 ∨ byte = 0xc1 ∨ byte = 0xd0 ∨ byte = 0xd1 ∨ byte = 0xd2 ∨ byte = 0xd3 then 2
  else if byte = 0xf6 ∨ byte = 0xf7 then 3
  else if byte = 0xfe then 4
  else if byte = 0xff then 5
  else if byte = 0xc6 ∨ byte = 0xc7 then 11
  else 0

/-- The function `opgrp_2b`: two byte opcode group identifiers. -/
def opgrp_2b (byte : Nat) : Nat :=
  if byte = 0x00 then 6
  else if byte = 0x01 then 7
  else if byte = 0xba then 8
  else if byte = 0xc7 then 9
  else if byte = 0xb9 then 10
  else if byte = 0x71 then 12
  else if byte = 0x72 then 13
  else if byte = 0x73 then 14
  else if byte = 0xae then 15
  else if byte = 0x18 then 16
  else 0

/-- The table `modrm_1b`: one byte opcodes that take a ModR/M byte. -/
def modrm_1b : List Nat :=
  [ 1, 1, 1, 1, 0, 0, 0, 0, 1, 1, 1, 1, 0, 0, 0, 0, 1, 1, 1, 1, 0, 0, 0, 0, 1, 1, 1, 1, 0, 0, 0, 0,
    1, 1, 1, 1, 0, 0, 0, 0, 1, 1, 1, 1, 0, 0, 0, 0, 1, 1, 1, 1, 0, 0, 0, 0, 1, 1, 1, 1, 0, 0, 0, 0,
    0, 0, 0, 0, 0, 0, 0, 0, 0, 0, 0, 0, 0, 0, 0, 0, 0, 0, 0, 0, 0, 0, 0, 0, 0, 0, 0, 0, 0, 0, 0, 0,
    0, 0, 1, 1, 0, 0, 0, 0, 0, 1, 0, 1, 0, 0, 0, 0, 0, 0, 0, 0, 0, 0, 0, 0, 0, 0, 0, 0, 0, 0, 0, 0,
    1, 1, 1, 1, 1, 1, 1, 1, 1, 1, 1, 1, 1, 1, 1, 1, 0, 0, 0, 0, 0, 0, 0, 0, 0, 0, 0, 0, 0, 0, 0, 0,
    0, 0, 0, 0, 0, 0, 0, 0, 0, 0, 0, 0, 0, 0, 0, 0, 0, 0, 0, 0, 0, 0, 0, 0, 0, 0, 0, 0, 0, 0, 0, 0,
    1, 1, 0, 0, 1, 1, 1, 1, 0, 0, 0, 0, 0, 0, 0, 0, 1, 1, 1, 1, 0, 0, 0, 0, 1, 1, 1, 1, 1, 1, 1, 1,
    0, 0, 0, 0, 0, 0, 0, 0, 0, 0, 0, 0, 0, 0, 0, 0, 0, 0, 0, 0, 0, 0, 1, 1, 0, 0, 0, 0, 0, 0, 1, 1 ]

/-- The table `modrm_2b`: two byte opcodes (escape 0f) that take a ModR/M byte. -/
def modrm_2b : List Nat :=
  [ 1, 1, 1, 1, 0, 0, 0, 0, 0, 0, 0, 0, 0, 1, 0, 0, 1, 1, 1, 1, 1, 1, 1, 1, 1, 1, 1, 1, 1, 1, 1, 1,
    1, 1, 1, 1, 0, 0, 0, 0, 1, 1, 1, 1, 1, 1, 1, 1, 0, 0, 0, 0, 0, 0, 0, 0, 0, 0, 0, 0, 0, 0, 0, 0,
    1, 1, 1, 1, 1, 1, 1, 1, 1, 1, 1, 1, 1, 1, 1, 1, 1, 1, 1, 1, 1, 1, 1, 1, 1, 1, 1, 1, 1, 1, 1, 1,
    1, 1, 1, 1, 1, 1, 1, 1, 1, 1, 1, 1, 1, 1, 1, 1, 1, 1, 1, 1, 1, 1, 1, 0, 1, 1, 0, 0, 1, 1, 1, 1,
    0, 0, 0, 0, 0, 0, 0, 0, 0, 0, 0, 0, 0, 0, 0, 0, 1, 1, 1, 1, 1, 1, 1, 1, 1, 1, 1, 1, 1, 1, 1, 1,
    0, 0, 0, 1, 1, 1, 0, 0, 0, 0, 0, 1, 1, 1, 1, 1, 1, 1, 1, 1, 1, 1, 1, 1, 1, 1, 1, 1, 1, 1, 1, 1,
    1, 1, 1, 1, 1, 1, 1, 1, 0, 0, 0, 0, 0, 0, 0, 0, 1, 1, 1, 1, 1, 1, 1, 1, 1, 1, 1, 1, 1, 1, 1, 1,
    1, 1, 1, 1, 1, 1, 1, 1, 1, 1, 1, 1, 1, 1, 1, 1, 1, 1, 1, 1, 1, 1, 1, 1, 1, 1, 1, 1, 1, 1, 1, 0 ]

/-- The table `immsz_1b`: immediate types of the one byte opcodes. -/
def immsz_1b : List Nat :=
  [ 0, 0, 0, 0, b, z, 0, 0, 0, 0, 0, 0, b, z, 0, 0, 0, 0, 0, 0, b, z, 0, 0, 0, 0, 0, 0, b, z, 0, 0,
    0, 0, 0, 0, b, z, 0, 0, 0, 0, 0, 0, b, z, 0, 0, 0, 0, 0, 0, b, z, 0, 0, 0, 0, 0, 0, b, z, 0, 0,
    0, 0, 0, 0, 0, 0, 0, 0, 0, 0, 0, 0, 0, 0, 0, 0, 0, 0, 0, 0, 0, 0, 0, 0, 0, 0, 0, 0, 0, 0, 0, 0,
    0, 0, 0, 0, 0, 0, 0, 0, z, z, b, b, 0, 0, 0, 0, b, b, b, b, b, b, b, b, b, b, b, b, b, b, b, b,
    b, z, 0, b, 0, 0, 0, 0, 0, 0, 0, 0, 0, 0, 0, 0, 0, 0, 0, 0, 0, 0, 0, 0, 0, 0, 0, 0, 0, 0, 0, 0,
    q, q, q, q, 0, 0, 0, 0, b, z, 0, 0, 0, 0, 0, 0, b, b, b, b, b, b, b, b, v, v, v, v, v, v, v, v,
    b, b, w, 0, 0, 0, b, z, e, 0, w, 0, 0, b, 0, 0, 0, 0, 0, 0, b, b, 0, 0, 0, 0, 0, 0, 0, 0, 0, 0,
    0, 0, 0, b, b, b, b, b, z, z, 0, b, 0, 0, 0, 0, 0, 0, 0, 0, 0, 0, 0, 0, 0, 0, 0, 0, 0, 0, 0, 0 ]

/-- The table `reqpfx_2b`: two byte opcodes with a mandatory prefix. -/
def reqpfx_2b : List Nat :=
  [ 0, 0, 0, 0, 0, 0, 0, 0, 0, 0, 0, 0, 0, 0, 0, 0, 1, 1, 1, 1, 1, 1, 1, 1, 1, 0, 1, 1, 0, 0, 0, 0,
    0, 0, 0, 0, 0, 0, 0, 0, 1, 1, 1, 1, 1, 1, 1, 1, 0, 0, 0, 0, 0, 0, 0, 0, 0, 0, 0, 0, 0, 0, 0, 0,
    0, 0, 0, 0, 0, 0, 0, 0, 0, 0, 0, 0, 0, 0, 0, 0, 1, 1, 1, 1, 1, 1, 1, 1, 1, 1, 1, 1, 1, 1, 1, 1,
    1, 1, 1, 1, 1, 1, 1, 1, 1, 1, 1, 1, 1, 1, 1, 1, 1, 1, 1, 1, 1, 1, 1, 0, 0, 0, 0, 0, 1, 1, 1, 1,
    0, 0, 0, 0, 0, 0, 0, 0, 0, 0, 0, 0, 0, 0, 0, 0, 0, 0, 0, 0, 0, 0, 0, 0, 0, 0, 0, 0, 0, 0, 0, 0,
    0, 0, 0, 0, 0, 0, 0, 0, 0, 0, 0, 0, 0, 0, 0, 0, 0, 0, 0, 0, 0, 0, 0, 0, 1, 0, 0, 0, 1, 1, 0, 0,
    0, 0, 1, 0, 1, 1, 1, 1, 0, 0, 0, 0, 0, 0, 0, 0, 1, 1, 1, 1, 1, 1, 1, 1, 1, 1, 1, 1, 1, 1, 1, 1,
    1, 1, 1, 1, 1, 1, 1, 1, 1, 1, 1, 1, 1, 1, 1, 1, 1, 1, 1, 1, 1, 1, 1, 1, 1, 1, 1, 1, 1, 1, 1, 0 ]

/-- The function `immsz_2b`: immediate types of the two byte opcodes; the second
`return` yields the `bool` as 0 or 1. -/
def immsz_2b (byte : Nat) : Nat :=
  if 0x80 ≤ byte ∧ byte < 0x90 then z
  else if (0x70 ≤ byte ∧ byte < 0x74) ∨ byte = 0xba ∨ byte = 0xc2 ∨ (0xc4 ≤ byte ∧ byte < 0xc7)
  then 1 else 0

/-- The function `reqpfx_1b`. -/
def reqpfx_1b (_byte : Nat) : Nat := 0

/-- The struct `x64operand`. -/
structure x64operand where
  addr_mode : Nat
  operand_type : Nat
deriving DecidableEq, Repr

/-- The struct `x64opinfo`. -/
structure x64opinfo where
  mnemonic : String
  operands : List x64operand
deriving DecidableEq, Repr

def zero_x64opinfo : x64opinfo := ⟨"", []⟩

def is_rmop (op : x64operand) : Bool :=
  decide (op.addr_mode = E ∨ op.addr_mode = M ∨ op.addr_mode = Q ∨ op.addr_mode = W)

def is_immop (op : x64operand) : Bool := decide (op.addr_mode = I ∨ op.addr_mode = J)

/-- The function `get_rmop`: the first ModR/M.rm operand and its position; the zero
operand and position 0 when there is none. -/
def get_rmop (operands : List x64operand) : x64operand × Nat :=
  match operands.enum.find? (fun p => is_rmop p.2) with
  | some p => (p.2, p.1)
  | none => (⟨0, 0⟩, 0)

/-- Part 1 of `x64opmap`, in source order. -/
def x64opmap_1 : List (List Nat × x64opinfo) :=
  [ ([0x00], ⟨"add", [⟨E, b⟩, ⟨G, b⟩]⟩),
    ([0x01], ⟨"add", [⟨E, v⟩, ⟨G, v⟩]⟩),
    ([0x02], ⟨"add", [⟨G, b⟩, ⟨E, b⟩]⟩),
    ([0x03], ⟨"add", [⟨G, v⟩, ⟨E, v⟩]⟩),
    ([0x04], ⟨"add", [⟨Z, b⟩, ⟨I, b⟩]⟩),
    ([0x05], ⟨"add", [⟨Z, v⟩, ⟨I, z⟩]⟩),
    ([0x08], ⟨"or", [⟨E, b⟩, ⟨G, b⟩]⟩),
    ([0x09], ⟨"or", [⟨E, v⟩, ⟨G, v⟩]⟩),
    ([0x0a], ⟨"or", [⟨G, b⟩, ⟨E, b⟩]⟩),
    ([0x0b], ⟨"or", [⟨G, v⟩, ⟨E, v⟩]⟩),
    ([0x0c], ⟨"or", [⟨Z, b⟩, ⟨I, b⟩]⟩),
    ([0x0d], ⟨"or", [⟨Z, v⟩, ⟨I, z⟩]⟩),
    ([0x10], ⟨"adc", [⟨E, b⟩, ⟨G, b⟩]⟩),
    ([0x11], ⟨"adc", [⟨E, v⟩, ⟨G, v⟩]⟩),
    ([0x12], ⟨"adc", [⟨G, b⟩, ⟨E, b⟩]⟩),
    ([0x13], ⟨"adc", [⟨G, v⟩, ⟨E, v⟩]⟩),
    ([0x14], ⟨"adc", [⟨Z, b⟩, ⟨I, b⟩]⟩),
    ([0x15], ⟨"adc", [⟨Z, v⟩, ⟨I, z⟩]⟩),
    ([0x18], ⟨"sbb", [⟨E, b⟩, ⟨G, b⟩]⟩),
    ([0x19], ⟨"sbb", [⟨E, v⟩, ⟨G, v⟩]⟩),
    ([0x1a], ⟨"sbb", [⟨G, b⟩, ⟨E, b⟩]⟩),
    ([0x1b], ⟨"sbb", [⟨G, v⟩, ⟨E, v⟩]⟩),
    ([0x1c], ⟨"sbb", [⟨Z, b⟩, ⟨I, b⟩]⟩),
    ([0x1d], ⟨"sbb", [⟨Z, v⟩, ⟨I, z⟩]⟩),
    ([0x20], ⟨"and", [⟨E, b⟩, ⟨G, b⟩]⟩),
    ([0x21], ⟨"and", [⟨E, v⟩, ⟨G, v⟩]⟩),
    ([0x22], ⟨"and", [⟨G, b⟩, ⟨E, b⟩]⟩),
    ([0x23], ⟨"and", [⟨G, v⟩, ⟨E, v⟩]⟩),
    ([0x24], ⟨"and", [⟨Z, b⟩, ⟨I, b⟩]⟩),
    ([0x25], ⟨"and", [⟨Z, v⟩, ⟨I, z⟩]⟩),
    ([0x28], ⟨"sub", [⟨E, b⟩, ⟨G, b⟩]⟩),
    ([0x29], ⟨"sub", [⟨E, v⟩, ⟨G, v⟩]⟩),
    ([0x2a], ⟨"sub", [⟨G, b⟩, ⟨E, b⟩]⟩),
    ([0x2b], ⟨"sub", [⟨G, v⟩, ⟨E, v⟩]⟩),
    ([0x2c], ⟨"sub", [⟨Z, b⟩, ⟨I, b⟩]⟩),
    ([0x2d], ⟨"sub", [⟨Z, v⟩, ⟨I, z⟩]⟩),
    ([0x30], ⟨"xor", [⟨E, b⟩, ⟨G, b⟩]⟩),
    ([0x31], ⟨"xor", [⟨E, v⟩, ⟨G, v⟩]⟩),
    ([0x32], ⟨"xor", [⟨G, b⟩, ⟨E, b⟩]⟩),
    ([0x33], ⟨"xor", [⟨G, v⟩, ⟨E, v⟩]⟩),
    ([0x34], ⟨"xor", [⟨Z, b⟩, ⟨I, b⟩]⟩),
    ([0x35], ⟨"xor", [⟨Z, v⟩, ⟨I, z⟩]⟩),
    ([0x38], ⟨"cmp", [⟨E, b⟩, ⟨G, b⟩]⟩),
    ([0x39], ⟨"cmp", [⟨E, v⟩, ⟨G, v⟩]⟩),
    ([0x3a], ⟨"cmp", [⟨G, b⟩, ⟨E, b⟩]⟩),
    ([0x3b], ⟨"cmp", [⟨G, v⟩, ⟨E, v⟩]⟩),
    ([0x3c], ⟨"cmp", [⟨Z, b⟩, ⟨I, b⟩]⟩),
    ([0x3d], ⟨"cmp", [⟨Z, v⟩, ⟨I, z⟩]⟩),
    ([0x50], ⟨"push", [⟨Z, f⟩]⟩),
    ([0x51], ⟨"push", [⟨Z, f⟩]⟩),
    ([0x52], ⟨"push", [⟨Z, f⟩]⟩),
    ([0x53], ⟨"push", [⟨Z, f⟩]⟩),
    ([0x54], ⟨"push", [⟨Z, f⟩]⟩),
    ([0x55], ⟨"push", [⟨Z, f⟩]⟩),
    ([0x56], ⟨"push", [⟨Z, f⟩]⟩),
    ([0x57], ⟨"push", [⟨Z, f⟩]⟩),
    ([0x58], ⟨"pop", [⟨Z, f⟩]⟩) ]

/-- Part 2 of `x64opmap`, in source order. -/
def x64opmap_2 : List (List Nat × x64opinfo) :=
  [ ([0x59], ⟨"pop", [⟨Z, f⟩]⟩),
    ([0x5a], ⟨"pop", [⟨Z, f⟩]⟩),
    ([0x5b], ⟨"pop", [⟨Z, f⟩]⟩),
    ([0x5c], ⟨"pop", [⟨Z, f⟩]⟩),
    ([0x5d], ⟨"pop", [⟨Z, f⟩]⟩),
    ([0x5e], ⟨"pop", [⟨Z, f⟩]⟩),
    ([0x5f], ⟨"pop", [⟨Z, f⟩]⟩),
    ([0x63], ⟨"movsxd", [⟨G, v⟩, ⟨E, z⟩]⟩),
    ([0x68], ⟨"push", [⟨I, f⟩]⟩),
    ([0x69], ⟨"imul", [⟨G, v⟩, ⟨E, v⟩, ⟨I, z⟩]⟩),
    ([0x6a], ⟨"push", [⟨I, b⟩]⟩),
    ([0x6b], ⟨"imul", [⟨G, v⟩, ⟨E, v⟩, ⟨I, b⟩]⟩),
    ([0x70], ⟨"jo", [⟨J, b⟩]⟩),
    ([0x71], ⟨"jno", [⟨J, b⟩]⟩),
    ([0x72], ⟨"jb", [⟨J, b⟩]⟩),
    ([0x73], ⟨"jnb", [⟨J, b⟩]⟩),
    ([0x74], ⟨"jz", [⟨J, b⟩]⟩),
    ([0x75], ⟨"jnz", [⟨J, b⟩]⟩),
    ([0x76], ⟨"jbe", [⟨J, b⟩]⟩),
    ([0x77], ⟨"jnbe", [⟨J, b⟩]⟩),
    ([0x78], ⟨"js", [⟨J, b⟩]⟩),
    ([0x79], ⟨"jns", [⟨J, b⟩]⟩),
    ([0x7a], ⟨"jp", [⟨J, b⟩]⟩),
    ([0x7b], ⟨"jnp", [⟨J, b⟩]⟩),
    ([0x7c], ⟨"jl", [⟨J, b⟩]⟩),
    ([0x7d], ⟨"jnl", [⟨J, b⟩]⟩),
    ([0x7e], ⟨"jle", [⟨J, b⟩]⟩),
    ([0x7f], ⟨"jnle", [⟨J, b⟩]⟩),
    ([0x80, 0x00], ⟨"add", [⟨E, b⟩, ⟨I, b⟩]⟩),
    ([0x80, 0x01], ⟨"or", [⟨E, b⟩, ⟨I, b⟩]⟩),
    ([0x80, 0x02], ⟨"adc", [⟨E, b⟩, ⟨I, b⟩]⟩),
    ([0x80, 0x03], ⟨"sbb", [⟨E, b⟩, ⟨I, b⟩]⟩),
    ([0x80, 0x04], ⟨"and", [⟨E, b⟩, ⟨I, b⟩]⟩),
    ([0x80, 0x05], ⟨"sub", [⟨E, b⟩, ⟨I, b⟩]⟩),
    ([0x80, 0x06], ⟨"xor", [⟨E, b⟩, ⟨I, b⟩]⟩),
    ([0x80, 0x07], ⟨"cmp", [⟨E, b⟩, ⟨I, b⟩]⟩),
    ([0x81, 0x00], ⟨"add", [⟨E, v⟩, ⟨I, z⟩]⟩),
    ([0x81, 0x01], ⟨"or", [⟨E, v⟩, ⟨I, z⟩]⟩),
    ([0x81, 0x02], ⟨"adc", [⟨E, v⟩, ⟨I, z⟩]⟩),
    ([0x81, 0x03], ⟨"sbb", [⟨E, v⟩, ⟨I, z⟩]⟩),
    ([0x81, 0x04], ⟨"and", [⟨E, v⟩, ⟨I, z⟩]⟩),
    ([0x81, 0x05], ⟨"sub", [⟨E, v⟩, ⟨I, z⟩]⟩),
    ([0x81, 0x06], ⟨"xor", [⟨E, v⟩, ⟨I, z⟩]⟩),
    ([0x81, 0x07], ⟨"cmp", [⟨E, v⟩, ⟨I, z⟩]⟩),
    ([0x83, 0x00], ⟨"add", [⟨E, v⟩, ⟨I, b⟩]⟩),
    ([0x83, 0x01], ⟨"or", [⟨E, v⟩, ⟨I, b⟩]⟩),
    ([0x83, 0x02], ⟨"adc", [⟨E, v⟩, ⟨I, b⟩]⟩),
    ([0x83, 0x03], ⟨"sbb", [⟨E, v⟩, ⟨I, b⟩]⟩),
    ([0x83, 0x04], ⟨"and", [⟨E, v⟩, ⟨I, b⟩]⟩),
    ([0x83, 0x05], ⟨"sub", [⟨E, v⟩, ⟨I, b⟩]⟩),
    ([0x83, 0x06], ⟨"xor", [⟨E, v⟩, ⟨I, b⟩]⟩),
    ([0x83, 0x07], ⟨"cmp", [⟨E, v⟩, ⟨I, b⟩]⟩),
    ([0x84], ⟨"test", [⟨E, b⟩, ⟨G, b⟩]⟩),
    ([0x85], ⟨"test", [⟨E, v⟩, ⟨G, v⟩]⟩),
    ([0x86], ⟨"xchg", [⟨E, b⟩, ⟨G, b⟩]⟩),
    ([0x87], ⟨"xchg", [⟨E, v⟩, ⟨G, v⟩]⟩),
    ([0x88], ⟨"mov", [⟨E, b⟩, ⟨G, b⟩]⟩) ]

/-- Part 3 of `x64opmap`, in source order. -/
def x64opmap_3 : List (List Nat × x64opinfo) :=
  [ ([0x89], ⟨"mov", [⟨E, v⟩, ⟨G, v⟩]⟩),
    ([0x8a], ⟨"mov", [⟨G, b⟩, ⟨E, b⟩]⟩),
    ([0x8b], ⟨"mov", [⟨G, v⟩, ⟨E, v⟩]⟩),
    ([0x8c], ⟨"mov", [⟨E, v⟩, ⟨S, w⟩]⟩),
    ([0x8d], ⟨"lea", [⟨G, v⟩, ⟨M, v⟩]⟩),
    ([0x8e], ⟨"mov", [⟨S, w⟩, ⟨E, w⟩]⟩),
    ([0x8f, 0x00], ⟨"pop", [⟨E, f⟩]⟩),
    ([0x90], ⟨"xchg", [⟨R, v⟩, ⟨R, v⟩]⟩),
    ([0x91], ⟨"xchg", [⟨R, v⟩, ⟨R, v⟩]⟩),
    ([0x92], ⟨"xchg", [⟨R, v⟩, ⟨R, v⟩]⟩),
    ([0x93], ⟨"xchg", [⟨R, v⟩, ⟨R, v⟩]⟩),
    ([0x94], ⟨"xchg", [⟨R, v⟩, ⟨R, v⟩]⟩),
    ([0x95], ⟨"xchg", [⟨R, v⟩, ⟨R, v⟩]⟩),
    ([0x96], ⟨"xchg", [⟨R, v⟩, ⟨R, v⟩]⟩),
    ([0x97], ⟨"xchg", [⟨R, v⟩, ⟨R, v⟩]⟩),
    ([0x98], ⟨"cbw", [⟨Z, g⟩]⟩),
    ([0x99], ⟨"cwd", [⟨Z, v⟩]⟩),
    ([0x9c], ⟨"pushf", [⟨F, f⟩]⟩),
    ([0x9d], ⟨"popf", [⟨F, f⟩]⟩),
    ([0xa0], ⟨"mov", [⟨Z, b⟩, ⟨O, b⟩]⟩),
    ([0xa1], ⟨"mov", [⟨Z, v⟩, ⟨O, v⟩]⟩),
    ([0xa2], ⟨"mov", [⟨O, b⟩, ⟨Z, b⟩]⟩),
    ([0xa3], ⟨"mov", [⟨O, v⟩, ⟨Z, v⟩]⟩),
    ([0xa8], ⟨"test", [⟨Z, b⟩, ⟨I, b⟩]⟩),
    ([0xa9], ⟨"test", [⟨Z, v⟩, ⟨I, z⟩]⟩),
    ([0xb0], ⟨"mov", [⟨Z, b⟩, ⟨I, b⟩]⟩),
    ([0xb1], ⟨"mov", [⟨Z, b⟩, ⟨I, b⟩]⟩),
    ([0xb2], ⟨"mov", [⟨Z, b⟩, ⟨I, b⟩]⟩),
    ([0xb3], ⟨"mov", [⟨Z, b⟩, ⟨I, b⟩]⟩),
    ([0xb4], ⟨"mov", [⟨Z, b⟩, ⟨I, b⟩]⟩),
    ([0xb5], ⟨"mov", [⟨Z, b⟩, ⟨I, b⟩]⟩),
    ([0xb6], ⟨"mov", [⟨Z, b⟩, ⟨I, b⟩]⟩),
    ([0xb7], ⟨"mov", [⟨Z, b⟩, ⟨I, b⟩]⟩),
    ([0xb8], ⟨"mov", [⟨Z, v⟩, ⟨I, v⟩]⟩),
    ([0xb9], ⟨"mov", [⟨Z, v⟩, ⟨I, v⟩]⟩),
    ([0xba], ⟨"mov", [⟨Z, v⟩, ⟨I, v⟩]⟩),
    ([0xbb], ⟨"mov", [⟨Z, v⟩, ⟨I, v⟩]⟩),
    ([0xbc], ⟨"mov", [⟨Z, v⟩, ⟨I, v⟩]⟩),
    ([0xbd], ⟨"mov", [⟨Z, v⟩, ⟨I, v⟩]⟩),
    ([0xbe], ⟨"mov", [⟨Z, v⟩, ⟨I, v⟩]⟩),
    ([0xbf], ⟨"mov", [⟨Z, v⟩, ⟨I, v⟩]⟩),
    ([0xc0, 0x00], ⟨"rol", [⟨E, b⟩, ⟨I, b⟩]⟩),
    ([0xc0, 0x01], ⟨"ror", [⟨E, b⟩, ⟨I, b⟩]⟩),
    ([0xc0, 0x02], ⟨"rcl", [⟨E, b⟩, ⟨I, b⟩]⟩),
    ([0xc0, 0x03], ⟨"rcr", [⟨E, b⟩, ⟨I, b⟩]⟩),
    ([0xc0, 0x04], ⟨"shl", [⟨E, b⟩, ⟨I, b⟩]⟩),
    ([0xc0, 0x05], ⟨"shr", [⟨E, b⟩, ⟨I, b⟩]⟩),
    ([0xc0, 0x07], ⟨"sar", [⟨E, b⟩, ⟨I, b⟩]⟩),
    ([0xc1, 0x00], ⟨"rol", [⟨E, v⟩, ⟨I, b⟩]⟩),
    ([0xc1, 0x01], ⟨"ror", [⟨E, v⟩, ⟨I, b⟩]⟩),
    ([0xc1, 0x02], ⟨"rcl", [⟨E, v⟩, ⟨I, b⟩]⟩),
    ([0xc1, 0x03], ⟨"rcr", [⟨E, v⟩, ⟨I, b⟩]⟩),
    ([0xc1, 0x04], ⟨"shl", [⟨E, v⟩, ⟨I, b⟩]⟩),
    ([0xc1, 0x05], ⟨"shr", [⟨E, v⟩, ⟨I, b⟩]⟩),
    ([0xc1, 0x07], ⟨"sar", [⟨E, v⟩, ⟨I, b⟩]⟩),
    ([0xc2], ⟨"ret", [⟨I, w⟩]⟩),
    ([0xc3], ⟨"ret", []⟩) ]

/-- Part 4 of `x64opmap`, in source order. -/
def x64opmap_4 : List (List Nat × x64opinfo) :=
  [ ([0xc6, 0x00], ⟨"mov", [⟨E, b⟩, ⟨I, b⟩]⟩),
    ([0xc7, 0x00], ⟨"mov", [⟨E, v⟩, ⟨I, z⟩]⟩),
    ([0xc8], ⟨"enter", [⟨I, w⟩, ⟨I, b⟩]⟩),
    ([0xc9], ⟨"leave", []⟩),
    ([0xca], ⟨"ret", [⟨I, w⟩]⟩),
    ([0xcb], ⟨"ret", []⟩),
    ([0xcc], ⟨"int3", []⟩),
    ([0xcd], ⟨"int", [⟨I, b⟩]⟩),
    ([0xcf], ⟨"iret", []⟩),
    ([0xd0, 0x00], ⟨"rol", [⟨E, b⟩]⟩),
    ([0xd0, 0x01], ⟨"ror", [⟨E, b⟩]⟩),
    ([0xd0, 0x02], ⟨"rcl", [⟨E, b⟩]⟩),
    ([0xd0, 0x03], ⟨"rcr", [⟨E, b⟩]⟩),
    ([0xd0, 0x04], ⟨"shl", [⟨E, b⟩]⟩),
    ([0xd0, 0x05], ⟨"shr", [⟨E, b⟩]⟩),
    ([0xd0, 0x07], ⟨"sar", [⟨E, b⟩]⟩),
    ([0xd1, 0x00], ⟨"rol", [⟨E, v⟩]⟩),
    ([0xd1, 0x01], ⟨"ror", [⟨E, v⟩]⟩),
    ([0xd1, 0x02], ⟨"rcl", [⟨E, v⟩]⟩),
    ([0xd1, 0x03], ⟨"rcr", [⟨E, v⟩]⟩),
    ([0xd1, 0x04], ⟨"shl", [⟨E, v⟩]⟩),
    ([0xd1, 0x05], ⟨"shr", [⟨E, v⟩]⟩),
    ([0xd1, 0x07], ⟨"sar", [⟨E, v⟩]⟩),
    ([0xd2, 0x00], ⟨"rol", [⟨E, b⟩, ⟨Z, b⟩]⟩),
    ([0xd2, 0x01], ⟨"ror", [⟨E, b⟩, ⟨Z, b⟩]⟩),
    ([0xd2, 0x02], ⟨"rcl", [⟨E, b⟩, ⟨Z, b⟩]⟩),
    ([0xd2, 0x03], ⟨"rcr", [⟨E, b⟩, ⟨Z, b⟩]⟩),
    ([0xd2, 0x04], ⟨"shl", [⟨E, b⟩, ⟨Z, b⟩]⟩),
    ([0xd2, 0x05], ⟨"shr", [⟨E, b⟩, ⟨Z, b⟩]⟩),
    ([0xd2, 0x07], ⟨"sar", [⟨E, b⟩, ⟨Z, b⟩]⟩),
    ([0xd3, 0x00], ⟨"rol", [⟨E, v⟩, ⟨Z, b⟩]⟩),
    ([0xd3, 0x01], ⟨"ror", [⟨E, v⟩, ⟨Z, b⟩]⟩),
    ([0xd3, 0x02], ⟨"rcl", [⟨E, v⟩, ⟨Z, b⟩]⟩),
    ([0xd3, 0x03], ⟨"rcr", [⟨E, v⟩, ⟨Z, b⟩]⟩),
    ([0xd3, 0x04], ⟨"shl", [⟨E, v⟩, ⟨Z, b⟩]⟩),
    ([0xd3, 0x05], ⟨"shr", [⟨E, v⟩, ⟨Z, b⟩]⟩),
    ([0xd3, 0x07], ⟨"sar", [⟨E, v⟩, ⟨Z, b⟩]⟩),
    ([0xe3], ⟨"jrcxz", [⟨J, b⟩, ⟨R, v⟩]⟩),
    ([0xe8], ⟨"call", [⟨J, z⟩]⟩),
    ([0xe9], ⟨"jmp", [⟨J, z⟩]⟩),
    ([0xeb], ⟨"jmp", [⟨J, b⟩]⟩),
    ([0xf1], ⟨"int1", []⟩),
    ([0xf4], ⟨"halt", []⟩),
    ([0xf5], ⟨"cmc", []⟩),
    ([0xf6, 0x00], ⟨"test", [⟨E, b⟩, ⟨I, b⟩]⟩),
    ([0xf6, 0x02], ⟨"not", [⟨E, b⟩]⟩),
    ([0xf6, 0x03], ⟨"neg", [⟨E, b⟩]⟩),
    ([0xf6, 0x04], ⟨"mul", [⟨E, b⟩]⟩),
    ([0xf6, 0x05], ⟨"imul", [⟨E, b⟩]⟩),
    ([0xf6, 0x06], ⟨"div", [⟨E, b⟩]⟩),
    ([0xf6, 0x07], ⟨"idiv", [⟨E, b⟩]⟩),
    ([0xf7, 0x00], ⟨"test", [⟨E, v⟩, ⟨I, z⟩]⟩),
    ([0xf7, 0x02], ⟨"not", [⟨E, v⟩]⟩),
    ([0xf7, 0x03], ⟨"neg", [⟨E, v⟩]⟩),
    ([0xf7, 0x04], ⟨"mul", [⟨E, v⟩]⟩),
    ([0xf7, 0x05], ⟨"imul", [⟨E, v⟩]⟩),
    ([0xf7, 0x06], ⟨"div", [⟨E, v⟩]⟩) ]

/-- Part 5 of `x64opmap`, in source order. -/
def x64opmap_5 : List (List Nat × x64opinfo) :=
  [ ([0xf7, 0x07], ⟨"idiv", [⟨E, v⟩]⟩),
    ([0xf8], ⟨"clc", [⟨F, q⟩]⟩),
    ([0xf9], ⟨"stc", [⟨F, q⟩]⟩),
    ([0xfa], ⟨"cli", [⟨F, q⟩]⟩),
    ([0xfb], ⟨"sti", [⟨F, q⟩]⟩),
    ([0xfc], ⟨"cld", [⟨F, q⟩]⟩),
    ([0xfd], ⟨"std", [⟨F, q⟩]⟩),
    ([0xfe, 0x00], ⟨"inc", [⟨E, b⟩]⟩),
    ([0xfe, 0x01], ⟨"dec", [⟨E, b⟩]⟩),
    ([0xff, 0x00], ⟨"inc", [⟨E, v⟩]⟩),
    ([0xff, 0x01], ⟨"dec", [⟨E, v⟩]⟩),
    ([0xff, 0x02], ⟨"call", [⟨E, v⟩]⟩),
    ([0xff, 0x03], ⟨"call", [⟨E, v⟩]⟩),
    ([0xff, 0x04], ⟨"jmp", [⟨E, v⟩]⟩),
    ([0xff, 0x05], ⟨"jmp", [⟨M, v⟩]⟩),
    ([0x0f, 0x08], ⟨"invd", []⟩),
    ([0x0f, 0x09], ⟨"wbinvd", []⟩),
    ([0x0f, 0x0a], ⟨"ud2", []⟩),
    ([0x0f, 0x0d], ⟨"prefetchw", [⟨E, v⟩]⟩),
    ([0x0f, 0x19], ⟨"nop reserved", []⟩),
    ([0x0f, 0x1c], ⟨"nop reserved", []⟩),
    ([0x0f, 0x1d], ⟨"nop reserved", []⟩),
    ([0x0f, 0x1e], ⟨"nop reserved", []⟩),
    ([0x0f, 0x1f], ⟨"nop /0", [⟨E, v⟩]⟩),
    ([0x0f, 0x31], ⟨"rdtsc", []⟩),
    ([0x0f, 0x40], ⟨"cmovo", [⟨G, v⟩, ⟨E, v⟩]⟩),
    ([0x0f, 0x41], ⟨"cmovno", [⟨G, v⟩, ⟨E, v⟩]⟩),
    ([0x0f, 0x42], ⟨"cmovb", [⟨G, v⟩, ⟨E, v⟩]⟩),
    ([0x0f, 0x43], ⟨"cmovnb", [⟨G, v⟩, ⟨E, v⟩]⟩),
    ([0x0f, 0x44], ⟨"cmovz", [⟨G, v⟩, ⟨E, v⟩]⟩),
    ([0x0f, 0x45], ⟨"cmovnz", [⟨G, v⟩, ⟨E, v⟩]⟩),
    ([0x0f, 0x46], ⟨"cmovbe", [⟨G, v⟩, ⟨E, v⟩]⟩),
    ([0x0f, 0x47], ⟨"cmovnbe", [⟨G, v⟩, ⟨E, v⟩]⟩),
    ([0x0f, 0x48], ⟨"cmovs", [⟨G, v⟩, ⟨E, v⟩]⟩),
    ([0x0f, 0x49], ⟨"cmovns", [⟨G, v⟩, ⟨E, v⟩]⟩),
    ([0x0f, 0x4a], ⟨"cmovp", [⟨G, v⟩, ⟨E, v⟩]⟩),
    ([0x0f, 0x4b], ⟨"cmovnp", [⟨G, v⟩, ⟨E, v⟩]⟩),
    ([0x0f, 0x4c], ⟨"cmovl", [⟨G, v⟩, ⟨E, v⟩]⟩),
    ([0x0f, 0x4d], ⟨"cmovnl", [⟨G, v⟩, ⟨E, v⟩]⟩),
    ([0x0f, 0x4e], ⟨"cmovle", [⟨G, v⟩, ⟨E, v⟩]⟩),
    ([0x0f, 0x4f], ⟨"cmovnle", [⟨G, v⟩, ⟨E, v⟩]⟩),
    ([0x0f, 0x80], ⟨"jo", [⟨J, d⟩]⟩),
    ([0x0f, 0x81], ⟨"jno", [⟨J, d⟩]⟩),
    ([0x0f, 0x82], ⟨"jb", [⟨J, d⟩]⟩),
    ([0x0f, 0x83], ⟨"jnb", [⟨J, d⟩]⟩),
    ([0x0f, 0x84], ⟨"jz", [⟨J, d⟩]⟩),
    ([0x0f, 0x85], ⟨"jnz", [⟨J, d⟩]⟩),
    ([0x0f, 0x86], ⟨"jbe", [⟨J, d⟩]⟩),
    ([0x0f, 0x87], ⟨"jnbe", [⟨J, d⟩]⟩),
    ([0x0f, 0x88], ⟨"js", [⟨J, d⟩]⟩),
    ([0x0f, 0x89], ⟨"jns", [⟨J, d⟩]⟩),
    ([0x0f, 0x8a], ⟨"jp", [⟨J, d⟩]⟩),
    ([0x0f, 0x8b], ⟨"jnp", [⟨J, d⟩]⟩),
    ([0x0f, 0x8c], ⟨"jl", [⟨J, d⟩]⟩),
    ([0x0f, 0x8d], ⟨"jnl", [⟨J, d⟩]⟩),
    ([0x0f, 0x8e], ⟨"jle", [⟨J, d⟩]⟩),
    ([0x0f, 0x8f], ⟨"jnle", [⟨J, d⟩]⟩) ]

/-- Part 6 of `x64opmap`, in source order. -/
def x64opmap_6 : List (List Nat × x64opinfo) :=
  [ ([0x0f, 0x90], ⟨"seto", [⟨E, b⟩]⟩),
    ([0x0f, 0x91], ⟨"setno", [⟨E, b⟩]⟩),
    ([0x0f, 0x92], ⟨"setb", [⟨E, b⟩]⟩),
    ([0x0f, 0x93], ⟨"setnb", [⟨E, b⟩]⟩),
    ([0x0f, 0x94], ⟨"setz", [⟨E, b⟩]⟩),
    ([0x0f, 0x95], ⟨"setnz", [⟨E, b⟩]⟩),
    ([0x0f, 0x96], ⟨"setbe", [⟨E, b⟩]⟩),
    ([0x0f, 0x97], ⟨"setnbe", [⟨E, b⟩]⟩),
    ([0x0f, 0x98], ⟨"sets", [⟨E, b⟩]⟩),
    ([0x0f, 0x99], ⟨"setns", [⟨E, b⟩]⟩),
    ([0x0f, 0x9a], ⟨"setp", [⟨E, b⟩]⟩),
    ([0x0f, 0x9b], ⟨"setnp", [⟨E, b⟩]⟩),
    ([0x0f, 0x9c], ⟨"setl", [⟨E, b⟩]⟩),
    ([0x0f, 0x9d], ⟨"setnl", [⟨E, b⟩]⟩),
    ([0x0f, 0x9e], ⟨"setle", [⟨E, b⟩]⟩),
    ([0x0f, 0x9f], ⟨"setnle", [⟨E, b⟩]⟩),
    ([0x0f, 0xa0], ⟨"pushfs", [⟨Z, f⟩]⟩),
    ([0x0f, 0xa1], ⟨"popfs", [⟨Z, f⟩]⟩),
    ([0x0f, 0xa2], ⟨"cpuid", []⟩),
    ([0x0f, 0xa3], ⟨"bt", [⟨E, v⟩, ⟨G, v⟩]⟩),
    ([0x0f, 0xa4], ⟨"shld", [⟨E, v⟩, ⟨G, v⟩, ⟨I, b⟩]⟩),
    ([0x0f, 0xa5], ⟨"shld", [⟨E, v⟩, ⟨G, v⟩, ⟨Z, b⟩]⟩),
    ([0x0f, 0xa8], ⟨"pushgs", [⟨Z, f⟩]⟩),
    ([0x0f, 0xa9], ⟨"popgs", [⟨Z, f⟩]⟩),
    ([0x0f, 0xab], ⟨"bts", [⟨E, v⟩, ⟨G, v⟩]⟩),
    ([0x0f, 0xac], ⟨"shrd", [⟨E, v⟩, ⟨G, v⟩, ⟨I, b⟩]⟩),
    ([0x0f, 0xad], ⟨"shrd", [⟨E, v⟩, ⟨G, v⟩, ⟨Z, b⟩]⟩),
    ([0x0f, 0xaf], ⟨"imul", [⟨G, v⟩, ⟨E, v⟩]⟩),
    ([0x0f, 0xb0], ⟨"cmpxchg", [⟨E, b⟩, ⟨G, b⟩]⟩),
    ([0x0f, 0xb1], ⟨"cmpxchg", [⟨E, v⟩, ⟨G, v⟩]⟩),
    ([0x0f, 0xb3], ⟨"btr", [⟨E, v⟩, ⟨G, v⟩]⟩),
    ([0x0f, 0xb6], ⟨"movzx", [⟨G, v⟩, ⟨E, b⟩]⟩),
    ([0x0f, 0xb7], ⟨"movzx", [⟨G, v⟩, ⟨E, w⟩]⟩),
    ([0xf3, 0x0f, 0xb8], ⟨"popcnt", [⟨G, v⟩, ⟨E, v⟩]⟩),
    ([0x0f, 0xb9], ⟨"ud1", []⟩),
    ([0x0f, 0xba, 0x04], ⟨"bt", [⟨E, v⟩, ⟨I, b⟩]⟩),
    ([0x0f, 0xba, 0x05], ⟨"bts", [⟨E, v⟩, ⟨I, b⟩]⟩),
    ([0x0f, 0xba, 0x06], ⟨"btr", [⟨E, v⟩, ⟨I, b⟩]⟩),
    ([0x0f, 0xba, 0x07], ⟨"btc", [⟨E, v⟩, ⟨I, b⟩]⟩),
    ([0x0f, 0xbb], ⟨"btc", [⟨E, v⟩, ⟨G, v⟩]⟩),
    ([0x0f, 0xbc], ⟨"bsf", [⟨E, v⟩, ⟨G, v⟩]⟩),
    ([0xf3, 0x0f, 0xbc], ⟨"tzcnt", [⟨E, v⟩, ⟨G, v⟩]⟩),
    ([0x0f, 0xbd], ⟨"bsr", [⟨E, v⟩, ⟨G, v⟩]⟩),
    ([0xf3, 0x0f, 0xbd], ⟨"lzcnt", [⟨E, v⟩, ⟨G, v⟩]⟩),
    ([0x0f, 0xbe], ⟨"movsx", [⟨G, v⟩, ⟨E, b⟩]⟩),
    ([0x0f, 0xbf], ⟨"movsx", [⟨G, v⟩, ⟨E, w⟩]⟩),
    ([0x0f, 0xc0], ⟨"xadd", [⟨E, b⟩, ⟨G, b⟩]⟩),
    ([0x0f, 0xc1], ⟨"xadd", [⟨E, v⟩, ⟨G, v⟩]⟩),
    ([0x0f, 0xc8], ⟨"bswap", [⟨Z, v⟩]⟩),
    ([0x0f, 0xc9], ⟨"bswap", [⟨Z, v⟩]⟩),
    ([0x0f, 0xca], ⟨"bswap", [⟨Z, v⟩]⟩),
    ([0x0f, 0xcb], ⟨"bswap", [⟨Z, v⟩]⟩),
    ([0x0f, 0xcc], ⟨"bswap", [⟨Z, v⟩]⟩),
    ([0x0f, 0xcd], ⟨"bswap", [⟨Z, v⟩]⟩),
    ([0x0f, 0xce], ⟨"bswap", [⟨Z, v⟩]⟩),
    ([0x0f, 0xcf], ⟨"bswap", [⟨Z, v⟩]⟩),
    ([0x0f, 0xff], ⟨"ud0", []⟩) ]

/-- The map `x64opmap`: required prefix, escape and opcode bytes (plus the ModR/M reg
bits of a group) to mnemonic and operands. The keys are distinct. -/
def x64opmap : List (List Nat × x64opinfo) :=
  x64opmap_1 ++ x64opmap_2 ++ x64opmap_3 ++ x64opmap_4 ++ x64opmap_5 ++ x64opmap_6

/-- The function `get_opinfo`. -/
def get_opinfo (opcode : List Nat) : x64opinfo :=
  match x64opmap.lookup opcode with
  | some info => info
  | none => zero_x64opinfo

end x64def

/-! ## x64 predecoder (`frontend/x64.hh`, `frontend/x64.cc`) -/

/-- The struct `x64d_meta`: decode metadata. -/
structure x64d_meta where
  has_g1 : Nat
  has_g2 : Nat
  has_66 : Nat
  has_67 : Nat
  has_rex : Nat
  off_rex : Nat
  op_mode : Nat
  decoder : Nat
deriving DecidableEq, Repr

/-- The struct `x64op`: the bytes of a macro instruction and the offsets into them. -/
structure x64op where
  bytes : List Nat
  off_opcode : Nat
  off_modrm : Nat
  off_sib : Nat
  off_displ : Nat
  off_imm : Nat
  len : Nat
  meta : x64d_meta
deriving DecidableEq, Repr

def zero_x64op : x64op := ⟨[], 0, 0, 0, 0, 0, 0, ⟨0, 0, 0, 0, 0, 0, 0, 0⟩⟩

-- enum x64d_type
def x64d_fast : Nat := 0
def x64d_cmplx : Nat := 1
def x64d_seq : Nat := 2

def X64_FETCH_BYTES : Nat := 16

def is_legacy (b : Nat) : Bool :=
  decide (b = 0xf0 ∨ b = 0xf2 ∨ b = 0xf3 ∨ b = 0x64 ∨ b = 0x65 ∨ b = 0x66 ∨ b = 0x67)

def is_esc1 (b : Nat) : Bool := decide (b = 0x0f)
def is_esc2 (b : Nat) : Bool := decide (b = 0x38 ∨ b = 0x3a)
def is_rex (b : Nat) : Bool := decide (0x40 ≤ b ∧ b < 0x50)
def is_vex (b : Nat) : Bool := decide (b = 0xc4 ∨ b = 0xc5)
def is_evex (b : Nat) : Bool := decide (b = 0x62)

-- enum rex_bits
def rex_b : Nat := 0x1
def rex_x : Nat := 0x2
def rex_r : Nat := 0x4
def rex_w : Nat := 0x8

/-- The function `get_group`. -/
def get_group (byte mode : Nat) : Nat :=
  if mode = 0 then x64def.opgrp_1b byte
  else if mode = 1 then x64def.opgrp_2b byte
  else 0

/-- The function `has_reqpfx`. -/
def has_reqpfx (byte mode : Nat) : Nat :=
  if mode = 0 then x64def.reqpfx_1b byte
  else if mode = 1 then x64def.reqpfx_2b.getD byte 0
  else 0

/-- The function `use_modrm`. -/
def use_modrm (byte mode : Nat) : Nat :=
  if mode = 0 then x64def.modrm_1b.getD byte 0
  else if mode = 1 then x64def.modrm_2b.getD byte 0
  else 0

/-- The function `get_opsz`: operand size in bytes for a known operand type. -/
def get_opsz (opsz optype : Nat) : Nat :=
  if optype = x64def.v then opsz
  else if optype = x64def.z then (if opsz = 2 then 2 else 4)
  else if optype = x64def.f then (if opsz = 2 then 2 else 8)
  else optype

/-- The function `get_immsz`: immediate size in bytes, from the opcode byte and the
operand size; the sums and the result are `u8`. -/
def get_immsz (byte opsz mode mod_reg : Nat) : Nat :=
  if mode = 0 then
    get_opsz opsz
      (if x64def.opgrp_1b byte = 0 then x64def.immsz_1b.getD byte 0
       else
         ((x64def.get_opinfo [byte, mod_reg]).operands.foldl
           (fun tmp i => if i.addr_mode = x64def.I
             then (tmp + get_opsz opsz i.operand_type) % 256 else tmp) 0))
  else if mode = 1 then get_opsz opsz (x64def.immsz_2b byte)
  else 0

-- enum branch types (`frontend.hh`)
def branch_none : Nat := 0

-- enum pd_state
def pd_reset : Nat := 0
def pd_prefix : Nat := 1
def pd_opcode : Nat := 2
def pd_modrm : Nat := 3
def pd_imm : Nat := 4

/-- The predecoder members of `x64Frontend`: `pd_state`, `pd_remaining` and the partial
instruction `part_op`; `active` stands for the bits `if_active` and `pd_active` of
`state.active`, which are set while the frontend fetches. -/
structure Predecoder where
  pd_state : Nat
  pd_remaining : Nat
  part_op : x64op
  active : Bool
deriving DecidableEq, Repr

/-- The predecoder after the constructor or a flush, with the frontend fetching. -/
def Predecoder.init : Predecoder := ⟨ pd_prefix, 0, zero_x64op, true⟩

/-- The read `part_op.bytes[part_op.len-1]`. On an empty `part_op` the index is out of
range and the read yields whatever byte lies before the buffer: the parameter `stray`. -/
def last_read (stray : Nat) (op : x64op) : Nat :=
  if op.len = 0 then stray else op.bytes.getD (op.len - 1) 0

/-- One prefix byte taken by the loop of the lambda `parse_prefix`: the metadata switch,
then `push_back`, `len++`, `off_opcode++`. -/
def take_prefix (op : x64op) (byte : Nat) : x64op :=
  let m := op.meta
  let m1 : x64d_meta :=
    if byte = 0xf0 ∨ byte = 0xf2 ∨ byte = 0xf3 then { m with has_g1 := byte }
    else if byte = 0x64 ∨ byte = 0x65 then { m with has_g2 := byte }
    else if byte = 0x66 then { m with has_66 := 1 }
    else if byte = 0x67 then { m with has_67 := 1, decoder := x64d_cmplx }
    else m
  { op with bytes := op.bytes ++ [byte], len := (op.len + 1) % 256,
            off_opcode := (op.off_opcode + 1) % 256, meta := m1 }

/-- The `for` loop of the lambda `parse_prefix` over the fetch block: the result is
`some (idx, part_op)` when the loop ends by its condition or its `break`, and `none`
when a VEX or EVEX marker is met. One round per unit of fuel. -/
def prefix_loop (fetchbytes : List Nat) : Nat → Nat → x64op → Option (Nat × x64op)
  | 0, idx, op => some (idx, op)
  | fuel + 1, idx, op =>
    if idx < fetchbytes.length then
      if is_legacy (fetchbytes.getD idx 0) || is_rex (fetchbytes.getD idx 0) then
        prefix_loop fetchbytes fuel (idx + 1) ( take_prefix op (fetchbytes.getD idx 0))
      else if is_vex (fetchbytes.getD idx 0) || is_evex (fetchbytes.getD idx 0) then none
      else some (idx, op)
    else some (idx, op)

/-- The lambda `parse_prefix` of `x64Frontend::fetch`: return value, index and
predecoder afterwards. `pdblocksz` is the length of `fetchbytes`. -/
def parse_prefix (stray : Nat) (fetchbytes : List Nat) (idx : Nat) (p : Predecoder) :
    Nat × Nat × Predecoder :=
  match prefix_loop fetchbytes (fetchbytes.length - idx) idx p.part_op with
  | none => (1, fetchbytes.length, { p with part_op := zero_x64op, pd_state := pd_reset, active := false })
  | some (idx1, op) =>
    let op1 : x64op :=
      if 0 < idx1 ∧ is_rex (last_read stray op) = true then
        { op with meta := { op.meta with has_rex := 1, off_rex := (op.len + 255) % 256 } }
      else op
    (if idx1 < fetchbytes.length then 0 else 1, idx1, { p with part_op := op1 })

/-- The lambda `parse_opcode` of `x64Frontend::fetch`. -/
def parse_opcode (stray : Nat) (fetchbytes : List Nat) (idx : Nat) (p : Predecoder) :
    Nat × Nat × Predecoder :=
  let esc : Bool := decide (idx < fetchbytes.length) && is_esc1 (fetchbytes.getD idx 0)
  let op1 : x64op :=
    if esc then { p.part_op with bytes := p.part_op.bytes ++ [fetchbytes.getD idx 0],
                                 len := (p.part_op.len + 1) % 256 }
    else p.part_op
  let idx1 := if esc then idx + 1 else idx
  if idx1 < fetchbytes.length ∧ is_esc1 (last_read stray op1) = true ∧
      is_esc2 (fetchbytes.getD idx1 0) = true then
    (1, fetchbytes.length, { p with part_op := zero_x64op, pd_state := pd_reset, active := false })
  else if fetchbytes.length ≤ idx1 then (1, idx1, { p with part_op := op1 })
  else
    let op2 : x64op :=
      { op1 with bytes := op1.bytes ++ [fetchbytes.getD idx1 0], len := (op1.len + 1) % 256 }
    (0, idx1 + 1,
      { p with part_op :=
        { op2 with meta :=
          { op2.meta with op_mode := (op2.len + 256 + 256 - op2.off_opcode - 1) % 256 } } })

/-- The first step of the lambda `parse_modrm`: the ModR/M byte. -/
def take_modrm (stray : Nat) (fetchbytes : List Nat) (idx : Nat) (op : x64op) : Nat × x64op :=
  if op.off_modrm = 0 ∧ idx < fetchbytes.length ∧
      use_modrm (last_read stray op) op.meta.op_mode ≠ 0 then
    (idx + 1,
      { op with bytes := op.bytes ++ [fetchbytes.getD idx 0], off_modrm := op.len,
                len := (op.len + 1) % 256,
                meta := if modrm_get_mod (fetchbytes.getD idx 0) ≠ 0b11
                  then { op.meta with decoder := x64d_cmplx } else op.meta })
  else (idx, op)

/-- The second step of the lambda `parse_modrm`: the SIB byte. -/
def take_sib (fetchbytes : List Nat) (idx : Nat) (op : x64op) : Nat × x64op :=
  if op.off_sib = 0 ∧ op.off_modrm ≠ 0 ∧ idx < fetchbytes.length ∧
      use_sib (op.bytes.getD op.off_modrm 0) ≠ 0 then
    (idx + 1,
      { op with bytes := op.bytes ++ [fetchbytes.getD idx 0], off_sib := op.len,
                len := (op.len + 1) % 256 })
  else (idx, op)

/-- The lambda `parse_modrm` of `x64Frontend::fetch`: ModR/M byte, SIB byte and as many
displacement bytes as the block still holds. -/
def parse_modrm (stray : Nat) (fetchbytes : List Nat) (idx : Nat) (p : Predecoder) :
    Nat × Nat × Predecoder :=
  let s1 := take_modrm stray fetchbytes idx p.part_op
  let s2 := take_sib fetchbytes s1.1 s1.2
  let idx2 := s2.1
  let op2 := s2.2
  -- the short-circuit condition assigns `pd_remaining` when it is 0 and a ModR/M is there
  let rem1 :=
    if op2.off_modrm ≠ 0 then
      (if p.pd_remaining ≠ 0 then p.pd_remaining
       else get_displsz (op2.bytes.getD op2.off_modrm 0)
         (if op2.off_sib ≠ 0 then op2.bytes.getD op2.off_sib 0 else 0))
    else p.pd_remaining
  let take : Bool := decide (op2.off_modrm ≠ 0 ∧ rem1 ≠ 0 ∧ idx2 < fetchbytes.length)
  let bytecount := if rem1 ≤ fetchbytes.length - idx2 then rem1 else fetchbytes.length - idx2
  let op3 : x64op :=
    if take then
      { op2 with bytes := op2.bytes ++ (fetchbytes.drop idx2).take bytecount,
                 off_displ := if op2.off_displ = 0 then op2.len else op2.off_displ,
                 len := (op2.len + bytecount) % 256 }
    else op2
  let rem3 := if take then rem1 - bytecount else rem1
  let idx3 := if take then idx2 + bytecount else idx2
  (if rem3 ≠ 0 ∨
      (op3.off_modrm = 0 ∧ use_modrm (op3.bytes.getD op3.off_opcode 0) op3.meta.op_mode ≠ 0) ∨
      (op3.off_sib = 0 ∧ op3.off_modrm ≠ 0 ∧ use_sib (op3.bytes.getD op3.off_modrm 0) ≠ 0)
    then 1 else 0,
   idx3, { p with part_op := op3, pd_remaining := rem3 })

/-- The lambda `parse_imm` of `x64Frontend::fetch`: as many immediate bytes as the block
still holds; `pd_state` becomes `pd_reset` when none remain. -/
def parse_imm (fetchbytes : List Nat) (idx : Nat) (p : Predecoder) : Nat × Nat × Predecoder :=
  let op := p.part_op
  let has_rex_w : Bool :=
    decide (op.meta.has_rex ≠ 0 ∧ (op.bytes.getD op.meta.off_rex 0) &&& rex_w ≠ 0)
  let has_66_67 : Bool := decide (op.meta.has_66 ≠ 0 ∨ op.meta.has_67 ≠ 0)
  let opsz := if has_rex_w then 8 else if has_66_67 then 2 else 4
  let rem1 :=
    if p.pd_remaining ≠ 0 then p.pd_remaining
    else get_immsz (op.bytes.getD (op.off_opcode + op.meta.op_mode) 0) opsz op.meta.op_mode
      (if op.off_modrm ≠ 0 then modrm_get_reg (op.bytes.getD op.off_modrm 0) else 0)
  if rem1 ≠ 0 then
    if fetchbytes.length ≤ idx then (1, idx, { p with pd_remaining := rem1 })
    else
      let bytecount := if rem1 ≤ fetchbytes.length - idx then rem1 else fetchbytes.length - idx
      let op1 : x64op :=
        { op with bytes := op.bytes ++ (fetchbytes.drop idx).take bytecount,
                  off_imm := if op.off_imm = 0 then op.len else op.off_imm,
                  len := (op.len + bytecount) % 256 }
      (0, idx + bytecount,
        { p with part_op := op1, pd_remaining := rem1 - bytecount,
                 pd_state := if rem1 - bytecount = 0 then pd_reset else p.pd_state })
  else (0, idx, { p with pd_remaining := rem1, pd_state := pd_reset })

/-- The lambda `parse_instr` of `x64Frontend::fetch`: the `switch` on `pd_state` with its
fall-through from prefix to opcode to ModR/M to immediate; a stage that returns non-zero
leaves the switch with `pd_state` naming it. -/
def parse_instr (stray : Nat) (fetchbytes : List Nat) (idx : Nat) (p : Predecoder) :
    Nat × Predecoder :=
  let from_imm (idx : Nat) (p : Predecoder) : Nat × Predecoder :=
    let r := parse_imm fetchbytes idx { p with pd_state := pd_imm }
    (r.2.1, r.2.2)
  let from_modrm (idx : Nat) (p : Predecoder) : Nat × Predecoder :=
    let r := parse_modrm stray fetchbytes idx { p with pd_state := pd_modrm }
    if r.1 ≠ 0 then (r.2.1, r.2.2) else from_imm r.2.1 r.2.2
  let from_opcode (idx : Nat) (p : Predecoder) : Nat × Predecoder :=
    let r := parse_opcode stray fetchbytes idx { p with pd_state := pd_opcode }
    if r.1 ≠ 0 then (r.2.1, r.2.2) else from_modrm r.2.1 r.2.2
  let from_prefix (idx : Nat) (p : Predecoder) : Nat × Predecoder :=
    let r := parse_prefix stray fetchbytes idx { p with pd_state := pd_prefix }
    if r.1 ≠ 0 then (r.2.1, r.2.2) else from_opcode r.2.1 r.2.2
  if p.pd_state = pd_reset ∨ p.pd_state = pd_prefix then from_prefix idx p
  else if p.pd_state = pd_opcode then from_opcode idx p
  else if p.pd_state = pd_modrm then from_modrm idx p
  else if p.pd_state = pd_imm then from_imm idx p
  else (idx, p)

/-- The function `is_branch` of `frontend/x64.hh`: the instruction encodes a branch. -/
def x64op.is_branch (op : x64op) : Bool :=
  let opcode := op.bytes.getD (op.off_opcode + op.meta.op_mode) 0
  if op.meta.op_mode = 1 then decide (0x80 ≤ opcode ∧ opcode ≤ 0x8f)
  else
    decide ((0x70 ≤ opcode ∧ opcode ≤ 0x7f) ∨ (0xca ≤ opcode ∧ opcode ≤ 0xcb) ∨
      (0xc2 ≤ opcode ∧ opcode ≤ 0xc3) ∨ (0xe8 ≤ opcode ∧ opcode ≤ 0xe9) ∨ opcode = 0xeb ∨
      (opcode = 0xff ∧ 0b010 ≤ modrm_get_reg (op.bytes.getD op.off_modrm 0) ∧
        modrm_get_reg (op.bytes.getD op.off_modrm 0) ≤ 0b101))

/-- The predecode loop of `x64Frontend::fetch` over one fetch block, on the path without
page fault where no completed instruction is a branch (the predicted address is the
sequential one): `parse_instr` is called from index `i` on; a completed instruction
(`pd_state` back at `pd_reset`) goes to the instruction queue and `part_op` is zeroed;
the loop breaks at the first instruction the block leaves incomplete. The result is the
instructions pushed and the predecoder afterwards; `none` when a branch is met or the
fuel runs out. -/
def predecode_block (stray : Nat) (fetchbytes : List Nat) :
    Nat → Nat → Predecoder → Option (List x64op × Predecoder)
  | 0, _, _ => none
  | fuel + 1, i, p =>
    let r := parse_instr stray fetchbytes i p
    if r.2.pd_state ≠ pd_reset then some ([], r.2)
    else if x64op.is_branch r.2.part_op then none
    else
      match predecode_block stray fetchbytes fuel r.1 { r.2 with part_op := zero_x64op } with
      | none => none
      | some (ops, q) => some (r.2.part_op :: ops, q)

/-- Successive calls of `x64Frontend::fetch` on a sequential instruction stream, each
reading one fetch block from memory: the first block is entered at offset `offs`, every
later one at offset 0 (the fetch address moves to the next block when an instruction is
left incomplete). A call on an inactive frontend returns at once; a block of fewer than
16 bytes is the end of the code and turns the frontend inactive after it is
predecoded. -/
def predecode_blocks (stray : Nat) :
    List (List Nat) → Nat → Predecoder → Option (List x64op × Predecoder)
  | [], _, p => some ([], p)
  | blk :: rest, offs, p =>
    if !p.active then some ([], p)
    else
      match predecode_block stray blk (X64_FETCH_BYTES + 2) offs
          { p with active := decide (X64_FETCH_BYTES ≤ blk.length) } with
      | none => none
      | some (ops, q) =>
        match predecode_blocks stray rest 0 q with
        | none => none
        | some (ops2, q2) => some (ops ++ ops2, q2)

/-- The fields of a completed instruction that a decoder reads. -/
def x64op.fields (op : x64op) : List Nat × List Nat :=
  (op.bytes, [op.off_opcode, op.off_modrm, op.off_sib, op.off_displ, op.off_imm, op.len,
    op.meta.has_rex, op.meta.off_rex, op.meta.has_66, op.meta.has_67, op.meta.op_mode])

/-- The byte 0x90 (`nop`), `n` times. -/
def nops (n : Nat) : List Nat := List.replicate n 0x90

/-- One fetch block that holds the instruction `48 66 b8 34 12` at offset 0, followed by
`nop` bytes. -/
def ex_block_whole : List (List Nat) := [[0x48, 0x66, 0xb8, 0x34, 0x12] ++ nops 11]

/-- The same instruction stream entered at offset 15 of its first fetch block: the REX
byte 48 is the last byte of the block, the rest lies in the next block. -/
def ex_blocks_split : List (List Nat) :=
  [nops 15 ++ [0x48], [0x66, 0xb8, 0x34, 0x12] ++ nops 12]

/-! ## x64 decoder (`x64Frontend::run_decode`, `frontend/x64.cc`) -/

-- enum uop_opcodes (`core/uops.hh`), the ones the embedded cases push
def uop_lda : Nat := 0x0024
def uop_lea : Nat := 0x0028
def uop_adc : Nat := 0x1011
def uop_sub : Nat := 0x1012
def uop_sbb : Nat := 0x1013
def uop_and : Nat := 0x1041
def uop_or : Nat := 0x1042
def uop_xor : Nat := 0x1043

-- enum x64gp
def reg64_a : Nat := 0
def reg64_sp : Nat := 4
def reg64_di : Nat := 7
def reg64_fsbase : Nat := 16
def reg64_gsbase : Nat := 17

/-- The function `to_ureg(reg)`, a `u8`. -/
def to_ureg (reg : Nat) : Nat := (reg + 1) % 256

/-- The function `to_ureg(reg, valid)`. -/
def to_ureg_if (reg : Nat) (valid : Bool) : Nat := if valid then (reg + 1) % 256 else 0

/-- The function `is_gp`. -/
def is_gp (op : x64op) : Bool :=
  let opcode := op.bytes.getD (op.off_opcode + op.meta.op_mode) 0
  if op.meta.op_mode = 1 then
    decide (opcode = 0x05 ∨ (0x07 ≤ opcode ∧ opcode ≤ 0x0a) ∨ opcode = 0x0d ∨
      opcode = 0x19 ∨ (0x1c ≤ opcode ∧ opcode ≤ 0x1f) ∨ opcode = 0x31 ∨
      (0x40 ≤ opcode ∧ opcode ≤ 0x4f) ∨ (0x80 ≤ opcode ∧ opcode ≤ 0x9f) ∨
      (0xa0 ≤ opcode ∧ opcode ≤ 0xa5) ∨ (0xa8 ≤ opcode ∧ opcode ≤ 0xa9) ∨
      (0xab ≤ opcode ∧ opcode ≤ 0xad) ∨ opcode = 0xaf ∨
      (0xb0 ≤ opcode ∧ opcode ≤ 0xbf) ∨ (0xc0 ≤ opcode ∧ opcode ≤ 0xc1) ∨
      (0xc8 ≤ opcode ∧ opcode ≤ 0xcf) ∨ opcode = 0xff)
  else true

/-- The value `memcpy` leaves in a zeroed 64-bit word: the bytes in little-endian
order. -/
def le_value : List Nat → Nat
  | [] => 0
  | b :: r => b + 256 * le_value r

/-- The constants `run_decode` derives from the instruction before it looks at the
operands. `displ` is the bit pattern of the signed displacement. -/
structure DecodeEnv where
  opcode : Nat
  segbase : Nat
  modrm : Nat
  sib : Nat
  rex : Nat
  mod_reg : Nat
  sib_idx : Nat
  sib_scl : Nat
  rexb_ex : Nat
  sib_useb : Bool
  sib_usei : Bool
  displ : Nat
  imm : Nat
  immbytes : Nat
  opsz : Nat
  adsz : Nat
  operands : List x64def.x64operand
deriving DecidableEq, Repr

/-- The displacement of `run_decode`: `memcpy` of `displ_len` bytes into the zeroed
`i64`, then the shift pair that extends the sign. Without a displacement the word
stays zero. -/
def decode_displ (op : x64op) : Nat :=
  if op.off_displ = 0 then 0
  else
    let displ_len := (if op.off_imm ≠ 0 then op.off_imm else op.bytes.length) - op.off_displ
    toU64 (toI64 ((le_value ((op.bytes.drop op.off_displ).take displ_len)
      <<< ((8 - displ_len) * 8)) % 2 ^ 64) / 2 ^ ((8 - displ_len) * 8))

/-- The lambda that builds `opvec`, the key of the opcode map. -/
def decode_opvec (op : x64op) (opcode modrm : Nat) : List Nat :=
  (if has_reqpfx opcode op.meta.op_mode ≠ 0 ∧ op.meta.has_g1 ≠ 0 then [op.meta.has_g1] else []) ++
  (if op.meta.op_mode = 1 then [0x0f] else []) ++ [opcode] ++
  (if get_group opcode op.meta.op_mode ≠ 0 then [modrm_get_reg modrm] else [])

/-- The declarations at the head of `run_decode`, up to the opcode map lookup. -/
def decode_env (op : x64op) : DecodeEnv :=
  let opcode := op.bytes.getD (op.off_opcode + op.meta.op_mode) 0
  let modrm := if op.off_modrm ≠ 0 then op.bytes.getD op.off_modrm 0 else 0
  let sib := if op.off_sib ≠ 0 then op.bytes.getD op.off_sib 0 else 0
  let rex := if op.meta.has_rex ≠ 0 then op.bytes.getD op.meta.off_rex 0 else 0
  let has_modrm : Bool := decide (op.off_modrm ≠ 0)
  let has_sib : Bool := decide (op.off_sib ≠ 0)
  let sib_idx0 := (if rex ≠ 0 then ((rex &&& rex_x) <<< 2) % 256 else 0) |||
    (if has_sib then sib_get_i sib else 0)
  let has_rex_w : Bool := decide (rex ≠ 0 ∧ rex &&& rex_w ≠ 0)
  { opcode := opcode,
    segbase := to_ureg_if (if op.meta.has_g2 = 0x64 then reg64_fsbase else reg64_gsbase)
      (decide (op.meta.has_g2 ≠ 0)),
    modrm := modrm, sib := sib, rex := rex,
    mod_reg := if has_modrm
      then (if rex ≠ 0 then ((rex &&& rex_r) <<< 1) % 256 else 0) ||| modrm_get_reg modrm else 0,
    sib_idx := if has_modrm then (if sib_idx0 &&& 0b111 = 0b100 then 0 else sib_idx0) else 0,
    sib_scl := if has_modrm && has_sib then (1 <<< sib_get_s sib) % 256 else 0,
    rexb_ex := if has_modrm
      then (if rex ≠ 0 then ((rex &&& rex_b) <<< 3) % 256 else 0) |||
        (if has_sib then sib_get_b sib else modrm_get_rm modrm)
      else 0,
    sib_useb := has_modrm && has_sib &&
      (!decide (sib_get_b sib = 0b101) ||
        decide (modrm_get_mod modrm = 0b01 ∨ modrm_get_mod modrm = 0b10)),
    sib_usei := has_modrm && has_sib && !decide (sib_get_i sib = 0b100),
    displ := if has_modrm then decode_displ op else 0,
    imm := if op.off_imm ≠ 0 then le_value (op.bytes.drop op.off_imm) else 0,
    immbytes := if op.off_imm ≠ 0 then op.bytes.length - op.off_imm else 0,
    opsz := if has_rex_w then 8 else if op.meta.has_66 ≠ 0 then 2 else 4,
    adsz := if op.meta.has_67 ≠ 0 then 4 else 8,
    operands := (x64def.get_opinfo (decode_opvec op opcode modrm)).operands }

/-- The locals of `run_decode` that the operand setup and the opcode cases write, the
vector `uops`, and the uops already handed to `uqueue->push_back`, in order. -/
structure DecodeSt where
  uops : List uop
  pushed : List uop
  imm : Nat
  opsz : Nat
  ldsz : Nat
  load_reg : Nat
  storeimm : Nat
  opsrc : Nat
  opdst : Nat
  temp_op : Nat
  extflag : Nat
  tmp : TmpRegs
deriving DecidableEq, Repr

/-- The ways `run_decode` leaves without a result, and the mark of an opcode case whose
body this development does not embed. -/
inductive DecodeError where
  | out_of_range
  | not_embedded
deriving DecidableEq, Repr

-- the marks of the high byte registers in the immediate
def src_rh : Nat := 1 <<< 63
def dst_rh : Nat := 1 <<< 62

/-- The register choice of the operand setup: a byte operation without REX on
registers 4 to 7 names a high byte register; the result is the register and whether it
is a high byte register. `needs_modrm` is the extra test of the ModR/M.rm variant. -/
def pick_reg (opsz rex reg : Nat) (needs_modrm : Bool) (op : x64op) (modrm : Nat) :
    Nat × Bool :=
  if opsz = 1 ∧ rex = 0 ∧
      (needs_modrm = true → op.off_modrm ≠ 0 ∧ modrm_get_mod modrm = 0b11) ∧
      reg64_sp ≤ reg ∧ reg ≤ reg64_di
  then (reg - reg64_sp, true) else (reg, false)

/-- The immediate field of the implied `lda` uop. -/
def lda_imm (e : DecodeEnv) (imm : Nat) : Nat :=
  (imm &&& ((bitmask 2 <<< 62) % 2 ^ 64)) ||| (e.adsz <<< 40) ||| (e.sib_scl <<< 32) |||
    (bitmask 32 &&& e.displ)

/-- The immediate field of the `lea` uops: scale and displacement. -/
def lea_imm (e : DecodeEnv) : Nat := (e.sib_scl <<< 32) ||| (bitmask 32 &&& e.displ)

/-- The base register operand of the address uops: invalid for disp32-only
addressing. -/
def base_ureg (op : x64op) (e : DecodeEnv) : Nat :=
  to_ureg_if e.rexb_ex (e.sib_useb || (decide (op.off_sib = 0) && decide (modrm_get_rm e.modrm ≠ 0b101)))

/-- The immediate after the operand setup: sign-extended to the operand size when the
last operand is an immediate, then or-ed with the marks of high byte registers
(`imm |= dst_rh`, `imm |= src_rh`, and the source mark again for a one-operand byte
instruction whose destination is marked). -/
def setup_imm (e : DecodeEnv) (last : x64def.x64operand) (opsz : Nat) (dst_high src_high : Bool) :
    Nat :=
  let imm1 := if x64def.is_immop last then sx e.imm e.immbytes opsz else e.imm
  let imm2 := if dst_high then imm1 ||| dst_rh else imm1
  let imm3 := if src_high then imm2 ||| src_rh else imm2
  if e.operands.length = 1 ∧ opsz = 1 then
    imm3 ||| (if imm3 &&& dst_rh ≠ 0 then src_rh else 0)
  else imm3

/-- The operand setup of `run_decode` for GP instructions (`if(is_gp(op))` before the
opcode switch): operand size, sign-extended immediate, source and destination
registers, and the implied `lda` uop of a memory operand. -/
def decode_setup (tmp : TmpRegs) (op : x64op) (e : DecodeEnv) : Except DecodeError DecodeSt :=
  let st0 : DecodeSt :=
    { uops := [], pushed := [], imm := e.imm, opsz := e.opsz, ldsz := 0, load_reg := 0,
      storeimm := 0, opsrc := 0, opdst := 0, temp_op := 0, extflag := 0, tmp := tmp }
  if !is_gp op then .ok st0
  else
    match e.operands.head?, e.operands.getLast? with
    | some first, some last =>
      let opsz := get_opsz e.opsz first.operand_type
      let dst :=
        if x64def.is_rmop first then pick_reg opsz e.rex e.rexb_ex true op e.modrm
        else pick_reg opsz e.rex e.mod_reg false op e.modrm
      let src :=
        if (x64def.get_rmop e.operands).2 ≠ 0 then pick_reg opsz e.rex e.rexb_ex true op e.modrm
        else pick_reg opsz e.rex e.mod_reg false op e.modrm
      let imm := setup_imm e last opsz dst.2 src.2
      let st1 : DecodeSt :=
        { st0 with imm := imm, opsz := opsz, opdst := dst.1, opsrc := src.1,
                   extflag := if opsz = 4 then rd_extend else rd_resize }
      if op.off_modrm ≠ 0 ∧ modrm_get_mod e.modrm ≠ 0b11 then
        let t1 := get_tmpreg tmp regs_gp
        let ldsz := get_opsz opsz (x64def.get_rmop e.operands).1.operand_type
        match setOpSize ldsz with
        | none => .error .out_of_range
        | some sz =>
          let lda : uop :=
            ⟨uop_lda, sz ||| use_ra ||| use_rb ||| use_rc ||| use_imm,
              base_ureg op e, to_ureg_if e.sib_idx e.sib_usei, e.segbase, to_ureg t1.1,
              lda_imm e imm⟩
          let st2 : DecodeSt :=
            { st1 with load_reg := t1.1, ldsz := ldsz, uops := [lda], tmp := t1.2 }
          if x64def.is_rmop first then
            let t2 := get_tmpreg t1.2 regs_gp
            .ok { st2 with opdst := t2.1, temp_op := 1, tmp := t2.2 }
          else .ok st2
      else .ok st1
    | _, _ => .ok st0

/-- The uop `ud` of `run_decode` once `raise_ud` has set its macro-op flags. -/
def ud_uop : uop := ⟨uop_int, use_imm ||| mop_first ||| mop_last, 0, 0, 0, 0, ex_UD⟩

/-- The lambda `raise_ud` of `run_decode`: `uops` is cleared and `ud` is pushed to the
uop queue at once. -/
def raise_ud (st : DecodeSt) : DecodeSt := { st with uops := [], pushed := st.pushed ++ [ud_uop] }

/-- The opcode labels of the one-byte `switch` of `run_decode`, as inclusive ranges; every
other opcode takes the `default` branch. -/
def cases_1b : List (Nat × Nat) :=
  [ (0x00, 0x05), (0x08, 0x0d), (0x10, 0x15), (0x18, 0x1d), (0x20, 0x25), (0x28, 0x2d),
    (0x30, 0x35), (0x38, 0x3d), (0x50, 0x5f), (0x63, 0x63), (0x68, 0x6b), (0x70, 0x81),
    (0x83, 0x99), (0x9c, 0x9d), (0xa0, 0xa3), (0xa8, 0xa9), (0xb0, 0xc3), (0xc6, 0xcd),
    (0xcf, 0xd3), (0xe3, 0xe3), (0xe8, 0xe9), (0xeb, 0xeb), (0xf1, 0xf1), (0xf4, 0xff) ]

/-- The opcode labels of the two-byte `switch` of `run_decode`. -/
def cases_2b : List (Nat × Nat) :=
  [ (0x05, 0x05), (0x07, 0x0a), (0x0d, 0x0d), (0x19, 0x19), (0x1c, 0x1f), (0x31, 0x31),
    (0x40, 0x4f), (0x80, 0xa5), (0xa8, 0xa9), (0xab, 0xad), (0xaf, 0xb1), (0xb3, 0xb3),
    (0xb6, 0xc1), (0xc8, 0xcf), (0xff, 0xff) ]

/-- An opcode has a `case` label in the list. -/
def has_case (cases : List (Nat × Nat)) (opcode : Nat) : Bool :=
  cases.any (fun r => decide (r.1 ≤ opcode ∧ opcode ≤ r.2))

/-- The opcode switches of `run_decode`. Embedded are the `default` branches, the
one-byte cases 00-03 (add Eb/Gb ..), 04-05 (add Zb/Ib, Zv/Iz), 80-81 and 83 (immediate
group 1), f4 (halt) and fa-fb (cli, sti), the two-byte cases 05, 07, 08, 09, 0d, 0a and
ff (all `raise_ud`) and 19, 1c-1f (nop), and the `else` branch of opcode modes above 1;
every other case answers `not_embedded`. -/
def decode_case (op : x64op) (e : DecodeEnv) (st : DecodeSt) : Except DecodeError DecodeSt :=
  if op.meta.op_mode = 0 then
    if !has_case cases_1b e.opcode then .ok (raise_ud st)
    else if e.opcode ≤ 0x03 then
      match setOpSize st.opsz with
      | none => .error .out_of_range
      | some sz =>
        .ok { st with uops := st.uops ++
          [⟨uop_add, sz ||| set_cond ||| st.extflag ||| use_ra ||| use_rb ||| use_rc,
            to_ureg_if st.opdst (decide (st.temp_op = 0)), to_ureg st.opsrc,
            to_ureg_if st.load_reg (decide (st.load_reg ≠ 0)), to_ureg st.opdst, st.imm⟩] }
    else if e.opcode ≤ 0x05 then
      match setOpSize st.opsz with
      | none => .error .out_of_range
      | some sz =>
        .ok { st with uops := st.uops ++
          [⟨uop_add, sz ||| set_cond ||| st.extflag ||| use_ra ||| use_imm,
            to_ureg reg64_a, 0, 0, to_ureg reg64_a, st.imm⟩] }
    else if e.opcode = 0x80 ∨ e.opcode = 0x81 ∨ e.opcode = 0x83 then
      let uopcode :=
        [uop_add, uop_or, uop_adc, uop_sbb, uop_and, uop_sub, uop_xor, uop_sub].getD
          (modrm_get_reg e.modrm) 0
      match setOpSize st.opsz with
      | none => .error .out_of_range
      | some sz =>
        .ok { st with uops := st.uops ++
          [⟨uopcode, sz ||| set_cond ||| st.extflag ||| use_ra ||| use_rc ||| use_imm,
            to_ureg_if st.opdst (decide (st.temp_op = 0)), 0,
            to_ureg_if st.load_reg (decide (st.load_reg ≠ 0)),
            to_ureg_if st.opdst (decide (modrm_get_reg e.modrm ≠ 0b111)), st.imm⟩] }
    else if e.opcode = 0xf4 ∨ e.opcode = 0xfa ∨ e.opcode = 0xfb then
      .ok { st with uops := st.uops ++ [⟨uop_int, use_imm, 0, 0, 0, 0, ex_GP⟩] }
    else .error .not_embedded
  else if op.meta.op_mode = 1 then
    if !has_case cases_2b e.opcode then .ok (raise_ud st)
    else if e.opcode = 0x05 ∨ e.opcode = 0x07 ∨ e.opcode = 0x08 ∨ e.opcode = 0x09 ∨
        e.opcode = 0x0d ∨ e.opcode = 0x0a ∨ e.opcode = 0xff then .ok (raise_ud st)
    else if e.opcode = 0x19 ∨ (0x1c ≤ e.opcode ∧ e.opcode ≤ 0x1f) then
      .ok { st with uops := st.uops ++ [⟨uop_nop, use_imm, 0, 0, 0, 0, e.opcode⟩] }
    else .error .not_embedded
  else .ok (raise_ud st)

/-- The block `finalize gp instructions` of `run_decode`: a memory destination is
finished with a `lea` of the address and a store. -/
def decode_finalize (op : x64op) (e : DecodeEnv) (st : DecodeSt) : Except DecodeError DecodeSt :=
  if is_gp op ∧ st.temp_op ≠ 0 ∧ op.off_modrm ≠ 0 ∧ modrm_get_mod e.modrm ≠ 0b11 ∧
      (e.operands.head?.map x64def.is_rmop) = some true then
    let t := get_tmpreg st.tmp regs_gp
    match setOpSize e.adsz, setOpSize st.ldsz with
    | some asz, some lsz =>
      .ok { st with tmp := t.2, uops := st.uops ++
        [⟨uop_lea, asz ||| use_ra ||| use_rb ||| use_rc ||| use_imm,
          base_ureg op e, to_ureg_if e.sib_idx e.sib_usei, e.segbase, to_ureg t.1, lea_imm e⟩,
         ⟨uop_st, lsz ||| use_ra ||| use_rb,
          to_ureg t.1, to_ureg_if st.opdst (decide (st.storeimm = 0)), 0, 0, st.imm⟩] }
    | _, _ => .error .out_of_range
  else .ok st

/-- The step `set macro positions`: `mop_first` on the front of `uops`, `mop_last` on
its back. -/
def set_macro_positions (uops : List uop) : List uop :=
  match uops with
  | [] => []
  | [u] => [{ u with control := u.control ||| mop_first ||| mop_last }]
  | u :: r =>
    { u with control := u.control ||| mop_first } ::
      (r.dropLast ++ (r.getLast?.map (fun l => { l with control := l.control ||| mop_last })).toList)

/-- The final loop: a uop with a non-zero immediate gets `use_imm`, then goes to the
queue. -/
def adjust_imm (u : uop) : uop := if u.imm ≠ 0 then { u with control := u.control ||| use_imm } else u

/-- The function `x64Frontend::run_decode`: the arguments of its `uqueue->push_back`
calls, in call order, and the temporary-register members afterwards. -/
def run_decode (tmp : TmpRegs) (op : x64op) : Except DecodeError (List uop × TmpRegs) :=
  if op.len = 0xff then
    .ok ([⟨uop_int, mop_first ||| mop_last ||| use_imm, 0, 0, 0, 0,
      setExcept ex_PF (expf_ifetch ||| expf_user)⟩], tmp)
  else if op.len = 0 ∨ 15 < op.len then .ok ([ud_uop], tmp)
  else
    let e := decode_env op
    match decode_setup tmp op e with
    | .error x => .error x
    | .ok st =>
      match decode_case op e st with
      | .error x => .error x
      | .ok st1 =>
        match decode_finalize op e st1 with
        | .error x => .error x
        | .ok st2 => .ok (st2.pushed ++ (set_macro_positions st2.uops).map adjust_imm, st2.tmp)

/-- The first instruction the predecoder completes in the fetch block `bytes`, entered
at offset 0 after a flush (0 stands for the stray byte). -/
def predecoded (bytes : List Nat) : Option x64op :=
  match predecode_block 0 bytes (X64_FETCH_BYTES + 2) 0 Predecoder.init with
  | some (op :: _, _) => some op
  | _ => none

/-- The fields of a uop, in declaration order. -/
def uop.fields (u : uop) : List Nat := [u.opcode, u.control, u.ra, u.rb, u.rc, u.rd, u.imm]

/-- The instruction `0f 0d 00` (prefetchw with the memory operand `[rax]`) as the
predecoder completes it. -/
def ex_prefetchw : x64op := ⟨[0x0f, 0x0d, 0x00], 0, 2, 0, 0, 0, 3, ⟨0, 0, 0, 0, 0, 0, 1, x64d_cmplx⟩⟩

/-- A one-byte instruction without prefix, ModR/M byte or immediate. -/
def ex_one_byte (opcode : Nat) : x64op := ⟨[opcode], 0, 0, 0, 0, 0, 1, ⟨0, 0, 0, 0, 0, 0, 0, 0⟩⟩

/-- The instruction `80 c4 05` (`add ah, 5`). -/
def ex_add_ah : x64op := ⟨[0x80, 0xc4, 0x05], 0, 1, 0, 0, 2, 3, ⟨0, 0, 0, 0, 0, 0, 0, 0⟩⟩

/-- The instruction `05 80 ff ff ff` (`add eax, 0xffffff80`). -/
def ex_add_eax : x64op :=
  ⟨[0x05, 0x80, 0xff, 0xff, 0xff], 0, 0, 0, 0, 1, 5, ⟨0, 0, 0, 0, 0, 0, 0, 0⟩⟩

/-- The instruction `01 00` (`add [rax], eax`). -/
def ex_add_mem : x64op := ⟨[0x01, 0x00], 0, 1, 0, 0, 0, 2, ⟨0, 0, 0, 0, 0, 0, 0, x64d_cmplx⟩⟩

/-- The locals of `run_decode` after the operand setup of `ex_add_eax`. -/
def ex_add_eax_setup : DecodeSt :=
  { uops := [], pushed := [], imm := 0xffffff80, opsz := 4, ldsz := 0, load_reg := 0,
    storeimm := 0, opsrc := 0, opdst := 0, temp_op := 0, extflag := rd_extend,
    tmp := TmpRegs.init }

/-- The instruction the fetch stage injects for a page fault: `len` = 0xff. -/
def ex_fault_op : x64op := ⟨[], 0, 0, 0, 0, 0, 0xff, ⟨0, 0, 0, 0, 0, 0, 0, 0⟩⟩

/-- The memory managers the functions of `mem.cc` can produce. The constructor leaves both
maps empty; `map_frame`, `mmap_frames` and `map_page` add frames and pages; `unmap_frame`,
`unmap_all_frames`, `unmap_page` and `unmap_all_pages` erase them (here at every key, also
where the source throws); `write` changes the bytes of frames; and the ring is that of the
simulator state the manager refers to. -/
inductive Producible : MemoryManager → Prop
  | empty (ring : Int) : Producible ⟨fun _ => none, fun _ => none, ring⟩
  | frame (m : MemoryManager) (alloc : Bool) (paddr : Nat) (pl : Int) (rwx : Nat) :
      Producible m → Producible (map_frame m alloc paddr pl rwx).1
  | page (m : MemoryManager) (vaddr paddr present : Nat) (pl : Int) (rwx : Nat) :
      Producible m → Producible (map_page m vaddr paddr present pl rwx).1
  | frames (m : MemoryManager) (paddr : Nat) (ext : Nat → Nat) (len : Nat) (pl : Int)
      (rwx : Nat) (r : MemoryManager × List (PageFrame × Nat)) :
      Producible m → mmap_frames m paddr ext len pl rwx = .ok r → Producible r.1
  | unmap_frame (m : MemoryManager) (paddr : Nat) :
      Producible m → Producible ⟨m.pagetable, Function.update m.mem paddr none, m.ring⟩
  | unmap_all_frames (m : MemoryManager) :
      Producible m → Producible ⟨m.pagetable, fun _ => none, m.ring⟩
  | unmap_page (m : MemoryManager) (vaddr : Nat) :
      Producible m → Producible ⟨Function.update m.pagetable vaddr none, m.mem, m.ring⟩
  | unmap_all_pages (m : MemoryManager) :
      Producible m → Producible ⟨fun _ => none, m.mem, m.ring⟩
  | written (m : MemoryManager) (wx vaddr : Nat) (data : Nat → Nat) (len : Nat)
      (m1 : MemoryManager) :
      Producible m → write m wx vaddr data len = .ok m1 → Producible m1
  | ring (m : MemoryManager) (r : Int) : Producible m → Producible ⟨m.pagetable, m.mem, r⟩

/-- The frame `map_frame` records at 0x8000 in an empty memory manager at ring 3, with
page 0x8000 mapped onto it. -/
def ex_mem_mapped : MemoryManager :=
  (map_page (map_frame ex_mem_none true 0x8000 3 0xff).1 0x8000 0x8000 1 3 0xff).1

/-! # Theorems -/

/-! ## Bit and register lemmas -/

theorem clear16_and_other (c m b : Nat) (h : (0xffff ^^^ m) &&& b = b) :
    clear16 c m &&& b = c &&& b := by
  unfold clear16; rw [Nat.and_assoc, h]

theorem clear16_and_self (c m : Nat) (h : (0xffff ^^^ m) &&& m = 0) :
    clear16 c m &&& m = 0 := by
  unfold clear16; rw [Nat.and_assoc, h]; exact Nat.and_zero c

theorem and_zero_of_and (c k x : Nat) (h : c &&& x = 0) : (c &&& k) &&& x = 0 := by
  rw [Nat.and_assoc, Nat.and_comm k x, ← Nat.and_assoc, h, Nat.zero_and]

theorem and_sub_of_and (c k m : Nat) (h : c &&& m = c) : (c &&& k) &&& m = c &&& k := by
  rw [Nat.and_assoc, Nat.and_comm k m, ← Nat.and_assoc, h]

theorem and_eq_of_or_eq (c m : Nat) (h : c ||| m = m) : c &&& m = c := by
  apply Nat.eq_of_testBit_eq
  intro i
  have hi := congrArg (fun x => Nat.testBit x i) h
  simp only [Nat.testBit_or] at hi
  rw [Nat.testBit_and]
  cases hc : c.testBit i <;> cases hm : m.testBit i <;> simp_all

@[simp] theorem setReg_control (op : uop) (i v : Nat) : (op.setReg i v).control = op.control := by
  unfold uop.setReg; split <;> rfl

@[simp] theorem setReg_opcode (op : uop) (i v : Nat) : (op.setReg i v).opcode = op.opcode := by
  unfold uop.setReg; split <;> rfl

@[simp] theorem setReg_imm (op : uop) (i v : Nat) : (op.setReg i v).imm = op.imm := by
  unfold uop.setReg; split <;> rfl

@[simp] theorem reg_setReg_self (op : uop) (i v : Nat) : (op.setReg i v).reg i = v := by
  rcases i with _ | _ | _ | i <;> rfl

theorem reg_setReg_other (op : uop) (i j v : Nat) (hi : i < 4) (hj : j < 4) (h : i ≠ j) :
    (op.setReg i v).reg j = op.reg j := by
  interval_cases i <;> interval_cases j <;> first | rfl | exact absurd rfl h

theorem setReg_with_control_reg (op : uop) (i j v c : Nat) :
    uop.reg { op.setReg i v with control := c } j = (op.setReg i v).reg j := by
  rcases j with _ | _ | _ | j <;> rfl

theorem with_control_reg (op : uop) (j c : Nat) :
    uop.reg { op with control := c } j = op.reg j := by
  rcases j with _ | _ | _ | j <;> rfl

theorem with_imm_reg (op : uop) (j c : Nat) :
    uop.reg { op with imm := c } j = op.reg j := by
  rcases j with _ | _ | _ | j <;> rfl

/-! ## Decode -/

theorem decode_norm_step_eq (i : Nat) (op : uop) :
    decode_norm_step i op =
      if op.control &&& (use_ra <<< i) = 0 then
        { op.setReg i 0 with control := clear16 op.control (use_ra <<< i) }
      else if op.reg i = 0 then { op with control := clear16 op.control (use_ra <<< i) }
      else op := by
  unfold decode_norm_step
  by_cases h1 : op.control &&& (use_ra <<< i) = 0
  · simp [h1]
  · simp [h1]

theorem decode_norm_step_control_other (i : Nat) (op : uop) (b : Nat)
    (h : (0xffff ^^^ (use_ra <<< i)) &&& b = b) :
    (decode_norm_step i op).control &&& b = op.control &&& b := by
  rw [decode_norm_step_eq]
  split_ifs <;> simp [clear16_and_other _ _ _ h]

theorem decode_norm_step_control_zero (i : Nat) (op : uop) (x : Nat)
    (h : op.control &&& x = 0) : (decode_norm_step i op).control &&& x = 0 := by
  rw [decode_norm_step_eq]
  split_ifs
  · exact and_zero_of_and _ _ _ h
  · exact and_zero_of_and _ _ _ h
  · exact h

theorem decode_norm_step_control_sub (i : Nat) (op : uop) (m : Nat)
    (h : op.control &&& m = op.control) :
    (decode_norm_step i op).control &&& m = (decode_norm_step i op).control := by
  rw [decode_norm_step_eq]
  split_ifs
  · exact and_sub_of_and _ _ _ h
  · exact and_sub_of_and _ _ _ h
  · exact h

theorem decode_norm_step_opcode (i : Nat) (op : uop) :
    (decode_norm_step i op).opcode = op.opcode := by
  rw [decode_norm_step_eq]
  split_ifs <;> simp

theorem decode_norm_step_reg_other (i j : Nat) (op : uop) (hi : i < 4) (hj : j < 4) (h : i ≠ j) :
    (decode_norm_step i op).reg j = op.reg j := by
  rw [decode_norm_step_eq]
  split_ifs
  · rw [setReg_with_control_reg, reg_setReg_other _ _ _ _ hi hj h]
  · rw [with_control_reg]
  · rfl

theorem decode_norm_step_reg_cases (i j : Nat) (op : uop) (hi : i < 4) (hj : j < 4) :
    (decode_norm_step i op).reg j = op.reg j ∨ (decode_norm_step i op).reg j = 0 := by
  by_cases h : i = j
  · subst h
    rw [decode_norm_step_eq]
    split_ifs
    · right; rw [setReg_with_control_reg, reg_setReg_self]
    · left; rw [with_control_reg]
    · left; rfl
  · left; exact decode_norm_step_reg_other i j op hi hj h

theorem decode_norm_step_iff (i : Nat) (op : uop)
    (h : (0xffff ^^^ (use_ra <<< i)) &&& (use_ra <<< i) = 0) :
    (decode_norm_step i op).control &&& (use_ra <<< i) ≠ 0 ↔ (decode_norm_step i op).reg i ≠ 0 := by
  rw [decode_norm_step_eq]
  split_ifs with h1 h2
  · rw [setReg_with_control_reg, reg_setReg_self]
    simp [clear16_and_self _ _ h]
  · rw [with_control_reg]
    simp [clear16_and_self _ _ h, h2]
  · simp [h1, h2]

/-- After the normalising loop every visited source slot has its use-bit set exactly when
its register is non-zero, and the `rc_dest` bit is the one the loop started with. -/
theorem decode_norm_spec (op : uop) :
    (decode_norm op).control &&& rc_dest = op.control &&& rc_dest ∧
    (∀ x, op.control &&& x = 0 → (decode_norm op).control &&& x = 0) ∧
    (∀ i, i < (if op.control &&& rc_dest ≠ 0 then 2 else 3) →
      ((decode_norm op).control &&& (use_ra <<< i) ≠ 0 ↔ (decode_norm op).reg i ≠ 0)) := by
  have e0 : (decode_norm_step 0 op).control &&& rc_dest = op.control &&& rc_dest :=
    decode_norm_step_control_other 0 op rc_dest (by decide)
  have e1 : (decode_norm_step 1 (decode_norm_step 0 op)).control &&& rc_dest
      = op.control &&& rc_dest := by
    rw [decode_norm_step_control_other 1 _ rc_dest (by decide), e0]
  have i0 := decode_norm_step_iff 0 op (by decide)
  have i1 := decode_norm_step_iff 1 (decode_norm_step 0 op) (by decide)
  have i2 := decode_norm_step_iff 2 (decode_norm_step 1 (decode_norm_step 0 op)) (by decide)
  -- slot 0 is not disturbed by rounds 1 and 2
  have k01 : (decode_norm_step 1 (decode_norm_step 0 op)).control &&& (use_ra <<< 0)
      = (decode_norm_step 0 op).control &&& (use_ra <<< 0) :=
    decode_norm_step_control_other 1 _ _ (by decide)
  have r01 : (decode_norm_step 1 (decode_norm_step 0 op)).reg 0 = (decode_norm_step 0 op).reg 0 :=
    decode_norm_step_reg_other 1 0 _ (by decide) (by decide) (by decide)
  have k02 := decode_norm_step_control_other 2 (decode_norm_step 1 (decode_norm_step 0 op))
    (use_ra <<< 0) (by decide)
  have r02 := decode_norm_step_reg_other 2 0 (decode_norm_step 1 (decode_norm_step 0 op))
    (by decide) (by decide) (by decide)
  have k12 := decode_norm_step_control_other 2 (decode_norm_step 1 (decode_norm_step 0 op))
    (use_ra <<< 1) (by decide)
  have r12 := decode_norm_step_reg_other 2 1 (decode_norm_step 1 (decode_norm_step 0 op))
    (by decide) (by decide) (by decide)
  unfold decode_norm
  simp only [e1]
  by_cases hrc : op.control &&& rc_dest ≠ 0
  · simp only [hrc, if_true, ne_eq, not_false_eq_true]
    refine ⟨e1, ?_, ?_⟩
    · intro x hx
      exact decode_norm_step_control_zero _ _ _ (decode_norm_step_control_zero _ _ _ hx)
    · intro i hi
      interval_cases i
      · rw [k01, r01]; exact i0
      · exact i1
  · simp only [hrc, if_false]
    refine ⟨?_, ?_, ?_⟩
    · rw [decode_norm_step_control_other 2 _ rc_dest (by decide), e1]
    · intro x hx
      exact decode_norm_step_control_zero _ _ _
        (decode_norm_step_control_zero _ _ _ (decode_norm_step_control_zero _ _ _ hx))
    · intro i hi
      interval_cases i
      · rw [k02, r02, k01, r01]; exact i0
      · rw [k12, r12]; exact i1
      · exact i2

theorem decode_norm_opcode (op : uop) : (decode_norm op).opcode = op.opcode := by
  unfold decode_norm
  dsimp only
  split_ifs <;> simp only [decode_norm_step_opcode]

theorem decode_norm_reg_cases (op : uop) (j : Nat) (hj : j < 4) :
    (decode_norm op).reg j = op.reg j ∨ (decode_norm op).reg j = 0 := by
  have s0 := decode_norm_step_reg_cases 0 j op (by decide) hj
  have s1 := decode_norm_step_reg_cases 1 j (decode_norm_step 0 op) (by decide) hj
  have s2 := decode_norm_step_reg_cases 2 j (decode_norm_step 1 (decode_norm_step 0 op))
    (by decide) hj
  unfold decode_norm
  dsimp only
  split_ifs
  · rcases s1 with s1 | s1
    · rw [s1]; exact s0
    · exact Or.inr s1
  · rcases s2 with s2 | s2
    · rw [s2]
      rcases s1 with s1 | s1
      · rw [s1]; exact s0
      · exact Or.inr s1
    · exact Or.inr s2

theorem decode_norm_control_sub (op : uop) (m : Nat) (h : op.control &&& m = op.control) :
    (decode_norm op).control &&& m = (decode_norm op).control := by
  unfold decode_norm
  dsimp only
  split_ifs
  · exact decode_norm_step_control_sub _ _ _ (decode_norm_step_control_sub _ _ _ h)
  · exact decode_norm_step_control_sub _ _ _
      (decode_norm_step_control_sub _ _ _ (decode_norm_step_control_sub _ _ _ h))

theorem decode_bounds_step_control (sz i : Nat) (op : uop) :
    (decode_bounds_step sz i op).control = op.control := by
  unfold decode_bounds_step; split_ifs <;> rfl

theorem decode_bounds_control (op : uop) : (decode_bounds op).control = op.control := by
  simp [decode_bounds, List.range, List.range.loop, decode_bounds_step_control]

theorem decode_bounds_of_lt (op : uop) (h : ∀ i, i < 4 → op.reg i < getARFSize op) :
    decode_bounds op = op := by
  have h0 := h 0 (by decide)
  have h1 := h 1 (by decide)
  have h2 := h 2 (by decide)
  have h3 := h 3 (by decide)
  simp [decode_bounds, List.range, List.range.loop, decode_bounds_step, Nat.not_le.mpr h0,
    Nat.not_le.mpr h1, Nat.not_le.mpr h2, Nat.not_le.mpr h3]

theorem getARFSize_pos (op : uop) : 0 < getARFSize op := by
  unfold getARFSize
  cases getOpClass op <;> decide

theorem getARFSize_congr (op op' : uop) (h : op'.opcode = op.opcode) :
    getARFSize op' = getARFSize op := by
  simp [getARFSize, getOpClass, getOpPrefix, h]

theorem lookup_mem (l : List (Nat × uopinfo)) (k : Nat) (v : uopinfo)
    (h : l.lookup k = some v) : (k, v) ∈ l := by
  induction l with
  | nil => simp [List.lookup] at h
  | cons e t ih =>
    obtain ⟨k', v'⟩ := e
    by_cases hk : k = k'
    · subst hk
      simp [List.lookup] at h
      subst h
      exact List.mem_cons_self _ _
    · have hb : (k == k') = false := by simpa using hk
      rw [List.lookup, hb] at h
      exact List.mem_cons_of_mem _ (ih h)

theorem uopmap_mask_16 (opcode : Nat) (info : uopinfo) (h : uopmap_at opcode = some info) :
    info.ctrl_mask &&& (0xffff ^^^ info.ctrl_mask) = 0 := by
  have hall : ∀ e ∈ uopmap, e.2.ctrl_mask &&& (0xffff ^^^ e.2.ctrl_mask) = 0 := by decide
  exact hall _ (lookup_mem _ _ _ h)

theorem decode_mask_sub (info : uopinfo) (op : uop) :
    (decode_mask info op).control &&& info.ctrl_mask = (decode_mask info op).control := by
  unfold decode_mask
  split_ifs with h
  · show (op.control &&& info.ctrl_mask) &&& info.ctrl_mask = op.control &&& info.ctrl_mask
    rw [Nat.and_assoc, Nat.and_self]
  · exact and_eq_of_or_eq _ _ (not_not.mp h)

theorem decode_rc_sub (op : uop) (m : Nat) (h : op.control &&& m = op.control) :
    (decode_rc op).control &&& m = (decode_rc op).control := by
  unfold decode_rc
  split_ifs
  · exact and_sub_of_and _ _ _ h
  · exact h

theorem decode_uop_some (u : uop) (info : uopinfo) (h : uopmap_at u.opcode = some info) :
    decode_uop u = decode_bounds (decode_imm (decode_norm (decode_rc (decode_mask info u)))) := by
  unfold decode_uop; rw [h]

theorem decode_imm_control (op : uop) : (decode_imm op).control = op.control := by
  unfold decode_imm; split_ifs <;> rfl

theorem decode_imm_opcode (op : uop) : (decode_imm op).opcode = op.opcode := by
  unfold decode_imm; split_ifs <;> rfl

theorem decode_imm_reg (op : uop) (j : Nat) : (decode_imm op).reg j = op.reg j := by
  unfold decode_imm; split_ifs
  · exact with_imm_reg _ _ _
  · rfl

theorem decode_rc_reg (op : uop) (j : Nat) : (decode_rc op).reg j = op.reg j := by
  unfold decode_rc; split_ifs
  · exact with_control_reg _ _ _
  · rfl

theorem decode_rc_opcode (op : uop) : (decode_rc op).opcode = op.opcode := by
  unfold decode_rc; split_ifs <;> rfl

theorem decode_mask_reg (info : uopinfo) (op : uop) (j : Nat) :
    (decode_mask info op).reg j = op.reg j := by
  unfold decode_mask; split_ifs
  · exact with_control_reg _ _ _
  · rfl

theorem decode_mask_opcode (info : uopinfo) (op : uop) :
    (decode_mask info op).opcode = op.opcode := by
  unfold decode_mask; split_ifs <;> rfl

/-- The control word emitted for a table opcode lies inside the opcode's mask. -/
theorem decode_uop_control_sub (u : uop) (info : uopinfo)
    (h : uopmap_at u.opcode = some info) :
    (decode_uop u).control &&& info.ctrl_mask = (decode_uop u).control := by
  rw [decode_uop_some u info h, decode_bounds_control, decode_imm_control]
  exact decode_norm_control_sub _ _ (decode_rc_sub _ _ (decode_mask_sub info u))

/-- A uop whose registers are in bounds passes the bounds loop unchanged. -/
theorem decode_uop_in_bounds (u : uop) (info : uopinfo)
    (h : uopmap_at u.opcode = some info) (hb : ∀ i, i < 4 → u.reg i < getARFSize u) :
    decode_uop u = decode_imm (decode_norm (decode_rc (decode_mask info u))) := by
  rw [decode_uop_some u info h]
  apply decode_bounds_of_lt
  intro i hi
  have hsz : getARFSize (decode_imm (decode_norm (decode_rc (decode_mask info u))))
      = getARFSize u :=
    getARFSize_congr _ _ (by
      rw [decode_imm_opcode, decode_norm_opcode, decode_rc_opcode, decode_mask_opcode])
  rw [hsz, decode_imm_reg]
  rcases decode_norm_reg_cases (decode_rc (decode_mask info u)) i hi with e | e
  · rw [e, decode_rc_reg, decode_mask_reg]; exact hb i hi
  · rw [e]; exact getARFSize_pos u

/-- A uop taken from the uQueue is replaced in ID/RA by its decoded form. -/
theorem decode_slot_next (c : Core) (u : uop) (q : LatchQueue uop)
    (hmax : c.id_ra.max_size = ID_RA_SIZE + DECODE_WIDTH)
    (hroom : c.id_ra.size < ID_RA_SIZE + DECODE_WIDTH)
    (hget : c.uqueue.get_front c.state.cycle = .ok (u, q)) :
    decode_slot c = .next { c with
      uqueue := q
      id_ra := { c.id_ra with
        queue := c.id_ra.queue ++ [⟨c.state.cycle + DECODE_LATENCY, decode_uop u⟩] } } := by
  unfold decode_slot
  rw [if_neg (Nat.not_le.mpr hroom), hget]
  have hpush : c.id_ra.push_back (c.state.cycle + DECODE_LATENCY) (decode_uop u)
      = .ok { c.id_ra with
          queue := c.id_ra.queue ++ [⟨c.state.cycle + DECODE_LATENCY, decode_uop u⟩] } := by
    unfold LatchQueue.push_back
    rw [if_neg]
    rw [hmax]
    exact Nat.not_le.mpr hroom
  simp only [hpush]

/-- C9: for a uop with a table opcode and in-bounds registers, the uop pushed to ID/RA by a
decode slot is normalised: `rc_dest` set implies `use_rc` clear, and for every source slot
`i` (ra, rb, and rc when `rc_dest` is clear) the use-bit is set iff `regs[i] != 0`. -/
theorem decode_pushes_normalised (c : Core) (u : uop) (q : LatchQueue uop) (info : uopinfo)
    (hmax : c.id_ra.max_size = ID_RA_SIZE + DECODE_WIDTH)
    (hroom : c.id_ra.size < ID_RA_SIZE + DECODE_WIDTH)
    (hget : c.uqueue.get_front c.state.cycle = .ok (u, q))
    (hin : uopmap_at u.opcode = some info)
    (hb : ∀ i, i < 4 → u.reg i < getARFSize u) :
    ∃ d : uop,
      decode_slot c = .next { c with
        uqueue := q
        id_ra := { c.id_ra with
          queue := c.id_ra.queue ++ [⟨c.state.cycle + DECODE_LATENCY, d⟩] } } ∧
      (d.control &&& rc_dest ≠ 0 → d.control &&& use_rc = 0) ∧
      (∀ i, i < (if d.control &&& rc_dest ≠ 0 then 2 else 3) →
        (d.control &&& (use_ra <<< i) ≠ 0 ↔ d.reg i ≠ 0)) := by
  refine ⟨decode_uop u, decode_slot_next c u q hmax hroom hget, ?_⟩
  rw [decode_uop_in_bounds u info hin hb]
  obtain ⟨hrc, hzero, hslots⟩ := decode_norm_spec (decode_rc (decode_mask info u))
  simp only [decode_imm_control, decode_imm_reg]
  constructor
  · intro hset
    apply hzero
    rw [hrc] at hset
    unfold decode_rc at hset ⊢
    by_cases hy : (decode_mask info u).control &&& rc_dest ≠ 0
    · rw [if_pos hy]
      exact clear16_and_self _ _ (by decide)
    · rw [if_neg hy] at hset
      exact absurd hset hy
  · intro i hi
    rw [hrc] at hi
    exact hslots i hi

/-- C9, at a concrete input: the `add r7 <- r8, r9` waiting in the uQueue of a fresh
core. -/
theorem decode_pushes_normalised_witness :
    ∃ d : uop,
      decode_slot ex_core_fetched = .next { ex_core_fetched with
        uqueue := ⟨UQUEUE_SIZE + FETCH_WIDTH, []⟩
        id_ra := { ex_core_fetched.id_ra with
          queue := ex_core_fetched.id_ra.queue ++
            [⟨ex_core_fetched.state.cycle + DECODE_LATENCY, d⟩] } } ∧
      (d.control &&& rc_dest ≠ 0 → d.control &&& use_rc = 0) ∧
      (∀ i, i < (if d.control &&& rc_dest ≠ 0 then 2 else 3) →
        (d.control &&& (use_ra <<< i) ≠ 0 ↔ d.reg i ≠ 0)) :=
  decode_pushes_normalised ex_core_fetched ex_add ⟨UQUEUE_SIZE + FETCH_WIDTH, []⟩
    ⟨"add", port_alu, fu_alu, 0xffff, 1⟩ rfl (by decide) rfl rfl (by decide)

/-- C10: for a uop with a table opcode, the control word of the uop pushed to ID/RA by a
decode slot has no bit outside the opcode's allowed mask: `control & ~ctrl_mask = 0` in
16 bits, and `control & ctrl_mask = control`. -/
theorem decode_control_within_mask (c : Core) (u : uop) (q : LatchQueue uop) (info : uopinfo)
    (hmax : c.id_ra.max_size = ID_RA_SIZE + DECODE_WIDTH)
    (hroom : c.id_ra.size < ID_RA_SIZE + DECODE_WIDTH)
    (hget : c.uqueue.get_front c.state.cycle = .ok (u, q))
    (hin : uopmap_at u.opcode = some info) :
    ∃ d : uop,
      decode_slot c = .next { c with
        uqueue := q
        id_ra := { c.id_ra with
          queue := c.id_ra.queue ++ [⟨c.state.cycle + DECODE_LATENCY, d⟩] } } ∧
      d.control &&& (0xffff ^^^ info.ctrl_mask) = 0 ∧
      d.control &&& info.ctrl_mask = d.control := by
  refine ⟨decode_uop u, decode_slot_next c u q hmax hroom hget, ?_,
    decode_uop_control_sub u info hin⟩
  rw [← decode_uop_control_sub u info hin, Nat.and_assoc, uopmap_mask_16 _ _ hin]
  exact Nat.and_zero _

/-- C10, at a concrete input: a `nop` (mask 0x0181) carrying every control bit. -/
theorem decode_control_within_mask_witness :
    ∃ d : uop,
      decode_slot ex_core_nop = .next { ex_core_nop with
        uqueue := ⟨UQUEUE_SIZE + FETCH_WIDTH, []⟩
        id_ra := { ex_core_nop.id_ra with
          queue := ex_core_nop.id_ra.queue ++
            [⟨ex_core_nop.state.cycle + DECODE_LATENCY, d⟩] } } ∧
      d.control &&& (0xffff ^^^ 0x0181) = 0 ∧
      d.control &&& 0x0181 = d.control :=
  decode_control_within_mask ex_core_nop ex_nop ⟨UQUEUE_SIZE + FETCH_WIDTH, []⟩
    ⟨"nop", port_any, fu_any, 0x0181, 1⟩ rfl (by decide) rfl rfl

/-! ## Flush, commit and allocation at concrete states -/

set_option maxRecDepth 100000 in
/-- C1, the code at the failing input: `set r5 <- 42` is renamed to p1 on a fresh core, so
`pg[1] = 5` while `gc[1] = 0`. `Core::flush` copies `REGCLS_0_CNT` = 36 bytes in all three
`memcpy` calls; the copy into `vr` (32 entries) runs on into `gc[0..3]`, reading
`pg[0..3]`. After the flush `gc[1] = 5` (it was 0) and `gp[1] = 0`: the committed table
has changed and the forward table differs from it. -/
theorem flush_overwrites_committed_table :
    (run (ex_rename ex_set5) (Core.init risc)).map (fun c =>
      (c.rrt.C .gp 1, c.rrt.R .gp 1,
        (flush c).toOption.map (fun c' => (c'.rrt.A .gp 1, c'.rrt.C .gp 1))))
      = some (0, 5, some (0, 5)) := by
  decide

set_option maxRecDepth 100000 in
/-- C2, the code at the failing input: `sub r0 <- r5, r6` with `set_cond` is renamed on a
fresh core and takes condition register 1. `Core::flush` refills `cc_freelist` with
1..31 but does not touch `cc_lastused`, which still holds 1. -/
theorem flush_keeps_cc_lastused :
    (run (ex_rename ex_cmp) (Core.init risc)).map (fun c =>
      (flush c).toOption.map (fun c' =>
        (decide (c'.rrt.cc_freelist = List.range' 1 (CCREG_CNT - 1)), c'.rrt.cc_lastused)))
      = some (some (true, [1])) := by
  decide

set_option maxRecDepth 100000 in
/-- C3, the code at the failing input: `copy2 (r7, r8) <- (r1, r2)` is renamed on a fresh
core; its ROB entry has `rc_dest` set, `rc = p1` and `rd = p2`. After `Core::flush` p2 is
on the gp free list and p1 is not: the loop pushes `regs[r_rd]` only. -/
theorem flush_frees_rd_only :
    (run (ex_rename ex_copy2) (Core.init risc)).map (fun c =>
      (c.rob.queue.map (fun e => (e.elem.op.control &&& rc_dest, e.elem.op.rc, e.elem.op.rd)),
        (flush c).toOption.map (fun c' =>
          (decide (2 ∈ c'.rrt.freelist .gp), decide (1 ∈ c'.rrt.freelist .gp)))))
      = some ([(rc_dest, 1, 2)], some (true, false)) := by
  decide

set_option maxRecDepth 100000 in
/-- C4, the code at the failing input: `set r5 <- 42` is renamed to p1, executed, and is
the ready ROB head with `R[1] = 5` and `A[5] = 1`. The commit slot retires it: `C[5] = 1`,
p1 is the last element of the gp free list, `R[1] = 0`, but `A[5]` is still 1: the
reverse entry is cleared before the last-writer test reads it, so the test looks at
`A[0]`. -/
theorem commit_keeps_forward_mapping :
    (run (ex_rename ex_set5 ++ [.exec 0 ex_done, .tick]) (Core.init risc)).bind (fun c =>
      (commit_slot ex_quiet c).state?.map (fun c' =>
        (c.rob.queue.map (fun e => e.elem.op.rd), [c.rrt.R .gp 1, c.rrt.A .gp 5],
          [c'.rrt.C .gp 5, c'.rrt.R .gp 1, c'.rrt.A .gp 5, c'.rob.size],
          (c'.rrt.freelist .gp).getLast?)))
      = some ([1], [5, 1], [1, 0, 1, 0], some 1) := by
  decide

set_option maxRecDepth 1000000 in
/-- C7, the code at the failing input: 177 destination-only uops are in flight, two
registers (178, 179) are free, and `add r7 <- r8, r9` with both sources unmapped is at the
head of ID/RA. It needs 2 + 1 = 3 registers, the test of line 352 asks for 2, and the slot
goes on to call `front()` on the emptied free list. -/
theorem alloc_underestimates_registers :
    (run ex_trace_low (Core.init risc)).map (fun c =>
      (c.rrt.freelist .gp, c.id_ra.queue.map (fun e => e.elem),
        alloc_loadcount c.rrt .gp ex_add,
        alloc_required (alloc_loadcount c.rrt .gp ex_add) ex_add.control,
        (alloc_slot c).isUndefined))
      = some ([178, 179], [ex_add], 2, 2, true) := by
  decide

/-! ## The rename table as a byte memory -/

namespace RenameTable

@[simp] theorem store_freelist (t : RenameTable) (x v : Nat) (cls : RegClass) :
    (t.store x v).freelist cls = t.freelist cls := by
  cases cls <;> rfl

@[simp] theorem store_cc_freelist (t : RenameTable) (x v : Nat) :
    (t.store x v).cc_freelist = t.cc_freelist := rfl

@[simp] theorem store_cc_lastused (t : RenameTable) (x v : Nat) :
    (t.store x v).cc_lastused = t.cc_lastused := rfl

@[simp] theorem setFreelist_mem (t : RenameTable) (cls : RegClass) (l : List Nat) :
    (t.setFreelist cls l).mem = t.mem := by
  cases cls <;> rfl

@[simp] theorem setFreelist_A (t : RenameTable) (cls cls' : RegClass) (l : List Nat) (a : Nat) :
    (t.setFreelist cls l).A cls' a = t.A cls' a := by
  simp [A]

@[simp] theorem setFreelist_C (t : RenameTable) (cls cls' : RegClass) (l : List Nat) (a : Nat) :
    (t.setFreelist cls l).C cls' a = t.C cls' a := by
  simp [C]

@[simp] theorem setFreelist_R (t : RenameTable) (cls cls' : RegClass) (l : List Nat) (a : Nat) :
    (t.setFreelist cls l).R cls' a = t.R cls' a := by
  simp [R]

@[simp] theorem setFreelist_cc_freelist (t : RenameTable) (cls : RegClass) (l : List Nat) :
    (t.setFreelist cls l).cc_freelist = t.cc_freelist := by
  cases cls <;> rfl

@[simp] theorem setFreelist_cc_lastused (t : RenameTable) (cls : RegClass) (l : List Nat) :
    (t.setFreelist cls l).cc_lastused = t.cc_lastused := by
  cases cls <;> rfl

theorem setFreelist_freelist (t : RenameTable) (cls cls' : RegClass) (l : List Nat) :
    (t.setFreelist cls l).freelist cls' = if cls' = cls then l else t.freelist cls' := by
  cases cls <;> cases cls' <;> rfl

@[simp] theorem setFreelist_freelist_self (t : RenameTable) (cls : RegClass) (l : List Nat) :
    (t.setFreelist cls l).freelist cls = l := by
  cases cls <;> rfl

theorem A_store_rrt (t : RenameTable) (cls cls' : RegClass) (a a' v : Nat)
    (ha : a < cls.cnt) (ha' : a' < cls'.cnt) :
    (t.store (cls.rrt + a) v).A cls' a' = if cls' = cls ∧ a' = a then v else t.A cls' a' := by
  unfold A store
  simp only [Function.update_apply]
  cases cls <;> cases cls' <;>
    simp [RegClass.rrt, RegClass.rct, RegClass.trr, RegClass.cnt, RegClass.rnreg, off_gp,
      off_fp, off_vr, off_gc, off_fc, off_vc, off_pg, off_pf, off_rv, REGCLS_0_CNT,
      REGCLS_1_CNT, REGCLS_2_CNT, REGCLS_0_RNREG, REGCLS_1_RNREG, REGCLS_2_RNREG] at ha ha' ⊢ <;>
    intro h <;> omega

theorem A_store_rct (t : RenameTable) (cls cls' : RegClass) (a a' v : Nat)
    (ha : a < cls.cnt) (ha' : a' < cls'.cnt) :
    (t.store (cls.rct + a) v).A cls' a' = t.A cls' a' := by
  unfold A store
  simp only [Function.update_apply]
  cases cls <;> cases cls' <;>
    simp [RegClass.rrt, RegClass.rct, RegClass.trr, RegClass.cnt, RegClass.rnreg, off_gp,
      off_fp, off_vr, off_gc, off_fc, off_vc, off_pg, off_pf, off_rv, REGCLS_0_CNT,
      REGCLS_1_CNT, REGCLS_2_CNT, REGCLS_0_RNREG, REGCLS_1_RNREG, REGCLS_2_RNREG] at ha ha' ⊢ <;>
    intro h <;> omega

theorem A_store_trr (t : RenameTable) (cls cls' : RegClass) (a a' v : Nat)
    (ha : a < cls.rnreg) (ha' : a' < cls'.cnt) :
    (t.store (cls.trr + a) v).A cls' a' = t.A cls' a' := by
  unfold A store
  simp only [Function.update_apply]
  cases cls <;> cases cls' <;>
    simp [RegClass.rrt, RegClass.rct, RegClass.trr, RegClass.cnt, RegClass.rnreg, off_gp,
      off_fp, off_vr, off_gc, off_fc, off_vc, off_pg, off_pf, off_rv, REGCLS_0_CNT,
      REGCLS_1_CNT, REGCLS_2_CNT, REGCLS_0_RNREG, REGCLS_1_RNREG, REGCLS_2_RNREG] at ha ha' ⊢ <;>
    intro h <;> omega

theorem C_store_rrt (t : RenameTable) (cls cls' : RegClass) (a a' v : Nat)
    (ha : a < cls.cnt) (ha' : a' < cls'.cnt) :
    (t.store (cls.rrt + a) v).C cls' a' = t.C cls' a' := by
  unfold C store
  simp only [Function.update_apply]
  cases cls <;> cases cls' <;>
    simp [RegClass.rrt, RegClass.rct, RegClass.trr, RegClass.cnt, RegClass.rnreg, off_gp,
      off_fp, off_vr, off_gc, off_fc, off_vc, off_pg, off_pf, off_rv, REGCLS_0_CNT,
      REGCLS_1_CNT, REGCLS_2_CNT, REGCLS_0_RNREG, REGCLS_1_RNREG, REGCLS_2_RNREG] at ha ha' ⊢ <;>
    intro h <;> omega

theorem C_store_rct (t : RenameTable) (cls cls' : RegClass) (a a' v : Nat)
    (ha : a < cls.cnt) (ha' : a' < cls'.cnt) :
    (t.store (cls.rct + a) v).C cls' a' = if cls' = cls ∧ a' = a then v else t.C cls' a' := by
  unfold C store
  simp only [Function.update_apply]
  cases cls <;> cases cls' <;>
    simp [RegClass.rrt, RegClass.rct, RegClass.trr, RegClass.cnt, RegClass.rnreg, off_gp,
      off_fp, off_vr, off_gc, off_fc, off_vc, off_pg, off_pf, off_rv, REGCLS_0_CNT,
      REGCLS_1_CNT, REGCLS_2_CNT, REGCLS_0_RNREG, REGCLS_1_RNREG, REGCLS_2_RNREG] at ha ha' ⊢ <;>
    intro h <;> omega

theorem C_store_trr (t : RenameTable) (cls cls' : RegClass) (a a' v : Nat)
    (ha : a < cls.rnreg) (ha' : a' < cls'.cnt) :
    (t.store (cls.trr + a) v).C cls' a' = t.C cls' a' := by
  unfold C store
  simp only [Function.update_apply]
  cases cls <;> cases cls' <;>
    simp [RegClass.rrt, RegClass.rct, RegClass.trr, RegClass.cnt, RegClass.rnreg, off_gp,
      off_fp, off_vr, off_gc, off_fc, off_vc, off_pg, off_pf, off_rv, REGCLS_0_CNT,
      REGCLS_1_CNT, REGCLS_2_CNT, REGCLS_0_RNREG, REGCLS_1_RNREG, REGCLS_2_RNREG] at ha ha' ⊢ <;>
    intro h <;> omega

theorem R_store_rrt (t : RenameTable) (cls cls' : RegClass) (a a' v : Nat)
    (ha : a < cls.cnt) (ha' : a' < cls'.rnreg) :
    (t.store (cls.rrt + a) v).R cls' a' = t.R cls' a' := by
  unfold R store
  simp only [Function.update_apply]
  cases cls <;> cases cls' <;>
    simp [RegClass.rrt, RegClass.rct, RegClass.trr, RegClass.cnt, RegClass.rnreg, off_gp,
      off_fp, off_vr, off_gc, off_fc, off_vc, off_pg, off_pf, off_rv, REGCLS_0_CNT,
      REGCLS_1_CNT, REGCLS_2_CNT, REGCLS_0_RNREG, REGCLS_1_RNREG, REGCLS_2_RNREG] at ha ha' ⊢ <;>
    intro h <;> omega

theorem R_store_rct (t : RenameTable) (cls cls' : RegClass) (a a' v : Nat)
    (ha : a < cls.cnt) (ha' : a' < cls'.rnreg) :
    (t.store (cls.rct + a) v).R cls' a' = t.R cls' a' := by
  unfold R store
  simp only [Function.update_apply]
  cases cls <;> cases cls' <;>
    simp [RegClass.rrt, RegClass.rct, RegClass.trr, RegClass.cnt, RegClass.rnreg, off_gp,
      off_fp, off_vr, off_gc, off_fc, off_vc, off_pg, off_pf, off_rv, REGCLS_0_CNT,
      REGCLS_1_CNT, REGCLS_2_CNT, REGCLS_0_RNREG, REGCLS_1_RNREG, REGCLS_2_RNREG] at ha ha' ⊢ <;>
    intro h <;> omega

theorem R_store_trr (t : RenameTable) (cls cls' : RegClass) (a a' v : Nat)
    (ha : a < cls.rnreg) (ha' : a' < cls'.rnreg) :
    (t.store (cls.trr + a) v).R cls' a' = if cls' = cls ∧ a' = a then v else t.R cls' a' := by
  unfold R store
  simp only [Function.update_apply]
  cases cls <;> cases cls' <;>
    simp [RegClass.rrt, RegClass.rct, RegClass.trr, RegClass.cnt, RegClass.rnreg, off_gp,
      off_fp, off_vr, off_gc, off_fc, off_vc, off_pg, off_pf, off_rv, REGCLS_0_CNT,
      REGCLS_1_CNT, REGCLS_2_CNT, REGCLS_0_RNREG, REGCLS_1_RNREG, REGCLS_2_RNREG] at ha ha' ⊢ <;>
    intro h <;> omega

end RenameTable

/-! ## Flush -/

theorem memcpy_of_in (m : Nat → Nat) (dst src n a : Nat) (h : dst ≤ a ∧ a < dst + n) :
    memcpy m dst src n a = m (src + (a - dst)) := by
  unfold memcpy; rw [if_pos h]

theorem memcpy_of_out (m : Nat → Nat) (dst src n a : Nat) (h : ¬ (dst ≤ a ∧ a < dst + n)) :
    memcpy m dst src n a = m a := by
  unfold memcpy; rw [if_neg h]

/-- After the three copies the forward table of every class equals the old committed
table. -/
theorem flush_tables_A (m : Nat → Nat) (cls : RegClass) (a : Nat) (ha : a < cls.cnt) :
    flush_tables m (cls.rrt + a) = m (cls.rct + a) := by
  unfold flush_tables
  cases cls <;>
    simp only [RegClass.rrt, RegClass.rct, RegClass.cnt, off_gp, off_fp, off_vr, off_gc,
      off_fc, off_vc, REGCLS_0_CNT, REGCLS_1_CNT, REGCLS_2_CNT] at ha ⊢
  · rw [memcpy_of_out _ _ _ _ _ (by omega), memcpy_of_out _ _ _ _ _ (by omega),
      memcpy_of_in _ _ _ _ _ (by omega)]
    congr 1
    omega
  · rw [memcpy_of_out _ _ _ _ _ (by omega), memcpy_of_in _ _ _ _ _ (by omega),
      memcpy_of_out _ _ _ _ _ (by omega)]
    congr 1
    omega
  · rw [memcpy_of_in _ _ _ _ _ (by omega), memcpy_of_out _ _ _ _ _ (by omega),
      memcpy_of_out _ _ _ _ _ (by omega)]
    congr 1
    omega

/-- The reverse tables are not touched by the copies. -/
theorem flush_tables_R (m : Nat → Nat) (cls : RegClass) (p : Nat) :
    flush_tables m (cls.trr + p) = m (cls.trr + p) := by
  unfold flush_tables
  cases cls <;>
    simp only [RegClass.trr, off_gp, off_fp, off_vr, off_gc,
      off_fc, off_vc, off_pg, off_pf, off_rv, REGCLS_0_CNT, REGCLS_1_CNT, REGCLS_2_CNT,
      REGCLS_0_RNREG, REGCLS_1_RNREG] <;>
    rw [memcpy_of_out _ _ _ _ _ (by omega), memcpy_of_out _ _ _ _ _ (by omega),
      memcpy_of_out _ _ _ _ _ (by omega)]

/-- Entry 0 of a committed table after the copies: for gp it is the old `pg[0]`, the
other two keep theirs. -/
theorem flush_tables_C0 (m : Nat → Nat) (cls : RegClass) :
    flush_tables m (cls.rct + 0) = if cls = .gp then m (RegClass.gp.trr + 0) else m (cls.rct + 0) := by
  unfold flush_tables
  cases cls <;>
    simp only [RegClass.rct, RegClass.trr, off_gp, off_fp, off_vr, off_gc,
      off_fc, off_vc, off_pg, REGCLS_0_CNT, REGCLS_1_CNT, REGCLS_2_CNT, reduceCtorEq, if_true,
      if_false]
  · rw [memcpy_of_in _ _ _ _ _ (by omega)]
    rw [memcpy_of_out _ _ _ _ _ (by omega), memcpy_of_out _ _ _ _ _ (by omega)]
  · rw [memcpy_of_out _ _ _ _ _ (by omega), memcpy_of_out _ _ _ _ _ (by omega),
      memcpy_of_out _ _ _ _ _ (by omega)]
  · rw [memcpy_of_out _ _ _ _ _ (by omega), memcpy_of_out _ _ _ _ _ (by omega),
      memcpy_of_out _ _ _ _ _ (by omega)]

namespace RenameTable

@[simp] theorem pushFree_mem (t : RenameTable) (cls : RegClass) (p : Nat) :
    (t.pushFree cls p).mem = t.mem := by
  unfold pushFree; simp

@[simp] theorem pushFree_A (t : RenameTable) (cls cls' : RegClass) (p a : Nat) :
    (t.pushFree cls p).A cls' a = t.A cls' a := by
  unfold pushFree; simp

@[simp] theorem pushFree_C (t : RenameTable) (cls cls' : RegClass) (p a : Nat) :
    (t.pushFree cls p).C cls' a = t.C cls' a := by
  unfold pushFree; simp

@[simp] theorem pushFree_R (t : RenameTable) (cls cls' : RegClass) (p a : Nat) :
    (t.pushFree cls p).R cls' a = t.R cls' a := by
  unfold pushFree; simp

@[simp] theorem pushFree_cc_freelist (t : RenameTable) (cls : RegClass) (p : Nat) :
    (t.pushFree cls p).cc_freelist = t.cc_freelist := by
  unfold pushFree; simp

@[simp] theorem pushFree_cc_lastused (t : RenameTable) (cls : RegClass) (p : Nat) :
    (t.pushFree cls p).cc_lastused = t.cc_lastused := by
  unfold pushFree; simp

theorem pushFree_freelist (t : RenameTable) (cls cls' : RegClass) (p : Nat) :
    (t.pushFree cls p).freelist cls' =
      if cls' = cls then t.freelist cls' ++ [p] else t.freelist cls' := by
  unfold pushFree
  rw [setFreelist_freelist]
  split_ifs with h
  · rw [h]
  · rfl

end RenameTable

theorem takeWhile_getElem? {α : Type} (p : α → Bool) (l : List α) (i : Nat) (x : α)
    (h : (l.takeWhile p)[i]? = some x) : l[i]? = some x := by
  induction l generalizing i with
  | nil => simp at h
  | cons a t ih =>
    rw [List.takeWhile_cons] at h
    by_cases hp : p a = true
    · rw [if_pos hp] at h
      cases i with
      | zero => simpa using h
      | succ j =>
        simp only [List.getElem?_cons_succ] at h ⊢
        exact ih j h
    · rw [if_neg hp] at h
      simp at h

theorem at_ok {T : Type} (q : LatchQueue T) (now i : Nat) (e : T)
    (h : q.at_ now i = .ok e) : ∃ qe, q.queue[i]? = some qe ∧ qe.elem = e := by
  unfold LatchQueue.at_ at h
  split at h
  · rename_i qe hqe
    refine ⟨qe, takeWhile_getElem? _ _ _ _ hqe, ?_⟩
    injection h
  · split_ifs at h

/-- The free-list pushes made by the flush loop from position `k` on. -/
theorem flush_free_aux (q : LatchQueue ROBEntry) (m k : Nat) (t t' : RenameTable)
    (hk : k + m = q.queue.length)
    (h : (List.range' k m).foldlM
      (fun t i => do
        let e ← q.at_ UINT64_MAX i
        pure (if e.op.rd ≠ 0 then t.pushFree (getOpClass e.op) e.op.rd else t)) t = .ok t') :
    t'.mem = t.mem ∧ t'.cc_freelist = t.cc_freelist ∧ t'.cc_lastused = t.cc_lastused ∧
    ∀ cls, t'.freelist cls = t.freelist cls ++ flush_pushes cls (q.queue.drop k) := by
  induction m generalizing k t with
  | zero =>
    simp only [List.range'_zero, List.foldlM_nil] at h
    injection h with h
    subst h
    have : q.queue.drop k = [] := List.drop_eq_nil_of_le (by omega)
    simp [this, flush_pushes]
  | succ n ih =>
    rw [List.range'_succ, List.foldlM_cons] at h
    cases hat : q.at_ UINT64_MAX k with
    | error err => rw [hat] at h; simp [bind, Except.bind] at h
    | ok e =>
      rw [hat] at h
      obtain ⟨qe, hqe, hel⟩ := at_ok q _ _ _ hat
      have hdrop : q.queue.drop k = qe :: q.queue.drop (k + 1) := by
        have hlt : k < q.queue.length := by omega
        rw [List.getElem?_eq_getElem hlt] at hqe
        injection hqe with hqe
        rw [← hqe]
        exact List.drop_eq_getElem_cons hlt
      simp only [bind, Except.bind, pure, Except.pure] at h
      have := ih (k + 1) _ (by omega) h
      obtain ⟨h1, h2, h3, h4⟩ := this
      subst hel
      rw [hdrop]
      by_cases hrd : qe.elem.op.rd ≠ 0
      · simp only [hrd, if_true, ne_eq, not_false_eq_true] at h1 h2 h3 h4
        simp only [RenameTable.pushFree_mem, RenameTable.pushFree_cc_freelist,
          RenameTable.pushFree_cc_lastused] at h1 h2 h3
        refine ⟨h1, h2, h3, ?_⟩
        intro cls
        rw [h4 cls, RenameTable.pushFree_freelist, flush_pushes]
        by_cases hc : cls = getOpClass qe.elem.op
        · subst hc; simp [hrd]
        · have hc' : ¬ getOpClass qe.elem.op = cls := fun h => hc h.symm
          simp [hc, hc']
      · simp only [hrd, if_false] at h1 h2 h3 h4
        refine ⟨h1, h2, h3, ?_⟩
        intro cls
        rw [h4 cls, flush_pushes]
        simp [hrd]

theorem flush_free_spec (q : LatchQueue ROBEntry) (t t' : RenameTable)
    (h : flush_free q t = .ok t') :
    t'.mem = t.mem ∧ t'.cc_freelist = t.cc_freelist ∧ t'.cc_lastused = t.cc_lastused ∧
    ∀ cls, t'.freelist cls = t.freelist cls ++ flush_pushes cls q.queue := by
  unfold flush_free at h
  rw [List.range_eq_range'] at h
  have := flush_free_aux q q.size 0 t t' (by simp [LatchQueue.size]) h
  simpa using this

theorem uop_rd_sublist_dests (op : uop) :
    List.Sublist (if op.rd ≠ 0 then [op.rd] else []) op.dests := by
  unfold uop.dests
  exact List.sublist_append_right _ _

theorem flush_pushes_sublist (cls : RegClass) (l : List (LatchQElem ROBEntry)) :
    List.Sublist (flush_pushes cls l) (inflight cls l) := by
  induction l with
  | nil => exact List.Sublist.refl _
  | cons e t ih =>
    unfold flush_pushes inflight
    apply List.Sublist.append _ ih
    by_cases hc : getOpClass e.elem.op = cls
    · simp only [hc, true_and, if_true]
      exact uop_rd_sublist_dests _
    · simp [hc]

/-! ## Renaming -/

theorem PhysRegFile.prf_get_set_zero (f : PhysRegFile) (cls cls' : RegClass) (p v : Nat)
    (hp : p ≠ 0) : (f.set cls p v).get cls' 0 = f.get cls' 0 := by
  cases cls <;> cases cls' <;>
    simp [PhysRegFile.set, PhysRegFile.get, Function.update_apply, Ne.symm hp]

theorem ArchRegFile.arf_get_set_zero (f : ArchRegFile) (cls cls' : RegClass) (p v : Nat)
    (hp : p ≠ 0) : (f.set cls p v).get cls' 0 = f.get cls' 0 := by
  cases cls <;> cases cls' <;>
    simp [ArchRegFile.set, ArchRegFile.get, Function.update_apply, Ne.symm hp]

theorem SrcRel.refl (cls : RegClass) (t : RenameTable) (prf : PhysRegFile) :
    SrcRel cls t prf [] t prf :=
  { fl := rfl
    fl_other := fun _ _ => rfl
    ccf := rfl
    ccl := rfl
    C_same := fun _ _ _ => rfl
    A_other := fun _ _ _ _ => rfl
    R_other := fun _ _ _ _ => rfl
    R_same := fun _ _ _ => rfl
    R_load := fun _ h => absurd h (List.not_mem_nil _)
    A_cases := fun _ _ => Or.inl rfl
    prf0 := fun _ => rfl }

/-- One round of the source loop extends the relation. -/
theorem SrcRel.step (arf : ArchRegFile) (cls : RegClass) (t : RenameTable) (prf : PhysRegFile)
    (loads : List Nat) (sreg : Nat) (st st' : RenameSt)
    (hrel : SrcRel cls t prf loads st.rrt st.prf)
    (hnd : (t.freelist cls).Nodup)
    (hrng : ∀ p ∈ t.freelist cls, 0 < p ∧ p < cls.rnreg)
    (hx : st.op.reg sreg < cls.cnt)
    (h : alloc_src arf cls sreg st = some st') :
    ∃ loads', SrcRel cls t prf loads' st'.rrt st'.prf ∧
      st'.op.control = st.op.control ∧ st'.op.opcode = st.op.opcode ∧
      (∀ j, j < 4 → sreg < 4 → j ≠ sreg → st'.op.reg j = st.op.reg j) := by
  unfold alloc_src at h
  split_ifs at h with h1 h2
  · -- mapped source
    injection h with h
    subst h
    exact ⟨loads, hrel, by simp, by simp,
      fun j hj hs hne => reg_setReg_other _ _ _ _ hs hj (Ne.symm hne)⟩
  · -- first use: load
    cases hfl : st.rrt.freelist cls with
    | nil => rw [hfl] at h; simp at h
    | cons l rest =>
      rw [hfl] at h
      simp only [Option.some.injEq] at h
      subst h
      have hfull : t.freelist cls = loads ++ l :: rest := by rw [hrel.fl, hfl]
      have hl_mem : l ∈ t.freelist cls := by rw [hfull]; simp
      have hl := hrng l hl_mem
      have hl_notin : l ∉ loads := by
        rw [hfull] at hnd
        intro hin
        exact (List.nodup_append.mp hnd).2.2 hin (List.mem_cons_self _ _)
      have hx0 : st.op.reg sreg ≠ 0 := h1.1
      have hA0 : st.rrt.A cls (st.op.reg sreg) = 0 := not_not.mp h2
      refine ⟨loads ++ [l], ?_, by simp, by simp,
        fun j hj hs hne => reg_setReg_other _ _ _ _ hs hj (Ne.symm hne)⟩
      refine
        { fl := by simp [hfull]
          fl_other := ?_
          ccf := by simp [hrel.ccf]
          ccl := by simp [hrel.ccl]
          C_same := ?_
          A_other := ?_
          R_other := ?_
          R_same := ?_
          R_load := ?_
          A_cases := ?_
          prf0 := ?_ }
      · intro cls' hc
        rw [RenameTable.setFreelist_freelist, if_neg hc]
        simp [hrel.fl_other cls' hc]
      · intro cls' a ha
        rw [RenameTable.setFreelist_C, RenameTable.C_store_trr _ _ _ _ _ _ hl.2 ha,
          RenameTable.C_store_rrt _ _ _ _ _ _ hx ha]
        exact hrel.C_same cls' a ha
      · intro cls' hc a ha
        rw [RenameTable.setFreelist_A, RenameTable.A_store_trr _ _ _ _ _ _ hl.2 ha,
          RenameTable.A_store_rrt _ _ _ _ _ _ hx ha, if_neg (fun h => hc h.1)]
        exact hrel.A_other cls' hc a ha
      · intro cls' hc p hp
        rw [RenameTable.setFreelist_R, RenameTable.R_store_trr _ _ _ _ _ _ hl.2 hp,
          if_neg (fun h => hc h.1), RenameTable.R_store_rrt _ _ _ _ _ _ hx hp]
        exact hrel.R_other cls' hc p hp
      · intro p hp hnotin
        have hpl : p ≠ l := fun h => hnotin (by simp [h])
        have hpn : p ∉ loads := fun h => hnotin (by simp [h])
        rw [RenameTable.setFreelist_R, RenameTable.R_store_trr _ _ _ _ _ _ hl.2 hp,
          if_neg (fun h => hpl h.2), RenameTable.R_store_rrt _ _ _ _ _ _ hx hp]
        exact hrel.R_same p hp hpn
      · intro p hp
        rw [RenameTable.setFreelist_R]
        rcases List.mem_append.mp hp with hp | hp
        · have hpl : p ≠ l := fun h => hl_notin (h ▸ hp)
          have hp_rng : p < cls.rnreg :=
            (hrng p (by rw [hfull]; exact List.mem_append_left _ hp)).2
          rw [RenameTable.R_store_trr _ _ _ _ _ _ hl.2 hp_rng, if_neg (fun h => hpl h.2),
            RenameTable.R_store_rrt _ _ _ _ _ _ hx hp_rng]
          exact hrel.R_load p hp
        · have hpl : p = l := by simpa using hp
          subst hpl
          rw [RenameTable.R_store_trr _ _ _ _ _ _ hl.2 hl.2, if_pos ⟨rfl, rfl⟩]
          exact ⟨Nat.pos_of_ne_zero hx0, hx⟩
      · intro a ha
        rw [RenameTable.setFreelist_A, RenameTable.A_store_trr _ _ _ _ _ _ hl.2 ha,
          RenameTable.A_store_rrt _ _ _ _ _ _ hx ha]
        by_cases hax : a = st.op.reg sreg
        · subst hax
          rw [if_pos ⟨rfl, rfl⟩]
          right
          refine ⟨?_, hx0, by simp⟩
          rcases hrel.A_cases _ ha with e | e
          · rw [← e]; exact hA0
          · exact e.1
        · rw [if_neg (fun h => hax h.2)]
          rcases hrel.A_cases a ha with e | e
          · exact Or.inl e
          · exact Or.inr ⟨e.1, e.2.1, List.mem_append_left _ e.2.2⟩
      · intro cls'
        rw [PhysRegFile.prf_get_set_zero _ _ _ _ _ (Nat.pos_iff_ne_zero.mp hl.1)]
        exact hrel.prf0 cls'
  · injection h with h
    subst h
    exact ⟨loads, hrel, rfl, rfl, fun _ _ _ _ => rfl⟩

theorem alloc_take_spec (t t1 : RenameTable) (cls : RegClass) (r p : Nat)
    (h : alloc_take t cls r = some (p, t1)) :
    t.freelist cls = (if r ≠ 0 then [p] else []) ++ t1.freelist cls ∧
    t1.mem = t.mem ∧ (∀ cls', cls' ≠ cls → t1.freelist cls' = t.freelist cls') ∧
    t1.cc_freelist = t.cc_freelist ∧ t1.cc_lastused = t.cc_lastused ∧ (r = 0 → p = 0) := by
  unfold alloc_take at h
  split_ifs at h with hr
  · unfold take_free at h
    cases hfl : t.freelist cls with
    | nil => rw [hfl] at h; simp at h
    | cons x rest =>
      rw [hfl] at h
      simp only [Option.some.injEq, Prod.mk.injEq] at h
      obtain ⟨hx, ht⟩ := h
      subst hx ht
      refine ⟨by simp [hr], by simp, ?_, by simp, by simp, fun h0 => absurd h0 hr⟩
      intro cls' hc
      rw [RenameTable.setFreelist_freelist, if_neg hc]
  · simp only [Option.some.injEq, Prod.mk.injEq] at h
    obtain ⟨hp, ht⟩ := h
    subst ht
    exact ⟨by simp [not_not.mp hr], rfl, fun _ _ => rfl, rfl, rfl, fun _ => hp.symm⟩

theorem alloc_dest_A (cls cls' : RegClass) (slot r p a : Nat) (st : RenameSt)
    (hr : r < cls.cnt) (hp : p < cls.rnreg) (ha : a < cls'.cnt) :
    (alloc_dest cls slot r p st).rrt.A cls' a =
      if r ≠ 0 ∧ cls' = cls ∧ a = r then p else st.rrt.A cls' a := by
  unfold alloc_dest
  by_cases h0 : r ≠ 0
  · simp only [h0, if_true, ne_eq, not_false_eq_true, true_and]
    rw [RenameTable.A_store_trr _ _ _ _ _ _ hp ha, RenameTable.A_store_rrt _ _ _ _ _ _ hr ha]
  · simp [h0]

theorem alloc_dest_R (cls cls' : RegClass) (slot r p q : Nat) (st : RenameSt)
    (hr : r < cls.cnt) (hp : p < cls.rnreg) (hq : q < cls'.rnreg) :
    (alloc_dest cls slot r p st).rrt.R cls' q =
      if r ≠ 0 ∧ cls' = cls ∧ q = p then r else st.rrt.R cls' q := by
  unfold alloc_dest
  by_cases h0 : r ≠ 0
  · simp only [h0, if_true, ne_eq, not_false_eq_true, true_and]
    rw [RenameTable.R_store_trr _ _ _ _ _ _ hp hq]
    split_ifs
    · rfl
    · exact RenameTable.R_store_rrt _ _ _ _ _ _ hr hq
  · simp [h0]

theorem alloc_dest_C (cls cls' : RegClass) (slot r p a : Nat) (st : RenameSt)
    (hr : r < cls.cnt) (hp : p < cls.rnreg) (ha : a < cls'.cnt) :
    (alloc_dest cls slot r p st).rrt.C cls' a = st.rrt.C cls' a := by
  unfold alloc_dest
  split_ifs
  · show ((st.rrt.store (cls.rrt + r) p).store (cls.trr + p) r).C cls' a = _
    rw [RenameTable.C_store_trr _ _ _ _ _ _ hp ha, RenameTable.C_store_rrt _ _ _ _ _ _ hr ha]
  · rfl

theorem alloc_dest_freelist (cls cls' : RegClass) (slot r p : Nat) (st : RenameSt) :
    (alloc_dest cls slot r p st).rrt.freelist cls' = st.rrt.freelist cls' := by
  unfold alloc_dest
  split_ifs <;> simp

theorem alloc_dest_cc (cls : RegClass) (slot r p : Nat) (st : RenameSt) :
    (alloc_dest cls slot r p st).rrt.cc_freelist = st.rrt.cc_freelist ∧
    (alloc_dest cls slot r p st).rrt.cc_lastused = st.rrt.cc_lastused := by
  unfold alloc_dest
  split_ifs <;> simp

theorem alloc_dest_prf (cls : RegClass) (slot r p : Nat) (st : RenameSt) :
    (alloc_dest cls slot r p st).prf = st.prf := by
  unfold alloc_dest
  split_ifs <;> rfl

theorem alloc_dest_op (cls : RegClass) (slot r p : Nat) (st : RenameSt) :
    (alloc_dest cls slot r p st).op = if r ≠ 0 then st.op.setReg slot p else st.op := by
  unfold alloc_dest
  split_ifs <;> rfl

theorem RegClass.cnt_pos (cls : RegClass) : 0 < cls.cnt := by
  cases cls <;> decide

theorem RegClass.rnreg_pos (cls : RegClass) : 0 < cls.rnreg := by
  cases cls <;> decide

theorem alloc_src_skip (arf : ArchRegFile) (cls : RegClass) (sreg : Nat) (st : RenameSt)
    (h : st.op.reg sreg = 0) : alloc_src arf cls sreg st = some st := by
  unfold alloc_src
  rw [if_neg]
  intro hc
  exact hc.1 h

theorem RenameTable.A_congr (t t' : RenameTable) (h : t'.mem = t.mem) (cls : RegClass) (a : Nat) :
    t'.A cls a = t.A cls a := by
  unfold RenameTable.A; rw [h]

theorem RenameTable.C_congr (t t' : RenameTable) (h : t'.mem = t.mem) (cls : RegClass) (a : Nat) :
    t'.C cls a = t.C cls a := by
  unfold RenameTable.C; rw [h]

theorem RenameTable.R_congr (t t' : RenameTable) (h : t'.mem = t.mem) (cls : RegClass) (a : Nat) :
    t'.R cls a = t.R cls a := by
  unfold RenameTable.R; rw [h]

/-- The three rounds of the source loop, started behind the destination tags. -/
theorem alloc_src_three (arf : ArchRegFile) (cls : RegClass) (t2 : RenameTable)
    (prf : PhysRegFile) (op : uop) (st1 st2 st3 : RenameSt)
    (hnd : (t2.freelist cls).Nodup)
    (hrng : ∀ p ∈ t2.freelist cls, 0 < p ∧ p < cls.rnreg)
    (hregs : ∀ i, i < 4 → op.reg i < cls.cnt)
    (h3 : alloc_src arf cls 0 { rrt := t2, prf := prf, op := op } = some st1)
    (h4 : alloc_src arf cls 1 st1 = some st2)
    (h5 : alloc_src arf cls 2 st2 = some st3) :
    ∃ loads, SrcRel cls t2 prf loads st3.rrt st3.prf ∧
      st3.op.control = op.control ∧ st3.op.opcode = op.opcode ∧ st3.op.rd = op.rd ∧
      (op.rc = 0 → st3.op.rc = 0) := by
  obtain ⟨l1, r1, c1, oc1, g1⟩ := SrcRel.step arf cls t2 prf [] 0
    { rrt := t2, prf := prf, op := op } st1 (SrcRel.refl cls t2 prf) hnd hrng
    (hregs 0 (by decide)) h3
  have e11 : st1.op.reg 1 = op.reg 1 := g1 1 (by decide) (by decide) (by decide)
  have e12 : st1.op.reg 2 = op.reg 2 := g1 2 (by decide) (by decide) (by decide)
  have e13 : st1.op.reg 3 = op.reg 3 := g1 3 (by decide) (by decide) (by decide)
  obtain ⟨l2, r2, c2, oc2, g2⟩ := SrcRel.step arf cls t2 prf l1 1 st1 st2 r1 hnd hrng
    (by rw [e11]; exact hregs 1 (by decide)) h4
  have e22 : st2.op.reg 2 = op.reg 2 := by
    rw [g2 2 (by decide) (by decide) (by decide), e12]
  have e23 : st2.op.reg 3 = op.reg 3 := by
    rw [g2 3 (by decide) (by decide) (by decide), e13]
  obtain ⟨l3, r3, c3, oc3, g3⟩ := SrcRel.step arf cls t2 prf l2 2 st2 st3 r2 hnd hrng
    (by rw [e22]; exact hregs 2 (by decide)) h5
  refine ⟨l3, r3, by rw [c3, c2, c1], by rw [oc3, oc2, oc1], ?_, ?_⟩
  · have : st3.op.reg 3 = op.reg 3 := by
      rw [g3 3 (by decide) (by decide) (by decide), e23]
    exact this
  · intro hrc
    have h20 : st2.op.reg 2 = 0 := by rw [e22]; exact hrc
    rw [alloc_src_skip arf cls 2 st2 h20] at h5
    injection h5 with h5
    rw [← h5]
    exact h20

theorem alloc_rename_rel (arf : ArchRegFile) (cls : RegClass) (t : RenameTable)
    (prf : PhysRegFile) (op : uop) (st : RenameSt)
    (hnd : (t.freelist cls).Nodup)
    (hrng : ∀ p ∈ t.freelist cls, 0 < p ∧ p < cls.rnreg)
    (hregs : ∀ i, i < 4 → op.reg i < cls.cnt)
    (h : alloc_rename arf cls ⟨t, prf, op⟩ = some st) :
    ∃ taken, AllocRel cls t prf op taken st := by
  unfold alloc_rename at h
  dsimp only at h
  generalize hc : (if op.control &&& rc_dest ≠ 0 then op.rc else 0) = c at h
  cases h1 : alloc_take t cls c with
  | none => rw [h1] at h; simp at h
  | some x1 =>
  obtain ⟨pc, t1⟩ := x1
  rw [h1] at h
  dsimp only at h
  cases h2 : alloc_take t1 cls op.rd with
  | none => rw [h2] at h; simp at h
  | some x2 =>
  obtain ⟨pd, t2⟩ := x2
  rw [h2] at h
  dsimp only at h
  cases h3 : alloc_src arf cls 0 { rrt := t2, prf := prf, op := op } with
  | none => rw [h3] at h; simp at h
  | some st1 =>
  rw [h3] at h
  dsimp only at h
  cases h4 : alloc_src arf cls 1 st1 with
  | none => rw [h4] at h; simp at h
  | some st2 =>
  rw [h4] at h
  dsimp only at h
  cases h5 : alloc_src arf cls 2 st2 with
  | none => rw [h5] at h; simp at h
  | some st3 =>
  rw [h5] at h
  simp only [Option.some.injEq] at h
  obtain ⟨f1, m1, o1, cf1, cl1, z1⟩ := alloc_take_spec _ _ _ _ _ h1
  obtain ⟨f2, m2, o2, cf2, cl2, z2⟩ := alloc_take_spec _ _ _ _ _ h2
  have hm : t2.mem = t.mem := by rw [m2, m1]
  -- the free list, split
  have hsub2 : List.Sublist (t2.freelist cls) (t.freelist cls) := by
    rw [f1, f2]
    exact (List.sublist_append_right _ _).trans (List.sublist_append_right _ _)
  have hnd2 : (t2.freelist cls).Nodup := hnd.sublist hsub2
  have hrng2 : ∀ p ∈ t2.freelist cls, 0 < p ∧ p < cls.rnreg :=
    fun p hp => hrng p (hsub2.subset hp)
  obtain ⟨loads, rel, hctl, hopc, hrd3, hrc3⟩ :=
    alloc_src_three arf cls t2 prf op st1 st2 st3 hnd2 hrng2 hregs h3 h4 h5
  have hfull : t.freelist cls = (if c ≠ 0 then [pc] else []) ++
      ((if op.rd ≠ 0 then [pd] else []) ++ (loads ++ st3.rrt.freelist cls)) := by
    rw [f1, f2, rel.fl]
  have hndf := hnd
  rw [hfull] at hndf
  have hcl : c < cls.cnt := by
    rw [← hc]
    split_ifs
    · exact hregs 2 (by decide)
    · exact cls.cnt_pos
  have hdl : op.rd < cls.cnt := hregs 3 (by decide)
  have hcdef : c ≠ 0 → op.control &&& rc_dest ≠ 0 ∧ op.rc = c := by
    intro hne
    by_cases hb : op.control &&& rc_dest ≠ 0
    · rw [if_pos hb] at hc
      exact ⟨hb, hc⟩
    · rw [if_neg hb] at hc
      exact absurd hc.symm hne
  have hpc : c ≠ 0 → 0 < pc ∧ pc < cls.rnreg := by
    intro hne
    apply hrng
    rw [hfull, if_pos hne]
    simp
  have hpd : op.rd ≠ 0 → 0 < pd ∧ pd < cls.rnreg := by
    intro hne
    apply hrng
    rw [hfull, if_pos hne]
    simp
  have hpc_lt : pc < cls.rnreg := by
    by_cases hne : c ≠ 0
    · exact (hpc hne).2
    · rw [z1 (not_not.mp hne)]; exact cls.rnreg_pos
  have hpd_lt : pd < cls.rnreg := by
    by_cases hne : op.rd ≠ 0
    · exact (hpd hne).2
    · rw [z2 (not_not.mp hne)]; exact cls.rnreg_pos
  have hne_cd : c ≠ 0 → op.rd ≠ 0 → pc ≠ pd := by
    intro h1 h2 heq
    rw [if_pos h1, if_pos h2] at hndf
    have := (List.nodup_append.mp hndf).2.2 (List.mem_singleton_self pc)
    exact this (by rw [heq]; simp)
  have hlc : c ≠ 0 → pc ∉ loads := by
    intro h1 hin
    rw [if_pos h1] at hndf
    exact (List.nodup_append.mp hndf).2.2 (List.mem_singleton_self pc) (by simp [hin])
  have hld : op.rd ≠ 0 → pd ∉ loads := by
    intro h2 hin
    have hnd' := (List.nodup_append.mp hndf).2.1
    rw [if_pos h2] at hnd'
    exact (List.nodup_append.mp hnd').2.2 (List.mem_singleton_self pd) (by simp [hin])
  have hlrng : ∀ l ∈ loads, 0 < l ∧ l < cls.rnreg := by
    intro l hl
    apply hrng
    rw [hfull]
    simp [hl]
  subst h
  -- the tables after the two destination entries
  have hA : ∀ cls' a, a < cls'.cnt →
      (alloc_dest cls r_rd op.rd pd (alloc_dest cls r_rc c pc st3)).rrt.A cls' a =
        if op.rd ≠ 0 ∧ cls' = cls ∧ a = op.rd then pd
        else if c ≠ 0 ∧ cls' = cls ∧ a = c then pc else st3.rrt.A cls' a := by
    intro cls' a ha
    rw [alloc_dest_A _ _ _ _ _ _ _ hdl hpd_lt ha, alloc_dest_A _ _ _ _ _ _ _ hcl hpc_lt ha]
  have hR : ∀ cls' q, q < cls'.rnreg →
      (alloc_dest cls r_rd op.rd pd (alloc_dest cls r_rc c pc st3)).rrt.R cls' q =
        if op.rd ≠ 0 ∧ cls' = cls ∧ q = pd then op.rd
        else if c ≠ 0 ∧ cls' = cls ∧ q = pc then c else st3.rrt.R cls' q := by
    intro cls' q hq
    rw [alloc_dest_R _ _ _ _ _ _ _ hdl hpd_lt hq, alloc_dest_R _ _ _ _ _ _ _ hcl hpc_lt hq]
  have hRpd : op.rd ≠ 0 →
      (alloc_dest cls r_rd op.rd pd (alloc_dest cls r_rc c pc st3)).rrt.R cls pd = op.rd := by
    intro hd
    rw [hR cls pd hpd_lt, if_pos ⟨hd, rfl, rfl⟩]
  have hRpc : c ≠ 0 →
      (alloc_dest cls r_rd op.rd pd (alloc_dest cls r_rc c pc st3)).rrt.R cls pc = c := by
    intro hcn
    rw [hR cls pc hpc_lt]
    by_cases hd : op.rd ≠ 0
    · rw [if_neg (fun hh => hne_cd hcn hd hh.2.2), if_pos ⟨hcn, rfl, rfl⟩]
    · rw [if_neg (fun hh => hd hh.1), if_pos ⟨hcn, rfl, rfl⟩]
  have hdests : (alloc_dest cls r_rd op.rd pd (alloc_dest cls r_rc c pc st3)).op.dests =
      (if c ≠ 0 then [pc] else []) ++ (if op.rd ≠ 0 then [pd] else []) := by
    rw [alloc_dest_op, alloc_dest_op]
    unfold uop.dests
    by_cases hcn : c ≠ 0 <;> by_cases hd : op.rd ≠ 0
    · have hpc0 : pc ≠ 0 := Nat.pos_iff_ne_zero.mp (hpc hcn).1
      have hpd0 : pd ≠ 0 := Nat.pos_iff_ne_zero.mp (hpd hd).1
      simp [hcn, hd, uop.setReg, r_rc, r_rd, hctl, (hcdef hcn).1, hpc0, hpd0]
    · have hpc0 : pc ≠ 0 := Nat.pos_iff_ne_zero.mp (hpc hcn).1
      have hd' : st3.op.rd = 0 := by rw [hrd3]; exact not_not.mp hd
      simp [hcn, hd, uop.setReg, r_rc, r_rd, hctl, (hcdef hcn).1, hpc0, hd']
    · have hpd0 : pd ≠ 0 := Nat.pos_iff_ne_zero.mp (hpd hd).1
      have hrc' : op.control &&& rc_dest ≠ 0 → st3.op.rc = 0 := by
        intro hb
        apply hrc3
        rw [if_pos hb] at hc
        rw [hc]; exact not_not.mp hcn
      by_cases hb : op.control &&& rc_dest ≠ 0
      · simp [hcn, hd, uop.setReg, r_rc, r_rd, hctl, hrc' hb, hpd0]
      · simp [hcn, hd, uop.setReg, r_rc, r_rd, hctl, not_not.mp hb, hpd0]
    · have hd' : st3.op.rd = 0 := by rw [hrd3]; exact not_not.mp hd
      have hrc' : op.control &&& rc_dest ≠ 0 → st3.op.rc = 0 := by
        intro hb
        apply hrc3
        rw [if_pos hb] at hc
        rw [hc]; exact not_not.mp hcn
      by_cases hb : op.control &&& rc_dest ≠ 0
      · simp [hcn, hd, hctl, hrc' hb, hd']
      · simp [hcn, hd, hctl, not_not.mp hb, hd']
  refine ⟨(if c ≠ 0 then [pc] else []) ++ ((if op.rd ≠ 0 then [pd] else []) ++ loads), ?_⟩
  have hmemc : c ≠ 0 → pc ∈ (if c ≠ 0 then [pc] else []) ++
      ((if op.rd ≠ 0 then [pd] else []) ++ loads) := by
    intro hcn; simp [hcn]
  have hmemd : op.rd ≠ 0 → pd ∈ (if c ≠ 0 then [pc] else []) ++
      ((if op.rd ≠ 0 then [pd] else []) ++ loads) := by
    intro hd; simp [hd]
  have hmeml : ∀ l ∈ loads, l ∈ (if c ≠ 0 then [pc] else []) ++
      ((if op.rd ≠ 0 then [pd] else []) ++ loads) := by
    intro l hl; simp [hl]
  have hdmemc : c ≠ 0 → pc ∈ (if c ≠ 0 then [pc] else []) ++
      (if op.rd ≠ 0 then [pd] else []) := by
    intro hcn; simp [hcn]
  have hdmemd : op.rd ≠ 0 → pd ∈ (if c ≠ 0 then [pc] else []) ++
      (if op.rd ≠ 0 then [pd] else []) := by
    intro hd; simp [hd]
  refine
    { fl := ?_
      dests := ?_
      fl_other := ?_
      ccf := ?_
      ccl := ?_
      C_same := ?_
      A_other := ?_
      R_other := ?_
      R_same := ?_
      R_taken := ?_
      A_zero := ?_
      A_cases := ?_
      A_taken := ?_
      lastD := ?_
      prf0 := ?_
      opcode := ?_ }
  · rw [alloc_dest_freelist, alloc_dest_freelist, hfull]
    simp only [List.append_assoc]
  · rw [hdests]
    exact List.Sublist.append (List.Sublist.refl _) (List.sublist_append_left _ _)
  · intro cls' hne
    rw [alloc_dest_freelist, alloc_dest_freelist, rel.fl_other cls' hne, o2 _ hne, o1 _ hne]
  · rw [(alloc_dest_cc _ _ _ _ _).1, (alloc_dest_cc _ _ _ _ _).1, rel.ccf, cf2, cf1]
  · rw [(alloc_dest_cc _ _ _ _ _).2, (alloc_dest_cc _ _ _ _ _).2, rel.ccl, cl2, cl1]
  · intro cls' a ha
    rw [alloc_dest_C _ _ _ _ _ _ _ hdl hpd_lt ha, alloc_dest_C _ _ _ _ _ _ _ hcl hpc_lt ha,
      rel.C_same _ _ ha]
    exact RenameTable.C_congr t t2 hm cls' a
  · intro cls' hne a ha
    rw [hA _ _ ha, if_neg (fun hh => hne hh.2.1), if_neg (fun hh => hne hh.2.1),
      rel.A_other _ hne _ ha]
    exact RenameTable.A_congr t t2 hm cls' a
  · intro cls' hne q hq
    rw [hR _ _ hq, if_neg (fun hh => hne hh.2.1), if_neg (fun hh => hne hh.2.1),
      rel.R_other _ hne _ hq]
    exact RenameTable.R_congr t t2 hm cls' q
  · intro p hp hnot
    have n1 : ¬ (op.rd ≠ 0 ∧ cls = cls ∧ p = pd) :=
      fun hh => hnot (by rw [hh.2.2]; exact hmemd hh.1)
    have n2 : ¬ (c ≠ 0 ∧ cls = cls ∧ p = pc) :=
      fun hh => hnot (by rw [hh.2.2]; exact hmemc hh.1)
    rw [hR _ _ hp, if_neg n1, if_neg n2, rel.R_same p hp (fun hl => hnot (hmeml p hl))]
    exact RenameTable.R_congr t t2 hm cls p
  · intro p hp
    rcases List.mem_append.mp hp with hp | hp
    · by_cases hcn : c ≠ 0
      · rw [if_pos hcn] at hp
        have : p = pc := by simpa using hp
        subst this
        rw [hRpc hcn]
        exact ⟨Nat.pos_of_ne_zero hcn, hcl⟩
      · rw [if_neg hcn] at hp; simp at hp
    · rcases List.mem_append.mp hp with hp | hp
      · by_cases hd : op.rd ≠ 0
        · rw [if_pos hd] at hp
          have : p = pd := by simpa using hp
          subst this
          rw [hRpd hd]
          exact ⟨Nat.pos_of_ne_zero hd, hdl⟩
        · rw [if_neg hd] at hp; simp at hp
      · have n1 : ¬ (op.rd ≠ 0 ∧ cls = cls ∧ p = pd) :=
          fun hh => hld hh.1 (by rw [← hh.2.2]; exact hp)
        have n2 : ¬ (c ≠ 0 ∧ cls = cls ∧ p = pc) :=
          fun hh => hlc hh.1 (by rw [← hh.2.2]; exact hp)
        rw [hR _ _ (hlrng p hp).2, if_neg n1, if_neg n2]
        exact rel.R_load p hp
  · rw [hA cls 0 cls.cnt_pos, if_neg (fun hh => hh.1 hh.2.2.symm),
      if_neg (fun hh => hh.1 hh.2.2.symm)]
    rcases rel.A_cases 0 cls.cnt_pos with e | e
    · rw [e]; exact RenameTable.A_congr t t2 hm cls 0
    · exact absurd rfl e.2.1
  · intro a ha
    rw [hA cls a ha]
    by_cases hd : op.rd ≠ 0 ∧ cls = cls ∧ a = op.rd
    · right; right
      rw [hdests]
      exact ⟨pd, hdmemd hd.1, by rw [hRpd hd.1, hd.2.2]⟩
    · rw [if_neg hd]
      by_cases hcn : c ≠ 0 ∧ cls = cls ∧ a = c
      · right; right
        rw [hdests]
        exact ⟨pc, hdmemc hcn.1, by rw [hRpc hcn.1, hcn.2.2]⟩
      · rw [if_neg hcn]
        rcases rel.A_cases a ha with e | e
        · left; rw [e]; exact RenameTable.A_congr t t2 hm cls a
        · right; left; rw [← RenameTable.A_congr t t2 hm cls a]; exact e.1
  · intro a ha
    rw [hA cls a ha]
    by_cases hd : op.rd ≠ 0 ∧ cls = cls ∧ a = op.rd
    · right; rw [if_pos hd]; exact hmemd hd.1
    · rw [if_neg hd]
      by_cases hcn : c ≠ 0 ∧ cls = cls ∧ a = c
      · right; rw [if_pos hcn]; exact hmemc hcn.1
      · rw [if_neg hcn]
        rcases rel.A_cases a ha with e | e
        · left; rw [e]; exact RenameTable.A_congr t t2 hm cls a
        · right; exact hmeml _ e.2.2
  · rw [hdests]
    by_cases hcn : c ≠ 0 <;> by_cases hd : op.rd ≠ 0
    · rw [if_pos hcn, if_pos hd]
      show LastWriters _ _ [pc, pd]
      refine ⟨?_, ?_, trivial⟩
      · intro hdiff
        have hcd : op.rd ≠ c := by
          have := hdiff pd (List.mem_singleton_self pd)
          rw [hRpd hd, hRpc hcn] at this
          exact this
        rw [hRpc hcn, hA cls c hcl, if_neg (fun hh => hcd hh.2.2.symm), if_pos ⟨hcn, rfl, rfl⟩]
      · intro _
        rw [hRpd hd, hA cls op.rd hdl, if_pos ⟨hd, rfl, rfl⟩]
    · rw [if_pos hcn, if_neg hd]
      show LastWriters _ _ [pc]
      refine ⟨?_, trivial⟩
      intro _
      rw [hRpc hcn, hA cls c hcl, if_neg (fun hh => hd hh.1), if_pos ⟨hcn, rfl, rfl⟩]
    · rw [if_neg hcn, if_pos hd]
      show LastWriters _ _ [pd]
      refine ⟨?_, trivial⟩
      intro _
      rw [hRpd hd, hA cls op.rd hdl, if_pos ⟨hd, rfl, rfl⟩]
    · rw [if_neg hcn, if_neg hd]
      exact trivial
  · intro cls'
    rw [alloc_dest_prf, alloc_dest_prf]
    exact rel.prf0 cls'
  · rw [alloc_dest_op, alloc_dest_op]
    split_ifs <;> simp [hopc]

/-! ## The invariant -/

theorem inflight_append (cls : RegClass) (l₁ l₂ : List (LatchQElem ROBEntry)) :
    inflight cls (l₁ ++ l₂) = inflight cls l₁ ++ inflight cls l₂ := by
  induction l₁ with
  | nil => rfl
  | cons e t ih => simp [inflight, ih]

theorem inflight_single (cls : RegClass) (e : LatchQElem ROBEntry) :
    inflight cls [e] = if getOpClass e.elem.op = cls then e.elem.op.dests else [] := by
  simp [inflight]

theorem inflight_cons (cls : RegClass) (e : LatchQElem ROBEntry)
    (l : List (LatchQElem ROBEntry)) :
    inflight cls (e :: l) =
      (if getOpClass e.elem.op = cls then e.elem.op.dests else []) ++ inflight cls l := rfl

theorem LastWriters.congr_on (A R A' R' : Nat → Nat) (L : List Nat)
    (hR : ∀ p ∈ L, R' p = R p) (hA : ∀ p ∈ L, A' (R p) = A (R p))
    (h : LastWriters A R L) : LastWriters A' R' L := by
  induction L with
  | nil => trivial
  | cons p rest ih =>
    obtain ⟨h1, h2⟩ := h
    refine ⟨?_, ih (fun q hq => hR q (List.mem_cons_of_mem _ hq))
      (fun q hq => hA q (List.mem_cons_of_mem _ hq)) h2⟩
    intro hdiff
    rw [hR p (List.mem_cons_self _ _), hA p (List.mem_cons_self _ _)]
    apply h1
    intro q hq
    have := hdiff q hq
    rw [hR q (List.mem_cons_of_mem _ hq), hR p (List.mem_cons_self _ _)] at this
    exact this

theorem LastWriters.drop_left (A R : Nat → Nat) (L₁ L₂ : List Nat)
    (h : LastWriters A R (L₁ ++ L₂)) : LastWriters A R L₂ := by
  induction L₁ with
  | nil => exact h
  | cons p rest ih => exact ih h.2

theorem LastWriters.append (A R A' R' : Nat → Nat) (L D : List Nat)
    (hL : LastWriters A R L) (hD : LastWriters A' R' D)
    (hR : ∀ p ∈ L, R' p = R p)
    (hA : ∀ p ∈ L, A' (R p) = A (R p) ∨ A (R p) = 0 ∨ ∃ q ∈ D, R' q = R p)
    (hpos : ∀ p ∈ L, p ≠ 0) : LastWriters A' R' (L ++ D) := by
  induction L with
  | nil => exact hD
  | cons p rest ih =>
    obtain ⟨h1, h2⟩ := hL
    refine ⟨?_, ih h2 (fun q hq => hR q (List.mem_cons_of_mem _ hq))
      (fun q hq => hA q (List.mem_cons_of_mem _ hq))
      (fun q hq => hpos q (List.mem_cons_of_mem _ hq))⟩
    intro hdiff
    have hRp := hR p (List.mem_cons_self _ _)
    have hAp : A (R p) = p := by
      apply h1
      intro q hq
      have := hdiff q (List.mem_append_left _ hq)
      rw [hR q (List.mem_cons_of_mem _ hq), hRp] at this
      exact this
    rw [hRp]
    rcases hA p (List.mem_cons_self _ _) with e | e | ⟨q, hq, e⟩
    · rw [e, hAp]
    · rw [hAp] at e
      exact absurd e (hpos p (List.mem_cons_self _ _))
    · have := hdiff q (List.mem_append_right _ hq)
      rw [hRp] at this
      exact absurd e this

/-- The invariant only looks at the rename table and the ROB and ID/RA contents. -/
theorem Inv.congr_state (c c' : Core) (h : Inv c) (h1 : c'.rrt = c.rrt)
    (h2 : c'.rob.queue = c.rob.queue)
    (h3 : ∀ e ∈ c'.id_ra.queue, ∀ i, i < 4 → e.elem.reg i < getARFSize e.elem) : Inv c' :=
  { fl_rng := by rw [h1]; exact h.fl_rng
    if_rng := by rw [h2]; exact h.if_rng
    nodup := by rw [h1, h2]; exact h.nodup
    zeroA := by rw [h1]; exact h.zeroA
    zeroC := by rw [h1]; exact h.zeroC
    zeroR := by rw [h1]; exact h.zeroR
    rngR := by rw [h1]; exact h.rngR
    liveR := by rw [h1, h2]; exact h.liveR
    last := by rw [h1, h2]; exact h.last
    idra := h3
    cc0 := by rw [h1]; exact h.cc0 }

theorem Inv.at_init (frontend : Nat) : Inv (Core.init frontend) :=
  { fl_rng := by
      intro cls p hp
      cases cls <;>
        simp [Core.init, RenameTable.init, RenameTable.freelist, List.mem_range',
          RegClass.rnreg, REGCLS_0_RNREG, REGCLS_1_RNREG, REGCLS_2_RNREG] at hp ⊢ <;>
        omega
    if_rng := by intro cls p hp; simp [Core.init, inflight] at hp
    nodup := by
      intro cls
      cases cls <;>
        simp [Core.init, RenameTable.init, RenameTable.freelist, inflight,
          List.nodup_range']
    zeroA := fun _ => rfl
    zeroC := fun _ => rfl
    zeroR := fun _ => rfl
    rngR := fun cls _ _ => cls.cnt_pos
    liveR := by intro cls p hp; simp [Core.init, inflight] at hp
    last := fun _ => trivial
    idra := by intro e he; simp [Core.init] at he
    cc0 := by
      simp only [Core.init, RenameTable.init, List.mem_range', List.not_mem_nil,
        not_false_eq_true, and_true]
      rintro ⟨i, _, hi⟩
      omega }

theorem getOpClass_congr (op op' : uop) (h : op'.opcode = op.opcode) :
    getOpClass op' = getOpClass op := by
  simp [getOpClass, getOpPrefix, h]

/-- Renaming one uop and appending its ROB entry keeps the invariant. -/
theorem Inv.alloc_push (c c' : Core) (hI : Inv c) (cls : RegClass) (op : uop) (t0 : RenameTable)
    (st : RenameSt) (taken : List Nat) (e : LatchQElem ROBEntry)
    (ht0m : t0.mem = c.rrt.mem) (ht0f : ∀ cls', t0.freelist cls' = c.rrt.freelist cls')
    (hcc : 0 ∉ t0.cc_freelist ∧ 0 ∉ t0.cc_lastused)
    (hcls : getOpClass op = cls)
    (hrel : AllocRel cls t0 c.prf op taken st)
    (hop : e.elem.op = st.op)
    (hrob : c'.rob.queue = c.rob.queue ++ [e])
    (hrrt : c'.rrt = st.rrt)
    (hidra : ∀ x ∈ c'.id_ra.queue, ∀ i, i < 4 → x.elem.reg i < getARFSize x.elem) : Inv c' := by
  have hecls : getOpClass e.elem.op = cls := by
    rw [hop, getOpClass_congr op st.op hrel.opcode, hcls]
  have hinf : ∀ cls', inflight cls' c'.rob.queue =
      inflight cls' c.rob.queue ++ (if cls = cls' then st.op.dests else []) := by
    intro cls'
    rw [hrob, inflight_append, inflight_single, hecls, hop]
  have hfl : c.rrt.freelist cls = taken ++ st.rrt.freelist cls := by
    rw [← ht0f cls]; exact hrel.fl
  have htk_fl : ∀ p ∈ taken, p ∈ c.rrt.freelist cls := by
    intro p hp; rw [hfl]; exact List.mem_append_left _ hp
  have htk_rng : ∀ p ∈ taken, 0 < p ∧ p < cls.rnreg :=
    fun p hp => hI.fl_rng cls p (htk_fl p hp)
  have htk_old : ∀ p ∈ inflight cls c.rob.queue, p ∉ taken := by
    intro p hp htk
    exact (List.nodup_append.mp (hI.nodup cls)).2.2 (htk_fl p htk) hp
  have hA0 : ∀ cls' a, t0.A cls' a = c.rrt.A cls' a :=
    fun cls' a => RenameTable.A_congr c.rrt t0 ht0m cls' a
  have hC0 : ∀ cls' a, t0.C cls' a = c.rrt.C cls' a :=
    fun cls' a => RenameTable.C_congr c.rrt t0 ht0m cls' a
  have hR0 : ∀ cls' a, t0.R cls' a = c.rrt.R cls' a :=
    fun cls' a => RenameTable.R_congr c.rrt t0 ht0m cls' a
  have hRold : ∀ cls', ∀ p ∈ inflight cls' c.rob.queue,
      st.rrt.R cls' p = c.rrt.R cls' p := by
    intro cls' p hp
    by_cases hc : cls' = cls
    · subst hc
      rw [hrel.R_same p (hI.if_rng _ p hp).2 (htk_old p hp), hR0]
    · rw [hrel.R_other cls' hc p (hI.if_rng _ p hp).2, hR0]
  refine
    { fl_rng := ?_
      if_rng := ?_
      nodup := ?_
      zeroA := ?_
      zeroC := ?_
      zeroR := ?_
      rngR := ?_
      liveR := ?_
      last := ?_
      idra := hidra
      cc0 := ?_ }
  · intro cls' p hp
    rw [hrrt] at hp
    by_cases hc : cls' = cls
    · subst hc
      exact hI.fl_rng _ p (by rw [hfl]; exact List.mem_append_right _ hp)
    · rw [hrel.fl_other cls' hc, ht0f] at hp
      exact hI.fl_rng cls' p hp
  · intro cls' p hp
    rw [hinf] at hp
    rcases List.mem_append.mp hp with hq | hq
    · exact hI.if_rng cls' p hq
    · by_cases hc : cls = cls'
      · rw [if_pos hc] at hq
        subst hc
        exact htk_rng p (hrel.dests.subset hq)
      · rw [if_neg hc] at hq; simp at hq
  · intro cls'
    rw [hinf, hrrt]
    by_cases hc : cls = cls'
    · subst hc
      rw [if_pos rfl, ← List.append_assoc]
      have hbase : (taken ++ (st.rrt.freelist cls ++ inflight cls c.rob.queue)).Nodup := by
        have := hI.nodup cls
        rw [hfl, List.append_assoc] at this
        exact this
      have hsub : List.Sublist
          (st.op.dests ++ (st.rrt.freelist cls ++ inflight cls c.rob.queue))
          (taken ++ (st.rrt.freelist cls ++ inflight cls c.rob.queue)) :=
        List.Sublist.append hrel.dests (List.Sublist.refl _)
      exact (List.perm_append_comm.nodup_iff).mp (hbase.sublist hsub)
    · rw [if_neg hc, List.append_nil,
        hrel.fl_other cls' (fun h => hc h.symm), ht0f]
      exact hI.nodup cls'
  · intro cls'
    rw [hrrt]
    by_cases hc : cls' = cls
    · subst hc; rw [hrel.A_zero, hA0]; exact hI.zeroA _
    · rw [hrel.A_other cls' hc 0 cls'.cnt_pos, hA0]; exact hI.zeroA cls'
  · intro cls'
    rw [hrrt, hrel.C_same cls' 0 cls'.cnt_pos, hC0]
    exact hI.zeroC cls'
  · intro cls'
    rw [hrrt]
    by_cases hc : cls' = cls
    · subst hc
      rw [hrel.R_same 0 (RegClass.rnreg_pos _)
        (fun h0 => absurd (htk_rng 0 h0).1 (Nat.lt_irrefl 0)), hR0]
      exact hI.zeroR _
    · rw [hrel.R_other cls' hc 0 cls'.rnreg_pos, hR0]; exact hI.zeroR cls'
  · intro cls' p hp
    rw [hrrt]
    by_cases hc : cls' = cls
    · subst hc
      by_cases htk : p ∈ taken
      · exact (hrel.R_taken p htk).2
      · rw [hrel.R_same p hp htk, hR0]; exact hI.rngR _ p hp
    · rw [hrel.R_other cls' hc p hp, hR0]; exact hI.rngR cls' p hp
  · intro cls' p hp
    rw [hinf] at hp
    rw [hrrt]
    rcases List.mem_append.mp hp with hq | hq
    · rw [hRold cls' p hq]; exact hI.liveR cls' p hq
    · by_cases hc : cls = cls'
      · rw [if_pos hc] at hq
        subst hc
        exact Nat.pos_iff_ne_zero.mp (hrel.R_taken p (hrel.dests.subset hq)).1
      · rw [if_neg hc] at hq; simp at hq
  · intro cls'
    rw [hinf, hrrt]
    by_cases hc : cls = cls'
    · subst hc
      rw [if_pos rfl]
      apply LastWriters.append (c.rrt.A cls) (c.rrt.R cls) _ _ _ _ (hI.last cls) hrel.lastD
        (hRold cls)
      · intro p hp
        have ha : c.rrt.R cls p < cls.cnt := hI.rngR cls p (hI.if_rng cls p hp).2
        rcases hrel.A_cases _ ha with e1 | e1 | e1
        · left; rw [e1, hA0]
        · right; left; rw [← hA0]; exact e1
        · right; right; exact e1
      · intro p hp
        exact Nat.pos_iff_ne_zero.mp (hI.if_rng cls p hp).1
    · rw [if_neg hc, List.append_nil]
      apply LastWriters.congr_on (c.rrt.A cls') (c.rrt.R cls') _ _ _ (hRold cls') _ (hI.last cls')
      intro p hp
      rw [hrel.A_other cls' (fun h => hc h.symm) _
        (hI.rngR cls' p (hI.if_rng cls' p hp).2), hA0]
  · rw [hrrt, hrel.ccf, hrel.ccl]; exact hcc

theorem front_ok_queue {T : Type} (q : LatchQueue T) (now : Nat) (x : T)
    (h : q.front now = .ok x) : ∃ hd tl, q.queue = hd :: tl ∧ hd.elem = x ∧ hd.cycle ≤ now := by
  unfold LatchQueue.front at h
  split at h
  · simp at h
  · rename_i hd tl heq
    by_cases hc : hd.cycle ≤ now
    · rw [if_pos hc] at h
      injection h with h
      exact ⟨hd, tl, heq, h, hc⟩
    · rw [if_neg hc] at h
      simp at h

theorem push_back_ok {T : Type} (q q' : LatchQueue T) (cycle : Nat) (x : T)
    (h : q.push_back cycle x = .ok q') : q'.queue = q.queue ++ [⟨cycle, x⟩] := by
  unfold LatchQueue.push_back at h
  by_cases hf : q.max_size ≤ q.queue.length
  · rw [if_pos hf] at h; simp at h
  · rw [if_neg hf] at h
    injection h with h
    rw [← h]

/-- What a completed emission leaves behind. -/
theorem alloc_emit_spec (c1 c' : Core) (id_ra : LatchQueue uop) (ccu ccs : Nat) (st : RenameSt)
    (h : (alloc_emit c1 id_ra ccu ccs st).state? = some c') :
    ∃ e, e.elem.op = st.op ∧ e.elem.cc_set = ccs ∧ c'.rob.queue = c1.rob.queue ++ [e] ∧
      c'.rrt = st.rrt ∧ c'.prf = st.prf ∧ c'.id_ra = id_ra ∧ c'.state = c1.state := by
  unfold alloc_emit at h
  by_cases h1 : ¬ c1.state.seq_addrs = [] ∧ c1.state.seq_addrs.length ≤ c1.seq_at_alloc
  · rw [if_pos h1] at h
    simp [Outcome.state?] at h
  · rw [if_neg h1] at h
    dsimp only at h
    split at h
    · simp [Outcome.state?] at h
    · rename_i rob hpush
      have hq := push_back_ok _ _ _ _ hpush
      by_cases hld : is_load st.op = true
      · rw [if_pos hld] at h
        split at h
        · simp [Outcome.state?] at h
        · simp only [Outcome.state?, Option.some.injEq] at h
          subst h
          exact ⟨_, rfl, rfl, hq, rfl, rfl, rfl, rfl⟩
      · rw [if_neg hld] at h
        simp only [Outcome.state?, Option.some.injEq] at h
        subst h
        exact ⟨_, rfl, rfl, hq, rfl, rfl, rfl, rfl⟩

/-- Renaming one uop keeps forward mappings off the free lists. -/
theorem FreshA.alloc_rename (c c' : Core) (hI : Inv c) (hF : FreshA c) (cls : RegClass) (op : uop)
    (t0 : RenameTable) (st : RenameSt) (taken : List Nat)
    (ht0m : t0.mem = c.rrt.mem) (ht0f : ∀ cls', t0.freelist cls' = c.rrt.freelist cls')
    (hrel : AllocRel cls t0 c.prf op taken st)
    (hrrt : c'.rrt = st.rrt) : FreshA c' := by
  intro cls' a ha
  rw [hrrt]
  have hfl : c.rrt.freelist cls = taken ++ st.rrt.freelist cls := by
    rw [← ht0f cls]; exact hrel.fl
  have hnd : (taken ++ st.rrt.freelist cls).Nodup := by
    rw [← hfl]
    exact (List.nodup_append.mp (hI.nodup cls)).1
  by_cases hc : cls' = cls
  · subst hc
    rcases hrel.A_taken a ha with e | e
    · rw [e, RenameTable.A_congr c.rrt t0 ht0m]
      intro hin
      exact hF _ a ha (by rw [hfl]; exact List.mem_append_right _ hin)
    · intro hin
      exact (List.nodup_append.mp hnd).2.2 e hin
  · rw [hrel.A_other cls' hc a ha, hrel.fl_other cls' hc, ht0f,
      RenameTable.A_congr c.rrt t0 ht0m]
    exact hF cls' a ha

theorem alloc_cc_mem (t : RenameTable) (ccs : Nat) : (alloc_cc t ccs).mem = t.mem := by
  unfold alloc_cc; split_ifs <;> rfl

theorem alloc_cc_freelist (t : RenameTable) (ccs : Nat) (cls : RegClass) :
    (alloc_cc t ccs).freelist cls = t.freelist cls := by
  unfold alloc_cc; split_ifs <;> cases cls <;> rfl

theorem alloc_cc_cc0 (t : RenameTable) (ccs : Nat)
    (h : 0 ∉ t.cc_freelist ∧ 0 ∉ t.cc_lastused) :
    0 ∉ (alloc_cc t ccs).cc_freelist ∧ 0 ∉ (alloc_cc t ccs).cc_lastused := by
  unfold alloc_cc
  split_ifs with hc
  · refine ⟨fun hin => h.1 (List.mem_of_mem_tail hin), ?_⟩
    intro hin
    rcases List.mem_append.mp hin with hin | hin
    · exact h.2 hin
    · have h0 : 0 = ccs := by simpa using hin
      exact hc h0.symm
  · exact h

/-- The renaming part of an allocation slot keeps the invariant. -/
theorem alloc_renamed_inv (c1 c' : Core) (hI : Inv c1) (cls : RegClass) (cur_op : uop)
    (id_ra : LatchQueue uop) (hcls : getOpClass cur_op = cls)
    (hregs : ∀ i, i < 4 → cur_op.reg i < cls.cnt)
    (hidra : ∀ x ∈ id_ra.queue, ∀ i, i < 4 → x.elem.reg i < getARFSize x.elem)
    (h : (alloc_renamed c1 cls cur_op id_ra).state? = some c') :
    Inv c' ∧ (FreshA c1 → FreshA c') := by
  unfold alloc_renamed at h
  by_cases h1 : cur_op.control &&& use_cond ≠ 0 ∧ c1.rrt.cc_lastused = []
  · rw [if_pos h1] at h; simp [Outcome.state?] at h
  · rw [if_neg h1] at h
    dsimp only at h
    split at h
    · simp [Outcome.state?] at h
    · rename_i st hren
      obtain ⟨e, he, _, hrob, hrrt, _, hid, _⟩ := alloc_emit_spec _ _ _ _ _ _ h
      obtain ⟨taken, hrel⟩ := alloc_rename_rel _ cls _ _ _ _
        (by rw [alloc_cc_freelist]; exact (List.nodup_append.mp (hI.nodup cls)).1)
        (by rw [alloc_cc_freelist]; exact hI.fl_rng cls) hregs hren
      constructor
      · exact Inv.alloc_push c1 c' hI cls cur_op _ st taken e (alloc_cc_mem _ _)
          (alloc_cc_freelist _ _) (alloc_cc_cc0 _ _ hI.cc0) hcls hrel he hrob hrrt
          (by rw [hid]; exact hidra)
      · intro hF
        exact FreshA.alloc_rename c1 c' hI hF cls cur_op _ st taken (alloc_cc_mem _ _)
          (alloc_cc_freelist _ _) hrel hrrt

theorem alloc_peek_opcode (t : RenameTable) (u : uop) : (alloc_peek t u).opcode = u.opcode := by
  unfold alloc_peek; split_ifs <;> rfl

theorem alloc_peek_reg (t : RenameTable) (u : uop) (i : Nat) :
    (alloc_peek t u).reg i = u.reg i := by
  unfold alloc_peek; split_ifs
  · exact with_control_reg _ _ _
  · rfl

theorem get_front_ok {T : Type} (q q' : LatchQueue T) (now : Nat) (x : T)
    (h : q.get_front now = .ok (x, q')) :
    ∃ hd, q.queue = hd :: q'.queue ∧ hd.elem = x ∧ hd.cycle ≤ now := by
  unfold LatchQueue.get_front at h
  split at h
  · simp at h
  · rename_i hd tl heq
    by_cases hc : hd.cycle ≤ now
    · rw [if_pos hc] at h
      simp only [Except.ok.injEq, Prod.mk.injEq] at h
      obtain ⟨h1, h2⟩ := h
      subst h2
      exact ⟨hd, heq, h1, hc⟩
    · rw [if_neg hc] at h
      simp at h

theorem setFront_queue {T : Type} (q : LatchQueue T) (hd : LatchQElem T)
    (tl : List (LatchQElem T)) (x : T) (h : q.queue = hd :: tl) :
    (q.setFront x).queue = { hd with elem := x } :: tl := by
  unfold LatchQueue.setFront
  rw [h]

theorem FreshA.congr_rrt (c c' : Core) (h : c'.rrt = c.rrt) (hF : FreshA c) : FreshA c' := by
  intro cls a ha
  rw [h]
  exact hF cls a ha

/-- One allocation slot keeps the invariant, and keeps forward mappings off the free
lists. -/
theorem alloc_slot_inv (c c' : Core) (hI : Inv c) (h : (alloc_slot c).state? = some c') :
    Inv c' ∧ (FreshA c → FreshA c') := by
  have hsame : ∀ d : Core, d.rrt = c.rrt → d.rob.queue = c.rob.queue →
      (∀ e ∈ d.id_ra.queue, ∀ i, i < 4 → e.elem.reg i < getARFSize e.elem) →
      Inv d ∧ (FreshA c → FreshA d) := by
    intro d h1 h2 h3
    exact ⟨Inv.congr_state c d hI h1 h2 h3, FreshA.congr_rrt c d h1⟩
  unfold alloc_slot at h
  by_cases hfull : ROB_SIZE + ALLOC_WIDTH ≤ c.rob.size
  · rw [if_pos hfull] at h
    simp only [Outcome.state?, Option.some.injEq] at h
    subst h
    exact hsame _ rfl rfl hI.idra
  · rw [if_neg hfull] at h
    split at h
    · simp only [Outcome.state?, Option.some.injEq] at h
      subst h
      by_cases ha : c.state.active &&& id_active = 0
      · rw [if_pos ha]; exact hsame _ rfl rfl hI.idra
      · rw [if_neg ha]; exact hsame _ rfl rfl hI.idra
    · simp only [Outcome.state?, Option.some.injEq] at h
      subst h
      exact hsame _ rfl rfl hI.idra
    · rename_i peek0 hfront
      obtain ⟨hd, tl, hq, hel, hcy⟩ := front_ok_queue _ _ _ hfront
      have hb0 : ∀ i, i < 4 → peek0.reg i < getARFSize peek0 := by
        rw [← hel]
        exact hI.idra hd (by rw [hq]; exact List.mem_cons_self _ _)
      have hq1 : (c.id_ra.setFront (alloc_peek c.rrt peek0)).queue
          = { hd with elem := alloc_peek c.rrt peek0 } :: tl := setFront_queue _ _ _ _ hq
      have hb1 : ∀ e ∈ (c.id_ra.setFront (alloc_peek c.rrt peek0)).queue,
          ∀ i, i < 4 → e.elem.reg i < getARFSize e.elem := by
        intro e he i hi
        rw [hq1] at he
        rcases List.mem_cons.mp he with he | he
        · subst he
          show (alloc_peek c.rrt peek0).reg i < getARFSize (alloc_peek c.rrt peek0)
          rw [alloc_peek_reg, getARFSize_congr _ _ (alloc_peek_opcode c.rrt peek0)]
          exact hb0 i hi
        · exact hI.idra e (by rw [hq]; exact List.mem_cons_of_mem _ he) i hi
      unfold alloc_checked at h
      dsimp only at h
      by_cases hc1 : (c.rrt.freelist (getOpClass peek0)).length <
          alloc_required (alloc_loadcount c.rrt (getOpClass peek0) peek0) peek0.control
      · rw [if_pos hc1] at h
        simp only [Outcome.state?, Option.some.injEq] at h
        subst h
        exact hsame _ rfl rfl hI.idra
      · rw [if_neg hc1] at h
        by_cases hc2 : peek0.control &&& set_cond ≠ 0 ∧ c.rrt.cc_freelist = []
        · rw [if_pos hc2] at h
          simp only [Outcome.state?, Option.some.injEq] at h
          subst h
          exact hsame _ rfl rfl hI.idra
        · rw [if_neg hc2] at h
          by_cases hc3 : is_load (alloc_peek c.rrt peek0) = true ∧
              LQUEUE_SIZE + ALLOC_WIDTH ≤ c.ldq.size
          · rw [if_pos hc3] at h
            simp only [Outcome.state?, Option.some.injEq] at h
            subst h
            exact hsame _ rfl rfl hb1
          · rw [if_neg hc3] at h
            split at h
            · simp only [Outcome.state?, Option.some.injEq] at h
              subst h
              exact hsame _ rfl rfl hb1
            · rename_i cur_op id_ra hget
              obtain ⟨hd', hq', hel', _⟩ := get_front_ok _ _ _ _ hget
              rw [hq1] at hq'
              injection hq' with hhd htl
              have hcur : cur_op = alloc_peek c.rrt peek0 := by
                rw [← hel', ← hhd]
              have hI1 := (hsame { c with id_ra := c.id_ra.setFront (alloc_peek c.rrt peek0) }
                rfl rfl hb1).1
              have hres := alloc_renamed_inv _ c' hI1 (getOpClass peek0) cur_op id_ra
                (by rw [hcur]; exact getOpClass_congr _ _ (alloc_peek_opcode _ _))
                (by
                  intro i hi
                  rw [hcur, alloc_peek_reg]
                  exact hb0 i hi)
                (by
                  intro x hx
                  exact hI.idra x (by rw [hq, htl]; exact List.mem_cons_of_mem _ hx))
                h
              exact ⟨hres.1, fun hF => hres.2 (FreshA.congr_rrt c _ rfl hF)⟩

theorem decode_bounds_cases (op : uop) :
    (decode_bounds op = op ∧ ∀ i, i < 4 → op.reg i < getARFSize op) ∨
      ∀ i, i < 4 → (decode_bounds op).reg i = 0 := by
  have hsz := getARFSize_pos op
  have key : ∀ sz, 0 < sz → ∀ i o, (∀ j, j < 4 → o.reg j = 0) →
      ∀ j, j < 4 → (decode_bounds_step sz i o).reg j = 0 := by
    intro sz _ i o ho j hj
    unfold decode_bounds_step
    split_ifs
    · rcases j with _ | _ | _ | _ | j
      · rfl
      · rfl
      · rfl
      · rfl
      · omega
    · exact ho j hj
  have one : ∀ sz, 0 < sz → ∀ i o,
      (decode_bounds_step sz i o = o ∧ o.reg i < sz) ∨
        ∀ j, j < 4 → (decode_bounds_step sz i o).reg j = 0 := by
    intro sz _ i o
    unfold decode_bounds_step
    split_ifs with hc
    · right
      intro j hj
      rcases j with _ | _ | _ | _ | j
      · rfl
      · rfl
      · rfl
      · rfl
      · omega
    · left; exact ⟨rfl, by omega⟩
  unfold decode_bounds
  simp only [List.range, List.range.loop, List.foldl]
  generalize getARFSize op = sz at hsz
  rcases one sz hsz 0 op with h0 | h0
  · rw [h0.1]
    rcases one sz hsz 1 op with h1 | h1
    · rw [h1.1]
      rcases one sz hsz 2 op with h2 | h2
      · rw [h2.1]
        rcases one sz hsz 3 op with h3 | h3
        · left
          refine ⟨h3.1, ?_⟩
          intro i hi
          rcases i with _ | _ | _ | _ | i
          · exact h0.2
          · exact h1.2
          · exact h2.2
          · exact h3.2
          · omega
        · exact Or.inr h3
      · exact Or.inr (key sz hsz 3 _ h2)
    · exact Or.inr (key sz hsz 3 _ (key sz hsz 2 _ h1))
  · exact Or.inr (key sz hsz 3 _ (key sz hsz 2 _ (key sz hsz 1 _ h0)))

theorem decode_uop_regs (u : uop) (i : Nat) (hi : i < 4) :
    (decode_uop u).reg i < getARFSize (decode_uop u) := by
  unfold decode_uop
  split
  · have h := getARFSize_pos
      { opcode := uop_int, control := use_imm, ra := 0, rb := 0, rc := 0, rd := 0, imm := ex_UD }
    rcases i with _ | _ | _ | _ | i
    · exact h
    · exact h
    · exact h
    · exact h
    · omega
  · rename_i info _
    generalize decode_imm (decode_norm (decode_rc (decode_mask info u))) = op
    rcases decode_bounds_cases op with h | h
    · rw [h.1]; exact h.2 i hi
    · rw [h i hi]; exact getARFSize_pos _

/-- One decode slot keeps the invariant and the rename tables. -/
theorem decode_slot_inv (c c' : Core) (hI : Inv c) (h : (decode_slot c).state? = some c') :
    Inv c' ∧ c'.rrt = c.rrt ∧ c'.rob = c.rob := by
  have hsame : ∀ d : Core, d.rrt = c.rrt → d.rob = c.rob →
      (∀ e ∈ d.id_ra.queue, ∀ i, i < 4 → e.elem.reg i < getARFSize e.elem) →
      Inv d ∧ d.rrt = c.rrt ∧ d.rob = c.rob := by
    intro d h1 h2 h3
    exact ⟨Inv.congr_state c d hI h1 (by rw [h2]) h3, h1, h2⟩
  unfold decode_slot at h
  by_cases hfull : ID_RA_SIZE + DECODE_WIDTH ≤ c.id_ra.size
  · rw [if_pos hfull] at h
    simp only [Outcome.state?, Option.some.injEq] at h
    subst h
    exact hsame _ rfl rfl hI.idra
  · rw [if_neg hfull] at h
    split at h
    · simp only [Outcome.state?, Option.some.injEq] at h
      subst h
      by_cases ha : c.state.active &&& fe_active = 0
      · rw [if_pos ha]; exact hsame _ rfl rfl hI.idra
      · rw [if_neg ha]; exact hsame _ rfl rfl hI.idra
    · simp only [Outcome.state?, Option.some.injEq] at h
      subst h
      exact hsame _ rfl rfl hI.idra
    · rename_i cur_op uqueue hget
      split at h
      · simp [Outcome.state?] at h
      · rename_i id_ra hpush
        simp only [Outcome.state?, Option.some.injEq] at h
        subst h
        have hq := push_back_ok _ _ _ _ hpush
        refine hsame _ rfl rfl ?_
        intro e he i hi
        show e.elem.reg i < getARFSize e.elem
        have he' : e ∈ c.id_ra.queue ++ [⟨c.state.cycle + DECODE_LATENCY, decode_uop cur_op⟩] := by
          rw [← hq]; exact he
        rcases List.mem_append.mp he' with he1 | he1
        · exact hI.idra e he1 i hi
        · rw [List.mem_singleton.mp he1]
          exact decode_uop_regs cur_op i hi

theorem inflight_set (cls : RegClass) (l : List (LatchQElem ROBEntry)) (i : Nat)
    (qe qe' : LatchQElem ROBEntry) (h : l[i]? = some qe) (hop : qe'.elem.op = qe.elem.op) :
    inflight cls (l.set i qe') = inflight cls l := by
  induction l generalizing i with
  | nil => rfl
  | cons x rest ih =>
    cases i with
    | zero =>
      simp only [List.getElem?_cons_zero, Option.some.injEq] at h
      subst h
      simp only [List.set_cons_zero, inflight_cons, hop]
    | succ n =>
      simp only [List.getElem?_cons_succ] at h
      simp only [List.set_cons_succ, inflight_cons, ih n h]

theorem PhysRegFile.get_cc (f : PhysRegFile) (g : Nat → Nat) (cls : RegClass) (p : Nat) :
    PhysRegFile.get { f with cc := g } cls p = f.get cls p := by
  cases cls <;> rfl

theorem Inv.of_inflight (c c' : Core) (h : Inv c) (h1 : c'.rrt = c.rrt)
    (h2 : ∀ cls, inflight cls c'.rob.queue = inflight cls c.rob.queue)
    (h3 : ∀ e ∈ c'.id_ra.queue, ∀ i, i < 4 → e.elem.reg i < getARFSize e.elem) : Inv c' :=
  { fl_rng := by rw [h1]; exact h.fl_rng
    if_rng := fun cls => by rw [h2]; exact h.if_rng cls
    nodup := fun cls => by rw [h1, h2]; exact h.nodup cls
    zeroA := by rw [h1]; exact h.zeroA
    zeroC := by rw [h1]; exact h.zeroC
    zeroR := by rw [h1]; exact h.zeroR
    rngR := by rw [h1]; exact h.rngR
    liveR := fun cls => by rw [h1, h2]; exact h.liveR cls
    last := fun cls => by rw [h1, h2]; exact h.last cls
    idra := h3
    cc0 := by rw [h1]; exact h.cc0 }

/-- Execution of a ROB entry keeps the invariant and the rename tables. -/
theorem exec_entry_inv (c c' : Core) (i : Nat) (r : ExecResult) (hI : Inv c)
    (h : exec_entry c i r = some c') :
    Inv c' ∧ c'.rrt = c.rrt ∧ ∀ cls, inflight cls c'.rob.queue = inflight cls c.rob.queue := by
  unfold exec_entry at h
  split at h
  · simp at h
  · rename_i qe hqe
    simp only [Option.some.injEq] at h
    subst h
    have hq : ∀ cls, inflight cls (c.rob.queue.set i { qe with elem :=
        { qe.elem with c_ready := r.c_ready, except := r.except, mref := r.mref,
                       in_exec := exec_running } }) = inflight cls c.rob.queue :=
      fun cls => inflight_set cls _ i qe _ hqe rfl
    exact ⟨Inv.of_inflight c _ hI rfl hq hI.idra, rfl, hq⟩

theorem flush_spec (c c' : Core) (h : flush c = .ok c') :
    ∃ t1, flush_free c.rob c.rrt = .ok t1 ∧
      c'.rrt = { t1 with mem := flush_tables t1.mem, cc_freelist := List.range' 1 (CCREG_CNT - 1) } ∧
      c'.rob.queue = [] ∧ c'.id_ra.queue = [] ∧ c'.prf = c.prf ∧ c'.state.arf = c.state.arf := by
  unfold flush at h
  cases hf : flush_free c.rob c.rrt with
  | error e =>
    rw [hf] at h
    simp [bind, Except.bind] at h
  | ok t1 =>
    rw [hf] at h
    simp only [bind, Except.bind, pure, Except.pure, Except.ok.injEq] at h
    subst h
    exact ⟨t1, rfl, rfl, rfl, rfl, rfl, rfl⟩

/-- The function `Core::flush` keeps the invariant and empties the ROB. -/
theorem flush_inv (c c' : Core) (hI : Inv c) (h : flush c = .ok c') :
    Inv c' ∧ c'.rob.queue = [] := by
  obtain ⟨t1, hf, hrrt, hrob, hidra, hprf, harf⟩ := flush_spec c c' h
  obtain ⟨hmem, hccf, hccl, hfl⟩ := flush_free_spec c.rob c.rrt t1 hf
  have hfl' : ∀ cls, c'.rrt.freelist cls = c.rrt.freelist cls ++ flush_pushes cls c.rob.queue := by
    intro cls
    rw [hrrt, ← hfl cls]
    cases cls <;> rfl
  have hA : ∀ cls a, a < cls.cnt → c'.rrt.A cls a = c.rrt.C cls a := by
    intro cls a ha
    rw [hrrt]
    show flush_tables t1.mem (cls.rrt + a) = c.rrt.mem (cls.rct + a)
    rw [flush_tables_A _ _ _ ha, hmem]
  have hR : ∀ cls p, c'.rrt.R cls p = c.rrt.R cls p := by
    intro cls p
    rw [hrrt]
    show flush_tables t1.mem (cls.trr + p) = c.rrt.mem (cls.trr + p)
    rw [flush_tables_R, hmem]
  refine ⟨?_, hrob⟩
  exact
  { fl_rng := by
      intro cls p hp
      rw [hfl' cls] at hp
      rcases List.mem_append.mp hp with hp | hp
      · exact hI.fl_rng cls p hp
      · exact hI.if_rng cls p ((flush_pushes_sublist cls _).subset hp)
    if_rng := by intro cls p hp; rw [hrob] at hp; simp [inflight] at hp
    nodup := by
      intro cls
      rw [hrob, hfl' cls]
      simp only [inflight, List.append_nil]
      exact List.Sublist.nodup
        (List.Sublist.append (List.Sublist.refl _) (flush_pushes_sublist cls _)) (hI.nodup cls)
    zeroA := by
      intro cls
      rw [hA cls 0 cls.cnt_pos]
      exact hI.zeroC cls
    zeroC := by
      intro cls
      rw [hrrt]
      show flush_tables t1.mem (cls.rct + 0) = 0
      rw [flush_tables_C0, hmem]
      split_ifs
      · exact hI.zeroR .gp
      · exact hI.zeroC cls
    zeroR := by intro cls; rw [hR]; exact hI.zeroR cls
    rngR := by intro cls p hp; rw [hR]; exact hI.rngR cls p hp
    liveR := by intro cls p hp; rw [hrob] at hp; simp [inflight] at hp
    last := by intro cls; rw [hrob]; trivial
    idra := by intro e he; rw [hidra] at he; simp at he
    cc0 := by
      rw [hrrt]
      refine ⟨?_, ?_⟩
      · show 0 ∉ List.range' 1 (CCREG_CNT - 1)
        simp only [List.mem_range']
        rintro ⟨i, _, hi⟩
        omega
      · show 0 ∉ t1.cc_lastused
        rw [hccl]
        exact hI.cc0.2 }

/-! ## Commit -/

theorem commit_unmap_rel (t : RenameTable) (cls : RegClass) (p : Nat)
    (hp0 : p ≠ 0) (hp : p < cls.rnreg) (hR0 : t.R cls p ≠ 0) (hRr : t.R cls p < cls.cnt)
    (hA0 : t.A cls 0 = 0) : UnmapRel cls t [p] (commit_unmap t cls p) := by
  have hR3 : (((t.store (cls.rct + t.R cls p) p).pushFree cls p).store (cls.trr + p) 0).R cls p
      = 0 := by
    rw [RenameTable.R_store_trr _ _ _ _ _ _ hp hp, if_pos ⟨rfl, rfl⟩]
  have hA3 : (((t.store (cls.rct + t.R cls p) p).pushFree cls p).store (cls.trr + p) 0).A cls 0
      = 0 := by
    rw [RenameTable.A_store_trr _ _ _ _ _ _ hp cls.cnt_pos, RenameTable.pushFree_A,
      RenameTable.A_store_rct _ _ _ _ _ _ hRr cls.cnt_pos, hA0]
  have heq : commit_unmap t cls p
      = ((t.store (cls.rct + t.R cls p) p).pushFree cls p).store (cls.trr + p) 0 := by
    unfold commit_unmap
    dsimp only
    rw [if_neg]
    rw [hR3, hA3]
    exact fun h => hp0 h.symm
  rw [heq]
  exact
  { A_same := by
      intro cls' a ha
      rw [RenameTable.A_store_trr _ _ _ _ _ _ hp ha, RenameTable.pushFree_A,
        RenameTable.A_store_rct _ _ _ _ _ _ hRr ha]
    C_zero := by
      intro cls'
      rw [RenameTable.C_store_trr _ _ _ _ _ _ hp cls'.cnt_pos, RenameTable.pushFree_C,
        RenameTable.C_store_rct _ _ _ _ _ _ hRr cls'.cnt_pos, if_neg]
      exact fun h => hR0 h.2.symm
    R_other := by
      intro cls' q hq hne
      rw [RenameTable.R_store_trr _ _ _ _ _ _ hp hq, RenameTable.pushFree_R,
        RenameTable.R_store_rct _ _ _ _ _ _ hRr hq, if_neg]
      rintro ⟨h1, h2⟩
      rcases hne with hne | hne
      · exact hne h1
      · exact hne (by rw [h2]; exact List.mem_singleton_self _)
    R_ds := by
      intro q hq
      rw [List.mem_singleton.mp hq]
      exact hR3
    fl := by
      intro cls'
      rw [RenameTable.store_freelist, RenameTable.pushFree_freelist, RenameTable.store_freelist]
    ccf := by simp
    ccl := by simp }

theorem UnmapRel.nil (cls : RegClass) (t : RenameTable) : UnmapRel cls t [] t :=
  { A_same := fun _ _ _ => rfl
    C_zero := fun _ => rfl
    R_other := fun _ _ _ _ => rfl
    R_ds := by intro q hq; simp at hq
    fl := by intro cls'; simp
    ccf := rfl
    ccl := rfl }

theorem UnmapRel.trans (cls : RegClass) (t t1 t2 : RenameTable) (d1 d2 : List Nat)
    (hd1 : ∀ q ∈ d1, q < cls.rnreg) (hdisj : ∀ q ∈ d1, q ∉ d2)
    (h1 : UnmapRel cls t d1 t1) (h2 : UnmapRel cls t1 d2 t2) :
    UnmapRel cls t (d1 ++ d2) t2 :=
  { A_same := fun cls' a ha => (h2.A_same cls' a ha).trans (h1.A_same cls' a ha)
    C_zero := fun cls' => (h2.C_zero cls').trans (h1.C_zero cls')
    R_other := by
      intro cls' q hq hne
      rw [h2.R_other cls' q hq, h1.R_other cls' q hq]
      · rcases hne with hne | hne
        · exact Or.inl hne
        · exact Or.inr (fun h => hne (List.mem_append_left _ h))
      · rcases hne with hne | hne
        · exact Or.inl hne
        · exact Or.inr (fun h => hne (List.mem_append_right _ h))
    R_ds := by
      intro q hq
      rcases List.mem_append.mp hq with hq | hq
      · rw [h2.R_other cls q (hd1 q hq) (Or.inr (hdisj q hq))]
        exact h1.R_ds q hq
      · exact h2.R_ds q hq
    fl := by
      intro cls'
      rw [h2.fl cls', h1.fl cls']
      split_ifs
      · rw [List.append_assoc]
      · rfl
    ccf := h2.ccf.trans h1.ccf
    ccl := h2.ccl.trans h1.ccl }

theorem commit_rename_rel (t : RenameTable) (cls : RegClass) (op : uop)
    (hnd : op.dests.Nodup)
    (hd : ∀ p ∈ op.dests, p ≠ 0 ∧ p < cls.rnreg ∧ t.R cls p ≠ 0 ∧ t.R cls p < cls.cnt)
    (hA0 : t.A cls 0 = 0) : UnmapRel cls t op.dests (commit_rename t cls op) := by
  unfold commit_rename
  unfold uop.dests at hnd hd ⊢
  dsimp only
  by_cases hc : op.control &&& rc_dest ≠ 0 ∧ op.rc ≠ 0
  · simp only [if_pos hc] at hnd hd ⊢
    have hrc := hd op.rc (by simp)
    have h1 := commit_unmap_rel t cls op.rc hrc.1 hrc.2.1 hrc.2.2.1 hrc.2.2.2 hA0
    by_cases hdd : op.rd ≠ 0
    · simp only [if_pos hdd] at hnd hd ⊢
      have hrd := hd op.rd (by simp)
      have hne : op.rd ≠ op.rc := by
        intro h
        rw [h] at hnd
        simp at hnd
      have hRd : (commit_unmap t cls op.rc).R cls op.rd = t.R cls op.rd :=
        h1.R_other cls op.rd hrd.2.1 (Or.inr (by simpa using hne))
      have h2 := commit_unmap_rel (commit_unmap t cls op.rc) cls op.rd hrd.1 hrd.2.1
        (by rw [hRd]; exact hrd.2.2.1) (by rw [hRd]; exact hrd.2.2.2)
        (by rw [h1.A_same cls 0 cls.cnt_pos]; exact hA0)
      exact UnmapRel.trans cls _ _ _ _ _ (by intro q hq; rw [List.mem_singleton.mp hq]; exact hrc.2.1)
        (by intro q hq; rw [List.mem_singleton.mp hq]; simpa using hne.symm) h1 h2
    · simp only [if_neg hdd, List.append_nil] at hnd hd ⊢
      exact h1
  · simp only [if_neg hc] at hnd hd ⊢
    by_cases hdd : op.rd ≠ 0
    · simp only [if_pos hdd, List.nil_append] at hnd hd ⊢
      have hrd := hd op.rd (by simp)
      exact commit_unmap_rel t cls op.rd hrd.1 hrd.2.1 hrd.2.2.1 hrd.2.2.2 hA0
    · simp only [if_neg hdd, List.append_nil]
      exact UnmapRel.nil cls t

theorem Inv.retire (c c' : Core) (hI : Inv c) (hd : LatchQElem ROBEntry)
    (tl : List (LatchQElem ROBEntry)) (hq : c.rob.queue = hd :: tl)
    (ds : List Nat) (t' : RenameTable) (hsub : List.Sublist ds hd.elem.op.dests)
    (hrel : UnmapRel (getOpClass hd.elem.op) c.rrt ds t')
    (hrob : c'.rob.queue = tl)
    (hm : c'.rrt.mem = t'.mem) (hf : ∀ cls, c'.rrt.freelist cls = t'.freelist cls)
    (hcc : 0 ∉ c'.rrt.cc_freelist ∧ 0 ∉ c'.rrt.cc_lastused)
    (hidra : c'.id_ra = c.id_ra) : Inv c' := by
  have hinf : ∀ cls, inflight cls c.rob.queue =
      (if getOpClass hd.elem.op = cls then hd.elem.op.dests else []) ++ inflight cls tl := by
    intro cls; rw [hq]; rfl
  have hA : ∀ cls a, a < cls.cnt → c'.rrt.A cls a = c.rrt.A cls a := by
    intro cls a ha
    rw [RenameTable.A_congr _ _ hm]; exact hrel.A_same cls a ha
  have hC : ∀ cls, c'.rrt.C cls 0 = c.rrt.C cls 0 := by
    intro cls
    rw [RenameTable.C_congr _ _ hm]; exact hrel.C_zero cls
  have hds_in : ∀ p ∈ ds, p ∈ inflight (getOpClass hd.elem.op) c.rob.queue := by
    intro p hp
    rw [hinf, if_pos rfl]
    exact List.mem_append_left _ (hsub.subset hp)
  have htl_in : ∀ cls, ∀ p ∈ inflight cls tl, p ∈ inflight cls c.rob.queue := by
    intro cls p hp
    rw [hinf]
    exact List.mem_append_right _ hp
  have hdisj : ∀ p ∈ inflight (getOpClass hd.elem.op) tl, p ∉ ds := by
    intro p hp hpd
    have hnd := (List.nodup_append.mp (hI.nodup (getOpClass hd.elem.op))).2.1
    rw [hinf, if_pos rfl] at hnd
    exact (List.nodup_append.mp hnd).2.2 (hsub.subset hpd) hp
  have hR : ∀ cls, ∀ p ∈ inflight cls tl, c'.rrt.R cls p = c.rrt.R cls p := by
    intro cls p hp
    rw [RenameTable.R_congr _ _ hm]
    apply hrel.R_other cls p (hI.if_rng cls p (htl_in cls p hp)).2
    by_cases hcl : cls = getOpClass hd.elem.op
    · subst hcl
      exact Or.inr (hdisj p hp)
    · exact Or.inl hcl
  have hfl : ∀ cls, c'.rrt.freelist cls =
      c.rrt.freelist cls ++ (if cls = getOpClass hd.elem.op then ds else []) := by
    intro cls
    rw [hf, hrel.fl]
    split_ifs
    · rfl
    · rw [List.append_nil]
  exact
  { fl_rng := by
      intro cls p hp
      rw [hfl] at hp
      rcases List.mem_append.mp hp with h1 | h2
      · exact hI.fl_rng cls p h1
      · by_cases hcl : cls = getOpClass hd.elem.op
        · rw [if_pos hcl] at h2
          rw [hcl]
          exact hI.if_rng _ p (hds_in p h2)
        · rw [if_neg hcl] at h2
          simp at h2
    if_rng := by
      intro cls p hp
      rw [hrob] at hp
      exact hI.if_rng cls p (htl_in cls p hp)
    nodup := by
      intro cls
      rw [hrob, hfl, List.append_assoc]
      refine List.Sublist.nodup ?_ (hI.nodup cls)
      rw [hinf]
      refine List.Sublist.append (List.Sublist.refl _)
        (List.Sublist.append ?_ (List.Sublist.refl _))
      by_cases hcl : cls = getOpClass hd.elem.op
      · rw [if_pos hcl, if_pos hcl.symm]
        exact hsub
      · rw [if_neg hcl]
        exact List.nil_sublist _
    zeroA := by intro cls; rw [hA cls 0 cls.cnt_pos]; exact hI.zeroA cls
    zeroC := by intro cls; rw [hC]; exact hI.zeroC cls
    zeroR := by
      intro cls
      rw [RenameTable.R_congr _ _ hm, hrel.R_other cls 0 cls.rnreg_pos]
      · exact hI.zeroR cls
      · right
        intro h0
        exact absurd (hI.if_rng _ 0 (hds_in 0 h0)).1 (by decide)
    rngR := by
      intro cls p hp
      rw [RenameTable.R_congr _ _ hm]
      by_cases hcase : cls ≠ getOpClass hd.elem.op ∨ p ∉ ds
      · rw [hrel.R_other cls p hp hcase]
        exact hI.rngR cls p hp
      · have h1 : cls = getOpClass hd.elem.op := by
          by_contra hne; exact hcase (Or.inl hne)
        have h2 : p ∈ ds := by
          by_contra hne; exact hcase (Or.inr hne)
        subst h1
        rw [hrel.R_ds p h2]
        exact RegClass.cnt_pos _
    liveR := by
      intro cls p hp
      rw [hrob] at hp
      rw [hR cls p hp]
      exact hI.liveR cls p (htl_in cls p hp)
    last := by
      intro cls
      rw [hrob]
      have h0 := hI.last cls
      rw [hinf] at h0
      refine LastWriters.congr_on _ _ _ _ _ (hR cls) ?_ (LastWriters.drop_left _ _ _ _ h0)
      intro p hp
      exact hA cls _ (hI.rngR cls p (hI.if_rng cls p (htl_in cls p hp)).2)
    idra := by rw [hidra]; exact hI.idra
    cc0 := hcc }

theorem Inv.same (c c' : Core) (h : Inv c) (h1 : c'.rrt = c.rrt)
    (h2 : ∀ cls, inflight cls c'.rob.queue = inflight cls c.rob.queue)
    (h3 : c'.id_ra = c.id_ra) : Inv c' :=
  Inv.of_inflight c c' h h1 h2 (by rw [h3]; exact h.idra)

theorem commit_on_empty_inv (c c' : Core) (hI : Inv c)
    (h : (commit_on_empty c).state? = some c') : Inv c' := by
  unfold commit_on_empty at h
  split at h
  · simp [Outcome.state?] at h
  · dsimp only at h
    simp only [Outcome.state?, Option.some.injEq] at h
    subst h
    split_ifs
    · exact Inv.same c _ hI rfl (fun _ => rfl) rfl
    · exact Inv.same c _ hI rfl (fun _ => rfl) rfl

theorem push_front_ok {T : Type} (q q' : LatchQueue T) (cycle : Nat) (x : T)
    (h : q.push_front cycle x = .ok q') : q'.queue = ⟨cycle, x⟩ :: q.queue := by
  unfold LatchQueue.push_front at h
  split_ifs at h
  simp only [Except.ok.injEq] at h
  subst h
  rfl

theorem flush_inject_inv (c c' : Core) (cycle : Nat) (e : ROBEntry) (hI : Inv c)
    (he : e.op.dests = []) (h : (flush_inject c cycle e).state? = some c') : Inv c' := by
  unfold flush_inject at h
  split at h
  · simp [Outcome.state?] at h
  · rename_i c1 hfl
    obtain ⟨hI1, hrob⟩ := flush_inv c c1 hI hfl
    split at h
    · simp [Outcome.state?] at h
    · rename_i rob hpush
      simp only [Outcome.state?, Option.some.injEq] at h
      subst h
      refine Inv.same c1 _ hI1 rfl ?_ rfl
      intro cls
      show inflight cls rob.queue = inflight cls c1.rob.queue
      rw [push_front_ok _ _ _ _ hpush, hrob]
      simp [inflight, he]

theorem commit_branch_inv (c c' : Core) (re : ROBEntry) (hI : Inv c)
    (h : (commit_branch c re).state? = some c') : Inv c' := by
  unfold commit_branch at h
  by_cases hb : is_branch re.op = true
  · rw [if_pos hb] at h
    by_cases h1 : re.mref.mode ≠ mr_branch
    · rw [if_pos h1] at h; simp [Outcome.state?] at h
    · rw [if_neg h1] at h
      by_cases h2 : re.mref.size = UINT64_MAX ∧ c.state.seq_addrs = []
      · rw [if_pos h2] at h; simp [Outcome.state?] at h
      · rw [if_neg h2] at h
        dsimp only at h
        split at h
        · split_ifs at h <;> simp [Outcome.state?] at h
        · rename_i pred _
          split_ifs at h
          · split at h
            · simp [Outcome.state?] at h
            · rename_i c1 hfl
              obtain ⟨hI1, _⟩ := flush_inv c c1 hI hfl
              simp only [Outcome.state?, Option.some.injEq] at h
              subst h
              exact Inv.same c1 _ hI1 rfl (fun _ => rfl) rfl
          · simp only [Outcome.state?, Option.some.injEq] at h
            subst h
            exact hI
          · split at h
            · simp [Outcome.state?] at h
            · rename_i c1 hfl
              obtain ⟨hI1, _⟩ := flush_inv c c1 hI hfl
              simp only [Outcome.state?, Option.some.injEq] at h
              subst h
              exact Inv.same c1 _ hI1 rfl (fun _ => rfl) rfl
          · simp only [Outcome.state?, Option.some.injEq] at h
            subst h
            exact hI
  · rw [if_neg hb] at h
    simp only [Outcome.state?, Option.some.injEq] at h
    subst h
    exact hI

theorem commit_mop_inv (c c' : Core) (op : uop) (hI : Inv c)
    (h : (commit_mop c op).state? = some c') : Inv c' := by
  unfold commit_mop at h
  by_cases hb : op.control &&& mop_last ≠ 0
  · rw [if_pos hb] at h
    split at h
    · simp [Outcome.state?] at h
    · simp [Outcome.state?] at h
    · dsimp only at h
      simp only [Outcome.state?, Option.some.injEq] at h
      subst h
      exact Inv.same c _ hI rfl (fun _ => rfl) rfl
  · rw [if_neg hb] at h
    simp only [Outcome.state?, Option.some.injEq] at h
    subst h
    exact hI

theorem commit_tail_inv (c c' : Core) (re : ROBEntry) (hI : Inv c)
    (h : (commit_tail c re).state? = some c') : Inv c' := by
  unfold commit_tail at h
  cases hb : commit_branch c re with
  | next c1 =>
    rw [hb] at h
    dsimp only at h
    have hI1 := commit_branch_inv c c1 re hI (by rw [hb]; rfl)
    cases hm : commit_mop c1 re.op with
    | next c2 =>
      rw [hm] at h
      dsimp only at h
      have hI2 := commit_mop_inv c1 c2 re.op hI1 (by rw [hm]; rfl)
      simp only [Outcome.state?, Option.some.injEq] at h
      subst h
      exact Inv.same c2 _ hI2 rfl (fun _ => rfl) rfl
    | stop s =>
      rw [hm] at h
      exact commit_mop_inv c1 c' re.op hI1 (by rw [hm]; exact h)
    | raise => rw [hm] at h; simp [Outcome.state?] at h
    | undefined => rw [hm] at h; simp [Outcome.state?] at h
  | stop s =>
    rw [hb] at h
    exact commit_branch_inv c c' re hI (by rw [hb]; exact h)
  | raise => rw [hb] at h; simp [Outcome.state?] at h
  | undefined => rw [hb] at h; simp [Outcome.state?] at h

theorem inflight_map_snd (cls : RegClass) (l : List (Nat × LatchQElem ROBEntry))
    (f : Nat × LatchQElem ROBEntry → LatchQElem ROBEntry)
    (hf : ∀ ie, (f ie).elem.op = ie.2.elem.op) :
    inflight cls (l.map f) = inflight cls (l.map Prod.snd) := by
  induction l with
  | nil => rfl
  | cons x rest ih =>
    simp only [List.map_cons, inflight_cons, ih, hf]

theorem inflight_map_enum (cls : RegClass) (l : List (LatchQElem ROBEntry))
    (f : Nat × LatchQElem ROBEntry → LatchQElem ROBEntry)
    (hf : ∀ ie, (f ie).elem.op = ie.2.elem.op) :
    inflight cls (l.enum.map f) = inflight cls l := by
  rw [inflight_map_snd cls _ f hf, List.enum_map_snd]

theorem commit_int_entry_dests (a b : Nat) : (commit_int_entry a b).op.dests = [] := by
  simp [commit_int_entry, uop.dests]

theorem commit_store_inv (env : CommitEnv) (c c' : Core) (re : ROBEntry) (hI : Inv c)
    (h : (commit_store env c re).state? = some c') : Inv c' := by
  unfold commit_store at h
  by_cases hs : is_store re.op = true
  · rw [if_pos hs] at h
    dsimp only at h
    have hI1 : Inv { c with rob := { c.rob with queue := c.rob.queue.enum.map (fun ie =>
        if ie.1 ∈ env.st_hits
        then { ie.2 with elem := { ie.2.elem with mref := { ie.2.elem.mref with mode := mr_invalid } } }
        else ie.2) } } := by
      refine Inv.same c _ hI rfl ?_ rfl
      intro cls
      exact inflight_map_enum cls _ _ (by intro ie; dsimp only; split_ifs <;> rfl)
    by_cases h1 : env.st_throws = true
    · rw [if_pos h1] at h
      exact flush_inject_inv _ c' _ _ hI1 (commit_int_entry_dests _ _) h
    · rw [if_neg h1] at h
      by_cases h2 : env.st_except ≠ 0
      · rw [if_pos h2] at h
        exact flush_inject_inv _ c' _ _ hI1 (commit_int_entry_dests _ _) h
      · rw [if_neg h2] at h
        split_ifs at h
        · simp [Outcome.state?] at h
        · split at h
          · refine commit_tail_inv _ c' re ?_ h
            exact Inv.same _ _ hI1 rfl (fun _ => rfl) rfl
          · exact commit_tail_inv _ c' re hI1 h
  · rw [if_neg hs] at h
    exact commit_tail_inv c c' re hI h

theorem commit_load_inv (env : CommitEnv) (c c' : Core) (re : ROBEntry) (hI : Inv c)
    (h : (commit_load env c re).state? = some c') : Inv c' := by
  unfold commit_load at h
  by_cases hl : is_load re.op = true
  · rw [if_pos hl] at h
    split at h
    · exact commit_on_empty_inv c c' hI h
    · simp only [Outcome.state?, Option.some.injEq] at h
      subst h
      exact hI
    · by_cases h1 : env.ld_invalid = true
      · rw [if_pos h1] at h
        split at h
        · simp [Outcome.state?] at h
        · rename_i c1 hfl
          obtain ⟨hI1, _⟩ := flush_inv c c1 hI hfl
          simp only [Outcome.state?, Option.some.injEq] at h
          subst h
          exact Inv.same c1 _ hI1 rfl (fun _ => rfl) rfl
      · rw [if_neg h1] at h
        split at h
        · exact commit_on_empty_inv c c' hI h
        · refine commit_store_inv env _ c' re ?_ h
          exact Inv.same c _ hI rfl (fun _ => rfl) rfl
  · rw [if_neg hl] at h
    exact commit_store_inv env c c' re hI h

theorem ArchRegFile.get_set (f : ArchRegFile) (cls cls' : RegClass) (i j v : Nat) :
    (f.set cls i v).get cls' j = if cls' = cls ∧ j = i then v else f.get cls' j := by
  cases cls <;> cases cls' <;>
    simp [ArchRegFile.set, ArchRegFile.get, Function.update_apply]

/-- One commit slot keeps the invariant. -/
theorem commit_slot_inv (env : CommitEnv) (c c' : Core) (hI : Inv c)
    (h : (commit_slot env c).state? = some c') : Inv c' := by
  unfold commit_slot at h
  by_cases h1 : c.state.refetch_active ≠ 0 ∧ c.state.in_flight = []
  · rw [if_pos h1] at h; simp [Outcome.state?] at h
  rw [if_neg h1] at h
  by_cases h2 : c.state.refetch_active ≠ 0 ∧ c.state.refetch_at = c.state.in_flight.headD 0
  · rw [if_pos h2] at h
    split at h
    · simp [Outcome.state?] at h
    · rename_i c1 hfl
      obtain ⟨hI1, _⟩ := flush_inv c c1 hI hfl
      simp only [Outcome.state?, Option.some.injEq] at h
      subst h
      exact Inv.same c1 _ hI1 rfl (fun _ => rfl) rfl
  rw [if_neg h2] at h
  split at h
  · exact commit_on_empty_inv c c' hI h
  · simp only [Outcome.state?, Option.some.injEq] at h
    subst h
    exact hI
  · rename_i cur_re rob hget
    obtain ⟨hd, hq, hel, _⟩ := get_front_ok _ _ _ _ hget
    by_cases h3 : ¬ (cur_re.c_ready ≠ 0 ∧ cur_re.c_ready ≤ c.state.cycle)
    · rw [if_pos h3] at h
      simp only [Outcome.state?, Option.some.injEq] at h
      subst h
      exact hI
    rw [if_neg h3] at h
    dsimp only at h
    by_cases h4 : cur_re.except ≠ 0
    · rw [if_pos h4] at h
      simp only [Outcome.state?, Option.some.injEq] at h
      subst h
      exact Inv.retire c _ hI hd rob.queue hq [] c.rrt (List.nil_sublist _)
        (UnmapRel.nil _ _) rfl rfl (fun _ => rfl) hI.cc0 rfl
    rw [if_neg h4] at h
    subst hel
    have hinf : inflight (getOpClass hd.elem.op) c.rob.queue =
        hd.elem.op.dests ++ inflight (getOpClass hd.elem.op) rob.queue := by
      rw [hq, inflight_cons, if_pos rfl]
    have hmem : ∀ p ∈ hd.elem.op.dests, p ∈ inflight (getOpClass hd.elem.op) c.rob.queue := by
      intro p hp; rw [hinf]; exact List.mem_append_left _ hp
    have hnd : hd.elem.op.dests.Nodup := by
      have := (List.nodup_append.mp (hI.nodup (getOpClass hd.elem.op))).2.1
      rw [hinf] at this
      exact (List.nodup_append.mp this).1
    have hrel := commit_rename_rel c.rrt (getOpClass hd.elem.op) hd.elem.op hnd
      (by
        intro p hp
        have hr := hI.if_rng _ p (hmem p hp)
        exact ⟨by omega, hr.2, hI.liveR _ p (hmem p hp), hI.rngR _ p hr.2⟩)
      (hI.zeroA _)
    have hcc1 : 0 ∉ (commit_rename c.rrt (getOpClass hd.elem.op) hd.elem.op).cc_freelist ∧
        0 ∉ (commit_rename c.rrt (getOpClass hd.elem.op) hd.elem.op).cc_lastused := by
      rw [hrel.ccf, hrel.ccl]; exact hI.cc0
    generalize commit_rename c.rrt (getOpClass hd.elem.op) hd.elem.op = t1 at h hrel hcc1
    generalize commit_writeback c.state.arf c.prf c.rrt (getOpClass hd.elem.op) hd.elem = arf
      at h
    by_cases h5 : hd.elem.cc_set ≠ 0 ∧ t1.cc_lastused = []
    · rw [if_pos h5] at h; simp [Outcome.state?] at h
    rw [if_neg h5] at h
    by_cases h6 : hd.elem.cc_set ≠ 0 ∧ hd.elem.cc_set ≠ t1.cc_lastused.headD 0 ∧
        t1.cc_lastused.tail = []
    · rw [if_pos h6] at h; simp [Outcome.state?] at h
    rw [if_neg h6] at h
    refine commit_load_inv env _ c' hd.elem ?_ h
    by_cases h7 : hd.elem.cc_set ≠ 0 ∧ hd.elem.cc_set ≠ t1.cc_lastused.headD 0
    · have hne : t1.cc_lastused ≠ [] := fun hh => h5 ⟨h7.1, hh⟩
      simp only [decide_eq_true h7, if_true]
      refine Inv.retire c _ hI hd rob.queue hq _ t1 (List.Sublist.refl _) hrel rfl rfl
        (fun cls => by cases cls <;> rfl) ?_ rfl
      refine ⟨?_, ?_⟩
      · show 0 ∉ t1.cc_freelist ++ [t1.cc_lastused.headD 0]
        intro hm
        rcases List.mem_append.mp hm with hm | hm
        · exact hcc1.1 hm
        · apply hcc1.2
          rw [List.mem_singleton] at hm
          cases hl : t1.cc_lastused with
          | nil => exact absurd hl hne
          | cons x xs =>
            rw [hl] at hm
            simp only [List.headD_cons] at hm
            rw [← hm]
            exact List.mem_cons_self _ _
      · show 0 ∉ t1.cc_lastused.tail
        exact fun hm => hcc1.2 (List.mem_of_mem_tail hm)
    · simp only [decide_eq_false h7, Bool.false_eq_true, if_false]
      exact Inv.retire c _ hI hd rob.queue hq _ t1 (List.Sublist.refl _) hrel rfl rfl
        (fun _ => rfl) hcc1 rfl

/-! ## Reachable states -/

/-- Every step of the backend keeps the invariant. -/
theorem step_inv (a : Action) (c c' : Core) (hI : Inv c) (h : step a c = some c') : Inv c' := by
  cases a with
  | fetch cycle u =>
    simp only [step] at h
    split at h
    · simp only [Option.some.injEq] at h
      subst h
      exact Inv.same c _ hI rfl (fun _ => rfl) rfl
    · simp at h
  | tick =>
    simp only [step, Option.some.injEq] at h
    subst h
    exact Inv.same c _ hI rfl (fun _ => rfl) rfl
  | decode => exact (decode_slot_inv c c' hI h).1
  | alloc => exact (alloc_slot_inv c c' hI h).1
  | exec i r => exact (exec_entry_inv c c' i r hI h).1
  | commit env => exact commit_slot_inv env c c' hI h
  | flush =>
    simp only [step] at h
    cases hf : flush c with
    | error e => rw [hf] at h; simp [Except.toOption] at h
    | ok c1 =>
      rw [hf] at h
      simp only [Except.toOption, Option.some.injEq] at h
      subst h
      exact (flush_inv c c1 hI hf).1

theorem run_inv (acts : List Action) (c c' : Core) (hI : Inv c) (h : run acts c = some c') :
    Inv c' := by
  induction acts generalizing c with
  | nil =>
    simp only [run, Option.some.injEq] at h
    subst h
    exact hI
  | cons a rest ih =>
    simp only [run] at h
    cases hs : step a c with
    | none => rw [hs] at h; simp at h
    | some c1 =>
      rw [hs] at h
      exact ih c1 (step_inv a c c1 hI hs) h

theorem reach_inv (frontend : Nat) (acts : List Action) (c : Core)
    (h : run acts (Core.init frontend) = some c) : Inv c :=
  run_inv acts _ c (Inv.at_init frontend) h

theorem FreshA.fresh_init (frontend : Nat) : FreshA (Core.init frontend) := by
  intro cls a _ hmem
  have h0 : (Core.init frontend).rrt.A cls a = 0 := rfl
  rw [h0] at hmem
  exact absurd ((Inv.at_init frontend).fl_rng cls 0 hmem).1 (by decide)

theorem step_fresh (a : Action) (c c' : Core) (hI : Inv c) (hF : FreshA c)
    (ha : a.retires = false) (h : step a c = some c') : FreshA c' := by
  cases a with
  | fetch cycle u =>
    simp only [step] at h
    split at h
    · simp only [Option.some.injEq] at h
      subst h
      exact FreshA.congr_rrt c _ rfl hF
    · simp at h
  | tick =>
    simp only [step, Option.some.injEq] at h
    subst h
    exact FreshA.congr_rrt c _ rfl hF
  | decode => exact FreshA.congr_rrt c c' (decode_slot_inv c c' hI h).2.1 hF
  | alloc => exact (alloc_slot_inv c c' hI h).2 hF
  | exec i r => exact FreshA.congr_rrt c c' (exec_entry_inv c c' i r hI h).2.1 hF
  | commit env => simp [Action.retires] at ha
  | flush => simp [Action.retires] at ha

theorem run_fresh (acts : List Action) (c c' : Core) (hI : Inv c) (hF : FreshA c)
    (ha : ∀ a ∈ acts, a.retires = false) (h : run acts c = some c') : FreshA c' := by
  induction acts generalizing c with
  | nil =>
    simp only [run, Option.some.injEq] at h
    subst h
    exact hF
  | cons a rest ih =>
    simp only [run] at h
    cases hs : step a c with
    | none => rw [hs] at h; simp at h
    | some c1 =>
      rw [hs] at h
      exact ih c1 (step_inv a c c1 hI hs)
        (step_fresh a c c1 hI hF (ha a (List.mem_cons_self _ _)) hs)
        (fun b hb => ha b (List.mem_cons_of_mem _ hb)) h

theorem LastWriters.split (A R : Nat → Nat) (older younger : List Nat) (p : Nat)
    (h : LastWriters A R (older ++ p :: younger)) (hlast : ∀ q ∈ younger, R q ≠ R p) :
    A (R p) = p :=
  (LastWriters.drop_left A R older (p :: younger) h).1 hlast

theorem ex_state_run (tr : List Action) (h : (run tr (Core.init risc)).isSome = true) :
    run tr (Core.init risc) = some (ex_state tr) := by
  unfold ex_state
  cases hr : run tr (Core.init risc) with
  | none => rw [hr] at h; simp at h
  | some c => rfl

/-! ## Free lists, forward mappings and register 0 in reachable states -/

set_option maxRecDepth 100000 in
/-- C5, counterexample: `set r5 <- 42` is renamed to p1, executed and committed, and the
core is then flushed. The commit slot records `C[5] = 1` and pushes p1 onto the gp free
list; `Core::flush` copies the committed table into the forward table. In the state
reached, `A[5] = 1` while p1 is on the gp free list. -/
theorem flush_maps_free_register :
    ∃ c, run ex_trace_retire_flush (Core.init risc) = some c ∧
      c.rrt.C .gp 5 = 1 ∧ c.rrt.A .gp 5 = 1 ∧ 1 ∈ c.rrt.freelist .gp ∧ ¬ FreshA c := by
  have hev : (run ex_trace_retire_flush (Core.init risc)).map (fun c =>
      (c.rrt.C .gp 5, c.rrt.A .gp 5, decide (1 ∈ c.rrt.freelist .gp))) = some (1, 1, true) := by
    decide
  cases hr : run ex_trace_retire_flush (Core.init risc) with
  | none => rw [hr] at hev; simp at hev
  | some c =>
    rw [hr] at hev
    simp only [Option.map_some', Option.some.injEq, Prod.mk.injEq, decide_eq_true_eq] at hev
    refine ⟨c, rfl, hev.1, hev.2.1, hev.2.2, ?_⟩
    intro hF
    apply hF .gp 5 (by decide)
    rw [hev.2.1]
    exact hev.2.2

/-- C5, amended: in every state reachable from the initial core, no register on a class
free list is a destination of an in-flight ROB entry of that class; and in every state
reached without a commit slot or a flush, no register on a class free list is the forward
mapping `A[a]` of an architectural register `a` of that class. -/
theorem free_registers_not_in_flight (frontend : Nat) (acts : List Action) (c : Core)
    (h : run acts (Core.init frontend) = some c) :
    (∀ cls p, p ∈ c.rrt.freelist cls → p ∉ inflight cls c.rob.queue) ∧
    ((∀ a ∈ acts, a.retires = false) →
      ∀ cls a, a < cls.cnt → c.rrt.A cls a ∉ c.rrt.freelist cls) := by
  refine ⟨?_, ?_⟩
  · intro cls p hp hq
    exact (List.nodup_append.mp ((reach_inv frontend acts c h).nodup cls)).2.2 hp hq
  · intro ha
    exact run_fresh acts _ c (Inv.at_init frontend) (FreshA.fresh_init frontend) ha h

set_option maxRecDepth 100000 in
/-- C5, amended, at a concrete input: `set r5 <- 42` renamed twice on a fresh core. -/
theorem free_registers_not_in_flight_witness :
    run ex_trace_twice (Core.init risc) = some (ex_state ex_trace_twice) ∧
    (∀ a ∈ ex_trace_twice, a.retires = false) ∧
    (∀ cls p, p ∈ (ex_state ex_trace_twice).rrt.freelist cls →
      p ∉ inflight cls (ex_state ex_trace_twice).rob.queue) ∧
    ∀ cls a, a < cls.cnt →
      (ex_state ex_trace_twice).rrt.A cls a ∉ (ex_state ex_trace_twice).rrt.freelist cls :=
  have h := ex_state_run ex_trace_twice (by decide)
  have ha : ∀ a ∈ ex_trace_twice, a.retires = false := by decide
  ⟨h, ha, (free_registers_not_in_flight risc ex_trace_twice _ h).1,
    (free_registers_not_in_flight risc ex_trace_twice _ h).2 ha⟩

set_option maxRecDepth 100000 in
/-- C6, counterexample: `set r5 <- 42` is renamed twice on a fresh core, to p1 and then to
p2. Both are in flight; `R[1] = 5` is non-zero, but `A[R[1]] = A[5] = 2`. -/
theorem older_writer_not_forward_mapping :
    ∃ c, run ex_trace_twice (Core.init risc) = some c ∧
      inflight .gp c.rob.queue = [1, 2] ∧ c.rrt.R .gp 1 = 5 ∧ c.rrt.A .gp (c.rrt.R .gp 1) = 2 := by
  have hev : (run ex_trace_twice (Core.init risc)).map (fun c =>
      (inflight .gp c.rob.queue, c.rrt.R .gp 1, c.rrt.A .gp (c.rrt.R .gp 1)))
      = some ([1, 2], 5, 2) := by
    decide
  cases hr : run ex_trace_twice (Core.init risc) with
  | none => rw [hr] at hev; simp at hev
  | some c =>
    rw [hr] at hev
    simp only [Option.map_some', Option.some.injEq, Prod.mk.injEq] at hev
    exact ⟨c, rfl, hev.1, hev.2.1, hev.2.2⟩

/-- C6, amended: in every state reachable from the initial core (by alloc and commit
slots, and also by flushes), for every class and every destination `p` of an in-flight ROB
entry such that no younger in-flight destination is reverse-mapped to the same
architectural register, `A[R[p]] = p`. -/
theorem last_writer_is_forward_mapping (frontend : Nat) (acts : List Action) (c : Core)
    (cls : RegClass) (older younger : List Nat) (p : Nat)
    (h : run acts (Core.init frontend) = some c)
    (hsplit : inflight cls c.rob.queue = older ++ p :: younger)
    (hlast : ∀ q ∈ younger, c.rrt.R cls q ≠ c.rrt.R cls p) :
    c.rrt.A cls (c.rrt.R cls p) = p := by
  have hl := (reach_inv frontend acts c h).last cls
  rw [hsplit] at hl
  exact LastWriters.split _ _ older younger p hl hlast

set_option maxRecDepth 100000 in
/-- C6, amended, at a concrete input: `set r5 <- 42` and `set r6 <- 42` are renamed to p1
and p2; p1 is the older destination and p2 is mapped to another register. -/
theorem last_writer_is_forward_mapping_witness :
    run ex_trace_pair (Core.init risc) = some (ex_state ex_trace_pair) ∧
    inflight .gp (ex_state ex_trace_pair).rob.queue = [] ++ 1 :: [2] ∧
    (∀ q ∈ [2], (ex_state ex_trace_pair).rrt.R .gp q ≠ (ex_state ex_trace_pair).rrt.R .gp 1) ∧
    (ex_state ex_trace_pair).rrt.A .gp ((ex_state ex_trace_pair).rrt.R .gp 1) = 1 :=
  have h := ex_state_run ex_trace_pair (by decide)
  have hs : inflight .gp (ex_state ex_trace_pair).rob.queue = [] ++ 1 :: [2] := by decide
  have hl : ∀ q ∈ [2],
      (ex_state ex_trace_pair).rrt.R .gp q ≠ (ex_state ex_trace_pair).rrt.R .gp 1 := by decide
  ⟨h, hs, hl, last_writer_is_forward_mapping risc ex_trace_pair _ .gp [] [2] 1 h hs hl⟩

/-- In every state reachable from the initial core, physical register 0 is on no free list
(of a register class or of the condition registers) and `A[0] = 0` for every class. -/
theorem register_zero_rename_state (frontend : Nat) (acts : List Action) (c : Core)
    (h : run acts (Core.init frontend) = some c) :
    (∀ cls, 0 ∉ c.rrt.freelist cls) ∧ 0 ∉ c.rrt.cc_freelist ∧ (∀ cls, c.rrt.A cls 0 = 0) := by
  have hI := reach_inv frontend acts c h
  refine ⟨?_, hI.cc0.1, hI.zeroA⟩
  intro cls h0
  exact absurd (hI.fl_rng cls 0 h0).1 (by decide)

/-- C16, counterexample: opcode 0x0120 has prefix 0 and 12-bit class 0x120, outside
`[0x20, 0x28)`, and `is_load` holds for it: the test reads `(u8)op.opcode`, the low byte. -/
theorem is_load_reads_low_byte :
    is_load ex_op_0120 = true ∧ getOpPrefix ex_op_0120 = 0 ∧ getOpCode ex_op_0120 = 0x120 ∧
    ¬ (is_load ex_op_0120 = true ↔
      (getOpPrefix ex_op_0120 = 0 ∨ getOpPrefix ex_op_0120 = 2 ∨ getOpPrefix ex_op_0120 = 3) ∧
        0x20 ≤ getOpCode ex_op_0120 ∧ getOpCode ex_op_0120 < 0x28) := by
  decide

/-- C16, amended: `is_load(op)` holds if and only if the opcode's 4-bit prefix is 0, 2 or 3
and the low 8 bits of the opcode lie in `[0x20, 0x28)`; when the 12-bit class is below
0x100 that low byte is the class. -/
theorem is_load_iff_low_byte (op : uop) :
    (is_load op = true ↔
      (getOpPrefix op = 0 ∨ getOpPrefix op = 2 ∨ getOpPrefix op = 3) ∧
        0x20 ≤ op.opcode % 256 ∧ op.opcode % 256 < 0x28) ∧
    (getOpCode op < 0x100 → op.opcode % 256 = getOpCode op) := by
  refine ⟨?_, ?_⟩
  · unfold is_load
    simp only [Bool.and_eq_true, Bool.or_eq_true, beq_iff_eq, decide_eq_true_eq, or_assoc]
  · intro h
    unfold getOpCode at h ⊢
    have h1 : op.opcode &&& 0x0fff = op.opcode % 2 ^ 12 := Nat.and_pow_two_sub_one_eq_mod _ 12
    rw [h1] at h ⊢
    omega

theorem setExcept_eq (e c : Nat) (he : e < 2 ^ 16) (hc : c < 2 ^ 16) :
    setExcept e c = c * 2 ^ 16 + e := by
  unfold setExcept
  rw [Nat.shiftLeft_eq, Nat.mul_comm c, ← Nat.mul_add_lt_is_or he c, Nat.mul_comm _ c]
  apply Nat.mod_eq_of_lt
  have : c * 2 ^ 16 ≤ (2 ^ 16 - 1) * 2 ^ 16 := Nat.mul_le_mul_right _ (by omega)
  omega

/-- C17: for 16-bit `e` and `c`, `getExceptNum(setExcept(e, c)) = e` and
`getExceptEC(setExcept(e, c)) = c`; the exception word is `c * 2^16 + e`, so its bits
16..31 are exactly the error code and its bits 0..15 the exception number. -/
theorem except_word_round_trip (e c : Nat) (he : e < 2 ^ 16) (hc : c < 2 ^ 16) :
    getExceptNum (setExcept e c) = e ∧ getExceptEC (setExcept e c) = c ∧
    setExcept e c = c * 2 ^ 16 + e ∧ setExcept e c < 2 ^ 32 ∧
    (setExcept e c / 2 ^ 16) % 2 ^ 16 = c ∧ setExcept e c % 2 ^ 16 = e := by
  have h := setExcept_eq e c he hc
  have h1 : getExceptNum (setExcept e c) = setExcept e c % 2 ^ 16 :=
    Nat.and_pow_two_sub_one_eq_mod _ 16
  have h2 : getExceptEC (setExcept e c) = setExcept e c / 2 ^ 16 :=
    Nat.shiftRight_eq_div_pow _ 16
  rw [h1, h2, h]
  have h3 : (c * 2 ^ 16 + e) % 2 ^ 16 = e := by
    rw [Nat.add_comm, Nat.add_mul_mod_self_right]
    exact Nat.mod_eq_of_lt he
  have h4 : (c * 2 ^ 16 + e) / 2 ^ 16 = c := by
    rw [Nat.add_comm, Nat.add_mul_div_right _ _ (by decide), Nat.div_eq_of_lt he, Nat.zero_add]
  refine ⟨h3, h4, rfl, ?_, ?_, h3⟩
  · have : c * 2 ^ 16 ≤ (2 ^ 16 - 1) * 2 ^ 16 := Nat.mul_le_mul_right _ (by omega)
    omega
  · rw [h4]; exact Nat.mod_eq_of_lt hc

/-- C17, at a concrete input: page fault (exception 3) with error code 5. -/
theorem except_word_round_trip_witness :
    ex_PF < 2 ^ 16 ∧ 5 < 2 ^ 16 ∧
    (getExceptNum (setExcept ex_PF 5) = ex_PF ∧ getExceptEC (setExcept ex_PF 5) = 5 ∧
      setExcept ex_PF 5 = 5 * 2 ^ 16 + ex_PF ∧ setExcept ex_PF 5 < 2 ^ 32 ∧
      (setExcept ex_PF 5 / 2 ^ 16) % 2 ^ 16 = 5 ∧ setExcept ex_PF 5 % 2 ^ 16 = ex_PF) :=
  ⟨by decide, by decide, except_word_round_trip ex_PF 5 (by decide) (by decide)⟩

/-- C18, the code at the failing input: a control word whose `op_size` field is 7
(0x0070, which `setOpSize(128)` produces) has operand size `1 << 7` = 128 bytes, above the
documented maximum of 64. The other parts hold: `getOpSize` is `1 << field` for every
control word, and for the sizes 1..64 `setOpSize` stays inside the field and `getOpSize`
returns the size. -/
theorem op_size_field_seven :
    getOpSize (ex_ctrl 0x0070) = 128 ∧ setOpSize 128 = some 0x0070 ∧
    (∀ c, c < 2 ^ 16 → getOpSize (ex_ctrl c) = 1 <<< ((c &&& 0x0070) >>> 4)) ∧
    ∀ s ∈ [1, 2, 4, 8, 16, 32, 64], ∃ ctl, setOpSize s = some ctl ∧
      getOpSize (ex_ctrl ctl) = s ∧ ctl &&& (0xffff ^^^ 0x0070) = 0 := by
  refine ⟨by decide, by decide, ?_, by decide⟩
  intro c _
  unfold getOpSize ex_ctrl op_size
  apply Nat.mod_eq_of_lt
  have h1 : c &&& 0x70 ≤ 0x70 := Nat.and_le_right
  have h2 : (c &&& 0x70) >>> 4 ≤ 7 := by
    rw [Nat.shiftRight_eq_div_pow]
    omega
  generalize (c &&& 0x70) >>> 4 = k at h2
  interval_cases k <;> decide

/-! ## Decode: injected interrupts -/

theorem decode_bounds_inject (op : uop) (h : ∃ i, i < 4 ∧ getARFSize op ≤ op.reg i) :
    (decode_bounds op).opcode = uop_int ∧ (decode_bounds op).ra = 0 ∧
    (decode_bounds op).rb = 0 ∧ (decode_bounds op).rc = 0 ∧ (decode_bounds op).rd = 0 ∧
    (decode_bounds op).imm = ex_REG := by
  have hsz := getARFSize_pos op
  have inj : ∀ sz i (o : uop), sz ≤ o.reg i →
      (decode_bounds_step sz i o).opcode = uop_int ∧ (decode_bounds_step sz i o).ra = 0 ∧
      (decode_bounds_step sz i o).rb = 0 ∧ (decode_bounds_step sz i o).rc = 0 ∧
      (decode_bounds_step sz i o).rd = 0 ∧ (decode_bounds_step sz i o).imm = ex_REG := by
    intro sz i o hle
    unfold decode_bounds_step
    rw [if_pos hle]
    exact ⟨rfl, rfl, rfl, rfl, rfl, rfl⟩
  have keep : ∀ sz, 0 < sz → ∀ i (o : uop),
      (o.opcode = uop_int ∧ o.ra = 0 ∧ o.rb = 0 ∧ o.rc = 0 ∧ o.rd = 0 ∧ o.imm = ex_REG) →
      decode_bounds_step sz i o = o := by
    intro sz hpos i o ho
    unfold decode_bounds_step
    rw [if_neg]
    have : o.reg i = 0 := by
      rcases i with _ | _ | _ | i
      · exact ho.2.1
      · exact ho.2.2.1
      · exact ho.2.2.2.1
      · exact ho.2.2.2.2.1
    omega
  have skip : ∀ sz i (o : uop), ¬ sz ≤ o.reg i → decode_bounds_step sz i o = o := by
    intro sz i o hn
    unfold decode_bounds_step
    rw [if_neg hn]
  obtain ⟨i, hi, hle⟩ := h
  unfold decode_bounds
  simp only [List.range, List.range.loop, List.foldl]
  generalize getARFSize op = sz at hsz hle
  by_cases h0 : sz ≤ op.reg 0
  · have p0 := inj sz 0 op h0
    rw [keep sz hsz 1 _ p0, keep sz hsz 2 _ p0, keep sz hsz 3 _ p0]
    exact p0
  rw [skip sz 0 op h0]
  by_cases h1 : sz ≤ op.reg 1
  · have p1 := inj sz 1 op h1
    rw [keep sz hsz 2 _ p1, keep sz hsz 3 _ p1]
    exact p1
  rw [skip sz 1 op h1]
  by_cases h2 : sz ≤ op.reg 2
  · have p2 := inj sz 2 op h2
    rw [keep sz hsz 3 _ p2]
    exact p2
  rw [skip sz 2 op h2]
  apply inj sz 3 op
  rcases i with _ | _ | _ | _ | i
  · exact absurd hle h0
  · exact absurd hle h1
  · exact absurd hle h2
  · exact hle
  · omega

/-- C11: a decode slot that takes the uop `u` from the uQueue pushes to ID/RA exactly the
synthetic uop `{uop_int, use_imm, 0, 0, 0, 0, ex_UD}` when the opcode of `u` is not a key
of the uop table; and when the opcode is in the table and the normalised uop has a
register index at or above the architectural register count of its class, it pushes a uop
with opcode `uop_int`, all four registers 0 and immediate `ex_REG`. -/
theorem decode_injects_interrupt (c : Core) (u : uop) (q : LatchQueue uop)
    (hmax : c.id_ra.max_size = ID_RA_SIZE + DECODE_WIDTH)
    (hroom : c.id_ra.size < ID_RA_SIZE + DECODE_WIDTH)
    (hget : c.uqueue.get_front c.state.cycle = .ok (u, q)) :
    ∃ d : uop,
      decode_slot c = .next { c with
        uqueue := q
        id_ra := { c.id_ra with
          queue := c.id_ra.queue ++ [⟨c.state.cycle + DECODE_LATENCY, d⟩] } } ∧
      (uopmap_at u.opcode = none →
        d = { opcode := uop_int, control := use_imm, ra := 0, rb := 0, rc := 0, rd := 0,
              imm := ex_UD }) ∧
      (∀ info, uopmap_at u.opcode = some info →
        (∃ i, i < 4 ∧
          getARFSize (decode_imm (decode_norm (decode_rc (decode_mask info u)))) ≤
            (decode_imm (decode_norm (decode_rc (decode_mask info u)))).reg i) →
        d.opcode = uop_int ∧ d.ra = 0 ∧ d.rb = 0 ∧ d.rc = 0 ∧ d.rd = 0 ∧ d.imm = ex_REG) := by
  refine ⟨decode_uop u, decode_slot_next c u q hmax hroom hget, ?_, ?_⟩
  · intro hnone
    unfold decode_uop
    rw [hnone]
  · intro info hin hbad
    rw [decode_uop_some u info hin]
    exact decode_bounds_inject _ hbad

set_option maxRecDepth 100000 in
/-- C11, at a concrete input: an `add` naming register 40 of 36 waits in the uQueue of a
fresh core; the slot pushes `int` with immediate `ex_REG`. -/
theorem decode_injects_interrupt_witness :
    ∃ d : uop,
      decode_slot ex_core_bad = .next { ex_core_bad with
        uqueue := ⟨UQUEUE_SIZE + FETCH_WIDTH, []⟩
        id_ra := { ex_core_bad.id_ra with
          queue := ex_core_bad.id_ra.queue ++
            [⟨ex_core_bad.state.cycle + DECODE_LATENCY, d⟩] } } ∧
      d.opcode = uop_int ∧ d.ra = 0 ∧ d.rb = 0 ∧ d.rc = 0 ∧ d.rd = 0 ∧ d.imm = ex_REG := by
  obtain ⟨d, h1, _, h3⟩ := decode_injects_interrupt ex_core_bad ex_add_bad
    ⟨UQUEUE_SIZE + FETCH_WIDTH, []⟩ rfl (by decide) rfl
  exact ⟨d, h1, h3 ⟨"add", port_alu, fu_alu, 0xffff, 1⟩ (by decide) ⟨0, by decide, by decide⟩⟩

/-! ## Commit: exception at the head -/

set_option maxRecDepth 100000 in
/-- C13, counterexample: `set r5 <- 42` (renamed to p1) is the ready ROB head with a
non-zero exception word, and a refetch is pending at the oldest in-flight instruction
pointer. The slot takes the refetch branch first (lines 802-811): it flushes and
re-activates the pipeline. `state.active` is not 0, `state.exception` stays 0, and the
forward table entry `A[5]` goes from 1 to 0. -/
theorem refetch_precedes_head_exception :
    ex_core_refetch.rob.queue.map (fun e => (e.elem.c_ready, e.elem.except)) = [(1, 2)] ∧
    ex_core_refetch.state.cycle = 2 ∧ ex_core_refetch.rrt.A .gp 5 = 1 ∧
    (commit_slot ex_quiet ex_core_refetch).state?.map (fun c' =>
      [c'.state.active, c'.state.exception, c'.rrt.A .gp 5, c'.rob.size])
      = some [fe_active ||| core_active, 0, 0, 0] := by
  decide

/-- C13, amended: when no refetch is pending at the oldest in-flight instruction pointer
and the ready ROB head carries a non-zero exception word, a commit slot removes the head,
sets `state.active` to 0, stores the exception word in `state.exception`, and ends the
stage with no ARF writeback and no change to the rename tables, free lists, physical
registers, load queue, `in_flight` or `seq_addrs`. -/
theorem commit_head_exception (env : CommitEnv) (c : Core) (cur_re : ROBEntry)
    (rob : LatchQueue ROBEntry)
    (href : c.state.refetch_active = 0 ∨
      ∃ ip rest, c.state.in_flight = ip :: rest ∧ c.state.refetch_at ≠ ip)
    (hget : c.rob.get_front c.state.cycle = .ok (cur_re, rob))
    (hready : cur_re.c_ready ≠ 0 ∧ cur_re.c_ready ≤ c.state.cycle)
    (hex : cur_re.except ≠ 0) :
    ∃ c', commit_slot env c = .stop c' ∧
      c'.state.active = 0 ∧ c'.state.exception = cur_re.except ∧
      c'.state.arf = c.state.arf ∧ c'.rrt = c.rrt ∧ c'.prf = c.prf ∧ c'.ldq = c.ldq ∧
      c'.state.in_flight = c.state.in_flight ∧ c'.state.seq_addrs = c.state.seq_addrs ∧
      c'.rob = rob ∧ c'.state.commited_micro = c.state.commited_micro + 1 := by
  refine ⟨{ c with rob := rob, state := { c.state with
      active := 0
      commited_micro := c.state.commited_micro + 1
      exception := cur_re.except } }, ?_, rfl, rfl, rfl, rfl, rfl, rfl, rfl, rfl, rfl, rfl⟩
  unfold commit_slot
  have h1 : ¬ (c.state.refetch_active ≠ 0 ∧ c.state.in_flight = []) := by
    rintro ⟨ha, hb⟩
    rcases href with h0 | ⟨ip, rest, hin, _⟩
    · exact ha h0
    · rw [hin] at hb; exact absurd hb (List.cons_ne_nil _ _)
  have h2 : ¬ (c.state.refetch_active ≠ 0 ∧
      c.state.refetch_at = c.state.in_flight.headD 0) := by
    rintro ⟨ha, hb⟩
    rcases href with h0 | ⟨ip, rest, hin, hne⟩
    · exact ha h0
    · rw [hin] at hb; exact hne hb
  rw [if_neg h1, if_neg h2, hget]
  dsimp only
  rw [if_neg (not_not.mpr hready), if_pos hex]

set_option maxRecDepth 100000 in
/-- C13, amended, at a concrete input: `set r5 <- 42` renamed to p1 and executed with an
exception word is the ready ROB head; no refetch is pending. -/
theorem commit_head_exception_witness :
    ∃ c', commit_slot ex_quiet (ex_state ex_trace_fault) = .stop c' ∧
      c'.state.active = 0 ∧ c'.state.exception = setExcept ex_GP 0 ∧
      c'.state.arf = (ex_state ex_trace_fault).state.arf ∧
      c'.rrt = (ex_state ex_trace_fault).rrt ∧ c'.prf = (ex_state ex_trace_fault).prf ∧
      c'.ldq = (ex_state ex_trace_fault).ldq ∧
      c'.state.in_flight = (ex_state ex_trace_fault).state.in_flight ∧
      c'.state.seq_addrs = (ex_state ex_trace_fault).state.seq_addrs ∧
      c'.rob = ⟨ROB_SIZE + ALLOC_WIDTH, []⟩ ∧
      c'.state.commited_micro = (ex_state ex_trace_fault).state.commited_micro + 1 :=
  commit_head_exception ex_quiet (ex_state ex_trace_fault)
    ⟨zero_mref, ⟨uop_set, use_imm, 0, 0, 0, 1, 42⟩, 1, setExcept ex_GP 0, exec_running, 0, 0⟩
    ⟨ROB_SIZE + ALLOC_WIDTH, []⟩ (Or.inl (by decide)) (by rfl) (by decide) (by decide)

/-! ## Issue -/

theorem issue_scan_fuel (c : Core) (fuel i : Nat) (s : IssueScan)
    (h : ISSUE_DEPTH + 2 ≤ fuel + i) :
    issue_scan c (fuel + 1) i s = issue_scan c fuel i s := by
  induction fuel generalizing i s with
  | zero =>
    have hi : ¬ (i ≤ c.rob.size ∧ i ≤ ISSUE_DEPTH) := by
      intro hh
      have := hh.2
      omega
    simp only [issue_scan, if_neg hi]
  | succ n ih =>
    rw [issue_scan]
    conv => rhs; rw [issue_scan]
    by_cases hc : i ≤ c.rob.size ∧ i ≤ ISSUE_DEPTH
    · simp only [if_pos hc]
      have hn : ISSUE_DEPTH + 2 ≤ n + (i + 1) := by omega
      split
      · rfl
      · split
        · split
          · rfl
          · split
            · rfl
            · exact ih (i + 1) _ hn
            · rfl
        · exact ih (i + 1) _ hn
    · simp only [if_neg hc]

/-- The scan loop of an issue slot does not depend on its round bound: more rounds than
`ISSUE_DEPTH + 2` give the same result. -/
theorem issue_scan_total (c : Core) (k i : Nat) (s : IssueScan) :
    issue_scan c (ISSUE_DEPTH + 2 + k) i s = issue_scan c (ISSUE_DEPTH + 2) i s := by
  induction k with
  | zero => rfl
  | succ n ih =>
    rw [← ih]
    exact issue_scan_fuel c (ISSUE_DEPTH + 2 + n) i s (by omega)

set_option maxRecDepth 100000 in
/-- C14, the code at the failing input: the ROB holds `set r5 <- 42` (entry 0),
`add r7 <- r5, r9` (entry 1, waiting for entry 0) and `ld.f f1` (entry 2: port mask
`port_ctrl` = ports 0 and 3, FU type `fu_ldf`, which no port offers). Slot 0 issues entry
0 on port 0. In slot 1 `find_fu` picks the ALU of port 1 for entry 1, whose dependence
check fails; the scan moves on to entry 2, for which `find_fu` finds nothing and leaves
`issue_port` / `issue_fu` as they are. Entry 2 is marked running and bound to the ALU
(type 2) of port 1. -/
theorem issue_binds_stale_unit :
    (uopmap_at ex_ldf.opcode).map (fun info =>
      [info.ports, info.fu_type, info.ports &&& (1 <<< 1)]) = some [port_ctrl, fu_ldf, 0] ∧
    (ex_state ex_trace_stale).rob.queue.map (fun e => [e.elem.op.opcode, e.elem.in_exec])
      = [[uop_set, 0], [uop_add, 0], [0x2020, 0]] ∧
    (issue (ex_state ex_trace_stale)).map (fun c =>
      (c.rob.queue.map (fun e => e.elem.in_exec),
        c.rs.map (fun p => p.fus.filterMap (fun f => f.re.map (fun i => [p.id, i, f.type])))))
      = some ([1, 0, 1], [[[0, 0, fu_alu]], [[1, 2, fu_alu]], [], [], [], [], [], []]) := by
  decide

set_option maxRecDepth 1000000 in
/-- C15, the code at the failing input: the ROB holds `sub r0 <- r5, r6` (entry 0, general
purpose class, sets condition register 1) and `set.f f1 <- 7` (entry 1, floating-point
class, `use_cond` with `cc_use` = 1). Slot 0 issues entry 0, which stays at `c_ready` = 0.
In slot 1 `unavail_dependences` skips entry 0 because its register class differs, the
condition test included, and entry 1 is marked running on port 3.
A second input breaks the source-register half: with `set r5 <- 42` (entry 0, destination
p1) followed by 97 uops `add r7 <- r5, r9` that read p1, the scan of slot 1 rejects
entries 1..97, leaves the loop with `i` = `ISSUE_DEPTH + 1`, passes the test
`i == ISSUE_DEPTH`, and marks entry 97 running while entry 0 is at `c_ready` = 0. -/
theorem issue_skips_condition_across_classes :
    ((ex_state ex_trace_deep).rob.queue.take 1).map (fun e => [e.elem.op.rd, e.elem.c_ready])
      = [[1, 0]] ∧
    (issue (ex_state ex_trace_deep)).map (fun c =>
      (c.rob.queue.enum.filter (fun e => e.2.elem.in_exec = exec_running)).map (fun e =>
        [e.1, e.2.elem.op.ra, e.2.elem.op.control &&& use_ra, e.2.elem.c_ready]))
      = some [[0, 0, 0, 0], [97, 1, use_ra, 0]] ∧
    (ex_state ex_trace_cond).rob.queue.map (fun e =>
      [e.elem.op.opcode, e.elem.op.control &&& use_cond, e.elem.cc_use, e.elem.cc_set,
        e.elem.c_ready, e.elem.in_exec])
      = [[0x1012, 0, 0, 1, 0, 0], [0x2050, use_cond, 1, 0, 0, 0]] ∧
    (issue (ex_state ex_trace_cond)).map (fun c =>
      (c.rob.queue.map (fun e => [e.elem.c_ready, e.elem.cc_set, e.elem.in_exec]),
        c.rs.map (fun p => p.fus.filterMap (fun f => f.re.map (fun i => [p.id, i, f.type])))))
      = some ([[0, 1, 1], [0, 0, 1]],
          [[[0, 0, fu_alu]], [], [], [[3, 1, fu_ctrl]], [], [], [], []]) := by
  decide

/-! ## Commit: in-order retirement -/

theorem flush_keeps_count (c c' : Core) (h : flush c = .ok c') :
    c'.state.commited_micro = c.state.commited_micro ∧ c'.state.cycle = c.state.cycle := by
  unfold flush at h
  cases hf : flush_free c.rob c.rrt with
  | error e =>
    rw [hf] at h
    simp [bind, Except.bind] at h
  | ok t1 =>
    rw [hf] at h
    simp only [bind, Except.bind, pure, Except.pure, Except.ok.injEq] at h
    subst h
    exact ⟨rfl, rfl⟩

theorem ops_map_enum (l : List (LatchQElem ROBEntry))
    (f : Nat × LatchQElem ROBEntry → LatchQElem ROBEntry)
    (hf : ∀ ie, (f ie).elem.op = ie.2.elem.op) :
    (l.enum.map f).map (fun e => e.elem.op) = l.map (fun e => e.elem.op) := by
  have h : ∀ l' : List (Nat × LatchQElem ROBEntry),
      (l'.map f).map (fun e => e.elem.op) = (l'.map Prod.snd).map (fun e => e.elem.op) := by
    intro l'
    induction l' with
    | nil => rfl
    | cons x rest ih => simp only [List.map_cons, ih, hf]
  rw [h, List.enum_map_snd]

theorem commit_on_empty_count (c c' : Core) (h : (commit_on_empty c).state? = some c') :
    c'.state.commited_micro = c.state.commited_micro := by
  unfold commit_on_empty at h
  split at h
  · simp [Outcome.state?] at h
  · dsimp only at h
    simp only [Outcome.state?, Option.some.injEq] at h
    subst h
    split_ifs <;> rfl

theorem flush_inject_count (c c' : Core) (cycle : Nat) (e : ROBEntry)
    (h : (flush_inject c cycle e).state? = some c') :
    c'.state.commited_micro = c.state.commited_micro := by
  unfold flush_inject at h
  split at h
  · simp [Outcome.state?] at h
  · rename_i c1 hfl
    split at h
    · simp [Outcome.state?] at h
    · simp only [Outcome.state?, Option.some.injEq] at h
      subst h
      exact (flush_keeps_count c c1 hfl).1

theorem commit_branch_count (c c' : Core) (re : ROBEntry)
    (h : (commit_branch c re).state? = some c') :
    c'.state.commited_micro = c.state.commited_micro ∧
    (c'.rob.queue = c.rob.queue ∨ c'.rob.queue = []) := by
  have hflush : ∀ c1, flush c = .ok c1 →
      c1.state.commited_micro = c.state.commited_micro ∧ c1.rob.queue = [] :=
    fun c1 hfl => ⟨(flush_keeps_count c c1 hfl).1, (flush_spec c c1 hfl).choose_spec.2.2.1⟩
  unfold commit_branch at h
  by_cases hb : is_branch re.op = true
  · rw [if_pos hb] at h
    by_cases h1 : re.mref.mode ≠ mr_branch
    · rw [if_pos h1] at h; simp [Outcome.state?] at h
    · rw [if_neg h1] at h
      by_cases h2 : re.mref.size = UINT64_MAX ∧ c.state.seq_addrs = []
      · rw [if_pos h2] at h; simp [Outcome.state?] at h
      · rw [if_neg h2] at h
        dsimp only at h
        split at h
        · split_ifs at h <;> simp [Outcome.state?] at h
        · by_cases h3 : re.mref.size = UINT64_MAX
          · simp only [if_pos h3] at h
            split_ifs at h
            · split at h
              · simp [Outcome.state?] at h
              · rename_i c1 hfl
                simp only [Outcome.state?, Option.some.injEq] at h
                subst h
                exact ⟨(hflush c1 hfl).1, Or.inr (hflush c1 hfl).2⟩
            · simp only [Outcome.state?, Option.some.injEq] at h
              subst h
              exact ⟨rfl, Or.inl rfl⟩
          · simp only [if_neg h3] at h
            split_ifs at h
            · split at h
              · simp [Outcome.state?] at h
              · rename_i c1 hfl
                simp only [Outcome.state?, Option.some.injEq] at h
                subst h
                exact ⟨(hflush c1 hfl).1, Or.inr (hflush c1 hfl).2⟩
            · simp only [Outcome.state?, Option.some.injEq] at h
              subst h
              exact ⟨rfl, Or.inl rfl⟩
  · rw [if_neg hb] at h
    simp only [Outcome.state?, Option.some.injEq] at h
    subst h
    exact ⟨rfl, Or.inl rfl⟩

theorem commit_mop_count (c c' : Core) (op : uop) (h : (commit_mop c op).state? = some c') :
    c'.state.commited_micro = c.state.commited_micro ∧ c'.rob.queue = c.rob.queue := by
  unfold commit_mop at h
  by_cases hb : op.control &&& mop_last ≠ 0
  · rw [if_pos hb] at h
    split at h
    · simp [Outcome.state?] at h
    · simp [Outcome.state?] at h
    · dsimp only at h
      simp only [Outcome.state?, Option.some.injEq] at h
      subst h
      exact ⟨rfl, rfl⟩
  · rw [if_neg hb] at h
    simp only [Outcome.state?, Option.some.injEq] at h
    subst h
    exact ⟨rfl, rfl⟩

theorem commit_tail_count (c c' : Core) (re : ROBEntry)
    (h : (commit_tail c re).state? = some c') :
    (c'.state.commited_micro = c.state.commited_micro ∨
      c'.state.commited_micro = c.state.commited_micro + 1) ∧
    (c'.rob.queue = c.rob.queue ∨ c'.rob.queue = []) := by
  unfold commit_tail at h
  cases hb : commit_branch c re with
  | next c1 =>
    rw [hb] at h
    dsimp only at h
    have hc1 := commit_branch_count c c1 re (by rw [hb]; rfl)
    cases hm : commit_mop c1 re.op with
    | next c2 =>
      rw [hm] at h
      dsimp only at h
      have hc2 := commit_mop_count c1 c2 re.op (by rw [hm]; rfl)
      simp only [Outcome.state?, Option.some.injEq] at h
      subst h
      refine ⟨Or.inr ?_, ?_⟩
      · show c2.state.commited_micro + 1 = _
        rw [hc2.1, hc1.1]
      · show c2.rob.queue = _ ∨ c2.rob.queue = _
        rw [hc2.2]
        exact hc1.2
    | stop s =>
      rw [hm] at h
      have hc2 := commit_mop_count c1 c' re.op (by rw [hm]; exact h)
      refine ⟨Or.inl (by rw [hc2.1, hc1.1]), ?_⟩
      rw [hc2.2]
      exact hc1.2
    | raise => rw [hm] at h; simp [Outcome.state?] at h
    | undefined => rw [hm] at h; simp [Outcome.state?] at h
  | stop s =>
    rw [hb] at h
    have hc1 := commit_branch_count c c' re (by rw [hb]; exact h)
    exact ⟨Or.inl hc1.1, hc1.2⟩
  | raise => rw [hb] at h; simp [Outcome.state?] at h
  | undefined => rw [hb] at h; simp [Outcome.state?] at h

theorem commit_store_count (env : CommitEnv) (c c' : Core) (re : ROBEntry)
    (h : (commit_store env c re).state? = some c') :
    c'.state.commited_micro = c.state.commited_micro ∨
    (c'.state.commited_micro = c.state.commited_micro + 1 ∧
      (c'.rob.queue.map (fun e => e.elem.op) = c.rob.queue.map (fun e => e.elem.op) ∨
        c'.rob.queue = [])) := by
  have tail : ∀ d : Core, (commit_tail d re).state? = some c' →
      d.state.commited_micro = c.state.commited_micro →
      d.rob.queue.map (fun e => e.elem.op) = c.rob.queue.map (fun e => e.elem.op) →
      c'.state.commited_micro = c.state.commited_micro ∨
      (c'.state.commited_micro = c.state.commited_micro + 1 ∧
        (c'.rob.queue.map (fun e => e.elem.op) = c.rob.queue.map (fun e => e.elem.op) ∨
          c'.rob.queue = [])) := by
    intro d ht hd hops
    obtain ⟨h1, h2⟩ := commit_tail_count d c' re ht
    rcases h1 with h1 | h1
    · exact Or.inl (by rw [h1, hd])
    · refine Or.inr ⟨by rw [h1, hd], ?_⟩
      rcases h2 with h2 | h2
      · exact Or.inl (by rw [h2, hops])
      · exact Or.inr h2
  unfold commit_store at h
  by_cases hs : is_store re.op = true
  · rw [if_pos hs] at h
    dsimp only at h
    have hops : (c.rob.queue.enum.map (fun ie =>
        if ie.1 ∈ env.st_hits
        then { ie.2 with elem := { ie.2.elem with mref := { ie.2.elem.mref with mode := mr_invalid } } }
        else ie.2)).map (fun e => e.elem.op) = c.rob.queue.map (fun e => e.elem.op) :=
      ops_map_enum _ _ (by intro ie; dsimp only; split_ifs <;> rfl)
    by_cases h1 : env.st_throws = true
    · rw [if_pos h1] at h
      have hcnt := flush_inject_count _ c' _ _ h
      exact Or.inl hcnt
    · rw [if_neg h1] at h
      by_cases h2 : env.st_except ≠ 0
      · rw [if_pos h2] at h
        have hcnt := flush_inject_count _ c' _ _ h
        exact Or.inl hcnt
      · rw [if_neg h2] at h
        split_ifs at h
        · simp [Outcome.state?] at h
        · split at h
          · exact tail _ h rfl hops
          · exact tail _ h rfl hops
  · rw [if_neg hs] at h
    exact tail c h rfl rfl

theorem commit_load_count (env : CommitEnv) (c c' : Core) (re : ROBEntry)
    (h : (commit_load env c re).state? = some c') :
    c'.state.commited_micro = c.state.commited_micro ∨
    (c'.state.commited_micro = c.state.commited_micro + 1 ∧
      (c'.rob.queue.map (fun e => e.elem.op) = c.rob.queue.map (fun e => e.elem.op) ∨
        c'.rob.queue = [])) := by
  unfold commit_load at h
  by_cases hl : is_load re.op = true
  · rw [if_pos hl] at h
    split at h
    · exact Or.inl (commit_on_empty_count c c' h)
    · simp only [Outcome.state?, Option.some.injEq] at h
      subst h
      exact Or.inl rfl
    · by_cases h1 : env.ld_invalid = true
      · rw [if_pos h1] at h
        split at h
        · simp [Outcome.state?] at h
        · rename_i c1 hfl
          simp only [Outcome.state?, Option.some.injEq] at h
          subst h
          exact Or.inl (flush_keeps_count c c1 hfl).1
      · rw [if_neg h1] at h
        split at h
        · exact Or.inl (commit_on_empty_count c c' h)
        · have hcnt := commit_store_count env _ c' re h
          exact hcnt
  · rw [if_neg hl] at h
    exact commit_store_count env c c' re h

/-- A commit slot either leaves the commit counter alone, or counts one uop, and then the
ROB head was visible and ready and is the entry that left the ROB. -/
theorem commit_slot_count (env : CommitEnv) (c c' : Core)
    (h : (commit_slot env c).state? = some c') :
    c'.state.commited_micro = c.state.commited_micro ∨
    (c'.state.commited_micro = c.state.commited_micro + 1 ∧
      ∃ hd tl, c.rob.queue = hd :: tl ∧ hd.cycle ≤ c.state.cycle ∧
        hd.elem.c_ready ≠ 0 ∧ hd.elem.c_ready ≤ c.state.cycle ∧
        (c'.rob.queue.map (fun e => e.elem.op) = tl.map (fun e => e.elem.op) ∨
          c'.rob.queue = [])) := by
  unfold commit_slot at h
  by_cases h1 : c.state.refetch_active ≠ 0 ∧ c.state.in_flight = []
  · rw [if_pos h1] at h; simp [Outcome.state?] at h
  rw [if_neg h1] at h
  by_cases h2 : c.state.refetch_active ≠ 0 ∧ c.state.refetch_at = c.state.in_flight.headD 0
  · rw [if_pos h2] at h
    split at h
    · simp [Outcome.state?] at h
    · rename_i c1 hfl
      simp only [Outcome.state?, Option.some.injEq] at h
      subst h
      exact Or.inl (flush_keeps_count c c1 hfl).1
  rw [if_neg h2] at h
  split at h
  · exact Or.inl (commit_on_empty_count c c' h)
  · simp only [Outcome.state?, Option.some.injEq] at h
    subst h
    exact Or.inl rfl
  · rename_i cur_re rob hget
    obtain ⟨hd, hq, hel, hcy⟩ := get_front_ok _ _ _ _ hget
    by_cases h3 : ¬ (cur_re.c_ready ≠ 0 ∧ cur_re.c_ready ≤ c.state.cycle)
    · rw [if_pos h3] at h
      simp only [Outcome.state?, Option.some.injEq] at h
      subst h
      exact Or.inl rfl
    rw [if_neg h3] at h
    have hready := not_not.mp h3
    rw [← hel] at hready
    dsimp only at h
    by_cases h4 : cur_re.except ≠ 0
    · rw [if_pos h4] at h
      simp only [Outcome.state?, Option.some.injEq] at h
      subst h
      exact Or.inr ⟨rfl, hd, rob.queue, hq, hcy, hready.1, hready.2, Or.inl rfl⟩
    rw [if_neg h4] at h
    by_cases h5 : cur_re.cc_set ≠ 0 ∧
        (commit_rename c.rrt (getOpClass cur_re.op) cur_re.op).cc_lastused = []
    · rw [if_pos h5] at h; simp [Outcome.state?] at h
    rw [if_neg h5] at h
    by_cases h6 : cur_re.cc_set ≠ 0 ∧
        cur_re.cc_set ≠ (commit_rename c.rrt (getOpClass cur_re.op) cur_re.op).cc_lastused.headD 0 ∧
        (commit_rename c.rrt (getOpClass cur_re.op) cur_re.op).cc_lastused.tail = []
    · rw [if_pos h6] at h; simp [Outcome.state?] at h
    rw [if_neg h6] at h
    rcases commit_load_count env _ c' cur_re h with hc | ⟨hc, hrob⟩
    · exact Or.inl hc
    · exact Or.inr ⟨hc, hd, rob.queue, hq, hcy, hready.1, hready.2, hrob⟩

theorem commit_slots_count (env : Nat → CommitEnv) (n slot : Nat) (c c' : Core)
    (h : commit_slots env n slot c = some c') :
    c'.state.commited_micro ≤ c.state.commited_micro + n := by
  induction n generalizing slot c with
  | zero =>
    simp only [commit_slots, Option.some.injEq] at h
    subst h
    exact Nat.le_refl _
  | succ k ih =>
    rw [commit_slots] at h
    have one : ∀ c1, (commit_slot (env slot) c).state? = some c1 →
        c1.state.commited_micro ≤ c.state.commited_micro + 1 := by
      intro c1 h1
      rcases commit_slot_count (env slot) c c1 h1 with hc | ⟨hc, _⟩ <;> omega
    split at h
    · rename_i c1 hs
      have h1 := one c1 (by rw [hs]; rfl)
      have h2 := ih (slot + 1) c1 h
      omega
    · rename_i c1 hs
      simp only [Option.some.injEq] at h
      subst h
      have h1 := one _ (by rw [hs]; rfl)
      omega
    · simp at h
    · simp at h

theorem commit_count (env : Nat → CommitEnv) (c c' : Core) (h : commit env c = some c') :
    c'.state.commited_micro ≤ c.state.commited_micro + COMMIT_WIDTH := by
  unfold commit at h
  dsimp only at h
  have hc1 : (if c.next_inactive &&& co_active ≠ 0
      then { c with state := { c.state with active := clear16 c.state.active co_active } }
      else c).state.commited_micro = c.state.commited_micro := by
    split_ifs <;> rfl
  generalize (if c.next_inactive &&& co_active ≠ 0
      then { c with state := { c.state with active := clear16 c.state.active co_active } }
      else c) = c1 at h hc1
  split_ifs at h
  · simp only [Option.some.injEq] at h
    subst h
    omega
  · cases hl : commit_slots env COMMIT_WIDTH 0 c1 with
    | none => rw [hl] at h; simp at h
    | some c2 =>
      rw [hl] at h
      simp only [Option.map_some', Option.some.injEq] at h
      have h2 := commit_slots_count env COMMIT_WIDTH 0 c1 c2 hl
      subst h
      split_ifs
      · show c2.state.commited_micro ≤ _
        omega
      · omega

/-- A commit slot that finds no pending refetch and no visible ready head removes nothing
from the ROB and touches neither the rename tables nor the register files. -/
theorem commit_slot_idle (env : CommitEnv) (c c' : Core)
    (h : (commit_slot env c).state? = some c')
    (href : c.state.refetch_active = 0)
    (hidle : ∀ hd tl, c.rob.queue = hd :: tl →
      ¬ (hd.cycle ≤ c.state.cycle ∧ hd.elem.c_ready ≠ 0 ∧ hd.elem.c_ready ≤ c.state.cycle)) :
    c'.rob = c.rob ∧ c'.rrt = c.rrt ∧ c'.prf = c.prf ∧
    (∀ cls i, c'.state.arf.get cls i = c.state.arf.get cls i) ∧
    c'.state.commited_micro = c.state.commited_micro := by
  unfold commit_slot at h
  have h1 : ¬ (c.state.refetch_active ≠ 0 ∧ c.state.in_flight = []) := fun hh => hh.1 href
  have h2 : ¬ (c.state.refetch_active ≠ 0 ∧
      c.state.refetch_at = c.state.in_flight.headD 0) := fun hh => hh.1 href
  rw [if_neg h1, if_neg h2] at h
  split at h
  · unfold commit_on_empty at h
    split at h
    · simp [Outcome.state?] at h
    · dsimp only at h
      simp only [Outcome.state?, Option.some.injEq] at h
      subst h
      split_ifs <;> exact ⟨rfl, rfl, rfl, fun cls i => by cases cls <;> rfl, rfl⟩
  · simp only [Outcome.state?, Option.some.injEq] at h
    subst h
    exact ⟨rfl, rfl, rfl, fun _ _ => rfl, rfl⟩
  · rename_i cur_re rob hget
    obtain ⟨hd, hq, hel, hcy⟩ := get_front_ok _ _ _ _ hget
    have h3 : ¬ (cur_re.c_ready ≠ 0 ∧ cur_re.c_ready ≤ c.state.cycle) := by
      intro hr
      rw [← hel] at hr
      exact hidle hd rob.queue hq ⟨hcy, hr.1, hr.2⟩
    rw [if_pos h3] at h
    simp only [Outcome.state?, Option.some.injEq] at h
    subst h
    exact ⟨rfl, rfl, rfl, fun _ _ => rfl, rfl⟩

theorem option_getD_eq {α : Type} (o : Option α) (d : α) (h : o.isSome = true) :
    o = some (o.getD d) := by
  cases o with
  | none => simp at h
  | some x => rfl

/-- C12: a commit slot counts a uop as committed only if the ROB head is visible and its
`c_ready` is non-zero and at most the current cycle; the entry that leaves the ROB is that
head and the entries behind it keep their order (or the slot ends in a flush that empties
the ROB); a slot without a pending refetch and without such a head leaves the ROB, the
rename tables and the register files as they are; and one call of `Core::commit` counts
at most `COMMIT_WIDTH` uops. -/
theorem commit_retires_ready_head (env : CommitEnv) (c c' : Core)
    (h : (commit_slot env c).state? = some c') :
    (c.state.refetch_active = 0 →
      (∀ hd tl, c.rob.queue = hd :: tl →
        ¬ (hd.cycle ≤ c.state.cycle ∧ hd.elem.c_ready ≠ 0 ∧ hd.elem.c_ready ≤ c.state.cycle)) →
      c'.rob = c.rob ∧ c'.rrt = c.rrt ∧ c'.prf = c.prf ∧
      (∀ cls i, c'.state.arf.get cls i = c.state.arf.get cls i) ∧
      c'.state.commited_micro = c.state.commited_micro) ∧
    (c'.state.commited_micro = c.state.commited_micro ∨
      (c'.state.commited_micro = c.state.commited_micro + 1 ∧
        ∃ hd tl, c.rob.queue = hd :: tl ∧ hd.cycle ≤ c.state.cycle ∧
          hd.elem.c_ready ≠ 0 ∧ hd.elem.c_ready ≤ c.state.cycle ∧
          (c'.rob.queue.map (fun e => e.elem.op) = tl.map (fun e => e.elem.op) ∨
            c'.rob.queue = []))) ∧
    ∀ (envs : Nat → CommitEnv) (c2 : Core), commit envs c = some c2 →
      c2.state.commited_micro ≤ c.state.commited_micro + COMMIT_WIDTH :=
  ⟨commit_slot_idle env c c' h, commit_slot_count env c c' h,
    fun envs c2 h2 => commit_count envs c c2 h2⟩

set_option maxRecDepth 100000 in
/-- C12, at a concrete input: `set r5 <- 42`, renamed and executed, is the ready ROB head;
the slot counts it and the ROB is left empty. -/
theorem commit_retires_ready_head_witness :
    (commit_slot ex_quiet (ex_state ex_trace_ready)).state? = some ex_after_commit ∧
    ex_after_commit.state.commited_micro = (ex_state ex_trace_ready).state.commited_micro + 1 ∧
    (((ex_state ex_trace_ready).state.refetch_active = 0 →
      (∀ hd tl, (ex_state ex_trace_ready).rob.queue = hd :: tl →
        ¬ (hd.cycle ≤ (ex_state ex_trace_ready).state.cycle ∧ hd.elem.c_ready ≠ 0 ∧
          hd.elem.c_ready ≤ (ex_state ex_trace_ready).state.cycle)) →
      ex_after_commit.rob = (ex_state ex_trace_ready).rob ∧
      ex_after_commit.rrt = (ex_state ex_trace_ready).rrt ∧
      ex_after_commit.prf = (ex_state ex_trace_ready).prf ∧
      (∀ cls i, ex_after_commit.state.arf.get cls i
        = (ex_state ex_trace_ready).state.arf.get cls i) ∧
      ex_after_commit.state.commited_micro
        = (ex_state ex_trace_ready).state.commited_micro) ∧
    (ex_after_commit.state.commited_micro = (ex_state ex_trace_ready).state.commited_micro ∨
      (ex_after_commit.state.commited_micro
          = (ex_state ex_trace_ready).state.commited_micro + 1 ∧
        ∃ hd tl, (ex_state ex_trace_ready).rob.queue = hd :: tl ∧
          hd.cycle ≤ (ex_state ex_trace_ready).state.cycle ∧
          hd.elem.c_ready ≠ 0 ∧ hd.elem.c_ready ≤ (ex_state ex_trace_ready).state.cycle ∧
          (ex_after_commit.rob.queue.map (fun e => e.elem.op) = tl.map (fun e => e.elem.op) ∨
            ex_after_commit.rob.queue = []))) ∧
    ∀ (envs : Nat → CommitEnv) (c2 : Core), commit envs (ex_state ex_trace_ready) = some c2 →
      c2.state.commited_micro ≤ (ex_state ex_trace_ready).state.commited_micro + COMMIT_WIDTH) :=
  have h := option_getD_eq (commit_slot ex_quiet (ex_state ex_trace_ready)).state?
    (Core.init risc) (by decide)
  ⟨h, by decide, commit_retires_ready_head ex_quiet (ex_state ex_trace_ready) ex_after_commit h⟩

/-! ## Memory manager -/

theorem pageOffs_eq (x : Nat) : pageOffs x = x % PAGE_SIZE :=
  Nat.and_pow_two_sub_one_eq_mod x 12

theorem pageFloor_eq (x : Nat) (h : x < 2 ^ 64) : pageFloor x = x / PAGE_SIZE * PAGE_SIZE := by
  unfold pageFloor PAGE_MASK PAGE_SIZE
  apply Nat.eq_of_testBit_eq
  intro i
  have hm : (2 ^ 64 - 4096 : Nat) = (2 ^ 52 - 1) <<< 12 := by decide
  have hd : x / 4096 * 4096 = (x >>> 12) <<< 12 := by
    rw [Nat.shiftRight_eq_div_pow, Nat.shiftLeft_eq]
  rw [Nat.testBit_and, hm, hd, Nat.testBit_shiftLeft, Nat.testBit_shiftLeft,
    Nat.testBit_two_pow_sub_one, Nat.testBit_shiftRight]
  by_cases hi : 12 ≤ i
  · have e : 12 + (i - 12) = i := by omega
    simp only [hi, decide_True, Bool.true_and, e, ge_iff_le]
    by_cases h64 : i < 64
    · have : i - 12 < 52 := by omega
      simp [this]
    · have hx : x.testBit i = false :=
        Nat.testBit_lt_two_pow (Nat.lt_of_lt_of_le h (Nat.pow_le_pow_right (by decide) (by omega)))
      simp [hx]
  · simp [hi]

theorem pageFloor_sub (x : Nat) (h : x < 2 ^ 64) : pageFloor x = x - x % PAGE_SIZE := by
  rw [pageFloor_eq x h]
  have := Nat.div_add_mod x PAGE_SIZE
  have h2 : x / PAGE_SIZE * PAGE_SIZE = PAGE_SIZE * (x / PAGE_SIZE) := Nat.mul_comm _ _
  omega

theorem resolve_one (m : MemoryManager) (x a : Nat) (pte : PageTableEntry) (f : PageFrame)
    (h1 : m.pagetable (pageFloor a) = some pte) (h2 : pte.frameno % PAGE_SIZE = 0)
    (h3 : pte.frameno ≤ PADDR_LIMIT) (h4 : m.mem pte.frameno = some f)
    (h5 : f.bytes_used = PAGE_SIZE) (h6 : x &&& pte.rwx ≠ 0) (h7 : m.ring ≤ pte.pl)
    (h8 : x &&& f.rwx ≠ 0) (h9 : m.ring ≤ f.pl) :
    get_eaddr m a x = .ok (pte.frameno, a % PAGE_SIZE) ∧ frame_at m a x = .ok f := by
  have hp : get_paddr m a x = .ok (pte.frameno + a % PAGE_SIZE) := by
    unfold get_paddr
    rw [h1]
    dsimp only
    rw [if_neg (not_not.mpr h6 |> fun h => by simpa using h6), if_neg (not_lt.mpr h7)]
    unfold add64
    rw [pageOffs_eq, Nat.mod_eq_of_lt]
    have : a % PAGE_SIZE < PAGE_SIZE := Nat.mod_lt _ (by decide)
    simp only [PADDR_LIMIT, PAGE_SIZE] at *
    omega
  have hfl : pageFloor (pte.frameno + a % PAGE_SIZE) = pte.frameno := by
    have hlt : a % PAGE_SIZE < PAGE_SIZE := Nat.mod_lt _ (by decide)
    rw [pageFloor_eq]
    · simp only [PADDR_LIMIT, PAGE_SIZE] at *
      omega
    · simp only [PADDR_LIMIT, PAGE_SIZE] at *
      omega
  refine ⟨?_, ?_⟩
  · unfold get_eaddr
    rw [h1]
    dsimp only
    rw [hp]
    dsimp only
    rw [hfl, h4]
    dsimp only
    have hs : sub64 f.bytes_used 1 = PAGE_SIZE - 1 := by rw [h5]; decide
    have hlt : a % PAGE_SIZE < PAGE_SIZE := Nat.mod_lt _ (by decide)
    rw [if_neg, if_neg (by simpa using h8), if_neg (not_lt.mpr h9), pageOffs_eq]
    rw [hs, pageOffs_eq]
    simp only [PAGE_SIZE] at *
    omega
  · unfold frame_at
    rw [hp]
    dsimp only
    rw [hfl, h4]

theorem resolve (m : MemoryManager) (rx wx a : Nat) (ha : a < 2 ^ 64)
    (h : PageRW m rx wx (a / PAGE_SIZE * PAGE_SIZE)) :
    ∃ k f, frameOf m (a / PAGE_SIZE * PAGE_SIZE) = some k ∧ m.mem k = some f ∧
      f.bytes_used = PAGE_SIZE ∧
      get_eaddr m a rx = .ok (k, a % PAGE_SIZE) ∧ get_eaddr m a wx = .ok (k, a % PAGE_SIZE) ∧
      frame_at m a rx = .ok f ∧ frame_at m a wx = .ok f := by
  rw [← pageFloor_eq a ha] at h ⊢
  obtain ⟨_, pte, f, h1, h2, h3, h4, h5, h6, h7, h8, h9, h10, h11⟩ := h
  have r := resolve_one m rx a pte f h1 h2 h3 h4 h5 h6 h8 h9 h11
  have w := resolve_one m wx a pte f h1 h2 h3 h4 h5 h7 h8 h10 h11
  refine ⟨pte.frameno, f, ?_, h4, h5, r.1, w.1, r.2, w.2⟩
  unfold frameOf
  rw [h1]
  rfl

theorem SameMeta.self_meta (m : MemoryManager) : SameMeta m m := ⟨rfl, rfl, fun _ => rfl⟩

theorem SameMeta.chain (m m1 m2 : MemoryManager) (h1 : SameMeta m m1) (h2 : SameMeta m1 m2) :
    SameMeta m m2 :=
  ⟨h2.1.trans h1.1, h2.2.1.trans h1.2.1, fun k => (h2.2.2 k).trans (h1.2.2 k)⟩

theorem SameMeta.frameOf_eq (m m' : MemoryManager) (h : SameMeta m m') (p : Nat) :
    frameOf m' p = frameOf m p := by
  unfold frameOf
  rw [h.1]

theorem SameMeta.pageRW (m m' : MemoryManager) (h : SameMeta m m') (rx wx p : Nat)
    (hp : PageRW m rx wx p) : PageRW m' rx wx p := by
  obtain ⟨h0, pte, f, h1, h2, h3, h4, h5, h6, h7, h8, h9, h10, h11⟩ := hp
  have hk := h.2.2 pte.frameno
  rw [h4] at hk
  cases hf : m'.mem pte.frameno with
  | none => rw [hf] at hk; simp at hk
  | some f' =>
    rw [hf] at hk
    simp only [Option.map_some', Option.some.injEq, Prod.mk.injEq] at hk
    refine ⟨h0, pte, f', by rw [h.1]; exact h1, h2, h3, hf, by rw [hk.1]; exact h5, h6, h7,
      by rw [h.2.1]; exact h8, by rw [hk.2.2]; exact h9, by rw [hk.2.2]; exact h10,
      by rw [h.2.1, hk.2.1]; exact h11⟩

theorem copy_in_mem (m : MemoryManager) (k o : Nat) (d : Nat → Nat) (off n : Nat)
    (f : PageFrame) (hf : m.mem k = some f) (k' : Nat) :
    (copy_in m k o d off n).mem k' =
      if k' = k then some { f with
        data := fun j => if o ≤ j ∧ j < o + n then d (off + (j - o)) else f.data j }
      else m.mem k' := by
  unfold copy_in
  rw [hf]
  dsimp only
  by_cases hk : k' = k
  · rw [if_pos hk, hk, Function.update_same]
  · rw [if_neg hk, Function.update_noteq hk]

theorem copy_in_same (m : MemoryManager) (k o : Nat) (d : Nat → Nat) (off n : Nat)
    (f : PageFrame) (hf : m.mem k = some f) : SameMeta m (copy_in m k o d off n) := by
  refine ⟨?_, ?_, ?_⟩
  · unfold copy_in; rw [hf]
  · unfold copy_in; rw [hf]
  · intro k'
    rw [copy_in_mem m k o d off n f hf k']
    by_cases hk : k' = k
    · rw [if_pos hk, hk, hf]; rfl
    · rw [if_neg hk]

theorem hostByte_copy_in (m : MemoryManager) (k o : Nat) (d : Nat → Nat) (off n : Nat)
    (f : PageFrame) (hf : m.mem k = some f) (k' j : Nat) :
    hostByte (copy_in m k o d off n) k' j =
      if k' = k ∧ o ≤ j ∧ j < o + n then d (off + (j - o)) else hostByte m k' j := by
  unfold hostByte
  rw [copy_in_mem m k o d off n f hf k']
  by_cases hk : k' = k
  · rw [if_pos hk, hk, hf]
    dsimp only
    by_cases hj : o ≤ j ∧ j < o + n
    · rw [if_pos hj, if_pos ⟨rfl, hj⟩]
    · rw [if_neg hj, if_neg (fun hh => hj hh.2)]
  · rw [if_neg hk, if_neg (fun hh => hk hh.1)]

theorem sub64_of_le (a b : Nat) (ha : a < 2 ^ 64) (hb : b ≤ a) : sub64 a b = a - b := by
  unfold sub64
  rw [Nat.mod_eq_of_lt ha, Nat.mod_eq_of_lt (Nat.lt_of_le_of_lt hb ha)]
  have h : a + (2 ^ 64 - b) = (a - b) + 2 ^ 64 := by omega
  rw [h, Nat.add_mod_right, Nat.mod_eq_of_lt]
  omega

theorem add64_of_lt (a b : Nat) (h : a + b < 2 ^ 64) : add64 a b = a + b := by
  unfold add64
  exact Nat.mod_eq_of_lt h

theorem write_loop_spec (rx wx v len : Nat) (buf : Nat → Nat) (hend : v + len ≤ 2 ^ 64)
    (hlen : len < 2 ^ 64) :
    ∀ (fuel : Nat) (m : MemoryManager) (off rem pb : Nat),
      off + rem = len →
      (0 < rem → pb = min rem (PAGE_SIZE - (v + off) % PAGE_SIZE)) →
      (0 < rem → rem + (v + off) % PAGE_SIZE ≤ fuel * PAGE_SIZE) →
      (∀ a, v + off ≤ a → a < v + len → PageRW m rx wx (a / PAGE_SIZE * PAGE_SIZE)) →
      (∀ a b, v + off ≤ a → a < v + len → v + off ≤ b → b < v + len →
        a / PAGE_SIZE ≠ b / PAGE_SIZE →
        frameOf m (a / PAGE_SIZE * PAGE_SIZE) ≠ frameOf m (b / PAGE_SIZE * PAGE_SIZE)) →
      ∃ m', write_loop v wx buf fuel pb rem off m = .ok m' ∧ SameMeta m m' ∧
        (∀ a, v + off ≤ a → a < v + len →
          ∃ k, frameOf m (a / PAGE_SIZE * PAGE_SIZE) = some k ∧
            hostByte m' k (a % PAGE_SIZE) = buf (a - v)) ∧
        (∀ k j, (∀ a, v + off ≤ a → a < v + len →
            ¬ (frameOf m (a / PAGE_SIZE * PAGE_SIZE) = some k ∧ a % PAGE_SIZE = j)) →
          hostByte m' k j = hostByte m k j) := by
  intro fuel
  induction fuel with
  | zero =>
    intro m off rem pb hsum _ hfuel _ _
    have hrem : rem = 0 := by
      by_contra hne
      have := hfuel (Nat.pos_of_ne_zero hne)
      omega
    refine ⟨m, rfl, SameMeta.self_meta m, ?_, fun _ _ _ => rfl⟩
    intro a h1 h2
    omega
  | succ n ih =>
    intro m off rem pb hsum hpb hfuel hrw hinj
    by_cases hrem : rem = 0
    · subst hrem
      refine ⟨m, ?_, SameMeta.self_meta m, ?_, fun _ _ _ => rfl⟩
      · simp [write_loop]
      · intro a h1 h2
        omega
    have hpos : 0 < rem := Nat.pos_of_ne_zero hrem
    have hpbv := hpb hpos
    have hfuel := hfuel hpos
    have ha0 : v + off < 2 ^ 64 := by omega
    have hadd : add64 v off = v + off := add64_of_lt _ _ ha0
    have hmodlt : (v + off) % PAGE_SIZE < PAGE_SIZE := Nat.mod_lt _ (by decide)
    have hpb1 : 1 ≤ pb := by rw [hpbv]; simp only [PAGE_SIZE] at *; omega
    have hpb2 : pb ≤ rem := by rw [hpbv]; exact Nat.min_le_left _ _
    have hpb3 : pb ≤ PAGE_SIZE - (v + off) % PAGE_SIZE := by rw [hpbv]; exact Nat.min_le_right _ _
    have hpb4 : pb < rem → pb = PAGE_SIZE - (v + off) % PAGE_SIZE := by
      intro hlt
      rw [hpbv] at hlt ⊢
      simp only [PAGE_SIZE] at *
      omega
    have hrw0 := hrw (v + off) (Nat.le_refl _) (by omega)
    obtain ⟨k, f, hk, hf, hbu, _, hew, _, _⟩ := resolve m rx wx (v + off) ha0 hrw0
    have hsm1 := copy_in_same m k ((v + off) % PAGE_SIZE) buf off pb f hf
    obtain ⟨k1, f1, _, _, hbu1, _, _, _, hfw1⟩ := resolve _ rx wx (v + off) ha0
      (SameMeta.pageRW m _ hsm1 _ _ _ hrw0)
    have hsub : sub64 rem pb = rem - pb := sub64_of_le _ _ (by omega) hpb2
    have hoff : add64 off pb = off + pb := add64_of_lt _ _ (by omega)
    have hstep : write_loop v wx buf (n + 1) pb rem off m =
        write_loop v wx buf n (if rem - pb ≤ PAGE_SIZE then rem - pb else PAGE_SIZE)
          (rem - pb) (off + pb) (copy_in m k ((v + off) % PAGE_SIZE) buf off pb) := by
      rw [write_loop, if_pos hpos, hadd, hew]
      dsimp only
      rw [hfw1]
      dsimp only
      rw [if_neg (by rw [hbu1]; exact Nat.lt_irrefl _), hsub, hoff]
    have hlater : ∀ a, v + (off + pb) ≤ a → a < v + len →
        a / PAGE_SIZE ≠ (v + off) / PAGE_SIZE := by
      intro a h1 h2
      have hlt : pb < rem := by omega
      have := hpb4 hlt
      simp only [PAGE_SIZE] at *
      omega
    obtain ⟨m', hrun, hsm', hbytes, hkeep⟩ := ih (copy_in m k ((v + off) % PAGE_SIZE) buf off pb)
      (off + pb) (rem - pb) (if rem - pb ≤ PAGE_SIZE then rem - pb else PAGE_SIZE)
      (by omega)
      (by
        intro hr
        have hlt : pb < rem := by omega
        have := hpb4 hlt
        simp only [PAGE_SIZE] at *
        split_ifs <;> omega)
      (by
        intro hr
        have hlt : pb < rem := by omega
        have := hpb4 hlt
        simp only [PAGE_SIZE] at *
        omega)
      (fun a h1 h2 => SameMeta.pageRW m _ hsm1 _ _ _ (hrw a (by omega) h2))
      (by
        intro a b h1 h2 h3 h4 hne
        rw [SameMeta.frameOf_eq m _ hsm1, SameMeta.frameOf_eq m _ hsm1]
        exact hinj a b (by omega) h2 (by omega) h4 hne)
    refine ⟨m', by rw [hstep]; exact hrun, SameMeta.chain m _ m' hsm1 hsm', ?_, ?_⟩
    · intro a h1 h2
      by_cases hc : a < v + (off + pb)
      · -- inside the chunk
        have hpg : a / PAGE_SIZE = (v + off) / PAGE_SIZE := by
          simp only [PAGE_SIZE] at *
          omega
        have hmod : a % PAGE_SIZE = (v + off) % PAGE_SIZE + (a - (v + off)) := by
          simp only [PAGE_SIZE] at *
          omega
        refine ⟨k, by rw [hpg]; exact hk, ?_⟩
        rw [hkeep k (a % PAGE_SIZE)]
        · rw [hostByte_copy_in m k _ buf off pb f hf, if_pos]
          · congr 1
            omega
          · exact ⟨rfl, by omega, by omega⟩
        · intro a' h1' h2' htar
          rw [SameMeta.frameOf_eq m _ hsm1] at htar
          have hne := hlater a' h1' h2'
          exact hinj a' (v + off) (by omega) h2' (Nat.le_refl _) (by omega) hne
            (by rw [htar.1, hk])
      · obtain ⟨k', hk', hb'⟩ := hbytes a (by omega) h2
        rw [SameMeta.frameOf_eq m _ hsm1] at hk'
        exact ⟨k', hk', hb'⟩
    · intro k' j hno
      rw [hkeep k' j]
      · rw [hostByte_copy_in m k _ buf off pb f hf, if_neg]
        rintro ⟨hkk, hj1, hj2⟩
        apply hno (v + off + (j - (v + off) % PAGE_SIZE)) (by omega) (by omega)
        refine ⟨?_, ?_⟩
        · have hpg : (v + off + (j - (v + off) % PAGE_SIZE)) / PAGE_SIZE
              = (v + off) / PAGE_SIZE := by
            simp only [PAGE_SIZE] at *
            omega
          rw [hpg, hkk]
          exact hk
        · simp only [PAGE_SIZE] at *
          omega
      · intro a h1 h2
        rw [SameMeta.frameOf_eq m _ hsm1]
        exact hno a (by omega) h2

theorem read_loop_spec (m : MemoryManager) (rx wx v len : Nat) (hend : v + len ≤ 2 ^ 64)
    (hlen : len < 2 ^ 64) :
    ∀ (fuel : Nat) (off rem pb : Nat) (data : Nat → Nat),
      off + rem = len →
      (0 < rem → pb = min rem (PAGE_SIZE - (v + off) % PAGE_SIZE)) →
      (0 < rem → rem + (v + off) % PAGE_SIZE ≤ fuel * PAGE_SIZE) →
      (∀ a, v + off ≤ a → a < v + len → PageRW m rx wx (a / PAGE_SIZE * PAGE_SIZE)) →
      ∃ out, read_loop m v rx fuel pb rem off off data = .ok (len, out) ∧
        (∀ i, off ≤ i → i < len →
          ∃ k, frameOf m ((v + i) / PAGE_SIZE * PAGE_SIZE) = some k ∧
            out i = hostByte m k ((v + i) % PAGE_SIZE)) ∧
        (∀ i, ¬ (off ≤ i ∧ i < len) → out i = data i) := by
  intro fuel
  induction fuel with
  | zero =>
    intro off rem pb data hsum _ hfuel _
    have hrem : rem = 0 := by
      by_contra hne
      have := hfuel (Nat.pos_of_ne_zero hne)
      omega
    subst hrem
    refine ⟨data, ?_, ?_, fun _ _ => rfl⟩
    · simp only [read_loop]
      rw [← hsum, Nat.add_zero]
    · intro i h1 h2
      omega
  | succ n ih =>
    intro off rem pb data hsum hpb hfuel hrw
    by_cases hrem : rem = 0
    · subst hrem
      refine ⟨data, ?_, ?_, fun _ _ => rfl⟩
      · simp only [read_loop, gt_iff_lt, Nat.lt_irrefl, if_false]
        rw [← hsum, Nat.add_zero]
      · intro i h1 h2
        omega
    have hpos : 0 < rem := Nat.pos_of_ne_zero hrem
    have hpbv := hpb hpos
    have hfuel := hfuel hpos
    have ha0 : v + off < 2 ^ 64 := by omega
    have hadd : add64 v off = v + off := add64_of_lt _ _ ha0
    have hmodlt : (v + off) % PAGE_SIZE < PAGE_SIZE := Nat.mod_lt _ (by decide)
    have hpb1 : 1 ≤ pb := by rw [hpbv]; simp only [PAGE_SIZE] at *; omega
    have hpb2 : pb ≤ rem := by rw [hpbv]; exact Nat.min_le_left _ _
    have hpb3 : pb ≤ PAGE_SIZE - (v + off) % PAGE_SIZE := by rw [hpbv]; exact Nat.min_le_right _ _
    have hpb4 : pb < rem → pb = PAGE_SIZE - (v + off) % PAGE_SIZE := by
      intro hlt
      rw [hpbv] at hlt ⊢
      simp only [PAGE_SIZE] at *
      omega
    have hrw0 := hrw (v + off) (Nat.le_refl _) (by omega)
    obtain ⟨k, f, hk, hf, hbu, her, _, hfr, _⟩ := resolve m rx wx (v + off) ha0 hrw0
    have hsub : sub64 rem pb = rem - pb := sub64_of_le _ _ (by omega) hpb2
    have hoff : add64 off pb = off + pb := add64_of_lt _ _ (by omega)
    have hstep : read_loop m v rx (n + 1) pb rem off off data =
        read_loop m v rx n (if rem - pb ≤ PAGE_SIZE then rem - pb else PAGE_SIZE)
          (rem - pb) (off + pb) (off + pb)
          (copy_out m k ((v + off) % PAGE_SIZE) data off pb) := by
      rw [read_loop, if_pos hpos, hadd, her]
      dsimp only
      rw [hfr]
      dsimp only
      rw [if_neg (by rw [hbu]; exact Nat.lt_irrefl _), hsub, hoff]
    obtain ⟨out, hrun, hbytes, hkeep⟩ := ih (off + pb) (rem - pb)
      (if rem - pb ≤ PAGE_SIZE then rem - pb else PAGE_SIZE)
      (copy_out m k ((v + off) % PAGE_SIZE) data off pb)
      (by omega)
      (by
        intro hr
        have hlt : pb < rem := by omega
        have := hpb4 hlt
        simp only [PAGE_SIZE] at *
        split_ifs <;> omega)
      (by
        intro hr
        have hlt : pb < rem := by omega
        have := hpb4 hlt
        simp only [PAGE_SIZE] at *
        omega)
      (fun a h1 h2 => hrw a (by omega) h2)
    refine ⟨out, by rw [hstep]; exact hrun, ?_, ?_⟩
    · intro i h1 h2
      by_cases hc : i < off + pb
      · have hpg : (v + i) / PAGE_SIZE = (v + off) / PAGE_SIZE := by
          simp only [PAGE_SIZE] at *
          omega
        have hmod : (v + i) % PAGE_SIZE = (v + off) % PAGE_SIZE + (i - off) := by
          simp only [PAGE_SIZE] at *
          omega
        refine ⟨k, by rw [hpg]; exact hk, ?_⟩
        rw [hkeep i (by omega), hmod]
        unfold copy_out
        rw [if_pos ⟨h1, hc⟩]
      · exact hbytes i (by omega) h2
    · intro i hi
      rw [hkeep i (by omega)]
      unfold copy_out
      rw [if_neg (by omega)]

theorem write_spec (m : MemoryManager) (rx wx v len : Nat) (buf : Nat → Nat)
    (hv : v ≤ VADDR_LIMIT) (hlen : 0 < len) (hend : v + len < 2 ^ 64)
    (hrw : ∀ a, v ≤ a → a < v + len → PageRW m rx wx (a / PAGE_SIZE * PAGE_SIZE))
    (hinj : ∀ a b, v ≤ a → a < v + len → v ≤ b → b < v + len →
      a / PAGE_SIZE ≠ b / PAGE_SIZE →
      frameOf m (a / PAGE_SIZE * PAGE_SIZE) ≠ frameOf m (b / PAGE_SIZE * PAGE_SIZE)) :
    ∃ m', write m wx v buf len = .ok m' ∧ SameMeta m m' ∧
      ∀ a, v ≤ a → a < v + len →
        ∃ k, frameOf m (a / PAGE_SIZE * PAGE_SIZE) = some k ∧
          hostByte m' k (a % PAGE_SIZE) = buf (a - v) := by
  have hv64 : v < 2 ^ 64 := by omega
  have hrw0 := hrw v (Nat.le_refl _) (by omega)
  obtain ⟨k, f, hk, hf, hbu, _, hew, _, hfw⟩ := resolve m rx wx v hv64 hrw0
  have hpt : ¬ (m.pagetable (pageFloor v)).isNone = true := by
    rw [pageFloor_eq v hv64]
    obtain ⟨_, pte, _, h1, _⟩ := hrw0
    rw [h1]
    exact Bool.false_ne_true
  have hmodlt : v % PAGE_SIZE < PAGE_SIZE := Nat.mod_lt _ (by decide)
  have hadd : add64 (pageOffs v) len = v % PAGE_SIZE + len := by
    rw [pageOffs_eq]
    exact add64_of_lt _ _ (by have := Nat.mod_le v PAGE_SIZE; omega)
  unfold write
  rw [if_neg (Nat.not_lt.mpr hv), if_neg hpt, hfw]
  dsimp only
  rw [hadd, hbu]
  by_cases hc : v % PAGE_SIZE + len > PAGE_SIZE
  · rw [if_pos hc, pageOffs_eq, sub64_of_le _ _ (by decide) (Nat.le_of_lt hmodlt)]
    have h := write_loop_spec rx wx v len buf (by omega) (by omega) MM_ROUNDS m 0 len
      (PAGE_SIZE - v % PAGE_SIZE) (by omega)
      (by
        intro _
        rw [Nat.add_zero]
        simp only [PAGE_SIZE] at *
        omega)
      (by
        intro _
        rw [Nat.add_zero]
        simp only [PAGE_SIZE, MM_ROUNDS] at *
        omega)
      (fun a h1 h2 => hrw a (by omega) h2)
      (fun a b h1 h2 h3 h4 hne => hinj a b (by omega) h2 (by omega) h4 hne)
    obtain ⟨m', hrun, hsm, hbytes, _⟩ := h
    exact ⟨m', hrun, hsm, fun a h1 h2 => hbytes a (by omega) h2⟩
  · rw [if_neg hc, hew]
    refine ⟨_, rfl, copy_in_same m k _ buf 0 len f hf, ?_⟩
    intro a h1 h2
    have hpg : a / PAGE_SIZE = v / PAGE_SIZE := by
      simp only [PAGE_SIZE] at *
      omega
    have hmod : a % PAGE_SIZE = v % PAGE_SIZE + (a - v) := by
      simp only [PAGE_SIZE] at *
      omega
    refine ⟨k, by rw [hpg]; exact hk, ?_⟩
    rw [hostByte_copy_in m k _ buf 0 len f hf, if_pos ⟨rfl, by omega, by omega⟩]
    congr 1
    omega

theorem read_spec (m : MemoryManager) (rx wx v len : Nat) (data : Nat → Nat)
    (hv : v ≤ VADDR_LIMIT) (hlen : 0 < len) (hend : v + len < 2 ^ 64)
    (hrw : ∀ a, v ≤ a → a < v + len → PageRW m rx wx (a / PAGE_SIZE * PAGE_SIZE)) :
    ∃ out, read m v data len rx = .ok (MM_LD_LATENCY, len, out) ∧
      ∀ i, i < len →
        ∃ k, frameOf m ((v + i) / PAGE_SIZE * PAGE_SIZE) = some k ∧
          out i = hostByte m k ((v + i) % PAGE_SIZE) := by
  have hv64 : v < 2 ^ 64 := by omega
  have hrw0 := hrw v (Nat.le_refl _) (by omega)
  obtain ⟨k, f, hk, hf, hbu, her, _, hfr, _⟩ := resolve m rx wx v hv64 hrw0
  have hpt : ¬ (m.pagetable (pageFloor v)).isNone = true := by
    rw [pageFloor_eq v hv64]
    obtain ⟨_, pte, _, h1, _⟩ := hrw0
    rw [h1]
    exact Bool.false_ne_true
  have hmodlt : v % PAGE_SIZE < PAGE_SIZE := Nat.mod_lt _ (by decide)
  have hadd : add64 (pageOffs v) len = v % PAGE_SIZE + len := by
    rw [pageOffs_eq]
    exact add64_of_lt _ _ (by have := Nat.mod_le v PAGE_SIZE; omega)
  unfold read
  rw [if_neg (Nat.not_lt.mpr hv), if_neg hpt, hfr]
  dsimp only
  rw [hadd, hbu]
  by_cases hc : v % PAGE_SIZE + len > PAGE_SIZE
  · rw [if_pos hc, pageOffs_eq, sub64_of_le _ _ (by decide) (Nat.le_of_lt hmodlt)]
    have h := read_loop_spec m rx wx v len (by omega) (by omega) MM_ROUNDS 0 len
      (PAGE_SIZE - v % PAGE_SIZE) data (by omega)
      (by
        intro _
        rw [Nat.add_zero]
        simp only [PAGE_SIZE] at *
        omega)
      (by
        intro _
        rw [Nat.add_zero]
        simp only [PAGE_SIZE, MM_ROUNDS] at *
        omega)
      (fun a h1 h2 => hrw a (by omega) h2)
    obtain ⟨out, hrun, hbytes, _⟩ := h
    rw [hrun]
    dsimp only
    refine ⟨out, ?_, fun i hi => hbytes i (Nat.zero_le _) hi⟩
    rw [if_pos (by omega)]
  · rw [if_neg hc, her]
    refine ⟨_, rfl, ?_⟩
    intro i hi
    have hpg : (v + i) / PAGE_SIZE = v / PAGE_SIZE := by
      simp only [PAGE_SIZE] at *
      omega
    have hmod : (v + i) % PAGE_SIZE = v % PAGE_SIZE + i := by
      simp only [PAGE_SIZE] at *
      omega
    refine ⟨k, by rw [hpg]; exact hk, ?_⟩
    unfold copy_out
    rw [if_pos ⟨Nat.zero_le _, by omega⟩, hmod, Nat.sub_zero]

theorem ex_mem_two_rw (a : Nat) (h1 : 0x8ff0 ≤ a) (h2 : a < 0x8ff0 + 32) :
    PageRW ex_mem_two 1 2 (pageFloor a) := by
  rw [pageFloor_eq a (by omega)]
  have hp : a / PAGE_SIZE * PAGE_SIZE = 0x8000 ∨ a / PAGE_SIZE * PAGE_SIZE = 0x9000 := by
    simp only [PAGE_SIZE]
    omega
  rcases hp with hp | hp <;> rw [hp]
  · exact ⟨by decide, ex_pte 0x8000, ex_frame (fun _ => 0) PAGE_SIZE, rfl, by decide,
      by decide, rfl, rfl, by decide, by decide, by decide, by decide, by decide, by decide⟩
  · exact ⟨by decide, ex_pte 0x9000, ex_frame (fun _ => 0) PAGE_SIZE, rfl, by decide,
      by decide, rfl, rfl, by decide, by decide, by decide, by decide, by decide, by decide⟩

theorem ex_mem_two_inj (a b : Nat) (h1 : 0x8ff0 ≤ a) (h2 : a < 0x8ff0 + 32) (h3 : 0x8ff0 ≤ b)
    (h4 : b < 0x8ff0 + 32) (hne : pageFloor a ≠ pageFloor b) :
    frameOf ex_mem_two (pageFloor a) ≠ frameOf ex_mem_two (pageFloor b) := by
  rw [pageFloor_eq a (by omega), pageFloor_eq b (by omega)] at hne ⊢
  have hp : a / PAGE_SIZE * PAGE_SIZE = 0x8000 ∨ a / PAGE_SIZE * PAGE_SIZE = 0x9000 := by
    simp only [PAGE_SIZE]
    omega
  have hq : b / PAGE_SIZE * PAGE_SIZE = 0x8000 ∨ b / PAGE_SIZE * PAGE_SIZE = 0x9000 := by
    simp only [PAGE_SIZE]
    omega
  rcases hp with hp | hp <;> rcases hq with hq | hq <;> rw [hp, hq] at hne ⊢
  · exact absurd rfl hne
  · decide
  · decide
  · exact absurd rfl hne

theorem ex_mem_alias_rw (a : Nat) (h1 : 0x8000 ≤ a) (h2 : a < 0x8000 + 8192) :
    PageRW ex_mem_alias 1 2 (pageFloor a) := by
  rw [pageFloor_eq a (by omega)]
  have hp : a / PAGE_SIZE * PAGE_SIZE = 0x8000 ∨ a / PAGE_SIZE * PAGE_SIZE = 0x9000 := by
    simp only [PAGE_SIZE]
    omega
  rcases hp with hp | hp <;> rw [hp]
  · exact ⟨by decide, ex_pte 0x8000, ex_frame (fun _ => 0) PAGE_SIZE, rfl, by decide,
      by decide, rfl, rfl, by decide, by decide, by decide, by decide, by decide, by decide⟩
  · exact ⟨by decide, ex_pte 0x8000, ex_frame (fun _ => 0) PAGE_SIZE, rfl, by decide,
      by decide, rfl, rfl, by decide, by decide, by decide, by decide, by decide, by decide⟩

theorem ex_mem_limit_rw : PageRW ex_mem_limit 1 2 (pageFloor (VADDR_LIMIT + 1)) := by
  rw [pageFloor_eq _ (by decide)]
  exact ⟨by decide, ex_pte 0x8000, ex_frame (fun _ => 0) PAGE_SIZE, rfl, by decide,
    by decide, rfl, rfl, by decide, by decide, by decide, by decide, by decide, by decide⟩

/-- C19 (as amended): write then read returns the written bytes. For a range
`[v, v + len)` of 64-bit addresses with `len > 0` that starts at or below `VADDR_LIMIT`,
whose pages are all mapped to full frames readable (`rx`) and writable (`wx`) at the
current ring, and whose different pages are mapped to different frames,
`write(v, buf, len)` succeeds, and `read(v, buf', len, rx)` on the resulting memory
reports `len` bytes and leaves `buf` in the first `len` bytes of the caller's buffer;
the range may cross any number of page boundaries. -/
theorem write_read_round_trip (m : MemoryManager) (rx wx v len : Nat) (buf buf' : Nat → Nat)
    (hv : v ≤ VADDR_LIMIT) (hlen : 0 < len) (hend : v + len < 2 ^ 64)
    (hmap : ∀ a, v ≤ a → a < v + len → PageRW m rx wx (pageFloor a))
    (hinj : ∀ a b, v ≤ a → a < v + len → v ≤ b → b < v + len →
      pageFloor a ≠ pageFloor b → frameOf m (pageFloor a) ≠ frameOf m (pageFloor b)) :
    ∃ m' out, write m wx v buf len = .ok m' ∧
      read m' v buf' len rx = .ok (MM_LD_LATENCY, len, out) ∧
      ∀ i, i < len → out i = buf i := by
  have hrw : ∀ a, v ≤ a → a < v + len → PageRW m rx wx (a / PAGE_SIZE * PAGE_SIZE) := by
    intro a h1 h2
    rw [← pageFloor_eq a (by omega)]
    exact hmap a h1 h2
  have hinj2 : ∀ a b, v ≤ a → a < v + len → v ≤ b → b < v + len →
      a / PAGE_SIZE ≠ b / PAGE_SIZE →
      frameOf m (a / PAGE_SIZE * PAGE_SIZE) ≠ frameOf m (b / PAGE_SIZE * PAGE_SIZE) := by
    intro a b h1 h2 h3 h4 hne
    rw [← pageFloor_eq a (by omega), ← pageFloor_eq b (by omega)]
    apply hinj a b h1 h2 h3 h4
    rw [pageFloor_eq a (by omega), pageFloor_eq b (by omega)]
    simp only [PAGE_SIZE] at *
    omega
  obtain ⟨m', hw, hsm, hb⟩ := write_spec m rx wx v len buf hv hlen hend hrw hinj2
  obtain ⟨out, hr, ho⟩ := read_spec m' rx wx v len buf' hv hlen hend
    (fun a h1 h2 => SameMeta.pageRW m m' hsm _ _ _ (hrw a h1 h2))
  refine ⟨m', out, hw, hr, ?_⟩
  intro i hi
  obtain ⟨k, hk, hob⟩ := ho i hi
  obtain ⟨k', hk', hb'⟩ := hb (v + i) (by omega) (by omega)
  rw [SameMeta.frameOf_eq m m' hsm, hk'] at hk
  rw [hob, ← Option.some.inj hk, hb']
  congr 1
  omega

/-- Witness for C19: on two pages mapped one to one to two full frames, 32 bytes written
at 0x8ff0 (16 bytes before the page boundary) are read back unchanged. -/
theorem write_read_round_trip_witness :
    ∃ m' out, write ex_mem_two 2 0x8ff0 (fun i => i + 1) 32 = .ok m' ∧
      read m' 0x8ff0 (fun _ => 0) 32 1 = .ok (MM_LD_LATENCY, 32, out) ∧
      ∀ i, i < 32 → out i = (fun i => i + 1) i :=
  write_read_round_trip ex_mem_two 1 2 0x8ff0 32 (fun i => i + 1) (fun _ => 0)
    (by decide) (by decide) (by decide) ex_mem_two_rw ex_mem_two_inj

set_option maxRecDepth 100000 in
/-- C19 (counterexample): two memory states in which every page of the range is mapped to
a full frame readable and writable at the current ring, and the round trip fails. With
the pages 0x8000 and 0x9000 both mapped to the one frame 0x8000, 8192 bytes written at
0x8000 (bytes 1 in the first page, 2 in the second) are read back as 2 everywhere. With
the page at `VADDR_LIMIT` mapped, a write at `VADDR_LIMIT + 1` raises
`InvalidPageaddrException`. -/
theorem round_trip_fails_on_shared_frame :
    (∀ a, 0x8000 ≤ a → a < 0x8000 + 8192 → PageRW ex_mem_alias 1 2 (pageFloor a)) ∧
    [ex_buf 0, ex_buf 4095, ex_buf 4096, ex_buf 8191] = [1, 1, 2, 2] ∧
    ((write ex_mem_alias 2 0x8000 ex_buf 8192).toOption.bind (fun m =>
      (read m 0x8000 (fun _ => 0) 8192 1).toOption)).map
      (fun r => [r.2.1, r.2.2 0, r.2.2 4095, r.2.2 4096, r.2.2 8191])
      = some [8192, 2, 2, 2, 2] ∧
    PageRW ex_mem_limit 1 2 (pageFloor (VADDR_LIMIT + 1)) ∧
    Except.err? (write ex_mem_limit 2 (VADDR_LIMIT + 1) ex_buf 1) = some .invalid_pageaddr :=
  ⟨ex_mem_alias_rw, by decide, by decide, ex_mem_limit_rw, by rfl⟩

set_option maxRecDepth 100000 in
/-- C20 (code evaluated at the failing input): with page 0x8000 mapped to a full frame and
page 0x9000 to a frame with `bytes_used = 100`, `read(0x8fa0, data, 296, rx)` succeeds and
reports 296 bytes, although only 196 addresses of the range are valid for `get_eaddr`
(96 in the first frame, 100 in the second; 0x9064 is rejected with
`InvalidAddrException`); bytes 196 to 295 of the buffer are copied from behind
`bytes_used` of the second frame (value 9). -/
theorem read_reports_unmapped_bytes :
    (read ex_mem_partial 0x8fa0 (fun _ => 0) 296 1).toOption.map
      (fun r => [r.2.1, r.2.2 95, r.2.2 96, r.2.2 195, r.2.2 196, r.2.2 295, r.2.2 296])
      = some [296, 7, 8, 8, 9, 9, 0] ∧
    ((List.range 296).filter (fun i =>
      (get_eaddr ex_mem_partial (0x8fa0 + i) 1).toOption.isSome)).length = 196 ∧
    Except.err? (get_eaddr ex_mem_partial 0x9064 1) = some .invalid_addr :=
  ⟨by decide, by decide, by rfl⟩

/-- C21: `get_paddr(vaddr, rwx)` is a decision list. It fails with page-not-mapped iff
the page of `vaddr` has no page table entry; with an entry `pte` it fails with an
access-bit violation iff `rwx & pte.rwx = 0`; otherwise it fails with a protection
violation iff the ring is above `pte.pl`; otherwise it returns the 64-bit sum
`pte.frameno + vaddr mod 4096`, which for a page-aligned `frameno` is that sum without
wrap-around and equals `pte.frameno | (vaddr mod 4096)`. -/
theorem get_paddr_decision (m : MemoryManager) (vaddr rwx : Nat) :
    (get_paddr m vaddr rwx = .error .page_not_mapped ↔ m.pagetable (pageFloor vaddr) = none) ∧
    ∀ pte, m.pagetable (pageFloor vaddr) = some pte →
      (get_paddr m vaddr rwx = .error .access_bit ↔ rwx &&& pte.rwx = 0) ∧
      (rwx &&& pte.rwx ≠ 0 →
        (get_paddr m vaddr rwx = .error .protection ↔ m.ring > pte.pl) ∧
        (¬ m.ring > pte.pl →
          get_paddr m vaddr rwx = .ok ((pte.frameno + vaddr % 4096) % 2 ^ 64) ∧
          (pte.frameno % 4096 = 0 → pte.frameno < 2 ^ 64 →
            get_paddr m vaddr rwx = .ok (pte.frameno + vaddr % 4096) ∧
            pte.frameno + vaddr % 4096 = pte.frameno ||| vaddr % 4096))) := by
  refine ⟨?_, ?_⟩
  · unfold get_paddr
    cases hp : m.pagetable (pageFloor vaddr) with
    | none => simp
    | some pte =>
      dsimp only
      split_ifs <;> simp
  · intro pte hp
    have hoffs : pageOffs vaddr = vaddr % 4096 := pageOffs_eq vaddr
    unfold get_paddr
    rw [hp]
    dsimp only
    refine ⟨?_, ?_⟩
    · split_ifs <;> simp_all
    · intro hrwx
      rw [if_neg hrwx]
      refine ⟨?_, ?_⟩
      · split_ifs <;> simp_all
      · intro hpl
        rw [if_neg hpl, hoffs]
        refine ⟨rfl, ?_⟩
        intro hal h64
        have hlt : vaddr % 4096 < 2 ^ 12 := Nat.mod_lt _ (by decide)
        have hsum : pte.frameno + vaddr % 4096 < 2 ^ 64 := by omega
        refine ⟨?_, ?_⟩
        · unfold add64
          rw [Nat.mod_eq_of_lt hsum]
        · obtain ⟨q, hq⟩ : ∃ q, pte.frameno = 2 ^ 12 * q := ⟨pte.frameno / 4096, by omega⟩
          rw [hq]
          exact Nat.mul_add_lt_is_or hlt q

/-- Witness for C21: at ring 3, with page 0x8000 mapped to frame 0x8000 for every access,
`get_paddr(0x8123, 1)` is `0x8000 + 0x123 = 0x8000 | 0x123`. -/
theorem get_paddr_decision_witness :
    get_paddr ex_mem_two 0x8123 1 = .ok ((ex_pte 0x8000).frameno + 0x8123 % 4096) ∧
    (ex_pte 0x8000).frameno + 0x8123 % 4096 = (ex_pte 0x8000).frameno ||| 0x8123 % 4096 :=
  ((((get_paddr_decision ex_mem_two 0x8123 1).2 (ex_pte 0x8000) (by rfl)).2 (by decide)).2
    (by decide)).2 (by decide) (by decide)

theorem get_eaddr_invalid_iff (m : MemoryManager) (vaddr rwx paddr : Nat)
    (hp : get_paddr m vaddr rwx = .ok paddr)
    (hused : ∀ f, m.mem (pageFloor paddr) = some f → 0 < f.bytes_used ∧ f.bytes_used < 2 ^ 64) :
    get_eaddr m vaddr rwx = .error .invalid_addr ↔
      (m.mem (pageFloor paddr) = none ∨
        ∃ f, m.mem (pageFloor paddr) = some f ∧ f.bytes_used ≤ vaddr % 4096) := by
  have hoffs : pageOffs vaddr = vaddr % 4096 := pageOffs_eq vaddr
  unfold get_eaddr
  cases hpt : m.pagetable (pageFloor vaddr) with
  | none =>
    unfold get_paddr at hp
    rw [hpt] at hp
    simp at hp
  | some pte =>
    dsimp only
    rw [hp]
    dsimp only
    cases hf : m.mem (pageFloor paddr) with
    | none => simp
    | some f =>
      obtain ⟨h0, h64⟩ := hused f hf
      dsimp only
      rw [hoffs, sub64_of_le _ _ h64 h0]
      have hiff : vaddr % 4096 > f.bytes_used - 1 ↔ f.bytes_used ≤ vaddr % 4096 := by omega
      by_cases hc : vaddr % 4096 > f.bytes_used - 1
      · rw [if_pos hc]
        simp [hiff.mp hc]
      · rw [if_neg hc]
        have hn : ¬ f.bytes_used ≤ vaddr % 4096 := fun h => hc (hiff.mpr h)
        split_ifs <;> simp [hn]

theorem btb_lookup_erase (l : List (Nat × Nat)) (rip : Nat) :
    (btb_erase l rip).lookup rip = none := by
  induction l with
  | nil => rfl
  | cons e l ih =>
    unfold btb_erase at ih ⊢
    by_cases h : e.1 = rip
    · rw [List.filter_cons_of_neg (by simpa using h)]
      exact ih
    · rw [List.filter_cons_of_pos (by simpa using h)]
      obtain ⟨k, v⟩ := e
      rw [List.lookup_cons, ih]
      have hne : (rip == k) = false := by
        simp only [beq_eq_false_iff_ne, ne_eq]
        exact fun hh => h hh.symm
      rw [hne]

theorem btb_erase_length (l : List (Nat × Nat)) (rip : Nat) :
    (btb_erase l rip).length ≤ l.length :=
  List.length_filter_le _ _

theorem btb_update_size (b : BTBPredictor) (rip target taken : Nat)
    (h : b.size ≤ BTB_SIZE) : (b.update rip target taken).size ≤ BTB_SIZE := by
  unfold BTBPredictor.update
  split_ifs with h1 h2
  · have := btb_erase_length b.btb rip
    unfold BTBPredictor.size btb_insert_or_assign at *
    rw [List.length_cons]
    omega
  · have := btb_erase_length b.btb rip
    unfold BTBPredictor.size at *
    show (btb_erase b.btb rip).length ≤ BTB_SIZE
    omega
  · exact h

theorem btb_updates_size (us : List (Nat × Nat × Nat)) :
    ∀ b : BTBPredictor, b.size ≤ BTB_SIZE → (b.updates us).size ≤ BTB_SIZE := by
  induction us with
  | nil => intro b h; exact h
  | cons u us ih =>
    intro b h
    exact ih _ (btb_update_size b _ _ _ h)

theorem lookup_range_map (n v rip : Nat) (h : n ≤ rip) :
    ((List.range n).map (fun k => (k, v))).lookup rip = none := by
  rw [List.lookup_eq_none_iff]
  intro e he
  obtain ⟨k, hk, hke⟩ := List.mem_map.mp he
  rw [List.mem_range] at hk
  rw [← hke]
  have hne : rip ≠ k := by omega
  simpa using hne

set_option maxRecDepth 1000000 in
theorem ex_btb_full_lookup (rip : Nat) (h : BTB_SIZE ≤ rip) :
    ex_btb_full.btb.lookup rip = none := by
  show ex_btb_entries.lookup rip = none
  rw [ex_btb_entries]
  exact lookup_range_map BTB_SIZE 7 rip h

set_option maxRecDepth 1000000 in
theorem ex_btb_full_size : ex_btb_full.size = BTB_SIZE := by
  show ex_btb_entries.length = BTB_SIZE
  rw [ex_btb_entries, List.length_map, List.length_range]

/-- C29 (as amended): for every BTB state and every `rip`, `target`: after
`update(rip, target, taken)` with `taken != 0` on a buffer with fewer than `BTB_SIZE`
entries, `predict(rip, seq, hint)` returns `target` for all `seq` and `hint`; after
`update(rip, target, 0)`, `rip` has no entry and `predict(rip, seq, hint)` returns `seq`
if `rip < hint` and `hint` otherwise; an update never takes the number of entries above
`BTB_SIZE`, and a predictor that starts empty never has more than `BTB_SIZE` entries. -/
theorem btb_update_then_predict (b : BTBPredictor) (rip target : Nat) :
    (∀ taken seq hint, taken ≠ 0 → b.size < BTB_SIZE →
      (b.update rip target taken).predict rip seq hint = target) ∧
    (∀ seq hint, (b.update rip target 0).count rip = 0 ∧
      (b.update rip target 0).predict rip seq hint = if rip < hint then seq else hint) ∧
    (∀ taken, b.size ≤ BTB_SIZE → (b.update rip target taken).size ≤ BTB_SIZE) ∧
    (∀ us, (BTBPredictor.init.updates us).size ≤ BTB_SIZE) := by
  refine ⟨?_, ?_, fun taken h => btb_update_size b rip target taken h,
    fun us => btb_updates_size us _ (by decide)⟩
  · intro taken seq hint ht hs
    unfold BTBPredictor.update
    rw [if_pos ⟨ht, hs⟩]
    simp [BTBPredictor.predict, BTBPredictor.count, btb_insert_or_assign, List.lookup_cons]
  · intro seq hint
    have hcount : (b.update rip target 0).count rip = 0 := by
      unfold BTBPredictor.update
      rw [if_neg (by simp)]
      by_cases hc : b.count rip = 0
      · rw [if_neg (by simp [hc])]
        exact hc
      · rw [if_pos ⟨by simp, hc⟩]
        unfold BTBPredictor.count
        rw [btb_lookup_erase]
        rfl
    refine ⟨hcount, ?_⟩
    unfold BTBPredictor.predict
    rw [if_pos hcount]

/-- Witness for C29: a taken branch at 0x8010 with target 0x8100 recorded in an empty
buffer is predicted to go to 0x8100. -/
theorem btb_update_then_predict_witness :
    (BTBPredictor.init.update 0x8010 0x8100 1).predict 0x8010 0x8014 0x9000 = 0x8100 :=
  (btb_update_then_predict BTBPredictor.init 0x8010 0x8100).1 1 0x8014 0x9000
    (by decide) (by decide)

/-- C29 (counterexample): a buffer that holds `BTB_SIZE` entries ignores a taken branch.
After `update(0x8010, 0x8100, 1)` the buffer is unchanged, and
`predict(0x8010, 0x8014, 0x9000)` returns the sequential address 0x8014, not the target
0x8100. -/
theorem full_btb_ignores_taken_branch :
    ex_btb_full.size = BTB_SIZE ∧
    ex_btb_full.update 0x8010 0x8100 1 = ex_btb_full ∧
    (ex_btb_full.update 0x8010 0x8100 1).predict 0x8010 0x8014 0x9000 = 0x8014 := by
  have hupd : ex_btb_full.update 0x8010 0x8100 1 = ex_btb_full := by
    unfold BTBPredictor.update
    rw [if_neg (by rw [ex_btb_full_size]; simp), if_neg (by simp)]
  refine ⟨ex_btb_full_size, hupd, ?_⟩
  rw [hupd]
  unfold BTBPredictor.predict BTBPredictor.count
  rw [ex_btb_full_lookup 0x8010 (by decide)]
  decide

theorem get_tmpreg_gp_step (s : TmpRegs) (regcls : Nat) (hc : regcls ≠ regs_vr)
    (h1 : reg64_t0 - 1 ≤ s.cur_tmp_gp) (h2 : s.cur_tmp_gp ≤ reg64_tmax) :
    (get_tmpreg s regcls).1 = reg64_t0 + (s.cur_tmp_gp + 1 - reg64_t0) % 16 ∧
    (get_tmpreg s regcls).2.cur_tmp_gp = (get_tmpreg s regcls).1 ∧
    (get_tmpreg s regcls).2.cur_tmp_vr = s.cur_tmp_vr := by
  unfold get_tmpreg
  rw [if_neg hc]
  refine ⟨?_, rfl, rfl⟩
  dsimp only
  simp only [reg64_t0, reg64_tmax, toU8] at *
  obtain ⟨k, hk⟩ : ∃ k, s.cur_tmp_gp = 17 + k := ⟨s.cur_tmp_gp - 17, by omega⟩
  have hk16 : k ≤ 16 := by omega
  rw [hk]
  interval_cases k <;> decide

/-- The temporary registers of the general purpose class form a ring: from a pointer in
`[reg64_t0 - 1, reg64_tmax]`, the `i`-th of `n` successive calls returns
`reg64_t0 + (cur + 1 - reg64_t0 + i) mod 16`. -/
theorem tmpregs_gp_ring (regcls : Nat) (hc : regcls ≠ regs_vr) :
    ∀ (n : Nat) (s : TmpRegs), reg64_t0 - 1 ≤ s.cur_tmp_gp → s.cur_tmp_gp ≤ reg64_tmax →
      tmpregs regcls n s =
        (List.range n).map (fun i => reg64_t0 + (s.cur_tmp_gp + 1 - reg64_t0 + i) % 16) := by
  intro n
  induction n with
  | zero => intro s _ _; rfl
  | succ n ih =>
    intro s h1 h2
    obtain ⟨hv, hg, _⟩ := get_tmpreg_gp_step s regcls hc h1 h2
    have hmod : (s.cur_tmp_gp + 1 - reg64_t0) % 16 < 16 := Nat.mod_lt _ (by decide)
    have hs1 : reg64_t0 - 1 ≤ (get_tmpreg s regcls).2.cur_tmp_gp := by
      rw [hg, hv]
      simp only [reg64_t0]
      omega
    have hs2 : (get_tmpreg s regcls).2.cur_tmp_gp ≤ reg64_tmax := by
      rw [hg, hv]
      simp only [reg64_t0, reg64_tmax]
      omega
    show (get_tmpreg s regcls).1 :: tmpregs regcls n (get_tmpreg s regcls).2 = _
    rw [ih _ hs1 hs2, hg, hv, List.range_succ_eq_map, List.map_cons, List.map_map]
    refine List.cons_eq_cons.mpr ⟨rfl, List.map_congr_left (fun i _ => ?_)⟩
    simp only [Function.comp, reg64_t0] at *
    omega

/-- C30 (code evaluated at the failing input): on a new frontend (`cur_tmp_vr` is
`reg64_tmm0 - 1 = 15`) the first four calls `get_tmpreg(regs_vr)` return 1, 243, 12 and
254, none of them in `[reg64_tmm0, reg64_tmmmax] = [16, 31]`; sixteen calls
`get_tmpreg(regs_gp)` return 18, 19, .., 33 and the seventeenth returns 18 again. -/
theorem vr_tmpreg_leaves_range :
    tmpregs regs_vr 4 TmpRegs.init = [1, 243, 12, 254] ∧
    ((tmpregs regs_vr 4 TmpRegs.init).filter
      (fun r => reg64_tmm0 ≤ r ∧ r ≤ reg64_tmmmax)) = [] ∧
    tmpregs regs_gp 17 TmpRegs.init =
      [18, 19, 20, 21, 22, 23, 24, 25, 26, 27, 28, 29, 30, 31, 32, 33, 18] := by
  decide

theorem map_insert_none {α : Type} (mp : Nat → Option α) (k : Nat) (v : α) (h : mp k = none) :
    map_insert mp k v = (Function.update mp k (some v), v) := by
  unfold map_insert
  rw [h]

theorem map_page_cases (m : MemoryManager) (addr paddr present : Nat) (pl : Int) (rwx : Nat) :
    ((addr > 0xFFFFFFFF00000000 ∨ addr % 4096 ≠ 0) ∧
      map_page m addr paddr present pl rwx = (m, .error .invalid_pageaddr)) ∨
    (¬ (addr > 0xFFFFFFFF00000000 ∨ addr % 4096 ≠ 0) ∧ m.pagetable addr ≠ none ∧
      map_page m addr paddr present pl rwx = (m, .error .page_already_mapped)) ∨
    (¬ (addr > 0xFFFFFFFF00000000 ∨ addr % 4096 ≠ 0) ∧ m.pagetable addr = none ∧
      map_page m addr paddr present pl rwx =
        (⟨Function.update m.pagetable addr (some ⟨paddr, present, pl, rwx⟩), m.mem, m.ring⟩,
          .ok ⟨paddr, present, pl, rwx⟩)) := by
  have hlim : VADDR_LIMIT = 0xFFFFFFFF00000000 := rfl
  have hps : PAGE_SIZE = 4096 := rfl
  unfold map_page
  rw [hlim, hps]
  by_cases hbad : addr > 0xFFFFFFFF00000000 ∨ addr % 4096 ≠ 0
  · exact Or.inl ⟨hbad, by rw [if_pos hbad]⟩
  · by_cases hpt : m.pagetable addr = none
    · refine Or.inr (Or.inr ⟨hbad, hpt, ?_⟩)
      rw [if_neg hbad, if_neg (by rw [hpt]; simp)]
      dsimp only
      rw [map_insert_none _ _ _ hpt]
    · refine Or.inr (Or.inl ⟨hbad, hpt, ?_⟩)
      rw [if_neg hbad, if_pos (Option.isSome_iff_ne_none.mpr hpt)]

theorem map_frame_cases (m : MemoryManager) (alloc : Bool) (addr : Nat) (pl : Int) (rwx : Nat) :
    ((addr > 0xFFFFFFFF00000000 ∨ addr % 4096 ≠ 0) ∧
      map_frame m alloc addr pl rwx = (m, .error .invalid_pageaddr)) ∨
    (¬ (addr > 0xFFFFFFFF00000000 ∨ addr % 4096 ≠ 0) ∧ m.mem addr ≠ none ∧
      map_frame m alloc addr pl rwx = (m, .error .page_already_mapped)) ∨
    (¬ (addr > 0xFFFFFFFF00000000 ∨ addr % 4096 ≠ 0) ∧ m.mem addr = none ∧
      map_frame m alloc addr pl rwx = (m, .error .allocation_failed)) ∨
    (¬ (addr > 0xFFFFFFFF00000000 ∨ addr % 4096 ≠ 0) ∧ m.mem addr = none ∧
      map_frame m alloc addr pl rwx =
        (⟨m.pagetable, Function.update m.mem addr (some ⟨fun _ => 0, PAGE_SIZE, pl, rwx, 0⟩),
          m.ring⟩, .ok ⟨fun _ => 0, PAGE_SIZE, pl, rwx, 0⟩)) := by
  have hlim : PADDR_LIMIT = 0xFFFFFFFF00000000 := rfl
  have hps : PAGE_SIZE = 4096 := rfl
  unfold map_frame
  rw [hlim, hps]
  by_cases hbad : addr > 0xFFFFFFFF00000000 ∨ addr % 4096 ≠ 0
  · exact Or.inl ⟨hbad, by rw [if_pos hbad]⟩
  · by_cases hm : m.mem addr = none
    · cases alloc with
      | false =>
        refine Or.inr (Or.inr (Or.inl ⟨hbad, hm, ?_⟩))
        rw [if_neg hbad, if_neg (by rw [hm]; simp), if_pos rfl]
      | true =>
        refine Or.inr (Or.inr (Or.inr ⟨hbad, hm, ?_⟩))
        rw [if_neg hbad, if_neg (by rw [hm]; simp), if_neg (by simp)]
        dsimp only
        rw [map_insert_none _ _ _ hm]
    · refine Or.inr (Or.inl ⟨hbad, hm, ?_⟩)
      rw [if_neg hbad, if_pos (Option.isSome_iff_ne_none.mpr hm)]

/-- C23 (as amended): `map_page(vaddr, ..)` and `map_frame(paddr, ..)` fail with an
invalid-page-address error iff the address exceeds 0xFFFF_FFFF_0000_0000 or is not a
multiple of 4096; for an address that passes this test they fail with already-mapped iff
an entry exists at that address; on any failure the page table and the frame map are
unchanged; on success exactly one entry is added, at that address, and all other entries
of both maps are unchanged. -/
theorem map_page_frame_decision (m : MemoryManager) (alloc : Bool)
    (addr paddr present : Nat) (pl : Int) (rwx : Nat) :
    ((map_page m addr paddr present pl rwx).2 = .error .invalid_pageaddr ↔
      (addr > 0xFFFFFFFF00000000 ∨ addr % 4096 ≠ 0)) ∧
    ((map_frame m alloc addr pl rwx).2 = .error .invalid_pageaddr ↔
      (addr > 0xFFFFFFFF00000000 ∨ addr % 4096 ≠ 0)) ∧
    (¬ (addr > 0xFFFFFFFF00000000 ∨ addr % 4096 ≠ 0) →
      ((map_page m addr paddr present pl rwx).2 = .error .page_already_mapped ↔
        m.pagetable addr ≠ none) ∧
      ((map_frame m alloc addr pl rwx).2 = .error .page_already_mapped ↔
        m.mem addr ≠ none)) ∧
    (∀ e, (map_page m addr paddr present pl rwx).2 = .error e →
      (map_page m addr paddr present pl rwx).1 = m) ∧
    (∀ e, (map_frame m alloc addr pl rwx).2 = .error e →
      (map_frame m alloc addr pl rwx).1 = m) ∧
    (∀ pte, (map_page m addr paddr present pl rwx).2 = .ok pte →
      m.pagetable addr = none ∧
      (map_page m addr paddr present pl rwx).1.pagetable addr = some pte ∧
      (∀ k, k ≠ addr → (map_page m addr paddr present pl rwx).1.pagetable k = m.pagetable k) ∧
      (map_page m addr paddr present pl rwx).1.mem = m.mem) ∧
    (∀ f, (map_frame m alloc addr pl rwx).2 = .ok f →
      m.mem addr = none ∧
      (map_frame m alloc addr pl rwx).1.mem addr = some f ∧
      (∀ k, k ≠ addr → (map_frame m alloc addr pl rwx).1.mem k = m.mem k) ∧
      (map_frame m alloc addr pl rwx).1.pagetable = m.pagetable) := by
  have hpage : ((map_page m addr paddr present pl rwx).2 = .error .invalid_pageaddr ↔
        (addr > 0xFFFFFFFF00000000 ∨ addr % 4096 ≠ 0)) ∧
      (¬ (addr > 0xFFFFFFFF00000000 ∨ addr % 4096 ≠ 0) →
        ((map_page m addr paddr present pl rwx).2 = .error .page_already_mapped ↔
          m.pagetable addr ≠ none)) ∧
      (∀ e, (map_page m addr paddr present pl rwx).2 = .error e →
        (map_page m addr paddr present pl rwx).1 = m) ∧
      (∀ pte, (map_page m addr paddr present pl rwx).2 = .ok pte →
        m.pagetable addr = none ∧
        (map_page m addr paddr present pl rwx).1.pagetable addr = some pte ∧
        (∀ k, k ≠ addr →
          (map_page m addr paddr present pl rwx).1.pagetable k = m.pagetable k) ∧
        (map_page m addr paddr present pl rwx).1.mem = m.mem) := by
    rcases map_page_cases m addr paddr present pl rwx with
      ⟨hb, hp⟩ | ⟨hb, hpt, hp⟩ | ⟨hb, hpt, hp⟩ <;> rw [hp]
    · exact ⟨by simp [hb], fun h => absurd hb h, fun _ _ => rfl, fun _ h => by simp at h⟩
    · exact ⟨by simp [hb], fun _ => by simp [hpt], fun _ _ => rfl, fun _ h => by simp at h⟩
    · refine ⟨by simp [hb], fun _ => by simp [hpt], fun _ h => by simp at h, ?_⟩
      intro pte h
      simp only [Except.ok.injEq] at h
      subst h
      exact ⟨hpt, Function.update_same _ _ _, fun k hk => Function.update_noteq hk _ _, rfl⟩
  have hframe : ((map_frame m alloc addr pl rwx).2 = .error .invalid_pageaddr ↔
        (addr > 0xFFFFFFFF00000000 ∨ addr % 4096 ≠ 0)) ∧
      (¬ (addr > 0xFFFFFFFF00000000 ∨ addr % 4096 ≠ 0) →
        ((map_frame m alloc addr pl rwx).2 = .error .page_already_mapped ↔
          m.mem addr ≠ none)) ∧
      (∀ e, (map_frame m alloc addr pl rwx).2 = .error e →
        (map_frame m alloc addr pl rwx).1 = m) ∧
      (∀ f, (map_frame m alloc addr pl rwx).2 = .ok f →
        m.mem addr = none ∧
        (map_frame m alloc addr pl rwx).1.mem addr = some f ∧
        (∀ k, k ≠ addr → (map_frame m alloc addr pl rwx).1.mem k = m.mem k) ∧
        (map_frame m alloc addr pl rwx).1.pagetable = m.pagetable) := by
    rcases map_frame_cases m alloc addr pl rwx with
      ⟨hb, hp⟩ | ⟨hb, hm, hp⟩ | ⟨hb, hm, hp⟩ | ⟨hb, hm, hp⟩ <;> rw [hp]
    · exact ⟨by simp [hb], fun h => absurd hb h, fun _ _ => rfl, fun _ h => by simp at h⟩
    · exact ⟨by simp [hb], fun _ => by simp [hm], fun _ _ => rfl, fun _ h => by simp at h⟩
    · exact ⟨by simp [hb], fun _ => by simp [hm], fun _ _ => rfl, fun _ h => by simp at h⟩
    · refine ⟨by simp [hb], fun _ => by simp [hm], fun _ h => by simp at h, ?_⟩
      intro f h
      simp only [Except.ok.injEq] at h
      subst h
      exact ⟨hm, Function.update_same _ _ _, fun k hk => Function.update_noteq hk _ _, rfl⟩
  exact ⟨hpage.1, hframe.1, fun h => ⟨hpage.2.1 h, hframe.2.1 h⟩, hpage.2.2.1, hframe.2.2.1,
    hpage.2.2.2, hframe.2.2.2⟩

theorem mmap_loop_spec (ext : Nat → Nat) (pl : Int) (rwx : Nat) :
    ∀ (fuel len cur ce : Nat) (mem : Nat → Option PageFrame) (mapped : List (PageFrame × Nat)),
      len / 4096 ≤ fuel → len < 2 ^ 64 → cur < 2 ^ 64 →
      (∀ i, i < len / 4096 → mem (add64 cur (4096 * i)) = none) →
      ∃ mem', mmap_loop ext pl rwx fuel len cur ce mem mapped =
          (len % 4096, add64 cur (4096 * (len / 4096)),
            ce + 4096 * (len / 4096), mem',
            mapped ++ (List.range (len / 4096)).map (fun i =>
              (ext_frame ext pl rwx (ce + 4096 * i) 4096,
                add64 cur (4096 * i)))) ∧
        (∀ i, i < len / 4096 → mem' (add64 cur (4096 * i)) =
          some (ext_frame ext pl rwx (ce + 4096 * i) 4096)) ∧
        (∀ k, (∀ i, i < len / 4096 → k ≠ add64 cur (4096 * i)) → mem' k = mem k) := by
  have hstop : ∀ (len cur ce : Nat) (mem : Nat → Option PageFrame)
      (mapped : List (PageFrame × Nat)), len < 4096 → cur < 2 ^ 64 →
      (len, cur, ce, mem, mapped) =
        (len % 4096, add64 cur (4096 * (len / 4096)),
          ce + 4096 * (len / 4096), mem,
          mapped ++ (List.range (len / 4096)).map (fun i =>
            (ext_frame ext pl rwx (ce + 4096 * i) 4096,
              add64 cur (4096 * i)))) := by
    intro len cur ce mem mapped hl hc
    have hq : len / 4096 = 0 := Nat.div_eq_of_lt hl
    rw [hq, Nat.mod_eq_of_lt hl, Nat.mul_zero, Nat.add_zero, List.range_zero, List.map_nil,
      List.append_nil, add64_of_lt _ _ (by omega), Nat.add_zero]
  intro fuel
  induction fuel with
  | zero =>
    intro len cur ce mem mapped hf _ hc _
    have hl : len < 4096 := by omega
    have hq : len / 4096 = 0 := Nat.div_eq_of_lt hl
    refine ⟨mem, ?_, ?_, fun _ _ => rfl⟩
    · rw [mmap_loop]
      exact hstop len cur ce mem mapped hl hc
    · intro i hi
      omega
  | succ n ih =>
    intro len cur ce mem mapped hf hl64 hc hfree
    by_cases hge : len ≥ 4096
    · have hq : len / 4096 = (len - 4096) / 4096 + 1 := by
        omega
      have hcur : mem cur = none := by
        have h0 := hfree 0 (by rw [hq]; omega)
        rw [Nat.mul_zero, add64_of_lt _ _ (by omega), Nat.add_zero] at h0
        exact h0
      have hq52 : len / 4096 < 2 ^ 52 := by omega
      obtain ⟨mem', hrun, hin, hout⟩ := ih (len - 4096) (add64 cur 4096)
        (ce + 4096) (Function.update mem cur (some (ext_frame ext pl rwx ce 4096)))
        (mapped ++ [(ext_frame ext pl rwx ce 4096, cur)])
        (by omega) (by omega) (by unfold add64; exact Nat.mod_lt _ (by decide))
        (by
          intro i hi
          have hne : add64 (add64 cur 4096) (4096 * i) ≠ cur := by
            unfold add64
            omega
          rw [Function.update_noteq hne]
          have h1 := hfree (i + 1) (by omega)
          have he : add64 (add64 cur 4096) (4096 * i) =
              add64 cur (4096 * (i + 1)) := by
            unfold add64
            omega
          rw [he]
          exact h1)
      refine ⟨mem', ?_, ?_, ?_⟩
      · rw [mmap_loop]
        simp only [PAGE_SIZE]
        rw [if_pos hge]
        rw [map_insert_none _ _ _ hcur, sub64_of_le _ _ hl64 hge]
        show mmap_loop ext pl rwx n (len - 4096) (add64 cur 4096) (ce + 4096)
          (Function.update mem cur (some (ext_frame ext pl rwx ce 4096)))
          (mapped ++ [(ext_frame ext pl rwx ce 4096, cur)]) = _
        rw [hrun, hq, List.range_succ_eq_map, List.map_cons, List.map_map, List.append_assoc,
          List.singleton_append]
        have hmod : (len - 4096) % 4096 = len % 4096 := by
            omega
        have hadd : add64 (add64 cur 4096) (4096 * ((len - 4096) / 4096)) =
            add64 cur (4096 * ((len - 4096) / 4096 + 1)) := by
          unfold add64
          omega
        have hce : ce + 4096 + 4096 * ((len - 4096) / 4096) =
            ce + 4096 * ((len - 4096) / 4096 + 1) := by
          omega
        have hhead : (ext_frame ext pl rwx ce 4096, cur) =
            (ext_frame ext pl rwx (ce + 4096 * 0) 4096,
              add64 cur (4096 * 0)) := by
          rw [Nat.mul_zero, Nat.add_zero, add64_of_lt _ _ (by omega), Nat.add_zero]
        have htail : List.map (fun i =>
              (ext_frame ext pl rwx (ce + 4096 + 4096 * i) 4096,
                add64 (add64 cur 4096) (4096 * i)))
              (List.range ((len - 4096) / 4096)) =
            List.map ((fun i =>
              (ext_frame ext pl rwx (ce + 4096 * i) 4096,
                add64 cur (4096 * i))) ∘ Nat.succ)
              (List.range ((len - 4096) / 4096)) := by
          apply List.map_congr_left
          intro i _
          have h1 : ce + 4096 + 4096 * i = ce + 4096 * (i + 1) := by
            omega
          have h2 : add64 (add64 cur 4096) (4096 * i) =
              add64 cur (4096 * (i + 1)) := by
            unfold add64
            omega
          show (_, _) = (_, _)
          rw [h1, h2]
        rw [hmod, hadd, hce, hhead, htail]
      · intro i hi
        rcases Nat.eq_zero_or_pos i with h0 | hpos
        · subst h0
          have hne : ∀ j, j < (len - 4096) / 4096 →
              add64 cur (4096 * 0) ≠ add64 (add64 cur 4096) (4096 * j) := by
            intro j hj
            unfold add64
            omega
          rw [hout _ hne, Nat.mul_zero, add64_of_lt _ _ (by omega), Nat.add_zero,
            Function.update_same, Nat.add_zero]
        · obtain ⟨j, rfl⟩ : ∃ j, i = j + 1 := ⟨i - 1, by omega⟩
          have h1 := hin j (by omega)
          have he : add64 (add64 cur 4096) (4096 * j) =
              add64 cur (4096 * (j + 1)) := by
            unfold add64
            omega
          have hc2 : ce + 4096 + 4096 * j = ce + 4096 * (j + 1) := by
            omega
          rw [he, hc2] at h1
          exact h1
      · intro k hk
        have h0 := hk 0 (by omega)
        rw [Nat.mul_zero, add64_of_lt _ _ (by omega), Nat.add_zero] at h0
        rw [hout k, Function.update_noteq h0]
        intro j hj
        have h1 := hk (j + 1) (by omega)
        have he : add64 (add64 cur 4096) (4096 * j) =
            add64 cur (4096 * (j + 1)) := by
          unfold add64
          omega
        rw [he]
        exact h1
    · have hl : len < 4096 := Nat.lt_of_not_le hge
      have hq : len / 4096 = 0 := Nat.div_eq_of_lt hl
      refine ⟨mem, ?_, ?_, fun _ _ => rfl⟩
      · rw [mmap_loop]
        simp only [PAGE_SIZE]
        rw [if_neg hge]
        exact hstop len cur ce mem mapped hl hc
      · intro i hi
        omega

theorem mmap_frames_struct (m : MemoryManager) (paddr : Nat) (ext : Nat → Nat) (len : Nat)
    (pl : Int) (rwx : Nat) (hal : paddr % 4096 = 0) (hlim : paddr ≤ 0xFFFFFFFF00000000)
    (hlen : 0 < len) (hlen64 : len < 2 ^ 64)
    (hfree : ∀ i, i < (len + 4095) / 4096 → m.mem (add64 paddr (4096 * i)) = none) :
    ∃ mem', mmap_frames m paddr ext len pl rwx = .ok (⟨m.pagetable, mem', m.ring⟩,
        (List.range (len / 4096)).map (fun i =>
          (ext_frame ext pl rwx (4096 * i) 4096, add64 paddr (4096 * i))) ++
        (if len % 4096 = 0 then [] else
          [(ext_frame ext pl rwx (4096 * (len / 4096)) (len % 4096),
            add64 paddr (4096 * (len / 4096)))])) ∧
      (∀ i, i < len / 4096 →
        mem' (add64 paddr (4096 * i)) = some (ext_frame ext pl rwx (4096 * i) 4096)) ∧
      (len % 4096 ≠ 0 → mem' (add64 paddr (4096 * (len / 4096))) =
        some (ext_frame ext pl rwx (4096 * (len / 4096)) (len % 4096))) := by
  have hp64 : paddr < 2 ^ 64 := by omega
  have h0 : m.mem paddr = none := by
    have := hfree 0 (by omega)
    rw [Nat.mul_zero, add64_of_lt _ _ (by omega), Nat.add_zero] at this
    exact this
  obtain ⟨mem1, hrun, hin, hout⟩ := mmap_loop_spec ext pl rwx len len paddr 0 m.mem []
    (Nat.div_le_self _ _) hlen64 hp64 (fun i hi => hfree i (by omega))
  simp only [Nat.zero_add, List.nil_append] at hrun hin
  have hvalid : ¬ (paddr > PADDR_LIMIT ∨ paddr % PAGE_SIZE ≠ 0) := by
    simp only [PADDR_LIMIT, PAGE_SIZE]
    omega
  have hstart : mmap_frames m paddr ext len pl rwx =
      if len % 4096 ≠ 0 ∧ len % 4096 < PAGE_SIZE then
        .ok ({ m with mem := (map_insert mem1 (add64 paddr (4096 * (len / 4096)))
              (ext_frame ext pl rwx (4096 * (len / 4096)) (len % 4096))).1 },
          (List.range (len / 4096)).map (fun i =>
            (ext_frame ext pl rwx (4096 * i) 4096, add64 paddr (4096 * i))) ++
          [((map_insert mem1 (add64 paddr (4096 * (len / 4096)))
              (ext_frame ext pl rwx (4096 * (len / 4096)) (len % 4096))).2,
            add64 paddr (4096 * (len / 4096)))])
      else .ok ({ m with mem := mem1 },
        (List.range (len / 4096)).map (fun i =>
          (ext_frame ext pl rwx (4096 * i) 4096, add64 paddr (4096 * i)))) := by
    unfold mmap_frames
    rw [if_neg hvalid, if_neg (by rw [h0]; simp), hrun]
    rfl
  rw [hstart]
  by_cases hr : len % 4096 = 0
  · refine ⟨mem1, ?_, hin, fun h => absurd hr h⟩
    rw [if_neg (by simp [hr]), if_pos hr, List.append_nil]
  · have hfreeq : mem1 (add64 paddr (4096 * (len / 4096))) = none := by
      rw [hout]
      · exact hfree _ (by omega)
      · intro i hi
        unfold add64
        omega
    rw [if_pos ⟨hr, by simp only [PAGE_SIZE]; omega⟩, map_insert_none _ _ _ hfreeq, if_neg hr]
    refine ⟨Function.update mem1 (add64 paddr (4096 * (len / 4096)))
      (some (ext_frame ext pl rwx (4096 * (len / 4096)) (len % 4096))), rfl, ?_,
      fun _ => Function.update_same _ _ _⟩
    intro i hi
    have hne : add64 paddr (4096 * i) ≠ add64 paddr (4096 * (len / 4096)) := by
      unfold add64
      omega
    rw [Function.update_noteq hne]
    exact hin i hi

theorem sum_map_full (q : Nat) (g : Nat → PageFrame × Nat)
    (hg : ∀ i, (g i).1.bytes_used = 4096) :
    ((List.range q).map (fun i => (g i).1.bytes_used)).sum = 4096 * q := by
  induction q with
  | zero => rfl
  | succ n ih =>
    rw [List.range_succ, List.map_append, List.sum_append, ih, List.map_singleton,
      List.sum_singleton, hg]
    omega

/-- C24 (as amended): for every page-aligned `paddr` not above `PADDR_LIMIT` and every
`len > 0` such that no frame is mapped at any of the addresses `paddr + 4096*i`
(64-bit) with `i < ceil(len / 4096)`, `mmap_frames` returns `ceil(len / 4096)` frames at
these consecutive addresses, each recorded in the frame map and marked external; every
frame has `bytes_used = 4096`, except that the last has `bytes_used = len mod 4096` when
that is non-zero, and the `bytes_used` values sum to `len`. -/
theorem mmap_frames_consecutive (m : MemoryManager) (paddr : Nat) (ext : Nat → Nat)
    (len : Nat) (pl : Int) (rwx : Nat) (hal : paddr % 4096 = 0)
    (hlim : paddr ≤ 0xFFFFFFFF00000000) (hlen : 0 < len) (hlen64 : len < 2 ^ 64)
    (hfree : ∀ i, i < (len + 4095) / 4096 → m.mem (add64 paddr (4096 * i)) = none) :
    ∃ m' frames, mmap_frames m paddr ext len pl rwx = .ok (m', frames) ∧
      frames.length = (len + 4095) / 4096 ∧
      (∀ i f a, frames[i]? = some (f, a) →
        a = add64 paddr (4096 * i) ∧ m'.mem a = some f ∧ f.ext = 1 ∧
        f.bytes_used = if 4096 * (i + 1) ≤ len then 4096 else len % 4096) ∧
      (frames.map (fun fa => fa.1.bytes_used)).sum = len := by
  obtain ⟨mem', hrun, hin, hlast⟩ :=
    mmap_frames_struct m paddr ext len pl rwx hal hlim hlen hlen64 hfree
  refine ⟨_, _, hrun, ?_, ?_, ?_⟩
  · rw [List.length_append, List.length_map, List.length_range]
    by_cases hr : len % 4096 = 0
    · rw [if_pos hr, List.length_nil]
      omega
    · rw [if_neg hr, List.length_singleton]
      omega
  · intro i f a hget
    by_cases hi : i < len / 4096
    · rw [List.getElem?_append_left (by rw [List.length_map, List.length_range]; exact hi),
        List.getElem?_map, List.getElem?_range hi] at hget
      simp only [Option.map_some', Option.some.injEq, Prod.mk.injEq] at hget
      obtain ⟨hf, ha⟩ := hget
      subst hf
      subst ha
      refine ⟨rfl, hin i hi, rfl, ?_⟩
      rw [if_pos (by omega)]
      rfl
    · rw [List.getElem?_append_right (by rw [List.length_map, List.length_range]; omega),
        List.length_map, List.length_range] at hget
      by_cases hr : len % 4096 = 0
      · rw [if_pos hr] at hget
        simp at hget
      · rw [if_neg hr] at hget
        have hiq : i = len / 4096 := by
          by_contra hne
          have hpos : i - len / 4096 = (i - len / 4096 - 1) + 1 := by omega
          rw [hpos] at hget
          simp at hget
        subst hiq
        rw [Nat.sub_self] at hget
        simp only [List.getElem?_cons_zero, Option.some.injEq, Prod.mk.injEq] at hget
        obtain ⟨hf, ha⟩ := hget
        subst hf
        subst ha
        refine ⟨rfl, hlast hr, rfl, ?_⟩
        rw [if_neg (by omega)]
        rfl
  · rw [List.map_append, List.sum_append, List.map_map]
    have hfull := sum_map_full (len / 4096)
      (fun i => (ext_frame ext pl rwx (4096 * i) 4096, add64 paddr (4096 * i)))
      (fun _ => rfl)
    have hfull2 : (List.map ((fun fa : PageFrame × Nat => fa.1.bytes_used) ∘ fun i =>
        (ext_frame ext pl rwx (4096 * i) 4096, add64 paddr (4096 * i)))
        (List.range (len / 4096))).sum = 4096 * (len / 4096) := hfull
    rw [hfull2]
    by_cases hr : len % 4096 = 0
    · rw [if_pos hr, List.map_nil, List.sum_nil]
      omega
    · rw [if_neg hr, List.map_singleton, List.sum_singleton]
      show 4096 * (len / 4096) + len % 4096 = len
      omega

/-- Witness for C24: 4196 bytes of external memory mapped at 0x8000 in an empty frame
map give two frames. -/
theorem mmap_frames_consecutive_witness :
    ∃ m' frames, mmap_frames ex_mem_none 0x8000 ex_ext 4196 3 0xff = .ok (m', frames) ∧
      frames.length = (4196 + 4095) / 4096 ∧
      (∀ i f a, frames[i]? = some (f, a) →
        a = add64 0x8000 (4096 * i) ∧ m'.mem a = some f ∧ f.ext = 1 ∧
        f.bytes_used = if 4096 * (i + 1) ≤ 4196 then 4096 else 4196 % 4096) ∧
      (frames.map (fun fa => fa.1.bytes_used)).sum = 4196 :=
  mmap_frames_consecutive ex_mem_none 0x8000 ex_ext 4196 3 0xff (by decide) (by decide)
    (by decide) (by decide) (fun _ _ => rfl)

set_option maxRecDepth 100000 in
/-- C24 (counterexample): the page-aligned, unmapped address `PADDR_LIMIT + 4096` is
rejected with `InvalidPageaddrException`; and with a frame already mapped at 0x9000 (by
`map_frame`), `mmap_frames(0x8000, .., 4196, ..)` at the unmapped address 0x8000 returns
that frame as its second one: `bytes_used` is 4096 and not 100, it is not marked
external, and the `bytes_used` values sum to 8192. -/
theorem mmap_frames_keeps_mapped_frame :
    (PADDR_LIMIT + 4096) % 4096 = 0 ∧ ex_mem_none.mem (PADDR_LIMIT + 4096) = none ∧
    Except.err? (mmap_frames ex_mem_none (PADDR_LIMIT + 4096) ex_ext 4196 3 0xff)
      = some .invalid_pageaddr ∧
    ((map_frame ex_mem_none true 0x9000 3 0xff).1.mem 0x8000).isNone = true ∧
    frames_seen (mmap_frames (map_frame ex_mem_none true 0x9000 3 0xff).1 0x8000 ex_ext
      4196 3 0xff) = some [[0x8000, 4096, 1], [0x9000, 4096, 0]] :=
  ⟨by decide, rfl, by decide, by decide, by decide⟩

/-- Witness for C23: in an empty memory manager `map_page` and `map_frame` at 0x8000 do
not fail with already-mapped, and `map_page` adds the entry. -/
theorem map_page_frame_decision_witness :
    (((map_page ex_mem_none 0x8000 0x8000 1 3 0xff).2 = .error .page_already_mapped ↔
        ex_mem_none.pagetable 0x8000 ≠ none) ∧
      ((map_frame ex_mem_none true 0x8000 3 0xff).2 = .error .page_already_mapped ↔
        ex_mem_none.mem 0x8000 ≠ none)) ∧
    (ex_mem_none.pagetable 0x8000 = none ∧
      (map_page ex_mem_none 0x8000 0x8000 1 3 0xff).1.pagetable 0x8000 =
        some ⟨0x8000, 1, 3, 0xff⟩ ∧
      (∀ k, k ≠ 0x8000 →
        (map_page ex_mem_none 0x8000 0x8000 1 3 0xff).1.pagetable k =
          ex_mem_none.pagetable k) ∧
      (map_page ex_mem_none 0x8000 0x8000 1 3 0xff).1.mem = ex_mem_none.mem) :=
  ⟨(map_page_frame_decision ex_mem_none true 0x8000 0x8000 1 3 0xff).2.2.1 (by decide),
    (map_page_frame_decision ex_mem_none true 0x8000 0x8000 1 3 0xff).2.2.2.2.2.1
      ⟨0x8000, 1, 3, 0xff⟩ (by rfl)⟩

set_option maxRecDepth 100000 in
/-- C23 (counterexample): `mmap_frames(PADDR_LIMIT, .., 8192, ..)` on an empty frame map
records a second frame at `PADDR_LIMIT + 4096`. An entry exists at that address, and
`map_frame` there fails with `InvalidPageaddrException`, not with
`PageAlreadyMappedException`. -/
theorem map_frame_entry_above_limit :
    (mmap_frames ex_mem_none PADDR_LIMIT ex_ext 8192 3 0xff).toOption.map
      (fun r => ((r.1.mem (PADDR_LIMIT + 4096)).isSome,
        Except.err? (map_frame r.1 true (PADDR_LIMIT + 4096) 3 0xff).2))
      = some (true, some .invalid_pageaddr) := by
  decide

theorem pageCnt_lt (x : Nat) : pageCnt x < 2 ^ 52 := by
  unfold pageCnt pageCeil
  have h64 : add64 (sub64 x 1) PAGE_SIZE < 2 ^ 64 := by
    unfold add64
    exact Nat.mod_lt _ (by decide)
  rw [pageFloor_eq _ h64]
  simp only [PAGE_SIZE] at h64 ⊢
  omega

theorem is_alias_loop_fuel (m : MemoryManager) (vaddrA lenA vaddrB lenB : Nat) :
    ∀ (fuel i extra : Nat), pageCnt lenA ≤ i + 4096 * fuel →
      is_alias_loop m vaddrA lenA vaddrB lenB (fuel + extra) i =
        is_alias_loop m vaddrA lenA vaddrB lenB fuel i := by
  have hcnt := pageCnt_lt lenA
  intro fuel
  induction fuel with
  | zero =>
    intro i extra h
    cases extra with
    | zero => rfl
    | succ e =>
      rw [Nat.zero_add, is_alias_loop, is_alias_loop, if_neg (by omega)]
  | succ n ih =>
    intro i extra h
    have hform : n + 1 + extra = (n + extra) + 1 := by omega
    rw [hform, is_alias_loop, is_alias_loop]
    by_cases hi : i < pageCnt lenA
    · have hadd : add64 i PAGE_SIZE = i + 4096 := by
        unfold add64
        simp only [PAGE_SIZE]
        omega
      rw [if_pos hi, if_pos hi, hadd, ih (i + 4096) extra (by omega)]
    · rw [if_neg hi, if_neg hi]

/-- C25 (code evaluated at the failing input): the pages 0x8000 and 0x9000 are mapped to
the frames at the same addresses. The ranges `[0x8ff8, 0x8ff8 + 16)` and
`[0x9000, 0x9000 + 8)` intersect: the lower one starts in page 0x8000 and runs into page
0x9000, where the other one starts. `is_alias` returns 0 for them, in either order of
its arguments, and `is_busy(0x8ff8, 16)` returns 0 with a store to `[0x9000, 0x9008)`
pending. For two ranges in one page `is_alias` returns 1. -/
theorem is_alias_misses_page_crossing :
    frameOf ex_mem_two 0x8000 = some 0x8000 ∧ frameOf ex_mem_two 0x9000 = some 0x9000 ∧
    ranges_intersect 0x8ff8 16 0x9000 8 = true ∧
    is_alias ex_mem_two 0x8ff8 16 0x9000 8 = 0 ∧
    is_alias ex_mem_two 0x9000 8 0x8ff8 16 = 0 ∧
    is_busy ex_mem_two [ex_store 0] 0x8ff8 16 = 0 ∧
    is_alias ex_mem_two 0x8ff0 16 0x8ff8 8 = 1 := by
  decide

theorem request_faults_eq (m : MemoryManager) (vaddr size rwx : Nat) :
    request_faults m vaddr size rwx = .ok (page_fault (m.pagetable (pageFloor vaddr))
      (m.pagetable (pageFloor (last_byte vaddr size))) m.ring rwx) := by
  unfold request_faults pages_present bad_pl bad_rwx pte_at page_fault last_byte
  cases hf : m.pagetable (pageFloor vaddr) with
  | none => simp
  | some a =>
    cases hl : m.pagetable (pageFloor (sub64 (add64 vaddr size) 1)) with
    | none => simp
    | some b =>
      simp only [Option.isSome_some, and_self, if_true, one_ne_zero, if_false]
      by_cases h1 : m.ring ≤ a.pl
      · by_cases h2 : m.ring ≤ b.pl
        · by_cases h3 : rwx &&& a.rwx = 0
          · simp [h1, h2, h3]
          · by_cases h4 : rwx &&& b.rwx = 0
            · simp [h1, h2, h3, h4]
            · simp [h1, h2, h3, h4]
        · simp [h1, h2]
          exact Or.inr (Or.inl (Int.lt_of_not_ge h2))
      · simp [h1]
        exact Or.inl (Int.lt_of_not_ge h1)

theorem pages_present_eq (m : MemoryManager) (vaddr size : Nat) :
    pages_present m vaddr size =
      if m.pagetable (pageFloor vaddr) ≠ none ∧
        m.pagetable (pageFloor (last_byte vaddr size)) ≠ none then expf_present else 0 := by
  unfold pages_present last_byte expf_present
  simp only [Option.isSome_iff_ne_none]

/-- C26: `get(req, rx)` returns 1 iff the first or the last page of the request is
unmapped, or the ring exceeds the protection level of one of these pages, or `rx` is not
permitted on one of them. In that case the load buffer (and the store buffer and memory)
are unchanged, the memory reference is marked `mr_valready`, and the exception word is
`setExcept(ex_PF, code)` with `code` the present bit (set iff both pages are mapped), the
ifetch bit (iff `rx` is `MM::p_x`) and the user bit (iff the ring is `pl_user`).
Otherwise it returns 0, marks the memory reference `mr_inexec` and appends the one
request, with `cycle = state.cycle + MM_LD_LATENCY`, to the load buffer. -/
theorem get_decision (p_x : Nat) (u : MemSystem) (req : MM.MemoryRequest) (rx : Nat) :
    ∃ ret req1 u1, get p_x u req rx = .ok (ret, req1, u1) ∧
      (ret = 1 ↔ page_fault (u.mm.pagetable (pageFloor (u.mrefs req.mref).vaddr))
        (u.mm.pagetable (pageFloor (last_byte (u.mrefs req.mref).vaddr
          (u.mrefs req.mref).size))) u.mm.ring rx = true) ∧
      (ret = 1 →
        u1.ldbuf = u.ldbuf ∧ u1.stbuf = u.stbuf ∧ u1.mm = u.mm ∧ u1.bufs = u.bufs ∧
        u1.mrefs req.mref = { u.mrefs req.mref with ready := mr_valready } ∧
        u1.words req.exception = setExcept ex_PF
          ((if u.mm.pagetable (pageFloor (u.mrefs req.mref).vaddr) ≠ none ∧
              u.mm.pagetable (pageFloor (last_byte (u.mrefs req.mref).vaddr
                (u.mrefs req.mref).size)) ≠ none then expf_present else 0) |||
            (if rx = p_x then expf_ifetch else 0) |||
            (if u.mm.ring = 3 then expf_user else 0)) ∧
        getExceptNum (u1.words req.exception) = ex_PF) ∧
      (ret ≠ 1 →
        ret = 0 ∧ req1 = { req with cycle := add64 u.cycle MM_LD_LATENCY } ∧
        u1.ldbuf = u.ldbuf ++ [req1] ∧ u1.stbuf = u.stbuf ∧ u1.mm = u.mm ∧
        u1.bufs = u.bufs ∧ u1.words = u.words ∧
        u1.mrefs req.mref = { u.mrefs req.mref with ready := mr_inexec }) := by
  unfold get
  simp only [request_faults_eq, pages_present_eq]
  cases hF : page_fault (u.mm.pagetable (pageFloor (u.mrefs req.mref).vaddr))
      (u.mm.pagetable (pageFloor (last_byte (u.mrefs req.mref).vaddr
        (u.mrefs req.mref).size))) u.mm.ring rx with
  | true =>
    refine ⟨_, _, _, rfl, by simp, fun _ => ?_, fun h => absurd rfl h⟩
    refine ⟨rfl, rfl, rfl, rfl, Function.update_same _ _ _, Function.update_same _ _ _, ?_⟩
    show getExceptNum (Function.update u.words req.exception _ req.exception) = ex_PF
    rw [Function.update_same]
    have hpl : (pl_user : Int) = 3 := rfl
    unfold expf_present expf_ifetch expf_user
    split_ifs <;> decide
  | false =>
    refine ⟨_, _, _, rfl, by simp, fun h => absurd h (by decide), fun _ => ?_⟩
    exact ⟨rfl, rfl, rfl, rfl, rfl, rfl, rfl, Function.update_same _ _ _⟩

/-- Witness for C26: a load of 16 bytes at 0x8ff8, over the two mapped pages 0x8000 and
0x9000, is accepted at cycle 5. -/
theorem get_decision_witness :
    ∃ ret req1 u1, get 4 ex_sys ex_req 1 = .ok (ret, req1, u1) ∧
      ret = 0 ∧ req1 = { ex_req with cycle := add64 ex_sys.cycle MM_LD_LATENCY } ∧
      u1.ldbuf = ex_sys.ldbuf ++ [req1] ∧ u1.stbuf = ex_sys.stbuf ∧ u1.mm = ex_sys.mm ∧
      u1.bufs = ex_sys.bufs ∧ u1.words = ex_sys.words ∧
      u1.mrefs ex_req.mref = { ex_sys.mrefs ex_req.mref with ready := mr_inexec } := by
  obtain ⟨ret, req1, u1, h, hiff, _, hok⟩ := get_decision 4 ex_sys ex_req 1
  have hne : ret ≠ 1 := by
    intro h1
    have := hiff.mp h1
    revert this
    decide
  exact ⟨ret, req1, u1, h, hok hne⟩

/-- C27: `put(req)` is atomic on failure. When the first or the last page of the request
is unmapped, not writable (`MM::p_w`) or protected against the current ring, it returns
1, sets the exception word to `setExcept(ex_PF, code)` with the write bit in `code`, and
leaves the store buffer, the load buffer, memory and the data buffers unchanged.
Otherwise, with the buffer `localbuf` allocated, it returns 0 and appends exactly one
store, with `cycle = state.cycle + MM_ST_LATENCY`, whose data pointer is `localbuf`;
`localbuf` holds a copy of the `size` bytes of the request, and when `localbuf` is not the
source buffer, no later change of the source buffer changes these bytes. -/
theorem put_atomic_on_failure (p_w : Nat) (alloc : Option Nat) (u : MemSystem)
    (req : MM.MemoryRequest) :
    (page_fault (u.mm.pagetable (pageFloor (u.mrefs req.mref).vaddr))
        (u.mm.pagetable (pageFloor (last_byte (u.mrefs req.mref).vaddr
          (u.mrefs req.mref).size))) u.mm.ring p_w = true →
      ∃ u1, put p_w alloc u req = .ok (1, req, u1) ∧
        u1.stbuf = u.stbuf ∧ u1.ldbuf = u.ldbuf ∧ u1.mm = u.mm ∧ u1.bufs = u.bufs ∧
        u1.words req.exception = setExcept ex_PF
          ((if u.mm.pagetable (pageFloor (u.mrefs req.mref).vaddr) ≠ none ∧
              u.mm.pagetable (pageFloor (last_byte (u.mrefs req.mref).vaddr
                (u.mrefs req.mref).size)) ≠ none then expf_present else 0) |||
            expf_write ||| (if u.mm.ring = 3 then expf_user else 0)) ∧
        getExceptNum (u1.words req.exception) = ex_PF ∧
        getExceptEC (u1.words req.exception) &&& expf_write = expf_write) ∧
    (page_fault (u.mm.pagetable (pageFloor (u.mrefs req.mref).vaddr))
        (u.mm.pagetable (pageFloor (last_byte (u.mrefs req.mref).vaddr
          (u.mrefs req.mref).size))) u.mm.ring p_w = false →
      ∀ localbuf, alloc = some localbuf →
        ∃ req1 u1, put p_w alloc u req = .ok (0, req1, u1) ∧
          req1 = { req with cycle := add64 u.cycle MM_ST_LATENCY } ∧
          u1.stbuf = u.stbuf ++
            [⟨{ u.mrefs req.mref with data := localbuf }, add64 u.cycle MM_ST_LATENCY⟩] ∧
          u1.ldbuf = u.ldbuf ∧ u1.mm = u.mm ∧
          (∀ j, j < (u.mrefs req.mref).size →
            u1.bufs localbuf j = u.bufs (u.mrefs req.mref).data j) ∧
          (localbuf ≠ (u.mrefs req.mref).data → ∀ (g : Nat → Nat) (j : Nat),
            j < (u.mrefs req.mref).size →
            Function.update u1.bufs (u.mrefs req.mref).data g localbuf j =
              u.bufs (u.mrefs req.mref).data j)) := by
  refine ⟨?_, ?_⟩
  · intro hF
    unfold put
    simp only [request_faults_eq, pages_present_eq, hF]
    refine ⟨_, rfl, rfl, rfl, rfl, rfl, Function.update_same _ _ _, ?_, ?_⟩
    · show getExceptNum (Function.update u.words req.exception _ req.exception) = ex_PF
      rw [Function.update_same]
      unfold expf_present expf_write expf_user
      split_ifs <;> decide
    · show getExceptEC (Function.update u.words req.exception _ req.exception) &&&
        expf_write = expf_write
      rw [Function.update_same]
      unfold expf_present expf_write expf_user
      split_ifs <;> decide
  · intro hF localbuf halloc
    subst halloc
    unfold put
    simp only [request_faults_eq, hF]
    refine ⟨_, _, rfl, rfl, rfl, rfl, rfl, ?_, ?_⟩
    · intro j hj
      show Function.update u.bufs localbuf _ localbuf j = _
      rw [Function.update_same, if_pos hj]
    · intro hne g j hj
      rw [Function.update_noteq hne]
      show Function.update u.bufs localbuf _ localbuf j = _
      rw [Function.update_same, if_pos hj]

/-- Witness for C27: a store of 16 bytes at 0x8ff8, over the two mapped pages, is
accepted at cycle 5 with its data copied to buffer 9; overwriting the source buffer 0
afterwards leaves the copy alone. -/
theorem put_atomic_on_failure_witness :
    ∃ req1 u1, put 2 (some 9) ex_sys ex_req = .ok (0, req1, u1) ∧
      req1 = { ex_req with cycle := add64 ex_sys.cycle MM_ST_LATENCY } ∧
      u1.stbuf = ex_sys.stbuf ++
        [⟨{ ex_sys.mrefs ex_req.mref with data := 9 }, add64 ex_sys.cycle MM_ST_LATENCY⟩] ∧
      u1.ldbuf = ex_sys.ldbuf ∧ u1.mm = ex_sys.mm ∧
      (∀ j, j < (ex_sys.mrefs ex_req.mref).size →
        u1.bufs 9 j = ex_sys.bufs (ex_sys.mrefs ex_req.mref).data j) ∧
      (9 ≠ (ex_sys.mrefs ex_req.mref).data → ∀ (g : Nat → Nat) (j : Nat),
        j < (ex_sys.mrefs ex_req.mref).size →
        Function.update u1.bufs (ex_sys.mrefs ex_req.mref).data g 9 j =
          ex_sys.bufs (ex_sys.mrefs ex_req.mref).data j) :=
  (put_atomic_on_failure 2 (some 9) ex_sys ex_req).2 (by decide) 9 rfl

theorem refresh_stores_spec (p_w cycle : Nat) (bufs : Nat → Nat → Nat) :
    ∀ (l : List MM.StoreRequest) (m : MemoryManager) (l1 : List MM.StoreRequest)
      (m1 : MemoryManager), l.Pairwise (fun a b => a.cycle ≤ b.cycle) →
      refresh_stores p_w cycle bufs l m = .ok (l1, m1) →
      write_stores p_w bufs (l.filter (fun s => decide (s.cycle ≤ cycle))) m = .ok m1 ∧
      l1 = l.filter (fun s => decide (cycle < s.cycle)) := by
  intro l
  induction l with
  | nil =>
    intro m l1 m1 _ h
    simp only [refresh_stores, Except.ok.injEq, Prod.mk.injEq] at h
    obtain ⟨h1, h2⟩ := h
    subst h1
    subst h2
    exact ⟨rfl, rfl⟩
  | cons s rest ih =>
    intro m l1 m1 hs h
    rw [List.pairwise_cons] at hs
    obtain ⟨hhd, htl⟩ := hs
    rw [refresh_stores] at h
    by_cases hc : cycle < s.cycle
    · rw [if_pos hc] at h
      simp only [Except.ok.injEq, Prod.mk.injEq] at h
      obtain ⟨h1, h2⟩ := h
      subst h1
      subst h2
      have hall : ∀ x ∈ s :: rest, cycle < x.cycle := by
        intro x hx
        rcases List.mem_cons.mp hx with hx | hx
        · rw [hx]; exact hc
        · exact Nat.lt_of_lt_of_le hc (hhd x hx)
      have hnone : (s :: rest).filter (fun s => decide (s.cycle ≤ cycle)) = [] := by
        rw [List.filter_eq_nil_iff]
        intro x hx
        have := hall x hx
        simp only [decide_eq_true_eq]
        omega
      have hallf : (s :: rest).filter (fun s => decide (cycle < s.cycle)) = s :: rest := by
        rw [List.filter_eq_self]
        intro x hx
        simp only [decide_eq_true_eq]
        exact hall x hx
      rw [hnone, hallf]
      exact ⟨rfl, rfl⟩
    · rw [if_neg hc] at h
      have hle : s.cycle ≤ cycle := Nat.le_of_not_lt hc
      rw [List.filter_cons_of_pos (by simpa using hle),
        List.filter_cons_of_neg (by simpa using hle), write_stores]
      cases hw : write m p_w s.mref.vaddr (bufs s.mref.data) s.mref.size with
      | error e =>
        rw [hw] at h
        simp at h
      | ok m2 =>
        rw [hw] at h
        exact ih m2 l1 m1 htl h

theorem load_due_congr (m : MemoryManager) (stbuf : List MM.StoreRequest) (cycle : Nat)
    (mrefs mrefs1 : Nat → MM.MemoryRef)
    (h : ∀ k, (mrefs1 k).vaddr = (mrefs k).vaddr ∧ (mrefs1 k).size = (mrefs k).size)
    (mr : MM.MemoryRequest) :
    load_due m stbuf cycle mrefs1 mr = load_due m stbuf cycle mrefs mr := by
  unfold load_due
  rw [(h mr.mref).1, (h mr.mref).2]

theorem refresh_loads_spec (p_r : Nat) (m : MemoryManager) (stbuf : List MM.StoreRequest)
    (cycle : Nat) :
    ∀ (l kept : List MM.MemoryRequest) (mrefs mrefs1 : Nat → MM.MemoryRef)
      (bufs bufs1 : Nat → Nat → Nat),
      refresh_loads p_r m stbuf cycle l mrefs bufs = .ok (kept, mrefs1, bufs1) →
      kept = l.filter (fun mr => !load_due m stbuf cycle mrefs mr) ∧
      exec_loads p_r m (l.filter (fun mr => load_due m stbuf cycle mrefs mr)) mrefs bufs =
        .ok (mrefs1, bufs1) ∧
      (∀ k, (mrefs1 k).vaddr = (mrefs k).vaddr ∧ (mrefs1 k).size = (mrefs k).size) ∧
      (∀ k, (mrefs k).ready = mr_valready → (mrefs1 k).ready = mr_valready) ∧
      (∀ mr, mr ∈ l → load_due m stbuf cycle mrefs mr = true →
        (mrefs1 mr.mref).ready = mr_valready) := by
  intro l
  induction l with
  | nil =>
    intro kept mrefs mrefs1 bufs bufs1 h
    simp only [refresh_loads, Except.ok.injEq, Prod.mk.injEq] at h
    obtain ⟨h1, h2, h3⟩ := h
    subst h1
    subst h2
    subst h3
    exact ⟨rfl, rfl, fun _ => ⟨rfl, rfl⟩, fun _ hk => hk, fun _ hmr => by simp at hmr⟩
  | cons mr rest ih =>
    intro kept mrefs mrefs1 bufs bufs1 h
    rw [refresh_loads] at h
    by_cases hc : cycle < mr.cycle ∨
        is_busy m stbuf (mrefs mr.mref).vaddr (mrefs mr.mref).size ≠ 0
    · rw [if_pos hc] at h
      have hnd : load_due m stbuf cycle mrefs mr = false := by
        unfold load_due
        simp only [decide_eq_false_iff_not, not_and]
        intro hle hb
        rcases hc with hc | hc
        · omega
        · exact hc hb
      cases hr : refresh_loads p_r m stbuf cycle rest mrefs bufs with
      | error e =>
        rw [hr] at h
        simp at h
      | ok res =>
        obtain ⟨kept2, mrefs2, bufs2⟩ := res
        rw [hr] at h
        simp only [Except.ok.injEq, Prod.mk.injEq] at h
        obtain ⟨h1, h2, h3⟩ := h
        subst h1
        subst h2
        subst h3
        obtain ⟨hk, he, hsame, hkeep, hdone⟩ := ih kept2 mrefs mrefs2 bufs bufs2 hr
        refine ⟨?_, ?_, hsame, hkeep, ?_⟩
        · rw [List.filter_cons_of_pos (by rw [hnd]; rfl), hk]
        · rw [List.filter_cons_of_neg (by rw [hnd]; simp)]
          exact he
        · intro x hx hdue
          rcases List.mem_cons.mp hx with hx | hx
          · rw [hx, hnd] at hdue
            exact absurd hdue (by simp)
          · exact hdone x hx hdue
    · rw [if_neg hc] at h
      have hd : load_due m stbuf cycle mrefs mr = true := by
        unfold load_due
        simp only [decide_eq_true_eq]
        refine ⟨?_, ?_⟩
        · by_contra hlt
          exact hc (Or.inl (Nat.lt_of_not_le hlt))
        · by_contra hb
          exact hc (Or.inr hb)
      cases hr : read m (mrefs mr.mref).vaddr (bufs (mrefs mr.mref).data)
          (mrefs mr.mref).size p_r with
      | error e =>
        rw [hr] at h
        simp at h
      | ok res =>
        obtain ⟨lat, n, data1⟩ := res
        rw [hr] at h
        dsimp only at h
        obtain ⟨hk, he, hsame, hkeep, hdone⟩ := ih kept _ mrefs1 _ bufs1 h
        have hagree : ∀ k,
            (Function.update mrefs mr.mref
              { mrefs mr.mref with ready := mr_valready } k).vaddr = (mrefs k).vaddr ∧
            (Function.update mrefs mr.mref
              { mrefs mr.mref with ready := mr_valready } k).size = (mrefs k).size := by
          intro k
          by_cases hkk : k = mr.mref
          · subst hkk
            rw [Function.update_same]
            exact ⟨rfl, rfl⟩
          · rw [Function.update_noteq hkk]
            exact ⟨rfl, rfl⟩
        have hcongr := load_due_congr m stbuf cycle mrefs _ hagree
        refine ⟨?_, ?_, ?_, ?_, ?_⟩
        · rw [List.filter_cons_of_neg (by rw [hd]; simp), hk]
          apply List.filter_congr
          intro x _
          rw [hcongr x]
        · rw [List.filter_cons_of_pos hd, exec_loads, hr]
          dsimp only
          rw [← he]
          congr 1
          apply List.filter_congr
          intro x _
          rw [hcongr x]
        · intro k
          exact ⟨(hsame k).1.trans (hagree k).1, (hsame k).2.trans (hagree k).2⟩
        · intro k hk1
          apply hkeep
          by_cases hkk : k = mr.mref
          · subst hkk
            rw [Function.update_same]
          · rw [Function.update_noteq hkk]
            exact hk1
        · intro x hx hdue
          rcases List.mem_cons.mp hx with hx | hx
          · apply hkeep
            rw [hx, Function.update_same]
          · apply hdone x hx
            rw [hcongr x]
            exact hdue

set_option maxRecDepth 100000 in
theorem ex_refresh_ok : refresh 1 2 ex_sys_pending = .ok ex_sys_refreshed := by
  have hs : (refresh 1 2 ex_sys_pending).toOption.isSome = true := by decide
  unfold ex_sys_refreshed
  cases h : refresh 1 2 ex_sys_pending with
  | ok u => rfl
  | error e =>
    rw [h] at hs
    simp [Except.toOption] at hs

/-- C28: after `refresh` has returned at cycle `now`, with the store buffer ordered by
non-decreasing cycle: the pending stores with `cycle <= now` have been written to memory
in buffer order and removed, the stores with `cycle > now` remain in order; the pending
loads with `cycle <= now` for whose range `is_busy` reports no remaining pending store
have been executed in buffer order (read into their data buffers from the memory after
the stores), marked `mr_valready` and removed, and the other loads remain in their
original relative order. -/
theorem refresh_executes_due_requests (p_r p_w : Nat) (u u1 : MemSystem)
    (hsorted : u.stbuf.Pairwise (fun a b => a.cycle ≤ b.cycle))
    (h : refresh p_r p_w u = .ok u1) :
    write_stores p_w u.bufs (u.stbuf.filter (fun s => decide (s.cycle ≤ u.cycle))) u.mm =
      .ok u1.mm ∧
    u1.stbuf = u.stbuf.filter (fun s => decide (u.cycle < s.cycle)) ∧
    u1.ldbuf = u.ldbuf.filter (fun mr => !load_due u1.mm u1.stbuf u.cycle u.mrefs mr) ∧
    exec_loads p_r u1.mm
      (u.ldbuf.filter (fun mr => load_due u1.mm u1.stbuf u.cycle u.mrefs mr))
      u.mrefs u.bufs = .ok (u1.mrefs, u1.bufs) ∧
    (∀ mr, mr ∈ u.ldbuf → load_due u1.mm u1.stbuf u.cycle u.mrefs mr = true →
      (u1.mrefs mr.mref).ready = mr_valready) := by
  unfold refresh at h
  cases hst : refresh_stores p_w u.cycle u.bufs u.stbuf u.mm with
  | error e =>
    rw [hst] at h
    simp at h
  | ok res =>
    obtain ⟨stbuf1, mm1⟩ := res
    rw [hst] at h
    dsimp only at h
    cases hld : refresh_loads p_r mm1 stbuf1 u.cycle u.ldbuf u.mrefs u.bufs with
    | error e =>
      rw [hld] at h
      simp at h
    | ok res2 =>
      obtain ⟨ldbuf1, mrefs1, bufs1⟩ := res2
      rw [hld] at h
      simp only [Except.ok.injEq] at h
      subst h
      obtain ⟨hw, hkept⟩ := refresh_stores_spec p_w u.cycle u.bufs u.stbuf u.mm stbuf1 mm1
        hsorted hst
      obtain ⟨hk, he, _, _, hdone⟩ := refresh_loads_spec p_r mm1 stbuf1 u.cycle u.ldbuf
        ldbuf1 u.mrefs mrefs1 u.bufs bufs1 hld
      exact ⟨hw, hkept, hk, he, hdone⟩

set_option maxRecDepth 100000 in
/-- Witness for C28: at cycle 5, with stores due at cycles 3 and 9 and loads due at
cycles 4, 7 and 5, `refresh` leaves the store of cycle 9 and the load of cycle 7. -/
theorem refresh_executes_due_requests_witness :
    (write_stores 2 ex_sys_pending.bufs
        (ex_sys_pending.stbuf.filter (fun s => decide (s.cycle ≤ ex_sys_pending.cycle)))
        ex_sys_pending.mm = .ok ex_sys_refreshed.mm ∧
      ex_sys_refreshed.stbuf =
        ex_sys_pending.stbuf.filter (fun s => decide (ex_sys_pending.cycle < s.cycle)) ∧
      ex_sys_refreshed.ldbuf = ex_sys_pending.ldbuf.filter (fun mr =>
        !load_due ex_sys_refreshed.mm ex_sys_refreshed.stbuf ex_sys_pending.cycle
          ex_sys_pending.mrefs mr) ∧
      exec_loads 1 ex_sys_refreshed.mm
        (ex_sys_pending.ldbuf.filter (fun mr =>
          load_due ex_sys_refreshed.mm ex_sys_refreshed.stbuf ex_sys_pending.cycle
            ex_sys_pending.mrefs mr))
        ex_sys_pending.mrefs ex_sys_pending.bufs =
          .ok (ex_sys_refreshed.mrefs, ex_sys_refreshed.bufs) ∧
      (∀ mr, mr ∈ ex_sys_pending.ldbuf →
        load_due ex_sys_refreshed.mm ex_sys_refreshed.stbuf ex_sys_pending.cycle
          ex_sys_pending.mrefs mr = true →
        (ex_sys_refreshed.mrefs mr.mref).ready = mr_valready)) ∧
    ex_sys_refreshed.stbuf = [ex_store 9] ∧ ex_sys_refreshed.ldbuf = [⟨1, 1, 7⟩] :=
  ⟨refresh_executes_due_requests 1 2 ex_sys_pending ex_sys_refreshed (by decide)
    ex_refresh_ok, by decide, by decide⟩

theorem nat_or_eq_zero (a b : Nat) : a ||| b = 0 ↔ a = 0 ∧ b = 0 := by
  constructor
  · intro h
    have hbit : ∀ i, a.testBit i = false ∧ b.testBit i = false := by
      intro i
      have hi := congrArg (fun x => x.testBit i) h
      simpa [Nat.testBit_or] using hi
    exact ⟨Nat.eq_of_testBit_eq (fun i => by simp [(hbit i).1]),
      Nat.eq_of_testBit_eq (fun i => by simp [(hbit i).2])⟩
  · rintro ⟨rfl, rfl⟩
    rfl

set_option maxRecDepth 100000 in
theorem modrm_fields (b : Nat) (h : b < 256) :
    modrm_get_mod b = b / 64 ∧ modrm_get_rm b = b % 8 ∧ modrm_get_reg b = b / 8 % 8 := by
  have hall : ∀ b, b < 256 →
      (modrm_get_mod b = b / 64 ∧ modrm_get_rm b = b % 8 ∧ modrm_get_reg b = b / 8 % 8) := by
    decide
  exact hall b h

/-- C35: `get_displsz(modrm, sib)` follows the ModR/M rules for every pair of bytes, with
mod = bits 7..6 and rm = bits 2..0 of `modrm` and base = bits 2..0 of `sib`: it is 0 when
mod = 11, 1 when mod = 01, 4 when mod = 10, and when mod = 00 it is 4 if rm = 101 or
(rm = 100 and base = 101), else 0; and `use_sib(modrm)` holds iff mod != 11 and
rm = 100. -/
theorem get_displsz_rules (modrm sib : Nat) (hm : modrm < 256) (hs : sib < 256) :
    (modrm / 64 = 0b11 → get_displsz modrm sib = 0) ∧
    (modrm / 64 = 0b01 → get_displsz modrm sib = 1) ∧
    (modrm / 64 = 0b10 → get_displsz modrm sib = 4) ∧
    (modrm / 64 = 0b00 → get_displsz modrm sib =
      if modrm % 8 = 0b101 ∨ (modrm % 8 = 0b100 ∧ sib % 8 = 0b101) then 4 else 0) ∧
    (use_sib modrm ≠ 0 ↔ (modrm / 64 ≠ 0b11 ∧ modrm % 8 = 0b100)) := by
  obtain ⟨hmod, hrm, _⟩ := modrm_fields modrm hm
  have hb : sib_get_b sib = sib % 8 := (modrm_fields sib hs).2.1
  have hlt : modrm / 64 < 4 := by omega
  unfold get_displsz use_sib
  rw [hmod, hrm, hb]
  refine ⟨?_, ?_, ?_, ?_, ?_⟩
  · intro h
    simp [h]
  · intro h
    simp [h]
  · intro h
    simp [h]
  · intro h
    simp only [h]
    by_cases h4 : modrm % 8 = 4
    · by_cases h5 : sib % 8 = 5
      · simp [h4, h5]
      · simp [h4, h5]
    · by_cases h5 : modrm % 8 = 5
      · simp [h4, h5]
      · simp [h4, h5]
  · by_cases h : modrm / 64 ≠ 3 ∧ modrm % 8 = 4
    · simp [h]
    · simp [h]

/-- Witness for C35: the byte pair 0x04, 0x25 (mod 00, rm 100, base 101) has a
displacement of four bytes. -/
theorem get_displsz_rules_witness :
    get_displsz 0x04 0x25 =
      if 0x04 % 8 = 0b101 ∨ (0x04 % 8 = 0b100 ∧ 0x25 % 8 = 0b101) then 4 else 0 :=
  (get_displsz_rules 0x04 0x25 (by decide) (by decide)).2.2.2.1 (by decide)

theorem test_cc_pairs (ccreg : Nat) :
    (test_cc scc_BE ccreg = (flag_set ccreg cc_CF || flag_set ccreg cc_ZF)) ∧
    ∀ k, k < 8 → test_cc (2 * k + 1) ccreg = !test_cc (2 * k) ccreg := by
  refine ⟨?_, ?_⟩
  · have hor : ccreg &&& (cc_CF ||| cc_ZF) = (ccreg &&& cc_CF) ||| (ccreg &&& cc_ZF) :=
      Nat.and_or_distrib_left _ _ _
    unfold flag_set
    simp only [test_cc, scc_BE, scc_O, scc_NO, scc_B, scc_NB, scc_E, scc_NE]
    rw [hor]
    by_cases hc : ccreg &&& cc_CF = 0
    · by_cases hz : ccreg &&& cc_ZF = 0
      · simp [hc, hz]
      · simp [hc, hz]
    · have hne : ¬ ((ccreg &&& cc_CF) ||| (ccreg &&& cc_ZF) = 0) :=
        fun h => hc ((nat_or_eq_zero _ _).mp h).1
      simp [hc, hne]
  · intro k hk
    interval_cases k <;>
      simp [test_cc, scc_O, scc_NO, scc_B, scc_NB, scc_E, scc_NE, scc_BE, scc_NBE, scc_S,
        scc_NS, scc_P, scc_NP, scc_L, scc_NL, scc_LE, scc_NLE]

/-- C39 (code evaluated at the failing input): with SF and OF both set (flags 0x0880),
so that SF = OF, `test_cc(scc_L)` holds, and with ZF clear `test_cc(scc_LE)` holds as
well; the code tests `ccreg & (cc_SF ^ cc_OF)`, the two flags under one mask, which is
non-zero when either flag is set. With SF set alone (0x0080) both hold, as they
should. -/
theorem test_cc_less_with_equal_flags :
    flag_set 0x0880 cc_SF = true ∧ flag_set 0x0880 cc_OF = true ∧
    flag_set 0x0880 cc_ZF = false ∧
    test_cc scc_L 0x0880 = true ∧ test_cc scc_LE 0x0880 = true ∧
    test_cc scc_NL 0x0880 = false ∧
    test_cc scc_L 0x0080 = true ∧ test_cc scc_LE 0x0080 = true := by
  decide

theorem bits_set_zero_iff (y : Nat) : bits_set y = 0 ↔ ∀ i, i < 64 → y.testBit i = false := by
  unfold bits_set
  rw [List.countP_eq_zero]
  constructor
  · intro h i hi
    have := h i (List.mem_range.mpr hi)
    simpa using this
  · intro h i hi
    simp [h i (List.mem_range.mp hi)]

theorem bits_set_low (y : Nat) (hy : y < 2 ^ 16) :
    bits_set y = (List.range 16).countP (fun i => y.testBit i) := by
  unfold bits_set
  have hsplit : List.range 64 = List.range 16 ++ (List.range 48).map (fun i => 16 + i) := by
    decide
  rw [hsplit, List.countP_append]
  have hzero : List.countP (fun i => y.testBit i) ((List.range 48).map (fun i => 16 + i)) = 0 := by
    rw [List.countP_eq_zero]
    intro i hi
    obtain ⟨k, _, rfl⟩ := List.mem_map.mp hi
    have hlt : y < 2 ^ (16 + k) :=
      Nat.lt_of_lt_of_le hy (Nat.pow_le_pow_right (by decide) (Nat.le_add_right _ _))
    simp [Nat.testBit_lt_two_pow hlt]
  rw [hzero, Nat.add_zero]

theorem bits_set_full_iff (y : Nat) (hy : y < 2 ^ 16) :
    bits_set y = 16 ↔ ∀ i, i < 16 → y.testBit i = true := by
  rw [bits_set_low y hy]
  have hlen : (List.range 16).length = 16 := List.length_range 16
  constructor
  · intro h i hi
    have hall := List.countP_eq_length.mp (h.trans hlen.symm)
    exact hall i (List.mem_range.mpr hi)
  · intro h
    rw [← hlen]
    exact List.countP_eq_length.mpr (fun i hi => h i (List.mem_range.mp hi))

/-- C38: for every 64-bit `vaddr`, `MM::is_canonical(vaddr)` is true iff the bits 63..47
of `vaddr` are all equal: all zero or all one. -/
theorem is_canonical_iff (vaddr : Nat) (h : vaddr < 2 ^ 64) :
    is_canonical vaddr ≠ 0 ↔
      ((∀ i, 47 ≤ i → i ≤ 63 → vaddr.testBit i = false) ∨
        (∀ i, 47 ≤ i → i ≤ 63 → vaddr.testBit i = true)) := by
  have hy : vaddr >>> 48 < 2 ^ 16 := by
    rw [Nat.shiftRight_eq_div_pow]
    omega
  have hbit : ∀ i, (vaddr >>> 48).testBit i = vaddr.testBit (48 + i) := by
    intro i
    rw [Nat.testBit_shiftRight]
  have h47 : ((vaddr >>> 47) &&& 1 ≠ 0) ↔ vaddr.testBit 47 = true := by
    rw [Nat.testBit, Nat.one_and_eq_mod_two, Nat.and_one_is_mod]
    simp
  have hhigh : ∀ i, 64 ≤ i → vaddr.testBit i = false := by
    intro i hi
    exact Nat.testBit_lt_two_pow (Nat.lt_of_lt_of_le h (Nat.pow_le_pow_right (by decide) hi))
  unfold is_canonical
  simp only [ADDR_BITS, ADDR_SIZE]
  by_cases hneg : (vaddr >>> 47) &&& 1 ≠ 0
  · have hb47 := h47.mp hneg
    rw [if_pos hneg]
    constructor
    · intro hc
      have hfull : bits_set (vaddr >>> 48) = 16 := by
        by_contra hne
        rw [if_neg hne] at hc
        exact hc rfl
      have hall := (bits_set_full_iff _ hy).mp hfull
      right
      intro i h1 h2
      by_cases hi : i = 47
      · rw [hi]; exact hb47
      · have := hall (i - 48) (by omega)
        rw [hbit] at this
        have he : 48 + (i - 48) = i := by omega
        rw [he] at this
        exact this
    · intro hc
      rcases hc with hc | hc
      · have := hc 47 (Nat.le_refl _) (by decide)
        rw [hb47] at this
        exact absurd this (by decide)
      · have hfull : bits_set (vaddr >>> 48) = 16 := by
          rw [bits_set_full_iff _ hy]
          intro i hi
          rw [hbit]
          exact hc (48 + i) (by omega) (by omega)
        rw [if_pos hfull]
        decide
  · have hb47 : vaddr.testBit 47 = false := by
      cases hb : vaddr.testBit 47 with
      | false => rfl
      | true => exact absurd (h47.mpr hb) hneg
    rw [if_neg hneg]
    constructor
    · intro hc
      have hz : bits_set (vaddr >>> 48) = 0 := by
        by_contra hne
        rw [if_neg hne] at hc
        exact hc rfl
      have hall := (bits_set_zero_iff _).mp hz
      left
      intro i h1 h2
      by_cases hi : i = 47
      · rw [hi]; exact hb47
      · have := hall (i - 48) (by omega)
        rw [hbit] at this
        have he : 48 + (i - 48) = i := by omega
        rw [he] at this
        exact this
    · intro hc
      rcases hc with hc | hc
      · have hz : bits_set (vaddr >>> 48) = 0 := by
          rw [bits_set_zero_iff]
          intro i hi
          rw [hbit]
          by_cases h16 : i < 16
          · exact hc (48 + i) (by omega) (by omega)
          · exact hhigh _ (by omega)
        rw [if_pos hz]
        decide
      · have := hc 47 (Nat.le_refl _) (by decide)
        rw [hb47] at this
        exact absurd this (by decide)

/-- Witness for C38: the address 0xffff800000000000 is canonical. -/
theorem is_canonical_iff_witness :
    is_canonical 0xffff800000000000 ≠ 0 ↔
      ((∀ i, 47 ≤ i → i ≤ 63 → (0xffff800000000000 : Nat).testBit i = false) ∨
        (∀ i, 47 ≤ i → i ≤ 63 → (0xffff800000000000 : Nat).testBit i = true)) :=
  is_canonical_iff 0xffff800000000000 (by decide)

theorem bitmask_bytes : bitmask (1 * 8) = 2 ^ 8 - 1 ∧ bitmask (2 * 8) = 2 ^ 16 - 1 ∧
    bitmask (4 * 8) = 2 ^ 32 - 1 ∧ bitmask (8 * 8) = 2 ^ 64 - 1 := by
  decide

/-- The macro `sx(x, f, t)` on the widths 1, 2, 4 and 8: the sign extension of the low
`f` bytes of `x`, truncated to `t` bytes. -/
theorem sx_sign_extends (x f t : Nat) (hx : x < 2 ^ 64)
    (hf : f = 1 ∨ f = 2 ∨ f = 4 ∨ f = 8) (ht : t = 1 ∨ t = 2 ∨ t = 4 ∨ t = 8) :
    sx x f t = truncate_to (sign_extend x f) t ∧ sx x f t < 2 ^ (8 * t) := by
  obtain ⟨hb1, hb2, hb4, hb8⟩ := bitmask_bytes
  have hmain : sx x f t = truncate_to (sign_extend x f) t := by
    unfold sx truncate_to sign_extend toU64 toI64
    rcases hf with rfl | rfl | rfl | rfl <;> rcases ht with rfl | rfl | rfl | rfl <;>
      simp only [hb1, hb2, hb4, hb8, Nat.and_pow_two_sub_one_eq_mod, Nat.shiftLeft_eq] <;>
      norm_num <;> split_ifs <;> omega
  refine ⟨hmain, ?_⟩
  rw [hmain]
  unfold truncate_to
  have hpos : (0 : Int) < 2 ^ (8 * t) := by positivity
  have h1 := Int.emod_lt_of_pos (sign_extend x f) hpos
  have h2 := Int.emod_nonneg (sign_extend x f) (ne_of_gt hpos)
  zify
  rw [Int.toNat_of_nonneg h2]
  exact_mod_cast h1

/-- Every entry of the uop table outside the float and vector pipelines passes the
port test, checked by evaluation over the whole table. -/
theorem uopmap_issuable_all :
    uopmap.all (fun p => decide (p.2.fu_type ∈ float_vector_fus) ||
      issuable ReservationStation.ports p.2.ports p.2.fu_type) = true := by
  decide

set_option maxRecDepth 100000 in
/-- C40 (counterexample): the table entry of `ld.f` (opcode 0x2020) asks for a float load
unit on ports 0 and 3, no port of the fixed topology hosts one, and `find_fu` finds no unit
for it on the idle reservation station; the same holds for the nine float and vector
entries of the table, and for no other entry. -/
theorem float_load_not_issuable :
    (uopmap_at 0x2020).map (fun e => (e.ports, e.fu_type)) = some (port_ctrl, fu_ldf) ∧
    issuable ReservationStation.ports port_ctrl fu_ldf = false ∧
    find_fu ReservationStation.ports port_ctrl fu_ldf = none ∧
    (uopmap.filter (fun p => !issuable ReservationStation.ports p.2.ports p.2.fu_type)).map
      (fun p => p.1) =
      [0x2000, 0x2020, 0x2030, 0x3000, 0x3020, 0x3021, 0x3030, 0x3031, 0x4000] := by
  decide

/-- C40 (amended): every entry of the uop table whose FU type is not one of the float
and vector types (fpu, vec, ldf, stf, ldv, stv) is issuable on the fixed port topology:
some port of its port mask hosts a functional unit of its FU type, or its FU type is
`fu_any`. -/
theorem uopmap_entries_issuable (opcode : Nat) (e : uopinfo)
    (hmem : (opcode, e) ∈ uopmap) (hfu : e.fu_type ∉ float_vector_fus) :
    issuable ReservationStation.ports e.ports e.fu_type = true := by
  have h := List.all_eq_true.mp uopmap_issuable_all (opcode, e) hmem
  simpa [hfu] using h

set_option maxRecDepth 100000 in
/-- Witness for C40: the table entry of the integer load `ld` (opcode 0x0020). -/
theorem uopmap_entries_issuable_witness :
    issuable ReservationStation.ports port_ld fu_ld = true :=
  uopmap_entries_issuable 0x0020 ⟨"ld", port_ld, fu_ld, 0xffff, 1⟩ (by decide) (by decide)

/-- Pushing onto a queue with room appends the entries at the back, in order. -/
theorem push_all_ok {T : Type} (es : List (Nat × T)) (q : LatchQueue T)
    (h : q.queue.length + es.length ≤ q.max_size) :
    q.push_all es = .ok ⟨q.max_size, q.queue ++ es.map (fun p => ⟨p.1, p.2⟩)⟩ := by
  induction es generalizing q with
  | nil => simp [LatchQueue.push_all]
  | cons p r ih =>
    simp only [List.length_cons] at h
    have hroom : ¬ q.max_size ≤ q.queue.length := by omega
    simp only [LatchQueue.push_all, LatchQueue.push_back, hroom, if_false]
    rw [ih]
    · simp
    · simp only [List.length_append, List.length_singleton]
      omega

/-- Draining a queue whose entries are all ready returns them oldest first. -/
theorem drain_ok {T : Type} (now : Nat) (l : List (LatchQElem T)) (m : Nat)
    (h : ∀ e ∈ l, e.cycle ≤ now) :
    LatchQueue.drain now l.length (⟨m, l⟩ : LatchQueue T) =
      .ok (l.map (fun e => e.elem), ⟨m, []⟩) := by
  induction l with
  | nil => rfl
  | cons a r ih =>
    have ha : a.cycle ≤ now := h a (List.mem_cons_self _ _)
    have hr : ∀ e ∈ r, e.cycle ≤ now := fun e he => h e (List.mem_cons_of_mem _ he)
    simp only [List.length_cons, LatchQueue.drain, LatchQueue.front, LatchQueue.pop_front, ha,
      if_true, ih hr, List.map_cons]

/-- C37: `front(now)` returns an element exactly when the queue is non-empty and the
ready cycle of its head is at most `now`, and the element is then the head; it signals
*empty* exactly on the empty queue and *stall* exactly when the head becomes ready after
`now`; and entries pushed with `push_back` onto a queue with room leave it in arrival
order: when every entry is ready, reading and popping returns the old entries first,
then the pushed ones in the order pushed, and empties the queue. -/
theorem latch_front_fifo {T : Type} (q : LatchQueue T) (now : Nat) :
    (∀ x, q.front now = .ok x ↔ ∃ h t, q.queue = h :: t ∧ h.cycle ≤ now ∧ h.elem = x) ∧
    (q.front now = .error .empty ↔ q.queue = []) ∧
    (q.front now = .error .stall ↔ ∃ h t, q.queue = h :: t ∧ now < h.cycle) ∧
    (∀ es : List (Nat × T), q.queue.length + es.length ≤ q.max_size →
      (∀ e ∈ q.queue, e.cycle ≤ now) → (∀ p ∈ es, p.1 ≤ now) →
      ∃ q1, q.push_all es = .ok q1 ∧
        LatchQueue.drain now (q.queue.length + es.length) q1 =
          .ok (q.queue.map (fun e => e.elem) ++ es.map (fun p => p.2), ⟨q.max_size, []⟩)) := by
  refine ⟨?_, ?_, ?_, ?_⟩
  · intro x
    unfold LatchQueue.front
    cases hq : q.queue with
    | nil => simp
    | cons a r =>
      by_cases hc : a.cycle ≤ now
      · simp [hc]
      · simp [hc]
  · unfold LatchQueue.front
    cases hq : q.queue with
    | nil => simp
    | cons a r =>
      by_cases hc : a.cycle ≤ now
      · simp [hc]
      · simp [hc]
  · unfold LatchQueue.front
    cases hq : q.queue with
    | nil => simp
    | cons a r =>
      by_cases hc : a.cycle ≤ now
      · simp [hc]
      · simp [hc]
        omega
  · intro es hroom hq hes
    refine ⟨_, push_all_ok es q hroom, ?_⟩
    have hall : ∀ e ∈ q.queue ++ es.map (fun p => (⟨p.1, p.2⟩ : LatchQElem T)),
        e.cycle ≤ now := by
      intro e he
      rcases List.mem_append.mp he with h1 | h2
      · exact hq e h1
      · obtain ⟨p, hp, rfl⟩ := List.mem_map.mp h2
        exact hes p hp
    have h := drain_ok now _ q.max_size hall
    simp only [List.length_append, List.length_map, List.map_append, List.map_map] at h
    rw [h]
    rfl

/-- Witness for C37: two entries pushed behind the ready entry of `ex_latch` come out
after it, in the order pushed. -/
theorem latch_front_fifo_witness :
    ∃ q1, ex_latch.push_all [(4, 20), (5, 30)] = .ok q1 ∧
      LatchQueue.drain 5 (ex_latch.queue.length + [(4, 20), (5, 30)].length) q1 =
        .ok (ex_latch.queue.map (fun e => e.elem) ++ [(4, 20), (5, 30)].map (fun p => p.2),
          ⟨ex_latch.max_size, []⟩) :=
  (latch_front_fifo ex_latch 5).2.2.2 [(4, 20), (5, 30)] (by decide) (by decide) (by decide)

theorem str_find_bound (s : List Char) (c : Char) (pos i : Nat)
    (h : str_find s c pos = some i) : pos ≤ i ∧ i < s.length := by
  unfold str_find at h
  split_ifs at h with hlt
  simp only [Option.some.injEq] at h
  simp only [List.length_drop] at hlt
  omega

theorem str_find_none (s : List Char) (c : Char) (h : c ∉ s) : str_find s c 0 = none := by
  unfold str_find
  simp only [List.drop_zero]
  have := (List.indexOf_lt_length (a := c) (l := s)).not.mpr h
  simp [this]

theorem str_find_first (p r : List Char) (c : Char) (h : c ∉ p) :
    str_find (p ++ c :: r) c 0 = some p.length := by
  unfold str_find
  simp only [List.drop_zero, List.indexOf_append_of_not_mem h, List.indexOf_cons_self,
    List.length_append, List.length_cons]
  simp

theorem str_find_close (p body r : List Char) (x c : Char) (hx : x ≠ c) (h : c ∉ body) :
    str_find (p ++ x :: (body ++ c :: r)) c p.length = some (p.length + 1 + body.length) := by
  unfold str_find
  have hd : List.drop p.length (p ++ x :: (body ++ c :: r)) = x :: (body ++ c :: r) := by
    simp
  rw [hd, List.indexOf_cons_ne _ hx, List.indexOf_append_of_not_mem h, List.indexOf_cons_self]
  simp only [List.length_cons, List.length_append]
  rw [if_pos (by omega)]
  congr 1
  omega

theorem str_erase_comment (p body r : List Char) (x c : Char) :
    str_erase (p ++ x :: (body ++ c :: r)) p.length (p.length + 1 + body.length - p.length + 1)
      = p ++ r := by
  unfold str_erase
  have h1 : p.length + (p.length + 1 + body.length - p.length + 1) =
      p.length + (body.length + 2) := by omega
  rw [h1, List.take_left, ← List.drop_drop, List.drop_left]
  congr 1
  have h2 : x :: (body ++ c :: r) = (x :: body ++ [c]) ++ r := by simp
  have h3 : body.length + 2 = (x :: body ++ [c]).length := by simp
  rw [h2, h3, List.drop_left]

theorem remove_comments_clean (fuel : Nat) (s : List Char) (h : '#' ∉ s) :
    remove_comments fuel s = s := by
  cases fuel with
  | zero => rfl
  | succ n => simp [remove_comments, str_find_none s '#' h]

theorem str_erase_length (s : List Char) (a b : Nat) (hab : a ≤ b) (hb : b < s.length) :
    (str_erase s a (b - a + 1)).length < s.length := by
  unfold str_erase
  simp only [List.length_append, List.length_take, List.length_drop]
  omega

/-- The comment loop has run to its end within `s.length` rounds: more fuel changes
nothing. -/
theorem remove_comments_fuel (n : Nat) (s : List Char) (h : s.length ≤ n) (k : Nat) :
    remove_comments (n + k) s = remove_comments n s := by
  induction n generalizing s with
  | zero =>
    have hs : s = [] := List.length_eq_zero.mp (Nat.le_zero.mp h)
    subst hs
    rw [remove_comments_clean _ _ (by simp), remove_comments_clean _ _ (by simp)]
  | succ m ih =>
    have e : m + 1 + k = (m + k) + 1 := by omega
    rw [e]
    simp only [remove_comments]
    cases ha : str_find s '#' 0 with
    | none => rfl
    | some a =>
      cases hb : str_find s '\n' a with
      | none => simp only [hb]
      | some b =>
        obtain ⟨h1, h2⟩ := str_find_bound s '\n' a b hb
        have := str_erase_length s a b h1 h2
        simp only [hb]
        exact ih _ (by omega)

theorem hex_digit_facts : ∀ n, n < 16 → ∀ u : Bool,
    hex_digit n u ≠ '#' ∧ (hex_digit n u != ' ') = true ∧ (hex_digit n u != '\n') = true ∧
    hex_chars.contains (hex_digit n u) = true ∧ hex_val (hex_digit n u) = n := by
  decide

theorem render_cons (i : HexItem) (r : List HexItem) : render (i :: r) = i.render ++ render r := by
  simp [render]

theorem render_length (items : List HexItem) : items.length ≤ (render items).length := by
  induction items with
  | nil => simp [render]
  | cons i r ih =>
    rw [render_cons, List.length_append, List.length_cons]
    have : 1 ≤ i.render.length := by
      cases i <;> simp [HexItem.render]
    omega

theorem remove_comments_render (items : List HexItem) :
    ∀ (fuel : Nat) (p : List Char), '#' ∉ p → (∀ i ∈ items, i.valid = true) →
      items.length < fuel →
      remove_comments fuel (p ++ render items) =
        p ++ render (items.filter (fun i => !i.is_comment)) := by
  induction items with
  | nil =>
    intro fuel p hp _ _
    simp only [render, List.flatMap_nil, List.filter_nil, List.append_nil]
    exact remove_comments_clean fuel p hp
  | cons i r ih =>
    intro fuel p hp hv hf
    have hvr : ∀ j ∈ r, j.valid = true := fun j hj => hv j (List.mem_cons_of_mem _ hj)
    have hvi := hv i (List.mem_cons_self _ _)
    simp only [List.length_cons] at hf
    cases i with
    | byte b u1 u2 =>
      simp only [HexItem.valid, decide_eq_true_eq] at hvi
      have h1 := (hex_digit_facts (b / 16) (by omega) u1).1
      have h2 := (hex_digit_facts (b % 16) (by omega) u2).1
      have hp2 : '#' ∉ p ++ [hex_digit (b / 16) u1, hex_digit (b % 16) u2] := by
        simp only [List.mem_append, List.mem_cons, List.mem_singleton, List.not_mem_nil,
          or_false, not_or]
        exact ⟨hp, fun h => h1 h.symm, fun h => h2 h.symm⟩
      have := ih fuel _ hp2 hvr (by omega)
      simp only [List.filter_cons, HexItem.is_comment, Bool.not_false, if_true, render_cons,
        HexItem.render]
      simpa using this
    | space =>
      have hp2 : '#' ∉ p ++ [' '] := by
        simp only [List.mem_append, List.mem_singleton, not_or]
        exact ⟨hp, by decide⟩
      have := ih fuel _ hp2 hvr (by omega)
      simp only [List.filter_cons, HexItem.is_comment, Bool.not_false, if_true, render_cons,
        HexItem.render]
      simpa using this
    | newline =>
      have hp2 : '#' ∉ p ++ ['\n'] := by
        simp only [List.mem_append, List.mem_singleton, not_or]
        exact ⟨hp, by decide⟩
      have := ih fuel _ hp2 hvr (by omega)
      simp only [List.filter_cons, HexItem.is_comment, Bool.not_false, if_true, render_cons,
        HexItem.render]
      simpa using this
    | comment body =>
      have hbody : '\n' ∉ body := by
        simpa [HexItem.valid] using hvi
      obtain ⟨f, rfl⟩ : ∃ f, fuel = f + 1 := ⟨fuel - 1, by omega⟩
      have e : p ++ render (HexItem.comment body :: r) =
          p ++ '#' :: (body ++ '\n' :: render r) := by
        simp [render_cons, HexItem.render]
      rw [e]
      simp only [remove_comments, str_find_first p _ '#' hp,
        str_find_close p body (render r) '#' '\n' (by decide) hbody, str_erase_comment]
      simp only [List.filter_cons, HexItem.is_comment, Bool.not_true]
      exact ih f p hp hvr (by omega)

theorem filter_render (items : List HexItem) (hv : ∀ i ∈ items, i.valid = true) :
    ((render (items.filter (fun i => !i.is_comment))).filter (fun c => c != ' ')).filter
      (fun c => c != '\n') = hex_digits items := by
  induction items with
  | nil => rfl
  | cons i r ih =>
    have hvr : ∀ j ∈ r, j.valid = true := fun j hj => hv j (List.mem_cons_of_mem _ hj)
    have hvi := hv i (List.mem_cons_self _ _)
    have ih := ih hvr
    cases i with
    | byte b u1 u2 =>
      simp only [HexItem.valid, decide_eq_true_eq] at hvi
      obtain ⟨-, a1, a2, -, -⟩ := hex_digit_facts (b / 16) (by omega) u1
      obtain ⟨-, b1, b2, -, -⟩ := hex_digit_facts (b % 16) (by omega) u2
      simp only [List.filter_cons, HexItem.is_comment, Bool.not_false, if_true, render_cons,
        HexItem.render, List.cons_append, List.nil_append, a1, a2, b1, b2, hex_digits]
      rw [← ih]
      rfl
    | space =>
      simp only [List.filter_cons, HexItem.is_comment, Bool.not_false, if_true, render_cons,
        HexItem.render, List.cons_append, List.nil_append, hex_digits]
      simpa using ih
    | newline =>
      simp only [List.filter_cons, HexItem.is_comment, Bool.not_false, if_true, render_cons,
        HexItem.render, List.cons_append, List.nil_append, hex_digits]
      simpa using ih
    | comment body =>
      simp only [List.filter_cons, HexItem.is_comment, Bool.not_true, hex_digits]
      simpa using ih

theorem hex_digits_parse (items : List HexItem) (hv : ∀ i ∈ items, i.valid = true) :
    (hex_digits items).length % 2 = 0 ∧
    (hex_digits items).any (fun c => !hex_chars.contains c) = false ∧
    parse_bytes (hex_digits items) = rendered_bytes items := by
  induction items with
  | nil => exact ⟨rfl, rfl, rfl⟩
  | cons i r ih =>
    have hvr : ∀ j ∈ r, j.valid = true := fun j hj => hv j (List.mem_cons_of_mem _ hj)
    have hvi := hv i (List.mem_cons_self _ _)
    obtain ⟨i1, i2, i3⟩ := ih hvr
    cases i with
    | byte b u1 u2 =>
      simp only [HexItem.valid, decide_eq_true_eq] at hvi
      obtain ⟨-, -, -, a3, a4⟩ := hex_digit_facts (b / 16) (by omega) u1
      obtain ⟨-, -, -, b3, b4⟩ := hex_digit_facts (b % 16) (by omega) u2
      refine ⟨?_, ?_, ?_⟩
      · simp only [hex_digits, List.length_cons]
        omega
      · simp only [hex_digits, List.any_cons, a3, b3, i2]
        rfl
      · simp only [hex_digits, parse_bytes, rendered_bytes, a4, b4, i3]
        congr 1
        omega
    | space => exact ⟨i1, i2, i3⟩
    | newline => exact ⟨i1, i2, i3⟩
    | comment body => exact ⟨i1, i2, i3⟩

theorem stripped_render (items : List HexItem) (hv : ∀ i ∈ items, i.valid = true) :
    stripped (render items) = hex_digits items := by
  unfold stripped
  have h := remove_comments_render items ((render items).length + 1) [] (by simp) hv
    (by have := render_length items; omega)
  simp only [List.nil_append] at h
  rw [h]
  exact filter_render items hv

/-- C36, the code at the failing input: the bytes a8 ef written with a tab between them,
and with a carriage return and a newline between them. Tab and carriage return are
whitespace, but `str2vec` removes only the space and the newline: the stripped form
keeps the tab (the carriage return), has odd length, and the result is the empty vector,
not the two bytes; two tabs give an even length with a character that is no hex digit,
and the empty vector again. With a space or a newline in their place the two bytes are
returned. -/
theorem str2vec_keeps_tab :
    stripped ['a', '8', '\t', 'e', 'f'] = ['a', '8', '\t', 'e', 'f'] ∧
    str2vec ['a', '8', '\t', 'e', 'f'] = [] ∧
    stripped ['a', '8', '\r', '\n', 'e', 'f'] = ['a', '8', '\r', 'e', 'f'] ∧
    str2vec ['a', '8', '\r', '\n', 'e', 'f'] = [] ∧
    str2vec ['a', '8', '\t', '\t', 'e', 'f'] = [] ∧
    str2vec ['a', '8', ' ', 'e', 'f'] = [0xa8, 0xef] ∧
    str2vec ['a', '8', '\n', 'e', 'f'] = [0xa8, 0xef] := by
  decide

/-- Where `str2vec` does as its comment says: for every rendering of a byte list as two
hex digits per byte, upper or lower case, with any number of spaces, newlines and `#...`
comments closed by a newline between the bytes, `str2vec` returns exactly that byte list;
it returns the empty vector for every input whose stripped form (comments, spaces and
newlines removed) has odd length or holds a character that is not a hex digit; and the
comment loop has finished within the fuel the model gives it. -/
theorem str2vec_parses_rendering (items : List HexItem) (str : List Char) (k : Nat) :
    ((∀ i ∈ items, i.valid = true) → str2vec (render items) = rendered_bytes items) ∧
    (((stripped str).length % 2 = 1 ∨ ∃ c ∈ stripped str, c ∉ hex_chars) →
      str2vec str = []) ∧
    remove_comments (str.length + 1 + k) str = remove_comments (str.length + 1) str := by
  refine ⟨?_, ?_, remove_comments_fuel _ str (by omega) k⟩
  · intro hv
    obtain ⟨h1, h2, h3⟩ := hex_digits_parse items hv
    unfold str2vec
    rw [stripped_render items hv, h2, h3]
    simp [h1]
  · intro h
    unfold str2vec
    rw [if_pos]
    rcases h with h | ⟨c, hc, hn⟩
    · left
      omega
    · right
      rw [List.any_eq_true]
      exact ⟨c, hc, by simpa using hn⟩

/-- At a concrete input: the rendering `A8 # first` newline `ef` newline gives the bytes
a8 ef, and the three digits `a8e` give the empty vector. -/
theorem str2vec_parses_rendering_witness :
    str2vec (render ex_hex) = rendered_bytes ex_hex ∧ str2vec ['a', '8', 'e'] = [] :=
  ⟨(str2vec_parses_rendering ex_hex ['a', '8', 'e'] 0).1 (by decide),
   (str2vec_parses_rendering ex_hex ['a', '8', 'e'] 0).2.1 (by decide)⟩

set_option maxRecDepth 100000 in
/-- C34, the code at the failing input: the instruction stream `48 66 b8 34 12` followed
by `nop` bytes. Inside one fetch block the prefix loop takes 48 and 66 in one run, the
last prefix is not a REX byte, and the instruction completes with `has_rex` = 0 and a
two-byte immediate (length 5). Entered at offset 15, the block ends after 48: the
lambda `parse_prefix` sets `has_rex` = 1 before it returns, the next call takes 66 and
leaves the stale `has_rex`, and `parse_imm` reads REX.W from byte 48: the instruction
completes with `has_rex` = 1 and an eight-byte immediate (length 11). -/
theorem predecode_rex_across_blocks :
    (predecode_blocks 0 ex_block_whole 0 Predecoder.init).map
        (fun r => r.1.head?.map x64op.fields) =
      some (some ([0x48, 0x66, 0xb8, 0x34, 0x12], [2, 0, 0, 0, 3, 5, 0, 0, 1, 0, 0])) ∧
    (predecode_blocks 0 ex_blocks_split 15 Predecoder.init).map
        (fun r => r.1.head?.map x64op.fields) =
      some (some ([0x48, 0x66, 0xb8, 0x34, 0x12, 0x90, 0x90, 0x90, 0x90, 0x90, 0x90],
        [2, 0, 0, 0, 3, 11, 1, 0, 1, 0, 0])) := by
  decide

set_option maxRecDepth 100000 in
/-- C32, the code at the failing input: `0f 0d 00` (prefetchw `[rax]`). The operand
setup pushes the implied `lda` and marks the destination as temporary; the case calls
`raise_ud`, which clears `uops` and pushes the UD uop with both macro-op flags; the
finalisation still sees `temp_op` and appends `lea` and `st`, which are tagged
`mop_first` and `mop_last`. Three uops go to the queue for the one instruction:
`mop_last` sits on the first of them and `mop_first` on the second. The privileged
opcodes f4, fa and fb give the single `int` uop with `ex_GP` and both flags, and
`add [rax], eax` gives a bundle of four with the flags on its ends. -/
theorem raise_ud_keeps_store :
    predecoded [0x0f, 0x0d, 0x00] = some ex_prefetchw ∧
    (run_decode TmpRegs.init ex_prefetchw).toOption.map (fun r => r.1.map uop.fields) =
      some [[uop_int, use_imm ||| mop_first ||| mop_last, 0, 0, 0, 0, ex_UD],
            [uop_lea, 0x30 ||| use_ra ||| use_rb ||| use_rc ||| use_imm ||| mop_first, 1, 0, 0, 21, 0],
            [uop_st, 0x20 ||| use_ra ||| use_rb ||| mop_last, 21, 20, 0, 0, 0]] ∧
    [0xf4, 0xfa, 0xfb].map (fun b =>
        (run_decode TmpRegs.init (ex_one_byte b)).toOption.map (fun r => r.1.map uop.fields)) =
      List.replicate 3 (some [[uop_int, use_imm ||| mop_first ||| mop_last, 0, 0, 0, 0, ex_GP]]) ∧
    (run_decode TmpRegs.init ex_add_mem).toOption.map
        (fun r => r.1.map (fun u => [u.opcode, u.control &&& (mop_first ||| mop_last)])) =
      some [[uop_lda, mop_first], [uop_add, 0], [uop_lea, 0], [uop_st, mop_last]] := by
  decide

theorem opmap_lookup_mem (l : List (List Nat × x64def.x64opinfo)) (k : List Nat)
    (v : x64def.x64opinfo) (h : l.lookup k = some v) : (k, v) ∈ l := by
  induction l with
  | nil => simp [List.lookup] at h
  | cons e t ih =>
    obtain ⟨k', v'⟩ := e
    by_cases hk : k = k'
    · subst hk
      simp [List.lookup] at h
      subst h
      exact List.mem_cons_self _ _
    · have hb : (k == k') = false := by simpa using hk
      rw [List.lookup, hb] at h
      exact List.mem_cons_of_mem _ (ih h)

set_option maxRecDepth 100000 in
/-- Every key of the opcode map that is one byte long, or two bytes long with a group
opcode in front, starts with an opcode that has a decode case. -/
theorem opmap_keys_have_case :
    x64def.x64opmap.all (fun p =>
      match p.1 with
      | [b] => has_case cases_1b b
      | [b, _] => has_case cases_1b b || decide (x64def.opgrp_1b b = 0)
      | _ => true) = true := by
  decide

/-- The opcode map has no operands for a one-byte opcode without a decode case. -/
theorem opinfo_without_case (op : x64op) (opcode modrm : Nat) (hm : op.meta.op_mode = 0)
    (h : has_case cases_1b opcode = false) :
    (x64def.get_opinfo (decode_opvec op opcode modrm)).operands = [] := by
  have hkey : ∀ k, (k = [opcode] ∨ (∃ r, k = [opcode, r] ∧ x64def.opgrp_1b opcode ≠ 0)) →
      (x64def.get_opinfo k).operands = [] := by
    intro k hk
    unfold x64def.get_opinfo
    cases hl : x64def.x64opmap.lookup k with
    | none => rfl
    | some info =>
      exfalso
      have hmem := opmap_lookup_mem _ _ _ hl
      have hall := List.all_eq_true.mp opmap_keys_have_case (k, info) hmem
      rcases hk with rfl | ⟨r, rfl, hg⟩
      · simp only [h] at hall
        exact Bool.false_ne_true hall
      · simp only [h, Bool.false_or, decide_eq_true_eq] at hall
        exact hg hall
  apply hkey
  unfold decode_opvec
  simp only [hm, has_reqpfx, x64def.reqpfx_1b, get_group, if_true]
  by_cases hg : x64def.opgrp_1b opcode = 0
  · left
    simp [hg]
  · right
    exact ⟨modrm_get_reg modrm, by simp [hg], hg⟩

/-- C31: `run_decode` on an instruction with `len` = 0, or with `len` above 15 and not
0xff, pushes exactly one uop: `uop_int` with immediate `ex_UD` and control `use_imm`,
`mop_first` and `mop_last`; on an instruction with `len` = 0xff it pushes exactly one
`uop_int` whose immediate is the PF exception word with error code ifetch|user and
control `mop_first|mop_last|use_imm`; and on every instruction of valid length whose
one-byte opcode has no decode case it pushes exactly the UD uop. -/
theorem run_decode_undefined (tmp : TmpRegs) (op : x64op) :
    ((op.len = 0 ∨ (15 < op.len ∧ op.len ≠ 0xff)) →
      run_decode tmp op =
        .ok ([⟨uop_int, use_imm ||| mop_first ||| mop_last, 0, 0, 0, 0, ex_UD⟩], tmp)) ∧
    (op.len = 0xff →
      run_decode tmp op =
        .ok ([⟨uop_int, mop_first ||| mop_last ||| use_imm, 0, 0, 0, 0,
          setExcept ex_PF (expf_ifetch ||| expf_user)⟩], tmp)) ∧
    (1 ≤ op.len → op.len ≤ 15 → op.meta.op_mode = 0 →
      has_case cases_1b (op.bytes.getD op.off_opcode 0) = false →
      run_decode tmp op =
        .ok ([⟨uop_int, use_imm ||| mop_first ||| mop_last, 0, 0, 0, 0, ex_UD⟩], tmp)) := by
  refine ⟨?_, ?_, ?_⟩
  · intro h
    unfold run_decode
    have h1 : op.len ≠ 0xff := by
      rcases h with h | h
      · omega
      · exact h.2
    have h2 : op.len = 0 ∨ 15 < op.len := by
      rcases h with h | h
      · exact Or.inl h
      · exact Or.inr h.1
    rw [if_neg h1, if_pos h2]
    rfl
  · intro h
    unfold run_decode
    rw [if_pos h]
  · intro h1 h15 hm hc
    have hop : (decode_env op).opcode = op.bytes.getD op.off_opcode 0 := by
      simp [decode_env, hm]
    have hops : (decode_env op).operands = [] := by
      have := opinfo_without_case op (op.bytes.getD op.off_opcode 0)
        (if op.off_modrm ≠ 0 then op.bytes.getD op.off_modrm 0 else 0) hm hc
      simpa [decode_env, hm] using this
    have hgp : is_gp op = true := by
      simp [is_gp, hm]
    unfold run_decode
    rw [if_neg (by omega), if_neg (by omega)]
    have hs : decode_setup tmp op (decode_env op) =
        .ok { uops := [], pushed := [], imm := (decode_env op).imm, opsz := (decode_env op).opsz,
              ldsz := 0, load_reg := 0, storeimm := 0, opsrc := 0, opdst := 0, temp_op := 0,
              extflag := 0, tmp := tmp } := by
      simp [decode_setup, hgp, hops]
    simp only [hs]
    have hcase : ∀ st, decode_case op (decode_env op) st = .ok (raise_ud st) := by
      intro st
      unfold decode_case
      rw [if_pos hm, hop, hc]
      rfl
    simp only [hcase, raise_ud, decode_finalize]
    simp [set_macro_positions, ud_uop]

/-- Witness for C31: the zero instruction, an instruction with `len` = 0xff, and the
one-byte opcode 0x0e. -/
theorem run_decode_undefined_witness :
    run_decode TmpRegs.init zero_x64op =
      .ok ([⟨uop_int, use_imm ||| mop_first ||| mop_last, 0, 0, 0, 0, ex_UD⟩], TmpRegs.init) ∧
    run_decode TmpRegs.init ex_fault_op =
      .ok ([⟨uop_int, mop_first ||| mop_last ||| use_imm, 0, 0, 0, 0,
        setExcept ex_PF (expf_ifetch ||| expf_user)⟩], TmpRegs.init) ∧
    run_decode TmpRegs.init (ex_one_byte 0x0e) =
      .ok ([⟨uop_int, use_imm ||| mop_first ||| mop_last, 0, 0, 0, 0, ex_UD⟩], TmpRegs.init) :=
  ⟨(run_decode_undefined TmpRegs.init zero_x64op).1 (Or.inl rfl),
   (run_decode_undefined TmpRegs.init ex_fault_op).2.1 rfl,
   (run_decode_undefined TmpRegs.init (ex_one_byte 0x0e)).2.2 (by decide) (by decide) rfl
     (by decide)⟩

theorem pick_reg_mark (opsz rex reg : Nat) (nm : Bool) (op : x64op) (modrm : Nat)
    (h : (pick_reg opsz rex reg nm op modrm).2 = true) : opsz = 1 ∧ rex = 0 := by
  unfold pick_reg at h
  split_ifs at h with hc
  exact ⟨hc.1, hc.2.1⟩

theorem marks_closed : ∀ m1 ∈ [0, dst_rh, src_rh, dst_rh ||| src_rh], ∀ m2 ∈ [0, src_rh],
    m1 ||| m2 ∈ [0, dst_rh, src_rh, dst_rh ||| src_rh] := by
  decide

/-- The immediate of the operand setup is the sign-extended immediate, or-ed with
marks in bits 62 and 63 that only a byte operation can carry. -/
theorem setup_imm_marks (e : DecodeEnv) (last : x64def.x64operand) (opsz : Nat) (d s : Bool)
    (himm : x64def.is_immop last = true) (hd : d = true → opsz = 1) (hs : s = true → opsz = 1) :
    ∃ marks, marks ∈ [0, dst_rh, src_rh, dst_rh ||| src_rh] ∧
      setup_imm e last opsz d s = sx e.imm e.immbytes opsz ||| marks ∧
      (marks ≠ 0 → opsz = 1) := by
  unfold setup_imm
  simp only [himm, if_true]
  generalize sx e.imm e.immbytes opsz = v
  obtain ⟨m1, hm1, e1, z1⟩ : ∃ m1, m1 ∈ [0, dst_rh, src_rh, dst_rh ||| src_rh] ∧
      (if s = true then (if d = true then v ||| dst_rh else v) ||| src_rh
        else (if d = true then v ||| dst_rh else v)) = v ||| m1 ∧ (m1 ≠ 0 → opsz = 1) := by
    cases d <;> cases s <;> simp only [if_true, if_false, Bool.false_eq_true]
    · exact ⟨0, by simp, by simp, fun h => absurd rfl h⟩
    · exact ⟨src_rh, by simp, by simp, fun _ => hs rfl⟩
    · exact ⟨dst_rh, by simp, by simp, fun _ => hd rfl⟩
    · exact ⟨dst_rh ||| src_rh, by simp, by simp [Nat.lor_assoc], fun _ => hd rfl⟩
  rw [e1]
  by_cases hc : e.operands.length = 1 ∧ opsz = 1
  · rw [if_pos hc]
    by_cases hb : (v ||| m1) &&& dst_rh ≠ 0
    · rw [if_pos hb]
      exact ⟨m1 ||| src_rh, marks_closed m1 hm1 src_rh (by simp), by rw [Nat.lor_assoc],
        fun _ => hc.2⟩
    · rw [if_neg hb]
      exact ⟨m1, hm1, by simp, fun _ => hc.2⟩
  · rw [if_neg hc]
    exact ⟨m1, hm1, rfl, z1⟩

theorem decode_setup_imm (tmp : TmpRegs) (op : x64op) (e : DecodeEnv) (st : DecodeSt)
    (first last : x64def.x64operand) (hgp : is_gp op = true)
    (hf : e.operands.head? = some first) (hl : e.operands.getLast? = some last)
    (himm : x64def.is_immop last = true) (h : decode_setup tmp op e = .ok st) :
    st.opsz = get_opsz e.opsz first.operand_type ∧
    ∃ marks, marks ∈ [0, dst_rh, src_rh, dst_rh ||| src_rh] ∧
      st.imm = sx e.imm e.immbytes st.opsz ||| marks ∧ (marks ≠ 0 → st.opsz = 1) := by
  unfold decode_setup at h
  simp only [hgp, hf, hl, Bool.not_true, Bool.false_eq_true, if_false] at h
  split at h
  · split at h
    · exact absurd h (by simp)
    · split at h <;>
        (injection h with h
         subst h
         refine ⟨rfl, setup_imm_marks e last _ _ _ himm ?_ ?_⟩ <;> intro hh <;>
           first
           | exact (pick_reg_mark _ _ _ _ _ _ hh).1
           | (split_ifs at hh <;> exact (pick_reg_mark _ _ _ _ _ _ hh).1))
  · injection h with h
    subst h
    refine ⟨rfl, setup_imm_marks e last _ _ _ himm ?_ ?_⟩ <;> intro hh <;>
      first
      | exact (pick_reg_mark _ _ _ _ _ _ hh).1
      | (split_ifs at hh <;> exact (pick_reg_mark _ _ _ _ _ _ hh).1)

/-- Opcode and immediate of a uop. -/
theorem set_macro_positions_key (l : List uop) :
    (set_macro_positions l).map (fun u => (u.opcode, u.imm)) =
      l.map (fun u => (u.opcode, u.imm)) := by
  cases l with
  | nil => rfl
  | cons u r =>
    cases r with
    | nil => rfl
    | cons v t =>
      have hne : (v :: t).getLast? = some ((v :: t).getLast (by simp)) :=
        List.getLast?_eq_getLast _ (by simp)
      have hd := List.dropLast_append_getLast? _ hne
      simp only [set_macro_positions, hne, Option.map_some', Option.toList_some, List.map_cons,
        List.map_append, List.map_nil]
      congr 1
      conv_rhs => rw [← List.map_cons (fun u => (u.opcode, u.imm)) v t, ← hd]
      simp

theorem pushed_key (l : List uop) (u : uop) (h : u ∈ l) :
    ∃ u1, u1 ∈ (set_macro_positions l).map adjust_imm ∧ u1.opcode = u.opcode ∧ u1.imm = u.imm := by
  have h1 : (u.opcode, u.imm) ∈ (set_macro_positions l).map (fun u => (u.opcode, u.imm)) := by
    rw [set_macro_positions_key]
    exact List.mem_map.mpr ⟨u, h, rfl⟩
  obtain ⟨w, hw, hk⟩ := List.mem_map.mp h1
  refine ⟨adjust_imm w, List.mem_map.mpr ⟨w, hw, rfl⟩, ?_, ?_⟩
  · have : (adjust_imm w).opcode = w.opcode := by
      unfold adjust_imm
      split_ifs <;> rfl
    rw [this]
    exact congrArg Prod.fst hk
  · have : (adjust_imm w).imm = w.imm := by
      unfold adjust_imm
      split_ifs <;> rfl
    rw [this]
    exact congrArg Prod.snd hk

theorem modrm_get_reg_lt (b : Nat) : modrm_get_reg b < 8 := by
  unfold modrm_get_reg
  have h : b &&& 0x38 ≤ 0x38 := Nat.and_le_right
  rw [Nat.shiftRight_eq_div_pow]
  omega

/-- The ALU immediate cases push one uop that carries the immediate of the setup. -/
theorem decode_case_alu_imm (op : x64op) (e : DecodeEnv) (st st1 : DecodeSt)
    (hm : op.meta.op_mode = 0)
    (hop : e.opcode = 0x04 ∨ e.opcode = 0x05 ∨ e.opcode = 0x80 ∨ e.opcode = 0x81 ∨
      e.opcode = 0x83)
    (h : decode_case op e st = .ok st1) :
    ∃ u, st1.uops = st.uops ++ [u] ∧ u.imm = st.imm ∧
      u.opcode ∈ [uop_add, uop_or, uop_adc, uop_sbb, uop_and, uop_sub, uop_xor] := by
  unfold decode_case at h
  rw [if_pos hm] at h
  have hreg := modrm_get_reg_lt e.modrm
  cases hsz : setOpSize st.opsz with
  | none =>
    rcases hop with ho | ho | ho | ho | ho <;> rw [ho, hsz] at h <;>
      simp only [show has_case cases_1b 0x04 = true by decide,
        show has_case cases_1b 0x05 = true by decide,
        show has_case cases_1b 0x80 = true by decide,
        show has_case cases_1b 0x81 = true by decide,
        show has_case cases_1b 0x83 = true by decide,
        Bool.not_true, Bool.false_eq_true, if_false] at h <;>
      norm_num at h <;>
      cases h
  | some sz =>
    rcases hop with ho | ho | ho | ho | ho <;> rw [ho, hsz] at h <;>
      simp only [show has_case cases_1b 0x04 = true by decide,
        show has_case cases_1b 0x05 = true by decide,
        show has_case cases_1b 0x80 = true by decide,
        show has_case cases_1b 0x81 = true by decide,
        show has_case cases_1b 0x83 = true by decide,
        Bool.not_true, Bool.false_eq_true, if_false] at h <;>
      norm_num at h <;>
      subst h <;>
      refine ⟨_, rfl, rfl, ?_⟩
    · simp
    · simp
    all_goals
      generalize modrm_get_reg e.modrm = k at hreg ⊢
      interval_cases k <;> simp

theorem decode_finalize_uops (op : x64op) (e : DecodeEnv) (st st2 : DecodeSt)
    (h : decode_finalize op e st = .ok st2) : ∃ extra, st2.uops = st.uops ++ extra := by
  unfold decode_finalize at h
  split at h
  · split at h
    · injection h with h
      subst h
      exact ⟨_, rfl⟩
    · exact absurd h (by simp)
  · injection h with h
    subst h
    exact ⟨[], by simp⟩

set_option maxRecDepth 100000 in
/-- The ALU immediate opcodes 04, 05 and the group 80, 81, 83 have operands in the opcode
map, and the last one is an immediate. -/
theorem alu_imm_operands :
    (∀ opc ∈ [0x04, 0x05],
      ((x64def.get_opinfo [opc]).operands.getLast?.map x64def.is_immop = some true)) ∧
    (∀ opc ∈ [0x80, 0x81, 0x83], ∀ reg, reg < 8 →
      ((x64def.get_opinfo [opc, reg]).operands.getLast?.map x64def.is_immop = some true)) := by
  decide

theorem alu_imm_last (op : x64op) (hm : op.meta.op_mode = 0)
    (hop : (decode_env op).opcode ∈ [0x04, 0x05, 0x80, 0x81, 0x83]) :
    ∃ first last, (decode_env op).operands.head? = some first ∧
      (decode_env op).operands.getLast? = some last ∧ x64def.is_immop last = true := by
  have hl : (decode_env op).operands.getLast?.map x64def.is_immop = some true := by
    have e1 : (decode_env op).operands =
        (x64def.get_opinfo (decode_opvec op (decode_env op).opcode (decode_env op).modrm)).operands :=
      rfl
    rw [e1]
    have hreg := modrm_get_reg_lt (decode_env op).modrm
    simp only [List.mem_cons, List.mem_singleton, List.not_mem_nil, or_false] at hop
    unfold decode_opvec
    simp only [hm, has_reqpfx, x64def.reqpfx_1b, get_group, if_true]
    rcases hop with ho | ho | ho | ho | ho <;> rw [ho]
    · exact alu_imm_operands.1 0x04 (by simp)
    · exact alu_imm_operands.1 0x05 (by simp)
    · exact alu_imm_operands.2 0x80 (by simp) _ hreg
    · exact alu_imm_operands.2 0x81 (by simp) _ hreg
    · exact alu_imm_operands.2 0x83 (by simp) _ hreg
  cases hops : (decode_env op).operands with
  | nil => simp [hops] at hl
  | cons a t =>
    rw [hops] at hl
    cases hlast : (a :: t).getLast? with
    | none => simp [hlast] at hl
    | some last =>
      rw [hlast] at hl
      exact ⟨a, last, rfl, rfl, by simpa using hl⟩

/-- C33 (counterexample): `80 c4 05` (`add ah, 5`). The immediate byte 05 extends to
`sx(5, 1, 1)` = 5, but the uop that `run_decode` pushes carries 0x4000000000000005: the
setup ors the mark of the high byte register `ah` (bit 62) into the immediate. -/
theorem high_byte_mark_in_immediate :
    predecoded [0x80, 0xc4, 0x05] = some ex_add_ah ∧
    (run_decode TmpRegs.init ex_add_ah).toOption.map (fun r => r.1.map uop.fields) =
      some [[uop_add, set_cond ||| rd_resize ||| use_ra ||| use_rc ||| use_imm ||| mop_first |||
        mop_last, 1, 0, 0, 1, 0x4000000000000005]] ∧
    sx 0x05 1 1 = 0x05 := by
  decide

/-- C33 (amended): for every 64-bit `x` and all widths `f`, `t` in {1, 2, 4, 8}, the macro
`sx(x, f, t)` is the two's-complement sign extension of the low `f` bytes of `x`,
truncated to `t` bytes (zero above bit `8t - 1`); for a GP instruction whose last
operand is an immediate the operand setup of `run_decode` computes
`sx(imm, immbytes, opsz)` as the immediate, or-ed with marks in bits 62 and 63 that are
set only for a byte operation (they name a high byte register); and the ALU immediate
instructions (opcodes 04, 05, 80, 81, 83) push an ALU uop that carries this
immediate. -/
theorem sx_in_uop_immediate (x f t : Nat) (tmp : TmpRegs) (op : x64op) (st : DecodeSt)
    (r : List uop × TmpRegs) (first last : x64def.x64operand) :
    (x < 2 ^ 64 → (f = 1 ∨ f = 2 ∨ f = 4 ∨ f = 8) → (t = 1 ∨ t = 2 ∨ t = 4 ∨ t = 8) →
      sx x f t = truncate_to (sign_extend x f) t ∧ sx x f t < 2 ^ (8 * t)) ∧
    (is_gp op = true → (decode_env op).operands.head? = some first →
      (decode_env op).operands.getLast? = some last → x64def.is_immop last = true →
      (decode_setup tmp op (decode_env op)).toOption = some st →
      ∃ marks, marks ∈ [0, dst_rh, src_rh, dst_rh ||| src_rh] ∧
        st.imm = sx (decode_env op).imm (decode_env op).immbytes
          (get_opsz (decode_env op).opsz first.operand_type) ||| marks ∧
        (marks ≠ 0 → get_opsz (decode_env op).opsz first.operand_type = 1)) ∧
    (1 ≤ op.len → op.len ≤ 15 → op.meta.op_mode = 0 →
      (decode_env op).opcode ∈ [0x04, 0x05, 0x80, 0x81, 0x83] →
      (run_decode tmp op).toOption = some r →
      ∃ u head marks, u ∈ r.1 ∧ (decode_env op).operands.head? = some head ∧
        u.opcode ∈ [uop_add, uop_or, uop_adc, uop_sbb, uop_and, uop_sub, uop_xor] ∧
        marks ∈ [0, dst_rh, src_rh, dst_rh ||| src_rh] ∧
        u.imm = sx (decode_env op).imm (decode_env op).immbytes
          (get_opsz (decode_env op).opsz head.operand_type) ||| marks ∧
        (marks ≠ 0 → get_opsz (decode_env op).opsz head.operand_type = 1)) := by
  refine ⟨fun hx hf ht => sx_sign_extends x f t hx hf ht, ?_, ?_⟩
  · intro hgp hfirst hlast himm hs
    have hs2 : decode_setup tmp op (decode_env op) = .ok st := by
      cases hh : decode_setup tmp op (decode_env op) with
      | error x => simp [hh, Except.toOption] at hs
      | ok s1 =>
        simp only [hh, Except.toOption, Option.some.injEq] at hs
        rw [hs]
    obtain ⟨hsz, marks, hmarks, hval, hone⟩ :=
      decode_setup_imm tmp op _ st first last hgp hfirst hlast himm hs2
    refine ⟨marks, hmarks, ?_, ?_⟩
    · rw [hval, hsz]
    · intro hne
      rw [← hsz]
      exact hone hne
  intro h1 h15 hm hop hr
  obtain ⟨first, last, hfirst, hlast, himm⟩ := alu_imm_last op hm hop
  have hgp : is_gp op = true := by simp [is_gp, hm]
  have hop2 : (decode_env op).opcode = 0x04 ∨ (decode_env op).opcode = 0x05 ∨
      (decode_env op).opcode = 0x80 ∨ (decode_env op).opcode = 0x81 ∨
      (decode_env op).opcode = 0x83 := by
    simpa using hop
  unfold run_decode at hr
  rw [if_neg (by omega), if_neg (by omega)] at hr
  cases hs : decode_setup tmp op (decode_env op) with
  | error x => simp [hs, Except.toOption] at hr
  | ok st0 =>
    cases hc : decode_case op (decode_env op) st0 with
    | error x => simp [hs, hc, Except.toOption] at hr
    | ok st1 =>
      cases hfin : decode_finalize op (decode_env op) st1 with
      | error x => simp [hs, hc, hfin, Except.toOption] at hr
      | ok st2 =>
        simp only [hs, hc, hfin, Except.toOption, Option.some.injEq] at hr
        obtain ⟨u0, hu0, himm0, hopc0⟩ := decode_case_alu_imm op _ st0 st1 hm hop2 hc
        obtain ⟨extra, hextra⟩ := decode_finalize_uops op _ st1 st2 hfin
        have hmem : u0 ∈ st2.uops := by
          rw [hextra, hu0]
          simp
        obtain ⟨u1, hu1, ho1, hi1⟩ := pushed_key st2.uops u0 hmem
        obtain ⟨hsz, marks, hmarks, hval, hone⟩ :=
          decode_setup_imm tmp op _ st0 first last hgp hfirst hlast himm hs
        refine ⟨u1, first, marks, ?_, hfirst, ?_, hmarks, ?_, ?_⟩
        · rw [← hr]
          exact List.mem_append_right _ hu1
        · rw [ho1]
          exact hopc0
        · rw [hi1, himm0, hval, hsz]
        · intro hne
          rw [← hsz]
          exact hone hne

set_option maxRecDepth 100000 in
/-- Witness for C33: the byte 0x80 of the word 0x1280, extended from one byte to four,
and `05 80 ff ff ff` (`add eax, 0xffffff80`): the setup computes 0xffffff80 and the
`add` uop carries it. -/
theorem sx_in_uop_immediate_witness :
    (sx 0x1280 1 4 = truncate_to (sign_extend 0x1280 1) 4 ∧ sx 0x1280 1 4 < 2 ^ (8 * 4)) ∧
    (∃ marks, marks ∈ [0, dst_rh, src_rh, dst_rh ||| src_rh] ∧
      ex_add_eax_setup.imm = sx (decode_env ex_add_eax).imm (decode_env ex_add_eax).immbytes
        (get_opsz (decode_env ex_add_eax).opsz x64def.v) ||| marks ∧
      (marks ≠ 0 → get_opsz (decode_env ex_add_eax).opsz x64def.v = 1)) ∧
    ∃ u head marks, u ∈ [(⟨uop_add, 25001, 1, 0, 0, 1, 0xffffff80⟩ : uop)] ∧
      (decode_env ex_add_eax).operands.head? = some head ∧
      u.opcode ∈ [uop_add, uop_or, uop_adc, uop_sbb, uop_and, uop_sub, uop_xor] ∧
      marks ∈ [0, dst_rh, src_rh, dst_rh ||| src_rh] ∧
      u.imm = sx (decode_env ex_add_eax).imm (decode_env ex_add_eax).immbytes
        (get_opsz (decode_env ex_add_eax).opsz head.operand_type) ||| marks ∧
      (marks ≠ 0 → get_opsz (decode_env ex_add_eax).opsz head.operand_type = 1) :=
  ⟨(sx_in_uop_immediate 0x1280 1 4 TmpRegs.init ex_add_eax ex_add_eax_setup
      ([⟨uop_add, 25001, 1, 0, 0, 1, 0xffffff80⟩], TmpRegs.init) ⟨x64def.Z, x64def.v⟩
      ⟨x64def.I, x64def.z⟩).1 (by decide) (by decide) (by decide),
   (sx_in_uop_immediate 0x1280 1 4 TmpRegs.init ex_add_eax ex_add_eax_setup
      ([⟨uop_add, 25001, 1, 0, 0, 1, 0xffffff80⟩], TmpRegs.init) ⟨x64def.Z, x64def.v⟩
      ⟨x64def.I, x64def.z⟩).2.1 (by decide) (by decide) (by decide) (by decide) (by decide),
   (sx_in_uop_immediate 0x1280 1 4 TmpRegs.init ex_add_eax ex_add_eax_setup
      ([⟨uop_add, 25001, 1, 0, 0, 1, 0xffffff80⟩], TmpRegs.init) ⟨x64def.Z, x64def.v⟩
      ⟨x64def.I, x64def.z⟩).2.2 (by decide) (by decide) rfl (by decide) (by decide)⟩

/-- Every frame of the map has between 1 and `PAGE_SIZE` bytes in use. -/
theorem map_insert_used (mem : Nat → Option PageFrame) (k : Nat) (v : PageFrame)
    (hv : 0 < v.bytes_used ∧ v.bytes_used ≤ 4096)
    (h : ∀ k f, mem k = some f → 0 < f.bytes_used ∧ f.bytes_used ≤ 4096) :
    ∀ k' f, (map_insert mem k v).1 k' = some f → 0 < f.bytes_used ∧ f.bytes_used ≤ 4096 := by
  intro k' f hf
  unfold map_insert at hf
  cases hk : mem k with
  | some w =>
    rw [hk] at hf
    exact h k' f hf
  | none =>
    rw [hk] at hf
    dsimp only at hf
    by_cases he : k' = k
    · rw [he, Function.update_same] at hf
      cases hf
      exact hv
    · rw [Function.update_noteq he] at hf
      exact h k' f hf

theorem mmap_loop_used (ext : Nat → Nat) (pl : Int) (rwx : Nat) :
    ∀ (fuel len cur ce : Nat) (mem : Nat → Option PageFrame) (mapped : List (PageFrame × Nat)),
      (∀ k f, mem k = some f → 0 < f.bytes_used ∧ f.bytes_used ≤ 4096) →
      ∀ k f, (mmap_loop ext pl rwx fuel len cur ce mem mapped).2.2.2.1 k = some f →
        0 < f.bytes_used ∧ f.bytes_used ≤ 4096 := by
  intro fuel
  induction fuel with
  | zero =>
    intro len cur ce mem mapped h k f hf
    exact h k f hf
  | succ n ih =>
    intro len cur ce mem mapped h k f hf
    rw [mmap_loop] at hf
    by_cases hl : len ≥ PAGE_SIZE
    · rw [if_pos hl] at hf
      exact ih _ _ _ _ _ (map_insert_used mem cur _ (by simp [PAGE_SIZE]) h) k f hf
    · rw [if_neg hl] at hf
      exact h k f hf

theorem copy_in_used (m : MemoryManager) (k o : Nat) (d : Nat → Nat) (off n : Nat)
    (h : ∀ k f, m.mem k = some f → 0 < f.bytes_used ∧ f.bytes_used ≤ 4096) :
    ∀ k' f, (copy_in m k o d off n).mem k' = some f → 0 < f.bytes_used ∧ f.bytes_used ≤ 4096 := by
  intro k' f hf
  unfold copy_in at hf
  cases hk : m.mem k with
  | none =>
    rw [hk] at hf
    exact h k' f hf
  | some g =>
    rw [hk] at hf
    dsimp only at hf
    by_cases he : k' = k
    · rw [he, Function.update_same] at hf
      cases hf
      exact h k g hk
    · rw [Function.update_noteq he] at hf
      exact h k' f hf

theorem write_loop_used (vaddr wx : Nat) (data : Nat → Nat) :
    ∀ (fuel pb rem off : Nat) (m m1 : MemoryManager),
      (∀ k f, m.mem k = some f → 0 < f.bytes_used ∧ f.bytes_used ≤ 4096) →
      write_loop vaddr wx data fuel pb rem off m = .ok m1 →
      ∀ k f, m1.mem k = some f → 0 < f.bytes_used ∧ f.bytes_used ≤ 4096 := by
  intro fuel
  induction fuel with
  | zero =>
    intro pb rem off m m1 h hw
    rw [write_loop] at hw
    cases hw
    exact h
  | succ n ih =>
    intro pb rem off m m1 h hw
    rw [write_loop] at hw
    by_cases hr : rem > 0
    · rw [if_pos hr] at hw
      cases he : get_eaddr m (add64 vaddr off) wx with
      | error e =>
        rw [he] at hw
        cases hw
      | ok ko =>
        obtain ⟨k0, o0⟩ := ko
        rw [he] at hw
        dsimp only at hw
        have h1 := copy_in_used m k0 o0 data off pb h
        cases hfa : frame_at (copy_in m k0 o0 data off pb) (add64 vaddr off) wx with
        | error e =>
          rw [hfa] at hw
          cases hw
        | ok fr =>
          rw [hfa] at hw
          dsimp only at hw
          by_cases hb : fr.bytes_used < PAGE_SIZE
          · rw [if_pos hb] at hw
            cases hw
            exact h1
          · rw [if_neg hb] at hw
            exact ih _ _ _ _ _ h1 hw
    · rw [if_neg hr] at hw
      cases hw
      exact h

theorem write_used (m m1 : MemoryManager) (wx vaddr : Nat) (data : Nat → Nat) (len : Nat)
    (h : ∀ k f, m.mem k = some f → 0 < f.bytes_used ∧ f.bytes_used ≤ 4096)
    (hw : write m wx vaddr data len = .ok m1) :
    ∀ k f, m1.mem k = some f → 0 < f.bytes_used ∧ f.bytes_used ≤ 4096 := by
  unfold write at hw
  split_ifs at hw with h1 h2
  cases hfa : frame_at m vaddr wx with
  | error e =>
    rw [hfa] at hw
    cases hw
  | ok fr =>
    rw [hfa] at hw
    dsimp only at hw
    split_ifs at hw with h3
    · exact write_loop_used vaddr wx data _ _ _ _ m m1 h hw
    · cases he : get_eaddr m vaddr wx with
      | error e =>
        rw [he] at hw
        cases hw
      | ok ko =>
        obtain ⟨k0, o0⟩ := ko
        rw [he] at hw
        cases hw
        exact copy_in_used m k0 o0 data 0 len h

/-- Every frame of a producible memory manager has between 1 and `PAGE_SIZE` bytes in
use: `map_frame` records `PAGE_SIZE`, `mmap_frames` records `PAGE_SIZE` or a remainder
that is neither 0 nor a full page, and nothing else sets the field. -/
theorem producible_frames (m : MemoryManager) (hm : Producible m) :
    ∀ k f, m.mem k = some f → 0 < f.bytes_used ∧ f.bytes_used ≤ 4096 := by
  induction hm with
  | empty ring =>
    intro k f hf
    cases hf
  | frame m alloc paddr pl rwx _ ih =>
    intro k f hf
    unfold map_frame at hf
    split_ifs at hf with h1 h2 h3
    · exact ih k f hf
    · exact ih k f hf
    · exact ih k f hf
    · exact map_insert_used m.mem paddr _ (by simp [PAGE_SIZE]) ih k f hf
  | page m vaddr paddr present pl rwx _ ih =>
    intro k f hf
    unfold map_page at hf
    split_ifs at hf with h1 h2
    · exact ih k f hf
    · exact ih k f hf
    · exact ih k f hf
  | frames m paddr ext len pl rwx r _ hr ih =>
    intro k f hf
    unfold mmap_frames at hr
    split_ifs at hr with h1 h2
    have hloop := mmap_loop_used ext pl rwx len len paddr 0 m.mem [] ih
    generalize mmap_loop ext pl rwx len len paddr 0 m.mem [] = res at hr hloop
    obtain ⟨len1, cur, ce, mem1, mapped⟩ := res
    dsimp only at hr hloop
    split_ifs at hr with h3
    · cases hr
      exact map_insert_used mem1 cur _ ⟨Nat.pos_of_ne_zero h3.1, by
        have := h3.2
        simp only [PAGE_SIZE] at this
        exact Nat.le_of_lt this⟩ hloop k f hf
    · cases hr
      exact hloop k f hf
  | unmap_frame m paddr _ ih =>
    intro k f hf
    dsimp only at hf
    by_cases he : k = paddr
    · rw [he, Function.update_same] at hf
      cases hf
    · rw [Function.update_noteq he] at hf
      exact ih k f hf
  | unmap_all_frames m _ ih =>
    intro k f hf
    cases hf
  | unmap_page m vaddr _ ih => exact ih
  | unmap_all_pages m _ ih => exact ih
  | written m wx vaddr data len m1 _ hw ih => exact write_used m m1 wx vaddr data len ih hw
  | ring m r _ ih => exact ih

/-- C22: for every memory manager the functions of `mem.cc` can produce and every `vaddr`
that `get_paddr` translates, `get_eaddr` fails with the invalid-address error if and only
if no frame is recorded at the translated frame address or the page offset is at least
that frame's `bytes_used`; otherwise, when the frame's `rwx` and `pl` permit the access,
it returns the frame's host buffer at the page offset. -/
theorem get_eaddr_decision (m : MemoryManager) (vaddr rwx paddr : Nat) (hm : Producible m)
    (hp : get_paddr m vaddr rwx = .ok paddr) :
    (get_eaddr m vaddr rwx = .error .invalid_addr ↔
      (m.mem (pageFloor paddr) = none ∨
        ∃ f, m.mem (pageFloor paddr) = some f ∧ f.bytes_used ≤ pageOffs vaddr)) ∧
    (∀ f, m.mem (pageFloor paddr) = some f → pageOffs vaddr < f.bytes_used →
      rwx &&& f.rwx ≠ 0 → m.ring ≤ f.pl →
      get_eaddr m vaddr rwx = .ok (pageFloor paddr, pageOffs vaddr)) := by
  have hused : ∀ f, m.mem (pageFloor paddr) = some f →
      0 < f.bytes_used ∧ f.bytes_used < 2 ^ 64 := by
    intro f hf
    have := producible_frames m hm _ f hf
    omega
  refine ⟨?_, ?_⟩
  · rw [pageOffs_eq]
    exact get_eaddr_invalid_iff m vaddr rwx paddr hp hused
  · intro f hf hlt hrwx hpl
    obtain ⟨h0, h64⟩ := hused f hf
    unfold get_eaddr
    cases hpt : m.pagetable (pageFloor vaddr) with
    | none =>
      unfold get_paddr at hp
      rw [hpt] at hp
      cases hp
    | some pte =>
      dsimp only
      rw [hp]
      dsimp only
      rw [hf]
      dsimp only
      rw [sub64_of_le _ _ h64 h0, if_neg (by omega), if_neg hrwx, if_neg (by omega)]

/-- Witness for C22: the frame and the page that `map_frame` and `map_page` record at
0x8000 in an empty memory manager; the address 0x8123 resolves to offset 0x123 of that
frame. -/
theorem get_eaddr_decision_witness :
    Producible ex_mem_mapped ∧ get_paddr ex_mem_mapped 0x8123 1 = .ok 0x8123 ∧
    (get_eaddr ex_mem_mapped 0x8123 1 = .error .invalid_addr ↔
      (ex_mem_mapped.mem (pageFloor 0x8123) = none ∨
        ∃ f, ex_mem_mapped.mem (pageFloor 0x8123) = some f ∧
          f.bytes_used ≤ pageOffs 0x8123)) ∧
    get_eaddr ex_mem_mapped 0x8123 1 = .ok (pageFloor 0x8123, pageOffs 0x8123) :=
  have hm : Producible ex_mem_mapped :=
    Producible.page _ _ _ _ _ _ (Producible.frame _ _ _ _ _ (Producible.empty 3))
  have hp : get_paddr ex_mem_mapped 0x8123 1 = .ok 0x8123 := by rfl
  ⟨hm, hp, (get_eaddr_decision ex_mem_mapped 0x8123 1 0x8123 hm hp).1,
    (get_eaddr_decision ex_mem_mapped 0x8123 1 0x8123 hm hp).2
      ⟨fun _ => 0, PAGE_SIZE, 3, 0xff, 0⟩ (by rfl) (by decide) (by decide) (by decide)⟩

end O3
